import Mathlib

/-! The Channel core of (n+1)sec: a shallow embedding of `src/channel.cc`

The C++ class `np1sec::Channel` is embedded as a record `Channel` together with one
function per method.  Conventions of the embedding:

* `std::string` is `String`; `std::set<T>` is `Finset T`; `std::vector<T>` is `List T`;
  `std::map<std::string, Participant>` is `ParticipantMap`, a list of key/value pairs
  with strictly increasing keys (the iteration order of `std::map`).
* A failed `assert`, a thrown `MessageFormatException` and an out-of-range `.at()` are
  values of `Fault`; fallible methods return `Except Fault _`.
* Everything `channel.cc` uses but does not define (hash, triple Diffie-Hellman, the
  message codec, the queries of the EncryptedChat collaborator, the contents of
  default-constructed objects) is a field of the parameter record `Env`.
* The EncryptedChat collaborator is represented by the history of the calls made to it
  (`m_encrypted_chat : List EncryptedChatCall`); its answers are functions of that
  history.  Its calls back into the channel (`add_key_exchange_event`,
  `add_key_activation_event`) are separate public operations of the channel.
* `m_room->send_message` appends to `sent`; callbacks of the observer interface append
  to `notifications` (only when `m_interface` is set).
-/

namespace Np1sec

/-! ## Plain data -/

/-- A fixed-size hash buffer, seen through `as_string()`. -/
structure Hash where
  as_string : String
deriving DecidableEq

/-- A public key, seen through `as_string()`. -/
structure PublicKey where
  as_string : String
deriving DecidableEq

/-- A private key. -/
structure PrivateKey where
  as_string : String
deriving DecidableEq

/-- The enumeration `Message::Type`; `Other` stands for every value that `channel.cc`
never names. -/
inductive MessageType where
  | ChannelSearch
  | ChannelStatus
  | ChannelAnnouncement
  | JoinRequest
  | AuthenticationRequest
  | Authentication
  | Authorization
  | ConsistencyStatus
  | ConsistencyCheck
  | KeyExchangePublicKey
  | KeyExchangeSecretShare
  | KeyExchangeAcceptance
  | KeyExchangeReveal
  | KeyActivation
  | Chat
  | Other (byte : Nat)
deriving DecidableEq

/-- An encoded message: `struct Message { Type type; std::string payload; }`. -/
structure Message where
  type : MessageType
  payload : String
deriving DecidableEq

/-- The ways a method of the channel can fail to return normally. -/
inductive Fault where
  | MessageFormat
  | AssertionFailure
  | OutOfRange
deriving DecidableEq

/-- The enumeration `AuthenticationStatus`. -/
inductive AuthenticationStatus where
  | Unauthenticated
  | Authenticating
  | AuthenticatingWithNonce
  | Authenticated
  | AuthenticationFailed
deriving DecidableEq

/-- The record `Channel::Participant`. -/
structure Participant where
  username : String
  long_term_public_key : PublicKey
  ephemeral_public_key : PublicKey
  authorization_nonce : Hash
  authorized : Bool
  authentication_status : AuthenticationStatus
  authorized_by : Finset String
  authorized_peers : Finset String
deriving DecidableEq

/-! ## Message bodies (fields as used by `channel.cc`) -/

structure ChannelSearchMessage where
  nonce : Hash
deriving DecidableEq

structure StatusParticipant where
  username : String
  long_term_public_key : PublicKey
  ephemeral_public_key : PublicKey
  authorization_nonce : Hash
deriving DecidableEq

structure StatusUnauthorizedParticipant where
  username : String
  long_term_public_key : PublicKey
  ephemeral_public_key : PublicKey
  authorization_nonce : Hash
  authorized_by : Finset String
  authorized_peers : Finset String
deriving DecidableEq

/-- A serialized key exchange: only `key_id` is read by the channel. -/
structure KeyExchangeState where
  key_id : Hash
  state : String
deriving DecidableEq

/-- An encoded event inside a channel-status message. -/
structure ChannelEvent where
  type : MessageType
  payload : String
deriving DecidableEq

structure ChannelStatusMessage where
  searcher_username : String
  searcher_nonce : Hash
  channel_status_hash : Hash
  participants : List StatusParticipant
  unauthorized_participants : List StatusUnauthorizedParticipant
  key_exchanges : List KeyExchangeState
  events : List ChannelEvent
deriving DecidableEq

structure ChannelAnnouncementMessage where
  long_term_public_key : PublicKey
  ephemeral_public_key : PublicKey
  channel_status_hash : Hash
deriving DecidableEq

structure JoinRequestMessage where
  long_term_public_key : PublicKey
  ephemeral_public_key : PublicKey
  peer_usernames : List String
deriving DecidableEq

structure AuthenticationRequestMessage where
  sender_long_term_public_key : PublicKey
  sender_ephemeral_public_key : PublicKey
  peer_username : String
  peer_long_term_public_key : PublicKey
  peer_ephemeral_public_key : PublicKey
  nonce : Hash
deriving DecidableEq

structure AuthenticationMessage where
  sender_long_term_public_key : PublicKey
  sender_ephemeral_public_key : PublicKey
  peer_username : String
  peer_long_term_public_key : PublicKey
  peer_ephemeral_public_key : PublicKey
  nonce : Hash
  authentication_confirmation : Hash
deriving DecidableEq

structure UnsignedAuthorizationMessage where
  username : String
  long_term_public_key : PublicKey
  ephemeral_public_key : PublicKey
  authorization_nonce : Hash
deriving DecidableEq

structure UnsignedConsistencyCheckMessage where
  channel_status_hash : Hash
deriving DecidableEq

structure UnsignedKeyExchangePublicKeyMessage where
  key_id : Hash
  public_key : PublicKey
deriving DecidableEq

structure UnsignedKeyExchangeSecretShareMessage where
  key_id : Hash
  group_hash : Hash
  secret_share : Hash
deriving DecidableEq

structure UnsignedKeyExchangeAcceptanceMessage where
  key_id : Hash
  key_hash : Hash
deriving DecidableEq

structure UnsignedKeyExchangeRevealMessage where
  key_id : Hash
  private_key : PrivateKey
deriving DecidableEq

structure UnsignedKeyActivationMessage where
  key_id : Hash
deriving DecidableEq

structure ChatMessage where
  ciphertext : String
deriving DecidableEq

/-- The result of `SomeSignedMessage::verify`: the flag `valid` and what `decode()`
returns. -/
structure SignedMessage (Body : Type) where
  valid : Bool
  decode : Body

/-! ## Events -/

structure ChannelStatusEvent where
  searcher_username : String
  searcher_nonce : Hash
  status_message_hash : Hash
  remaining_users : Finset String
deriving DecidableEq

structure ConsistencyCheckEvent where
  channel_status_hash : Hash
  remaining_users : Finset String
deriving DecidableEq

/-- The wire form of a key-exchange event. -/
structure KeyExchangeEvent where
  type : MessageType
  key_id : Hash
  cancelled : Bool
  remaining_users : Finset String
deriving DecidableEq

/-- The type of `Event::key_event`, also the wire form of a key-activation event. -/
structure KeyActivationEvent where
  key_id : Hash
  remaining_users : Finset String
deriving DecidableEq

/-- The record `Channel::Event`: a type tag and three parallel sub-records, of which the
tag selects one. -/
structure Event where
  type : MessageType
  channel_status : ChannelStatusEvent
  consistency_check : ConsistencyCheckEvent
  key_event : KeyActivationEvent
deriving DecidableEq

/-! ## The collaborators -/

/-- What the channel reads from `m_room`. -/
structure Room where
  username : String
  long_term_public_key : PublicKey
  long_term_private_key : PrivateKey
deriving DecidableEq

/-- A call made on the EncryptedChat collaborator. -/
inductive EncryptedChatCall where
  | create_solo_session
  | do_add_user (username : String) (long_term_public_key : PublicKey)
  | add_user (username : String) (long_term_public_key : PublicKey)
  | remove_users (usernames : List String)
  | unserialize_key_exchange (exchange : KeyExchangeState)
  | user_public_key (sender : String) (key_id : Hash) (public_key : PublicKey)
  | user_secret_share (sender : String) (key_id : Hash) (group_hash : Hash) (secret_share : Hash)
  | user_key_hash (sender : String) (key_id : Hash) (key_hash : Hash)
  | user_private_key (sender : String) (key_id : Hash) (private_key : PrivateKey)
  | user_activation (sender : String) (key_id : Hash)
  | decrypt_message (sender : String) (message : ChatMessage)
  | send_message (text : String)
deriving DecidableEq

/-- A callback made on the observer interface. -/
inductive Notification where
  | joined
  | authorized
  | user_joined (username : String)
  | user_authenticated (username : String) (long_term_public_key : PublicKey)
  | user_authentication_failed (username : String)
  | user_authorized_by (authorizer : String) (subject : String)
  | user_promoted (username : String)
  | user_left (username : String)
deriving DecidableEq

/-- Everything `channel.cc` calls but does not define. -/
structure Env where
  /-- The function `crypto::hash`. -/
  hash : String → Hash
  /-- The function `crypto::triple_diffie_hellman`. -/
  triple_diffie_hellman : PrivateKey → PrivateKey → PublicKey → PublicKey → Hash
  /-- The method `PrivateKey::public_key`, behind `ephemeral_public_key()`. -/
  public_key : PrivateKey → PublicKey
  /-- The constant `sizeof(Hash::buffer)`. -/
  hash_length : Nat
  /-- The numeric value of a message type, `uint8_t(type)`. -/
  type_byte : MessageType → Nat
  /-- Contents of a default-constructed `Hash`. -/
  default_hash : Hash
  /-- Contents of a default-constructed `PublicKey`. -/
  default_public_key : PublicKey
  /-- Contents of a default-constructed `bool` member. -/
  default_flag : Bool
  /-- Contents of a default-constructed `AuthenticationStatus` member. -/
  default_status : AuthenticationStatus
  decode_channel_search : Message → Option ChannelSearchMessage
  decode_channel_status : Message → Option ChannelStatusMessage
  decode_channel_announcement : Message → Option ChannelAnnouncementMessage
  decode_join_request : Message → Option JoinRequestMessage
  decode_authentication_request : Message → Option AuthenticationRequestMessage
  decode_authentication : Message → Option AuthenticationMessage
  decode_chat : Message → Option ChatMessage
  verify_authorization : Message → PublicKey → Option (SignedMessage UnsignedAuthorizationMessage)
  verify_consistency_check : Message → PublicKey → Option (SignedMessage UnsignedConsistencyCheckMessage)
  verify_key_exchange_public_key : Message → PublicKey → Option (SignedMessage UnsignedKeyExchangePublicKeyMessage)
  verify_key_exchange_secret_share : Message → PublicKey → Option (SignedMessage UnsignedKeyExchangeSecretShareMessage)
  verify_key_exchange_acceptance : Message → PublicKey → Option (SignedMessage UnsignedKeyExchangeAcceptanceMessage)
  verify_key_exchange_reveal : Message → PublicKey → Option (SignedMessage UnsignedKeyExchangeRevealMessage)
  verify_key_activation : Message → PublicKey → Option (SignedMessage UnsignedKeyActivationMessage)
  encode_channel_status : ChannelStatusMessage → Message
  encode_channel_announcement : ChannelAnnouncementMessage → Message
  encode_join_request : JoinRequestMessage → Message
  encode_authentication_request : AuthenticationRequestMessage → Message
  encode_authentication : AuthenticationMessage → Message
  encode_consistency_status : Message
  sign_authorization : UnsignedAuthorizationMessage → PrivateKey → Message
  sign_consistency_check : UnsignedConsistencyCheckMessage → PrivateKey → Message
  encode_channel_status_event : ChannelStatusEvent → ChannelStatusMessage → ChannelEvent
  encode_consistency_check_event : ConsistencyCheckEvent → ChannelStatusMessage → ChannelEvent
  encode_key_exchange_event : KeyExchangeEvent → ChannelStatusMessage → ChannelEvent
  encode_key_activation_event : KeyActivationEvent → ChannelStatusMessage → ChannelEvent
  decode_channel_status_event : ChannelEvent → ChannelStatusMessage → Option ChannelStatusEvent
  decode_consistency_check_event : ChannelEvent → ChannelStatusMessage → Option ConsistencyCheckEvent
  decode_key_exchange_event : ChannelEvent → ChannelStatusMessage → Option KeyExchangeEvent
  decode_key_activation_event : ChannelEvent → ChannelStatusMessage → Option KeyActivationEvent
  /-- The query `EncryptedChat::have_key_exchange`, on the collaborator's history. -/
  have_key_exchange : List EncryptedChatCall → Hash → Bool
  /-- The query `EncryptedChat::have_session`, on the collaborator's history. -/
  have_session : List EncryptedChatCall → Hash → Bool
  /-- The query `EncryptedChat::encode_key_exchanges`, on the collaborator's history. -/
  encode_key_exchanges : List EncryptedChatCall → List KeyExchangeState

/-! ## The participant table -/

/-- Lexicographic comparison of character sequences by code point, the order of
`std::string`. -/
def lex_lt : List Char → List Char → Bool
  | [], [] => false
  | [], _ :: _ => true
  | _ :: _, [] => false
  | a :: as, b :: bs =>
    if a.toNat < b.toNat then true
    else if b.toNat < a.toNat then false
    else lex_lt as bs

/-- The order `operator<` on `std::string`. -/
def string_lt (a b : String) : Bool := lex_lt a.data b.data

theorem char_toNat_inj {a b : Char} (h : a.toNat = b.toNat) : a = b := by
  apply Char.ext
  apply UInt32.ext
  exact h

theorem lex_lt_irrefl (a : List Char) : lex_lt a a = false := by
  induction a with
  | nil => rfl
  | cons x xs ih => simp [lex_lt, ih]

theorem lex_lt_trans :
    ∀ (a b c : List Char), lex_lt a b = true → lex_lt b c = true → lex_lt a c = true
  | [], [], _, h, _ => by simp [lex_lt] at h
  | [], _ :: _, [], _, h => by simp [lex_lt] at h
  | [], _ :: _, _ :: _, _, _ => by simp [lex_lt]
  | _ :: _, [], _, h, _ => by simp [lex_lt] at h
  | _ :: _, _ :: _, [], _, h => by simp [lex_lt] at h
  | x :: xs, y :: ys, z :: zs, h1, h2 => by
    simp only [lex_lt] at h1 h2 ⊢
    by_cases hxy : x.toNat < y.toNat
    · by_cases hyz : y.toNat < z.toNat
      · have : x.toNat < z.toNat := by omega
        simp [this]
      · simp only [hyz, if_false] at h2
        by_cases hzy : z.toNat < y.toNat
        · simp [hzy] at h2
        · have : x.toNat < z.toNat := by omega
          simp [this]
    · simp only [hxy, if_false] at h1
      by_cases hyx : y.toNat < x.toNat
      · simp [hyx] at h1
      · simp only [hyx, if_false] at h1
        by_cases hyz : y.toNat < z.toNat
        · have : x.toNat < z.toNat := by omega
          simp [this]
        · simp only [hyz, if_false] at h2
          by_cases hzy : z.toNat < y.toNat
          · simp [hzy] at h2
          · simp only [hzy, if_false] at h2
            have h3 : ¬ x.toNat < z.toNat := by omega
            have h4 : ¬ z.toNat < x.toNat := by omega
            simp only [h3, h4, if_false]
            exact lex_lt_trans xs ys zs h1 h2

theorem lex_lt_total : ∀ (a b : List Char), lex_lt a b = false → a ≠ b → lex_lt b a = true
  | [], [], _, h => by simp at h
  | [], _ :: _, h, _ => by simp [lex_lt] at h
  | _ :: _, [], _, _ => by simp [lex_lt]
  | x :: xs, y :: ys, h1, h2 => by
    simp only [lex_lt] at h1 ⊢
    by_cases hxy : x.toNat < y.toNat
    · simp [hxy] at h1
    · simp only [hxy, if_false] at h1
      by_cases hyx : y.toNat < x.toNat
      · simp [hyx]
      · simp only [hyx, if_false] at h1 ⊢
        have hxy2 : x = y := char_toNat_inj (by omega)
        subst hxy2
        have : xs ≠ ys := fun h => h2 (by rw [h])
        have h3 := lex_lt_total xs ys h1 this
        simpa using h3

theorem string_lt_irrefl (a : String) : string_lt a a = false := lex_lt_irrefl _

theorem string_lt_trans {a b c : String} (h1 : string_lt a b = true) (h2 : string_lt b c = true) :
    string_lt a c = true := lex_lt_trans _ _ _ h1 h2

theorem string_lt_total {a b : String} (h1 : string_lt a b = false) (h2 : a ≠ b) :
    string_lt b a = true := by
  apply lex_lt_total _ _ h1
  intro h
  apply h2
  cases a; cases b; simp_all

/-- The entries of a participant table, in iteration order. -/
abbrev Entries := List (String × Participant)

namespace Entries

/-- Keys strictly increasing: the representation invariant of `std::map`. -/
def Sorted (l : Entries) : Prop := l.Pairwise (fun a b => string_lt a.1 b.1 = true)

/-- The lookup `m.find(key)` on the entries. -/
def find (l : Entries) (key : String) : Option Participant :=
  match l with
  | [] => none
  | (k, p) :: rest => if k = key then some p else find rest key

/-- The assignment `m[key] = value` on the entries. -/
def assign (l : Entries) (key : String) (value : Participant) : Entries :=
  match l with
  | [] => [(key, value)]
  | (k, p) :: rest =>
    if k = key then (key, value) :: rest
    else if string_lt key k then (key, value) :: (k, p) :: rest
    else (k, p) :: assign rest key value

/-- The removal `m.erase(key)` on the entries. -/
def erase (l : Entries) (key : String) : Entries :=
  l.filter (fun entry => decide (entry.1 ≠ key))

/-- An update of every value in place, keys untouched. -/
def update_all (l : Entries) (f : String → Participant → Participant) : Entries :=
  l.map (fun entry => (entry.1, f entry.1 entry.2))

theorem mem_assign {l : Entries} {key : String} {value : Participant} {e : String × Participant}
    (h : e ∈ assign l key value) : e = (key, value) ∨ e ∈ l := by
  induction l with
  | nil => simp [assign] at h; exact Or.inl h
  | cons hd tl ih =>
    obtain ⟨k, p⟩ := hd
    simp only [assign] at h
    split_ifs at h with h1 h2
    · rcases List.mem_cons.1 h with h | h
      · exact Or.inl h
      · exact Or.inr (List.mem_cons_of_mem _ h)
    · rcases List.mem_cons.1 h with h | h
      · exact Or.inl h
      · exact Or.inr h
    · rcases List.mem_cons.1 h with h | h
      · exact Or.inr (by rw [h]; exact List.mem_cons_self _ _)
      · rcases ih h with h | h
        · exact Or.inl h
        · exact Or.inr (List.mem_cons_of_mem _ h)

theorem sorted_assign {l : Entries} (hl : Sorted l) (key : String) (value : Participant) :
    Sorted (assign l key value) := by
  induction l with
  | nil => simp [assign, Sorted]
  | cons hd tl ih =>
    obtain ⟨k, p⟩ := hd
    have hl2 := List.pairwise_cons.1 hl
    simp only [assign]
    split_ifs with h1 h2
    · subst h1
      exact List.pairwise_cons.2 ⟨fun e he => hl2.1 e he, hl2.2⟩
    · refine List.pairwise_cons.2 ⟨?_, hl⟩
      intro e he
      rcases List.mem_cons.1 he with he | he
      · rw [he]; exact h2
      · exact string_lt_trans h2 (hl2.1 e he)
    · refine List.pairwise_cons.2 ⟨?_, ih hl2.2⟩
      intro e he
      rcases mem_assign he with he | he
      · rw [he]
        exact string_lt_total (by simpa using h2) (fun h => h1 h.symm)
      · exact hl2.1 e he

theorem sorted_erase {l : Entries} (hl : Sorted l) (key : String) : Sorted (erase l key) :=
  List.Pairwise.sublist (List.filter_sublist l) hl

theorem sorted_update_all {l : Entries} (hl : Sorted l) (f : String → Participant → Participant) :
    Sorted (update_all l f) := by
  unfold update_all Sorted
  rw [List.pairwise_map]
  exact hl

end Entries

/-- The table `std::map<std::string, Participant>`: its entries in iteration order,
which is strictly increasing key order. -/
structure ParticipantMap where
  entries : Entries
  sorted : Entries.Sorted entries

instance : DecidableEq ParticipantMap := fun a b =>
  decidable_of_iff (a.entries = b.entries) (by cases a; cases b; simp)

namespace ParticipantMap

/-- The empty table. -/
def empty : ParticipantMap := ⟨[], List.Pairwise.nil⟩

/-- The lookup `m.find(key)`. -/
def find (m : ParticipantMap) (key : String) : Option Participant := m.entries.find key

/-- The test `m.count(key)`. -/
def count (m : ParticipantMap) (key : String) : Bool := (m.find key).isSome

/-- The assignment `m[key] = value`. -/
def assign (m : ParticipantMap) (key : String) (value : Participant) : ParticipantMap :=
  ⟨m.entries.assign key value, Entries.sorted_assign m.sorted key value⟩

/-- The removal `m.erase(key)`. -/
def erase (m : ParticipantMap) (key : String) : ParticipantMap :=
  ⟨m.entries.erase key, Entries.sorted_erase m.sorted key⟩

/-- An update of every value in place, as done by a loop `for (auto& p : m)`. -/
def update_all (m : ParticipantMap) (f : String → Participant → Participant) : ParticipantMap :=
  ⟨m.entries.update_all f, Entries.sorted_update_all m.sorted f⟩

/-- An update in place through a reference `Participant& p = m[key]` to an existing
entry. -/
def modify (m : ParticipantMap) (key : String) (f : Participant → Participant) : ParticipantMap :=
  m.update_all (fun k p => if k = key then f p else p)

end ParticipantMap

/-! ## The channel -/

/-- The data members of `class Channel`, with the outbox of the room (`sent`) and the
log of observer callbacks (`notifications`). -/
structure Channel where
  m_room : Room
  m_ephemeral_private_key : PrivateKey
  /-- Whether the pointer `m_interface` is non-null. -/
  m_interface : Bool
  m_joined : Bool
  m_active : Bool
  m_authorized : Bool
  m_channel_status_hash : Hash
  m_authentication_nonce : Hash
  m_participants : ParticipantMap
  m_events : List Event
  /-- The history of calls made on the member `m_encrypted_chat`. -/
  m_encrypted_chat : List EncryptedChatCall
  sent : List Message
  notifications : List Notification

/-- The call `m_room->send_message(message)`. -/
def send_message (c : Channel) (message : Message) : Channel :=
  { c with sent := c.sent ++ [message] }

/-- A callback `if (m_interface) m_interface->...`. -/
def notify (c : Channel) (n : Notification) : Channel :=
  if c.m_interface then { c with notifications := c.notifications ++ [n] } else c

/-- A mutating call on `m_encrypted_chat`. -/
def encrypted_chat (c : Channel) (call : EncryptedChatCall) : Channel :=
  { c with m_encrypted_chat := c.m_encrypted_chat ++ [call] }

/-- The accessor `ephemeral_public_key()`. -/
def ephemeral_public_key (X : Env) (c : Channel) : PublicKey :=
  X.public_key c.m_ephemeral_private_key

/-- A default-constructed `Event` whose `type` has then been assigned. -/
def fresh_event (X : Env) (type : MessageType) : Event :=
  { type := type
    channel_status :=
      { searcher_username := "", searcher_nonce := X.default_hash,
        status_message_hash := X.default_hash, remaining_users := ∅ }
    consistency_check := { channel_status_hash := X.default_hash, remaining_users := ∅ }
    key_event := { key_id := X.default_hash, remaining_users := ∅ } }

/-- A default-constructed `Participant`, as inserted by `operator[]` on a missing key. -/
def default_participant (X : Env) : Participant :=
  { username := ""
    long_term_public_key := X.default_public_key
    ephemeral_public_key := X.default_public_key
    authorization_nonce := X.default_hash
    authorized := X.default_flag
    authentication_status := X.default_status
    authorized_by := ∅
    authorized_peers := ∅ }

/-- The set built by `for (const auto& i : m_participants) s.insert(i.second.username)`. -/
def participant_usernames (m : ParticipantMap) : Finset String :=
  (m.entries.map (fun i => i.2.username)).toFinset

/-- Whether the type is one of the four key-exchange rounds. -/
def is_key_exchange_type (type : MessageType) : Bool :=
  type = .KeyExchangePublicKey || type = .KeyExchangeSecretShare
    || type = .KeyExchangeAcceptance || type = .KeyExchangeReveal

/-! ### `try_promote_unauthorized_participant` -/

/-- The loop of `try_promote_unauthorized_participant` (lines 849-858): `false` as soon
as an authorized participant is missing from one of the two witness sets. -/
def quorum_reached (participant : Participant) : Entries → Bool
  | [] => true
  | (_, i) :: rest =>
    if i.authorized then
      if !decide (i.username ∈ participant.authorized_by) then false
      else if !decide (i.username ∈ participant.authorized_peers) then false
      else quorum_reached participant rest
    else quorum_reached participant rest

/-- The method `Channel::try_promote_unauthorized_participant` (lines 845-876).  The
pointer argument is the entry of `m_participants` under `key`. -/
def try_promote_unauthorized_participant (c : Channel) (key : String) :
    Except Fault (Bool × Channel) :=
  match c.m_participants.find key with
  | none => .error .OutOfRange
  | some participant =>
    if participant.authorized then .error .AssertionFailure
    else if quorum_reached participant c.m_participants.entries then
      let promoted : Participant → Participant :=
        fun p => { p with authorized := true, authorized_by := ∅, authorized_peers := ∅ }
      let c1 := { c with m_participants := ParticipantMap.modify c.m_participants key promoted }
      let c2 := if participant.username = c.m_room.username then { c1 with m_authorized := true } else c1
      let c3 := notify c2 (.user_promoted participant.username)
      let c4 := if participant.username = c.m_room.username then notify c3 .authorized else c3
      .ok (true, c4)
    else .ok (false, c)

/-! ### Removal -/

/-- The event loop of `do_remove_user` (lines 919-950).  For a `ConsistencyCheck` event
the source erases from, and tests, the `channel_status` sub-record. -/
def purge_events (username : String) : List Event → List Event
  | [] => []
  | i :: rest =>
    if i.type = .ChannelStatus then
      let i1 := { i with channel_status :=
        { i.channel_status with remaining_users := i.channel_status.remaining_users.erase username } }
      if i1.channel_status.remaining_users = ∅ then purge_events username rest
      else i1 :: purge_events username rest
    else if i.type = .ConsistencyCheck then
      let i1 := { i with channel_status :=
        { i.channel_status with remaining_users := i.channel_status.remaining_users.erase username } }
      if i1.channel_status.remaining_users = ∅ then purge_events username rest
      else i1 :: purge_events username rest
    else if is_key_exchange_type i.type || i.type = .KeyActivation then
      let i1 := { i with key_event :=
        { i.key_event with remaining_users := i.key_event.remaining_users.erase username } }
      if i1.key_event.remaining_users = ∅ then purge_events username rest
      else i1 :: purge_events username rest
    else i :: purge_events username rest

/-- The participant loop of `do_remove_user` (lines 912-917). -/
def purge_witnesses (username : String) (m : ParticipantMap) : ParticipantMap :=
  m.update_all (fun _ p =>
    if !p.authorized then
      { p with authorized_by := p.authorized_by.erase username,
               authorized_peers := p.authorized_peers.erase username }
    else p)

/-- The method `Channel::do_remove_user` (lines 907-955). -/
def do_remove_user (c : Channel) (username : String) : Except Fault Channel :=
  if !c.m_participants.count username then .error .AssertionFailure
  else
    .ok (notify
      { c with m_participants := purge_witnesses username (c.m_participants.erase username),
               m_events := purge_events username c.m_events }
      (.user_left username))

/-- The first loop of `remove_users` (lines 887-893). -/
def remove_users_loop (c : Channel) : List String → Except Fault Channel
  | [] => .ok c
  | username :: rest =>
    if !c.m_participants.count username then remove_users_loop c rest
    else
      match do_remove_user c username with
      | .error f => .error f
      | .ok c1 => remove_users_loop c1 rest

/-- The second loop of `remove_users` (lines 895-902), run over the entries still to
visit.  A failed promotion leaves the table as it was, so the entries visited later are
the ones listed. -/
def promote_loop (c : Channel) : Entries → Except Fault Channel
  | [] => .ok c
  | (key, p) :: rest =>
    if !p.authorized then
      match try_promote_unauthorized_participant c key with
      | .error f => .error f
      | .ok (true, c1) => .ok (encrypted_chat c1 (.do_add_user p.username p.long_term_public_key))
      | .ok (false, c1) => promote_loop c1 rest
    else promote_loop c rest

/-- The method `Channel::remove_users` (lines 885-905); the set argument is given as
the list of its elements in iteration order. -/
def remove_users (c : Channel) (usernames : List String) : Except Fault Channel :=
  match remove_users_loop c usernames with
  | .error f => .error f
  | .ok c1 =>
    match promote_loop c1 c1.m_participants.entries with
    | .error f => .error f
    | .ok c2 => .ok (encrypted_chat c2 (.remove_users usernames))

/-- The method `Channel::remove_user` (lines 878-883). -/
def remove_user (c : Channel) (username : String) : Except Fault Channel :=
  remove_users c [username]

/-! ### The status snapshot and the hash chain -/

/-- The participant loop of `channel_status` (lines 971-989), authorized part. -/
def status_participants (m : ParticipantMap) : List StatusParticipant :=
  (m.entries.filter (fun i => i.2.authorized)).map (fun i =>
    { username := i.2.username
      long_term_public_key := i.2.long_term_public_key
      ephemeral_public_key := i.2.ephemeral_public_key
      authorization_nonce := i.2.authorization_nonce })

/-- The participant loop of `channel_status` (lines 971-989), unauthorized part. -/
def status_unauthorized_participants (m : ParticipantMap) : List StatusUnauthorizedParticipant :=
  (m.entries.filter (fun i => !i.2.authorized)).map (fun i =>
    { username := i.2.username
      long_term_public_key := i.2.long_term_public_key
      ephemeral_public_key := i.2.ephemeral_public_key
      authorization_nonce := i.2.authorization_nonce
      authorized_by := i.2.authorized_by
      authorized_peers := i.2.authorized_peers })

/-- The event loop of `channel_status` (lines 993-1022): each event is encoded against
the message built so far and appended to it. -/
def status_events (X : Env) (chat : List EncryptedChatCall) :
    List Event → ChannelStatusMessage → Except Fault ChannelStatusMessage
  | [], result => .ok result
  | event :: rest, result =>
    if event.type = .ChannelStatus then
      status_events X chat rest
        { result with events := result.events ++ [X.encode_channel_status_event event.channel_status result] }
    else if event.type = .ConsistencyCheck then
      status_events X chat rest
        { result with events := result.events ++ [X.encode_consistency_check_event event.consistency_check result] }
    else if is_key_exchange_type event.type then
      let key_exchange_event : KeyExchangeEvent :=
        if X.have_key_exchange chat event.key_event.key_id then
          { type := event.type, key_id := event.key_event.key_id, cancelled := false, remaining_users := ∅ }
        else
          { type := event.type, key_id := event.key_event.key_id, cancelled := true,
            remaining_users := event.key_event.remaining_users }
      status_events X chat rest
        { result with events := result.events ++ [X.encode_key_exchange_event key_exchange_event result] }
    else if event.type = .KeyActivation then
      let key_activation_event : KeyActivationEvent :=
        { key_id := event.key_event.key_id, remaining_users := event.key_event.remaining_users }
      status_events X chat rest
        { result with events := result.events ++ [X.encode_key_activation_event key_activation_event result] }
    else .error .AssertionFailure

/-- The method `Channel::channel_status` (lines 964-1025). -/
def channel_status (X : Env) (c : Channel) (searcher_username : String) (searcher_nonce : Hash) :
    Except Fault Message :=
  let result : ChannelStatusMessage :=
    { searcher_username := searcher_username
      searcher_nonce := searcher_nonce
      channel_status_hash := c.m_channel_status_hash
      participants := status_participants c.m_participants
      unauthorized_participants := status_unauthorized_participants c.m_participants
      key_exchanges := X.encode_key_exchanges c.m_encrypted_chat
      events := [] }
  match status_events X c.m_encrypted_chat c.m_events result with
  | .error f => .error f
  | .ok result1 => .ok (X.encode_channel_status result1)

/-- The all-zero hash `memset(zero.buffer, 0, sizeof(zero.buffer))`. -/
def zero_hash (X : Env) : Hash :=
  ⟨String.mk (List.replicate X.hash_length (Char.ofNat 0))⟩

/-- The method `Channel::hash_payload` (lines 1032-1042). -/
def hash_payload (X : Env) (c : Channel) (sender : String) (type : Nat) (message : String) :
    Except Fault Channel :=
  match channel_status X c "" (zero_hash X) with
  | .error f => .error f
  | .ok status =>
    .ok { c with m_channel_status_hash :=
            X.hash (status.payload ++ sender ++ String.singleton (Char.ofNat (type % 256)) ++ message) }

/-- The method `Channel::hash_message` (lines 1027-1030). -/
def hash_message (X : Env) (c : Channel) (sender : String) (message : Message) :
    Except Fault Channel :=
  hash_payload X c sender (X.type_byte message.type) message.payload

/-! ### Authentication tokens -/

/-- The buffer hashed by `authentication_token` (lines 1059-1073). -/
def authentication_token_buffer (X : Env) (c : Channel) (username : String)
    (long_term_public_key ephemeral_public_key : PublicKey) (nonce : Hash) (for_peer : Bool) : String :=
  let token := X.triple_diffie_hellman c.m_room.long_term_private_key c.m_ephemeral_private_key
    long_term_public_key ephemeral_public_key
  let buffer := token.as_string ++ nonce.as_string
  if for_peer then buffer ++ long_term_public_key.as_string ++ username
  else buffer ++ c.m_room.long_term_public_key.as_string ++ c.m_room.username

/-- The method `Channel::authentication_token` (lines 1057-1075). -/
def authentication_token (X : Env) (c : Channel) (username : String)
    (long_term_public_key ephemeral_public_key : PublicKey) (nonce : Hash) (for_peer : Bool) : Hash :=
  X.hash (authentication_token_buffer X c username long_term_public_key ephemeral_public_key nonce for_peer)

/-- The method `Channel::authenticate_to` (lines 1044-1055). -/
def authenticate_to (X : Env) (c : Channel) (username : String)
    (long_term_public_key ephemeral_public_key : PublicKey) (nonce : Hash) : Channel :=
  send_message c (X.encode_authentication
    { sender_long_term_public_key := c.m_room.long_term_public_key
      sender_ephemeral_public_key := Np1sec.ephemeral_public_key X c
      peer_username := username
      peer_long_term_public_key := long_term_public_key
      peer_ephemeral_public_key := ephemeral_public_key
      nonce := nonce
      authentication_confirmation :=
        authentication_token X c username long_term_public_key ephemeral_public_key nonce false })

/-! ### The event queue -/

/-- The method `Channel::first_user_event` (lines 1077-1104): the position of the first
event listing `username` together with that event, or `none` for `m_events.end()`. -/
def first_user_event (events : List Event) (username : String) :
    Except Fault (Option (Nat × Event)) :=
  match events with
  | [] => .ok none
  | i :: rest =>
    let next : Except Fault (Option (Nat × Event)) :=
      match first_user_event rest username with
      | .error f => .error f
      | .ok none => .ok none
      | .ok (some (n, e)) => .ok (some (n + 1, e))
    if i.type = .ChannelStatus then
      if username ∈ i.channel_status.remaining_users then .ok (some (0, i)) else next
    else if i.type = .ConsistencyCheck then
      if username ∈ i.consistency_check.remaining_users then .ok (some (0, i)) else next
    else if is_key_exchange_type i.type || i.type = .KeyActivation then
      if username ∈ i.key_event.remaining_users then .ok (some (0, i)) else next
    else .error .AssertionFailure

/-- The statement `if (e.remaining_users.empty()) m_events.erase(first_event)` after an
event at position `n` was updated to `e`; `empty` is the emptiness test of the
sub-record that was updated. -/
def store_or_erase (events : List Event) (n : Nat) (e : Event) (empty : Bool) : List Event :=
  if empty then events.eraseIdx n else events.set n e

/-! ### `message_received`, branch by branch -/

/-- The assignment `m_participants[key].authentication_status = status` on an existing
entry. -/
def set_authentication_status (c : Channel) (key : String) (status : AuthenticationStatus) : Channel :=
  { c with m_participants :=
      ParticipantMap.modify c.m_participants key (fun p => { p with authentication_status := status }) }

/-- The statement `unauthorized->authorized_by.insert(username)` on the entry under `key`. -/
def insert_authorized_by (c : Channel) (key : String) (username : String) : Channel :=
  { c with m_participants :=
      ParticipantMap.modify c.m_participants key (fun p => { p with authorized_by := insert username p.authorized_by }) }

/-- The statement `unauthorized->authorized_peers.insert(username)` on the entry under
`key`. -/
def insert_authorized_peers (c : Channel) (key : String) (username : String) : Channel :=
  { c with m_participants :=
      ParticipantMap.modify c.m_participants key (fun p => { p with authorized_peers := insert username p.authorized_peers }) }

/-- The method `Channel::self_joined` (lines 828-843). -/
def self_joined (X : Env) (c : Channel) : Channel :=
  let c1 := { c with m_joined := true }
  let c2 := c1.m_participants.entries.foldl
    (fun acc i =>
      if i.2.username = acc.m_room.username then acc
      else authenticate_to X acc i.2.username i.2.long_term_public_key i.2.ephemeral_public_key
        acc.m_channel_status_hash)
    c1
  notify c2 .joined

/-- The `ChannelSearch` branch (lines 308-344). -/
def on_channel_search (X : Env) (c : Channel) (sender : String) (np1sec_message : Message) :
    Except Fault Channel :=
  match X.decode_channel_search np1sec_message with
  | none => .ok c
  | some message =>
    let consistency_check_event : Event :=
      { fresh_event X .ConsistencyCheck with
        consistency_check :=
          { channel_status_hash := c.m_channel_status_hash,
            remaining_users := participant_usernames c.m_participants } }
    let c1 := { c with m_events := c.m_events ++ [consistency_check_event] }
    let c2 :=
      if c1.m_active then
        send_message c1 (X.sign_consistency_check
          { channel_status_hash := c1.m_channel_status_hash } c1.m_ephemeral_private_key)
      else c1
    match channel_status X c2 sender message.nonce with
    | .error f => .error f
    | .ok reply =>
      let reply_event : Event :=
        { fresh_event X .ChannelStatus with
          channel_status :=
            { searcher_username := sender,
              searcher_nonce := message.nonce,
              status_message_hash := X.hash reply.payload,
              remaining_users := participant_usernames c2.m_participants } }
      let c3 := { c2 with m_events := c2.m_events ++ [reply_event] }
      .ok (if c3.m_active then send_message c3 reply else c3)

/-- The `ChannelStatus` branch (lines 345-368). -/
def on_channel_status (X : Env) (c : Channel) (sender : String) (np1sec_message : Message) :
    Except Fault Channel :=
  match X.decode_channel_status np1sec_message with
  | none => .ok c
  | some message =>
    match first_user_event c.m_events sender with
    | .error f => .error f
    | .ok none => remove_user c sender
    | .ok (some (n, first_event)) =>
      if first_event.type = .ChannelStatus
          ∧ first_event.channel_status.searcher_username = message.searcher_username
          ∧ first_event.channel_status.searcher_nonce = message.searcher_nonce
          ∧ first_event.channel_status.status_message_hash = X.hash np1sec_message.payload then
        let e1 := { first_event with channel_status :=
          { first_event.channel_status with
            remaining_users := first_event.channel_status.remaining_users.erase sender } }
        let events1 :=
          store_or_erase c.m_events n e1 (decide (e1.channel_status.remaining_users = ∅))
        .ok { c with m_events := events1 }
      else remove_user c sender

/-- The `ChannelAnnouncement` branch (lines 369-379). -/
def on_channel_announcement (X : Env) (c : Channel) (sender : String) (np1sec_message : Message) :
    Except Fault Channel :=
  match X.decode_channel_announcement np1sec_message with
  | none => .ok c
  | some _ =>
    if c.m_participants.count sender then remove_user c sender else .ok c

/-- The `JoinRequest` branch (lines 380-432). -/
def on_join_request (X : Env) (c : Channel) (sender : String) (np1sec_message : Message) :
    Except Fault Channel :=
  match X.decode_join_request np1sec_message with
  | none => .ok c
  | some message =>
    match remove_user c sender with
    | .error f => .error f
    | .ok c1 =>
      let ours := message.peer_usernames.any (fun username => c1.m_participants.count username)
      if !ours then .ok c1
      else
        let participant : Participant :=
          { default_participant X with
            username := sender
            long_term_public_key := message.long_term_public_key
            ephemeral_public_key := message.ephemeral_public_key
            authorization_nonce := c1.m_channel_status_hash
            authorized := false }
        let c2 := { c1 with m_participants := ParticipantMap.assign c1.m_participants sender participant }
        let c3 :=
          if sender = c2.m_room.username then
            set_authentication_status c2 sender .Authenticated
          else if !c2.m_active then
            send_message (set_authentication_status c2 sender .AuthenticatingWithNonce)
              (X.encode_authentication_request
                { sender_long_term_public_key := c2.m_room.long_term_public_key
                  sender_ephemeral_public_key := ephemeral_public_key X c2
                  peer_username := sender
                  peer_long_term_public_key := message.long_term_public_key
                  peer_ephemeral_public_key := message.ephemeral_public_key
                  nonce := c2.m_authentication_nonce })
          else set_authentication_status c2 sender .Authenticating
        let c4 := notify c3 (.user_joined sender)
        .ok (if sender = c4.m_room.username then self_joined X c4 else c4)

/-- The `AuthenticationRequest` branch (lines 433-451). -/
def on_authentication_request (X : Env) (c : Channel) (sender : String) (np1sec_message : Message) :
    Except Fault Channel :=
  match X.decode_authentication_request np1sec_message with
  | none => .ok c
  | some message =>
    if !c.m_active then .ok c
    else if message.peer_username = c.m_room.username
        ∧ message.peer_long_term_public_key = c.m_room.long_term_public_key
        ∧ message.peer_ephemeral_public_key = ephemeral_public_key X c then
      .ok (authenticate_to X c sender message.sender_long_term_public_key
        message.sender_ephemeral_public_key message.nonce)
    else .ok c

/-- The `Authentication` branch (lines 452-505). -/
def on_authentication (X : Env) (c : Channel) (sender : String) (np1sec_message : Message) :
    Except Fault Channel :=
  match X.decode_authentication np1sec_message with
  | none => .ok c
  | some message =>
    if !(message.peer_username = c.m_room.username
        ∧ message.peer_long_term_public_key = c.m_room.long_term_public_key
        ∧ message.peer_ephemeral_public_key = ephemeral_public_key X c) then .ok c
    else
      match c.m_participants.find sender with
      | none => .ok c
      | some participant =>
        if !(message.sender_long_term_public_key = participant.long_term_public_key
            ∧ message.sender_ephemeral_public_key = participant.ephemeral_public_key) then .ok c
        else
          let nonce_accepted : Bool :=
            if participant.authentication_status = .Authenticating then
              if message.nonce ≠ participant.authorization_nonce then false else true
            else if participant.authentication_status = .AuthenticatingWithNonce then
              if message.nonce ≠ participant.authorization_nonce
                  ∧ message.nonce ≠ c.m_authentication_nonce then false else true
            else false
          if !nonce_accepted then .ok c
          else
            let correct_token := authentication_token X c sender participant.long_term_public_key
              participant.ephemeral_public_key message.nonce true
            if message.authentication_confirmation = correct_token then
              .ok (notify (set_authentication_status c sender .Authenticated)
                (.user_authenticated sender participant.long_term_public_key))
            else
              .ok (notify (set_authentication_status c sender .AuthenticationFailed)
                (.user_authentication_failed sender))

/-- Lines 547-562 of the `Authorization` branch: `authorized` and `unauthorized` point
to the entries under the two given keys. -/
def record_authorization (c : Channel) (sender subject : String)
    (authorized_key unauthorized_key : String) : Except Fault Channel :=
  match c.m_participants.find authorized_key, c.m_participants.find unauthorized_key with
  | some authorized, some unauthorized =>
    if !authorized.authorized then .error .AssertionFailure
    else if unauthorized.authorized then .error .AssertionFailure
    else
      let c1 :=
        if authorized.username = sender then
          insert_authorized_by c unauthorized_key authorized.username
        else insert_authorized_peers c unauthorized_key authorized.username
      let c2 := notify c1 (.user_authorized_by sender subject)
      match try_promote_unauthorized_participant c2 unauthorized_key with
      | .error f => .error f
      | .ok (true, c3) =>
        .ok (encrypted_chat c3 (.add_user unauthorized.username unauthorized.long_term_public_key))
      | .ok (false, c3) => .ok c3
  | _, _ => .error .OutOfRange

/-- The `Authorization` branch (lines 506-562). -/
def on_authorization (X : Env) (c : Channel) (sender : String) (np1sec_message : Message) :
    Except Fault Channel :=
  match c.m_participants.find sender with
  | none => .ok c
  | some sender_participant =>
    match X.verify_authorization np1sec_message sender_participant.ephemeral_public_key with
    | none => .ok c
    | some signed_message =>
      if !signed_message.valid then remove_user c sender
      else
        let message := signed_message.decode
        match c.m_participants.find message.username with
        | none => .ok c
        | some subject =>
          if !(subject.long_term_public_key = message.long_term_public_key
              ∧ subject.ephemeral_public_key = message.ephemeral_public_key
              ∧ subject.authorization_nonce = message.authorization_nonce) then .ok c
          else if sender_participant.authorized then
            if subject.authorized then .ok c
            else record_authorization c sender message.username sender message.username
          else
            if !subject.authorized then .ok c
            else record_authorization c sender message.username message.username sender

/-- The `ConsistencyStatus` branch (lines 563-578). -/
def on_consistency_status (X : Env) (c : Channel) (sender : String) : Except Fault Channel :=
  if !c.m_participants.count sender then .ok c
  else
    let c1 :=
      if c.m_active ∧ sender = c.m_room.username then
        send_message c (X.sign_consistency_check
          { channel_status_hash := c.m_channel_status_hash } c.m_ephemeral_private_key)
      else c
    let event : Event :=
      { fresh_event X .ConsistencyCheck with
        consistency_check :=
          { channel_status_hash := c1.m_channel_status_hash,
            remaining_users := insert sender ∅ } }
    .ok { c1 with m_events := c1.m_events ++ [event] }

/-- The `ConsistencyCheck` branch (lines 579-609). -/
def on_consistency_check (X : Env) (c : Channel) (sender : String) (np1sec_message : Message) :
    Except Fault Channel :=
  match c.m_participants.find sender with
  | none => .ok c
  | some sender_participant =>
    match X.verify_consistency_check np1sec_message sender_participant.ephemeral_public_key with
    | none => .ok c
    | some signed_message =>
      if !signed_message.valid then remove_user c sender
      else
        let message := signed_message.decode
        match first_user_event c.m_events sender with
        | .error f => .error f
        | .ok none => remove_user c sender
        | .ok (some (n, first_event)) =>
          if first_event.type = .ConsistencyCheck
              ∧ first_event.consistency_check.channel_status_hash = message.channel_status_hash then
            let e1 := { first_event with consistency_check :=
              { first_event.consistency_check with
                remaining_users := first_event.consistency_check.remaining_users.erase sender } }
            let events1 :=
              store_or_erase c.m_events n e1 (decide (e1.consistency_check.remaining_users = ∅))
            .ok { c with m_events := events1 }
          else remove_user c sender

/-- The event matching shared by the four key-exchange branches and the key-activation
branch (lines 627-640, 660-673, 697-710, 734-747, 771-784): `true` with the sender erased
from its first event when that event has the given type and key id, `false` with the
sender removed otherwise. -/
def key_event_reply (c : Channel) (sender : String) (type : MessageType) (key_id : Hash) :
    Except Fault (Bool × Channel) :=
  match first_user_event c.m_events sender with
  | .error f => .error f
  | .ok none =>
    match remove_user c sender with
    | .error f => .error f
    | .ok c1 => .ok (false, c1)
  | .ok (some (n, first_event)) =>
    if first_event.type = type ∧ first_event.key_event.key_id = key_id then
      let e1 := { first_event with key_event :=
        { first_event.key_event with
          remaining_users := first_event.key_event.remaining_users.erase sender } }
      let events1 := store_or_erase c.m_events n e1 (decide (e1.key_event.remaining_users = ∅))
      .ok (true, { c with m_events := events1 })
    else
      match remove_user c sender with
      | .error f => .error f
      | .ok c1 => .ok (false, c1)

/-- The `KeyExchangePublicKey` branch (lines 610-642). -/
def on_key_exchange_public_key (X : Env) (c : Channel) (sender : String) (np1sec_message : Message) :
    Except Fault Channel :=
  match c.m_participants.find sender with
  | none => .ok c
  | some sender_participant =>
    match X.verify_key_exchange_public_key np1sec_message sender_participant.ephemeral_public_key with
    | none => .ok c
    | some signed_message =>
      if !signed_message.valid then remove_user c sender
      else
        let message := signed_message.decode
        match key_event_reply c sender .KeyExchangePublicKey message.key_id with
        | .error f => .error f
        | .ok (false, c1) => .ok c1
        | .ok (true, c1) =>
          .ok (encrypted_chat c1 (.user_public_key sender message.key_id message.public_key))

/-- The `KeyExchangeSecretShare` branch (lines 643-679). -/
def on_key_exchange_secret_share (X : Env) (c : Channel) (sender : String) (np1sec_message : Message) :
    Except Fault Channel :=
  match c.m_participants.find sender with
  | none => .ok c
  | some sender_participant =>
    match X.verify_key_exchange_secret_share np1sec_message sender_participant.ephemeral_public_key with
    | none => .ok c
    | some signed_message =>
      if !signed_message.valid then remove_user c sender
      else
        let message := signed_message.decode
        match key_event_reply c sender .KeyExchangeSecretShare message.key_id with
        | .error f => .error f
        | .ok (false, c1) => .ok c1
        | .ok (true, c1) =>
          if !X.have_key_exchange c1.m_encrypted_chat message.key_id then .ok c1
          else
            .ok (encrypted_chat c1
              (.user_secret_share sender message.key_id message.group_hash message.secret_share))

/-- The `KeyExchangeAcceptance` branch (lines 680-716). -/
def on_key_exchange_acceptance (X : Env) (c : Channel) (sender : String) (np1sec_message : Message) :
    Except Fault Channel :=
  match c.m_participants.find sender with
  | none => .ok c
  | some sender_participant =>
    match X.verify_key_exchange_acceptance np1sec_message sender_participant.ephemeral_public_key with
    | none => .ok c
    | some signed_message =>
      if !signed_message.valid then remove_user c sender
      else
        let message := signed_message.decode
        match key_event_reply c sender .KeyExchangeAcceptance message.key_id with
        | .error f => .error f
        | .ok (false, c1) => .ok c1
        | .ok (true, c1) =>
          if !X.have_key_exchange c1.m_encrypted_chat message.key_id then .ok c1
          else .ok (encrypted_chat c1 (.user_key_hash sender message.key_id message.key_hash))

/-- The `KeyExchangeReveal` branch (lines 717-753). -/
def on_key_exchange_reveal (X : Env) (c : Channel) (sender : String) (np1sec_message : Message) :
    Except Fault Channel :=
  match c.m_participants.find sender with
  | none => .ok c
  | some sender_participant =>
    match X.verify_key_exchange_reveal np1sec_message sender_participant.ephemeral_public_key with
    | none => .ok c
    | some signed_message =>
      if !signed_message.valid then remove_user c sender
      else
        let message := signed_message.decode
        match key_event_reply c sender .KeyExchangeReveal message.key_id with
        | .error f => .error f
        | .ok (false, c1) => .ok c1
        | .ok (true, c1) =>
          if !X.have_key_exchange c1.m_encrypted_chat message.key_id then .ok c1
          else .ok (encrypted_chat c1 (.user_private_key sender message.key_id message.private_key))

/-- The `KeyActivation` branch (lines 754-788). -/
def on_key_activation (X : Env) (c : Channel) (sender : String) (np1sec_message : Message) :
    Except Fault Channel :=
  match c.m_participants.find sender with
  | none => .ok c
  | some sender_participant =>
    match X.verify_key_activation np1sec_message sender_participant.ephemeral_public_key with
    | none => .ok c
    | some signed_message =>
      if !signed_message.valid then remove_user c sender
      else
        let message := signed_message.decode
        match key_event_reply c sender .KeyActivation message.key_id with
        | .error f => .error f
        | .ok (false, c1) => .ok c1
        | .ok (true, c1) =>
          if X.have_session c1.m_encrypted_chat message.key_id then
            .ok (encrypted_chat c1 (.user_activation sender message.key_id))
          else .ok c1

/-- The `Chat` branch (lines 789-798). -/
def on_chat (X : Env) (c : Channel) (sender : String) (np1sec_message : Message) :
    Except Fault Channel :=
  match X.decode_chat np1sec_message with
  | none => .ok c
  | some message => .ok (encrypted_chat c (.decrypt_message sender message))

/-- The dispatch of `message_received` after the hash update (lines 308-798). -/
def dispatch (X : Env) (c : Channel) (sender : String) (np1sec_message : Message) :
    Except Fault Channel :=
  match np1sec_message.type with
  | .ChannelSearch => on_channel_search X c sender np1sec_message
  | .ChannelStatus => on_channel_status X c sender np1sec_message
  | .ChannelAnnouncement => on_channel_announcement X c sender np1sec_message
  | .JoinRequest => on_join_request X c sender np1sec_message
  | .AuthenticationRequest => on_authentication_request X c sender np1sec_message
  | .Authentication => on_authentication X c sender np1sec_message
  | .Authorization => on_authorization X c sender np1sec_message
  | .ConsistencyStatus => on_consistency_status X c sender
  | .ConsistencyCheck => on_consistency_check X c sender np1sec_message
  | .KeyExchangePublicKey => on_key_exchange_public_key X c sender np1sec_message
  | .KeyExchangeSecretShare => on_key_exchange_secret_share X c sender np1sec_message
  | .KeyExchangeAcceptance => on_key_exchange_acceptance X c sender np1sec_message
  | .KeyExchangeReveal => on_key_exchange_reveal X c sender np1sec_message
  | .KeyActivation => on_key_activation X c sender np1sec_message
  | .Chat => on_chat X c sender np1sec_message
  | .Other _ => .ok c

/-- The method `Channel::message_received` (lines 304-799). -/
def message_received (X : Env) (c : Channel) (sender : String) (np1sec_message : Message) :
    Except Fault Channel :=
  match hash_message X c sender np1sec_message with
  | .error f => .error f
  | .ok c1 => dispatch X c1 sender np1sec_message

/-- The method `Channel::user_left` (lines 801-806). -/
def user_left (X : Env) (c : Channel) (username : String) : Except Fault Channel :=
  match hash_payload X c username 0 "left" with
  | .error f => .error f
  | .ok c1 => remove_user c1 username

/-! ### Constructors -/

/-- The solo constructor `Channel::Channel(Room*)` (lines 25-45); the generated
ephemeral key and the generated nonce are arguments. -/
def Channel.create (X : Env) (room : Room) (generated_key : PrivateKey) (nonce_hash : Hash) : Channel :=
  let self : Participant :=
    { default_participant X with
      username := room.username
      long_term_public_key := room.long_term_public_key
      ephemeral_public_key := X.public_key generated_key
      authorization_nonce := nonce_hash
      authorized := true
      authentication_status := .Authenticated }
  { m_room := room
    m_ephemeral_private_key := generated_key
    m_interface := false
    m_joined := true
    m_active := false
    m_authorized := true
    m_channel_status_hash := nonce_hash
    m_authentication_nonce := X.default_hash
    m_participants := ParticipantMap.assign ParticipantMap.empty self.username self
    m_events := []
    m_encrypted_chat := [.create_solo_session]
    sent := []
    notifications := [] }

/-- The first loop of the status constructor (lines 67-85). -/
def status_add_participants (X : Env) (c : Channel) (channel_status_event : Event) :
    List StatusParticipant → Except Fault (Channel × Event)
  | [] => .ok (c, channel_status_event)
  | p :: rest =>
    let participant : Participant :=
      { default_participant X with
        username := p.username
        long_term_public_key := p.long_term_public_key
        ephemeral_public_key := p.ephemeral_public_key
        authorization_nonce := p.authorization_nonce
        authorized := true
        authentication_status := .Unauthenticated }
    if c.m_participants.count participant.username then .error .MessageFormat
    else
      let c1 := { c with m_participants := ParticipantMap.assign c.m_participants participant.username participant }
      let users := insert p.username channel_status_event.channel_status.remaining_users
      let event1 := { channel_status_event with
        channel_status := { channel_status_event.channel_status with remaining_users := users } }
      status_add_participants X (encrypted_chat c1 (.do_add_user p.username p.long_term_public_key))
        event1 rest

/-- The second loop of the status constructor (lines 87-114). -/
def status_add_unauthorized_participants (X : Env) (c : Channel) (channel_status_event : Event) :
    List StatusUnauthorizedParticipant → Except Fault (Channel × Event)
  | [] => .ok (c, channel_status_event)
  | p :: rest =>
    let participant : Participant :=
      { default_participant X with
        username := p.username
        long_term_public_key := p.long_term_public_key
        ephemeral_public_key := p.ephemeral_public_key
        authorization_nonce := p.authorization_nonce
        authorized := false
        authentication_status := .Unauthenticated
        authorized_by := p.authorized_by.filter (fun peer => c.m_participants.count peer = true)
        authorized_peers := p.authorized_peers.filter (fun peer => c.m_participants.count peer = true) }
    if c.m_participants.count participant.username then .error .MessageFormat
    else
      let c1 := { c with m_participants := ParticipantMap.assign c.m_participants participant.username participant }
      let users := insert p.username channel_status_event.channel_status.remaining_users
      let event1 := { channel_status_event with
        channel_status := { channel_status_event.channel_status with remaining_users := users } }
      status_add_unauthorized_participants X c1 event1 rest

/-- The key-exchange loop of the status constructor (lines 122-130). -/
def status_add_key_exchanges (c : Channel) (key_exchange_ids : Finset Hash) :
    List KeyExchangeState → Except Fault (Channel × Finset Hash)
  | [] => .ok (c, key_exchange_ids)
  | exchange :: rest =>
    if exchange.key_id ∈ key_exchange_ids then .error .MessageFormat
    else
      status_add_key_exchanges (encrypted_chat c (.unserialize_key_exchange exchange))
        (insert exchange.key_id key_exchange_ids) rest

/-- The event loop of the status constructor (lines 132-174); the result carries the
sets `key_exchange_event_ids` and `key_activation_event_ids`. -/
def status_add_events (X : Env) (channel_status : ChannelStatusMessage) (key_exchange_ids : Finset Hash)
    (c : Channel) (key_exchange_event_ids key_activation_event_ids : Finset Hash) :
    List ChannelEvent → Except Fault (Channel × Finset Hash × Finset Hash)
  | [] => .ok (c, key_exchange_event_ids, key_activation_event_ids)
  | channel_event :: rest =>
    let event := fresh_event X channel_event.type
    if channel_event.type = .ChannelStatus then
      match X.decode_channel_status_event channel_event channel_status with
      | none => .error .MessageFormat
      | some e =>
        status_add_events X channel_status key_exchange_ids
          { c with m_events := c.m_events ++ [{ event with channel_status := e }] }
          key_exchange_event_ids key_activation_event_ids rest
    else if channel_event.type = .ConsistencyCheck then
      match X.decode_consistency_check_event channel_event channel_status with
      | none => .error .MessageFormat
      | some e =>
        status_add_events X channel_status key_exchange_ids
          { c with m_events := c.m_events ++ [{ event with consistency_check := e }] }
          key_exchange_event_ids key_activation_event_ids rest
    else if is_key_exchange_type channel_event.type then
      match X.decode_key_exchange_event channel_event channel_status with
      | none => .error .MessageFormat
      | some e =>
        if e.cancelled then
          if e.key_id ∈ key_exchange_ids then .error .MessageFormat
          else
            let event1 := { event with key_event := { key_id := e.key_id, remaining_users := e.remaining_users } }
            status_add_events X channel_status key_exchange_ids
              { c with m_events := c.m_events ++ [event1] }
              key_exchange_event_ids key_activation_event_ids rest
        else
          if e.key_id ∉ key_exchange_ids then .error .MessageFormat
          else if e.key_id ∈ key_exchange_event_ids then .error .MessageFormat
          else
            let event1 := { event with key_event := { event.key_event with key_id := e.key_id } }
            status_add_events X channel_status key_exchange_ids
              { c with m_events := c.m_events ++ [event1] }
              (insert e.key_id key_exchange_event_ids) key_activation_event_ids rest
    else if channel_event.type = .KeyActivation then
      match X.decode_key_activation_event channel_event channel_status with
      | none => .error .MessageFormat
      | some e =>
        if e.key_id ∈ key_exchange_ids then .error .MessageFormat
        else if e.key_id ∈ key_activation_event_ids then .error .MessageFormat
        else
          status_add_events X channel_status key_exchange_ids
            { c with m_events := c.m_events ++ [{ event with key_event := e }] }
            key_exchange_event_ids (insert e.key_id key_activation_event_ids) rest
    else .error .MessageFormat

/-- The status constructor `Channel::Channel(Room*, const ChannelStatusMessage&, const
Message&)` (lines 47-184); the generated ephemeral key and the generated nonce are
arguments. -/
def Channel.from_status (X : Env) (room : Room) (generated_key : PrivateKey) (nonce_hash : Hash)
    (channel_status : ChannelStatusMessage) (encoded_message : Message) : Except Fault Channel :=
  let c0 : Channel :=
    { m_room := room
      m_ephemeral_private_key := generated_key
      m_interface := false
      m_joined := false
      m_active := false
      m_authorized := false
      m_channel_status_hash := X.default_hash
      m_authentication_nonce := nonce_hash
      m_participants := ParticipantMap.empty
      m_events := []
      m_encrypted_chat := []
      sent := []
      notifications := [] }
  let channel_status_event : Event :=
    { fresh_event X .ChannelStatus with
      channel_status :=
        { searcher_username := channel_status.searcher_username
          searcher_nonce := channel_status.searcher_nonce
          status_message_hash := X.hash encoded_message.payload
          remaining_users := ∅ } }
  match status_add_participants X c0 channel_status_event channel_status.participants with
  | .error f => .error f
  | .ok (c1, event1) =>
    match status_add_unauthorized_participants X c1 event1 channel_status.unauthorized_participants with
    | .error f => .error f
    | .ok (c2, event2) =>
      let c3 := { c2 with m_channel_status_hash := channel_status.channel_status_hash }
      match status_add_key_exchanges c3 ∅ channel_status.key_exchanges with
      | .error f => .error f
      | .ok (c4, key_exchange_ids) =>
        match status_add_events X channel_status key_exchange_ids c4 ∅ ∅ channel_status.events with
        | .error f => .error f
        | .ok (c5, key_exchange_event_ids, _) =>
          if key_exchange_ids.card ≠ key_exchange_event_ids.card then .error .MessageFormat
          else .ok { c5 with m_events := c5.m_events ++ [event2] }

/-- The announcement constructor `Channel::Channel(Room*, const
ChannelAnnouncementMessage&, const std::string&)` (lines 186-208). -/
def Channel.from_announcement (X : Env) (room : Room) (generated_key : PrivateKey) (nonce_hash : Hash)
    (channel_status : ChannelAnnouncementMessage) (sender : String) : Channel :=
  let participant : Participant :=
    { default_participant X with
      username := sender
      long_term_public_key := channel_status.long_term_public_key
      ephemeral_public_key := channel_status.ephemeral_public_key
      authorization_nonce := channel_status.channel_status_hash
      authorized := true
      authentication_status := .Unauthenticated }
  { m_room := room
    m_ephemeral_private_key := generated_key
    m_interface := false
    m_joined := false
    m_active := false
    m_authorized := false
    m_channel_status_hash := channel_status.channel_status_hash
    m_authentication_nonce := nonce_hash
    m_participants := ParticipantMap.assign ParticipantMap.empty participant.username participant
    m_events := []
    m_encrypted_chat := [.do_add_user sender channel_status.long_term_public_key]
    sent := []
    notifications := [] }

/-! ### The other public operations -/

/-- The method `Channel::send_chat` (lines 210-213). -/
def send_chat (c : Channel) (message : String) : Channel :=
  encrypted_chat c (.send_message message)

/-- The method `Channel::announce` (lines 215-222). -/
def announce (X : Env) (c : Channel) : Channel :=
  send_message c (X.encode_channel_announcement
    { long_term_public_key := c.m_room.long_term_public_key
      ephemeral_public_key := ephemeral_public_key X c
      channel_status_hash := c.m_channel_status_hash })

/-- The method `Channel::confirm_participant` (lines 224-243). -/
def confirm_participant (X : Env) (c : Channel) (username : String) : Channel :=
  match c.m_participants.find username with
  | none => c
  | some participant =>
    if participant.authentication_status = .Unauthenticated then
      send_message (set_authentication_status c username .AuthenticatingWithNonce)
        (X.encode_authentication_request
          { sender_long_term_public_key := c.m_room.long_term_public_key
            sender_ephemeral_public_key := ephemeral_public_key X c
            peer_username := participant.username
            peer_long_term_public_key := participant.long_term_public_key
            peer_ephemeral_public_key := participant.ephemeral_public_key
            nonce := c.m_authentication_nonce })
    else c

/-- The method `Channel::join` (lines 245-256). -/
def join (X : Env) (c : Channel) : Channel :=
  send_message c (X.encode_join_request
    { long_term_public_key := c.m_room.long_term_public_key
      ephemeral_public_key := ephemeral_public_key X c
      peer_usernames := c.m_participants.entries.map (fun i => i.1) })

/-- The method `Channel::activate` (lines 258-263); the timer it arms fires as
`channel_status_timer`. -/
def activate (c : Channel) : Channel :=
  { c with m_active := true }

/-- The callback armed by `set_channel_status_timer` (lines 1109-1115). -/
def channel_status_timer (X : Env) (c : Channel) : Channel :=
  send_message c X.encode_consistency_status

/-- The expression `m[key]` of `std::map`: the table, with a default-constructed entry
inserted when the key was missing, and the entry referred to. -/
def ParticipantMap.subscript (X : Env) (m : ParticipantMap) (key : String) :
    ParticipantMap × Participant :=
  match m.find key with
  | some p => (m, p)
  | none => (ParticipantMap.assign m key (default_participant X), default_participant X)

/-- The method `Channel::authorize` (lines 265-302). -/
def authorize (X : Env) (c : Channel) (username : String) : Channel :=
  match c.m_participants.find username with
  | none => c
  | some participant =>
    if username = c.m_room.username then c
    else
      let entry := ParticipantMap.subscript X c.m_participants c.m_room.username
      let self := entry.2
      let c1 := { c with m_participants := entry.1 }
      let message : UnsignedAuthorizationMessage :=
        { username := participant.username
          long_term_public_key := participant.long_term_public_key
          ephemeral_public_key := participant.ephemeral_public_key
          authorization_nonce := participant.authorization_nonce }
      if self.authorized then
        if participant.authorized then c1
        else if c.m_room.username ∈ participant.authorized_by then c1
        else send_message c1 (X.sign_authorization message c1.m_ephemeral_private_key)
      else
        if !participant.authorized then c1
        else if username ∈ self.authorized_peers then c1
        else send_message c1 (X.sign_authorization message c1.m_ephemeral_private_key)

/-- The method `Channel::add_key_exchange_event` (lines 808-815). -/
def add_key_exchange_event (X : Env) (c : Channel) (type : MessageType) (key_id : Hash)
    (usernames : Finset String) : Channel :=
  let event : Event :=
    { fresh_event X type with key_event := { key_id := key_id, remaining_users := usernames } }
  { c with m_events := c.m_events ++ [event] }

/-- The method `Channel::add_key_activation_event` (lines 817-824). -/
def add_key_activation_event (X : Env) (c : Channel) (key_id : Hash) (usernames : Finset String) :
    Channel :=
  let event : Event :=
    { fresh_event X .KeyActivation with key_event := { key_id := key_id, remaining_users := usernames } }
  { c with m_events := c.m_events ++ [event] }

/-- Setting or clearing the observer pointer `m_interface`. -/
def set_interface (c : Channel) (present : Bool) : Channel :=
  { c with m_interface := present }

/-! ### Reachable states -/

/-- The channel states reachable from a constructor through the public operations. -/
inductive Reachable (X : Env) : Channel → Prop where
  | create (room : Room) (generated_key : PrivateKey) (nonce_hash : Hash) :
      Reachable X (Channel.create X room generated_key nonce_hash)
  | from_status (room : Room) (generated_key : PrivateKey) (nonce_hash : Hash)
      (channel_status : ChannelStatusMessage) (encoded_message : Message) (c : Channel)
      (h : Channel.from_status X room generated_key nonce_hash channel_status encoded_message = .ok c) :
      Reachable X c
  | from_announcement (room : Room) (generated_key : PrivateKey) (nonce_hash : Hash)
      (channel_status : ChannelAnnouncementMessage) (sender : String) :
      Reachable X (Channel.from_announcement X room generated_key nonce_hash channel_status sender)
  | message_received (c c1 : Channel) (sender : String) (np1sec_message : Message)
      (hc : Reachable X c) (h : message_received X c sender np1sec_message = .ok c1) :
      Reachable X c1
  | user_left (c c1 : Channel) (username : String)
      (hc : Reachable X c) (h : user_left X c username = .ok c1) : Reachable X c1
  | send_chat (c : Channel) (message : String) (hc : Reachable X c) : Reachable X (send_chat c message)
  | announce (c : Channel) (hc : Reachable X c) : Reachable X (announce X c)
  | confirm_participant (c : Channel) (username : String) (hc : Reachable X c) :
      Reachable X (confirm_participant X c username)
  | join (c : Channel) (hc : Reachable X c) : Reachable X (join X c)
  | activate (c : Channel) (hc : Reachable X c) : Reachable X (activate c)
  | channel_status_timer (c : Channel) (hc : Reachable X c) : Reachable X (channel_status_timer X c)
  | authorize (c : Channel) (username : String) (hc : Reachable X c) :
      Reachable X (authorize X c username)
  | add_key_exchange_event (c : Channel) (type : MessageType) (key_id : Hash)
      (usernames : Finset String) (hc : Reachable X c) :
      Reachable X (add_key_exchange_event X c type key_id usernames)
  | add_key_activation_event (c : Channel) (key_id : Hash) (usernames : Finset String)
      (hc : Reachable X c) : Reachable X (add_key_activation_event X c key_id usernames)
  | set_interface (c : Channel) (present : Bool) (hc : Reachable X c) :
      Reachable X (set_interface c present)

/-! ## A concrete environment, used to run the definitions on examples -/

/-- A toy environment: the hash tags its input, the triple Diffie-Hellman value does not
depend on which endpoint computes it, signed messages carry their body in the payload. -/
def demo_env : Env :=
  { hash := fun s => ⟨"H(" ++ s ++ ")"⟩
    triple_diffie_hellman := fun lt eph peer_lt peer_eph =>
      if string_lt (lt.as_string ++ eph.as_string) (peer_lt.as_string ++ peer_eph.as_string) then
        ⟨lt.as_string ++ eph.as_string ++ peer_lt.as_string ++ peer_eph.as_string⟩
      else ⟨peer_lt.as_string ++ peer_eph.as_string ++ lt.as_string ++ eph.as_string⟩
    public_key := fun k => ⟨k.as_string⟩
    hash_length := 2
    type_byte := fun t =>
      match t with
      | .ChannelSearch => 1
      | .ChannelStatus => 2
      | .ChannelAnnouncement => 3
      | .JoinRequest => 4
      | .AuthenticationRequest => 5
      | .Authentication => 6
      | .Authorization => 7
      | .ConsistencyStatus => 8
      | .ConsistencyCheck => 9
      | .KeyExchangePublicKey => 10
      | .KeyExchangeSecretShare => 11
      | .KeyExchangeAcceptance => 12
      | .KeyExchangeReveal => 13
      | .KeyActivation => 14
      | .Chat => 15
      | .Other b => b
    default_hash := ⟨""⟩
    default_public_key := ⟨""⟩
    default_flag := false
    default_status := .Unauthenticated
    decode_channel_search := fun m => some ⟨⟨m.payload⟩⟩
    decode_channel_status := fun m =>
      some { searcher_username := m.payload, searcher_nonce := ⟨"n"⟩, channel_status_hash := ⟨""⟩,
             participants := [], unauthorized_participants := [], key_exchanges := [], events := [] }
    decode_channel_announcement := fun m => some ⟨⟨m.payload⟩, ⟨m.payload⟩, ⟨""⟩⟩
    decode_join_request := fun m => some ⟨⟨m.payload⟩, ⟨m.payload⟩, ["alice"]⟩
    decode_authentication_request := fun m =>
      some ⟨⟨m.payload⟩, ⟨m.payload⟩, "alice", ⟨"alice-lt"⟩, ⟨"alice-eph"⟩, ⟨"n"⟩⟩
    decode_authentication := fun m =>
      some ⟨⟨"bob-lt"⟩, ⟨"bob-eph"⟩, "alice", ⟨"alice-lt"⟩, ⟨"alice-eph"⟩, ⟨"n0"⟩, ⟨m.payload⟩⟩
    decode_chat := fun m => some ⟨m.payload⟩
    verify_authorization := fun m _ =>
      some ⟨true, ⟨m.payload, ⟨m.payload ++ "-lt"⟩, ⟨m.payload ++ "-eph"⟩, ⟨"n0"⟩⟩⟩
    verify_consistency_check := fun m _ => some ⟨true, ⟨⟨m.payload⟩⟩⟩
    verify_key_exchange_public_key := fun m _ => some ⟨true, ⟨⟨m.payload⟩, ⟨"pk"⟩⟩⟩
    verify_key_exchange_secret_share := fun m _ => some ⟨true, ⟨⟨m.payload⟩, ⟨"g"⟩, ⟨"s"⟩⟩⟩
    verify_key_exchange_acceptance := fun m _ => some ⟨true, ⟨⟨m.payload⟩, ⟨"kh"⟩⟩⟩
    verify_key_exchange_reveal := fun m _ => some ⟨true, ⟨⟨m.payload⟩, ⟨"sk"⟩⟩⟩
    verify_key_activation := fun m _ => some ⟨true, ⟨⟨m.payload⟩⟩⟩
    encode_channel_status := fun s =>
      ⟨.ChannelStatus, s.searcher_username ++ "|" ++ s.channel_status_hash.as_string ++ "|"
        ++ String.join (s.participants.map (fun p => p.username ++ ","))
        ++ "|" ++ String.join (s.unauthorized_participants.map (fun p => p.username ++ ","))
        ++ "|" ++ String.join (s.events.map (fun e => e.payload ++ ","))⟩
    encode_channel_announcement := fun a => ⟨.ChannelAnnouncement, a.channel_status_hash.as_string⟩
    encode_join_request := fun j => ⟨.JoinRequest, String.join j.peer_usernames⟩
    encode_authentication_request := fun a => ⟨.AuthenticationRequest, a.peer_username⟩
    encode_authentication := fun a => ⟨.Authentication, a.authentication_confirmation.as_string⟩
    encode_consistency_status := ⟨.ConsistencyStatus, ""⟩
    sign_authorization := fun a _ => ⟨.Authorization, a.username⟩
    sign_consistency_check := fun a _ => ⟨.ConsistencyCheck, a.channel_status_hash.as_string⟩
    encode_channel_status_event := fun e _ => ⟨.ChannelStatus, e.searcher_username⟩
    encode_consistency_check_event := fun e _ => ⟨.ConsistencyCheck, e.channel_status_hash.as_string⟩
    encode_key_exchange_event := fun e _ => ⟨e.type, e.key_id.as_string⟩
    encode_key_activation_event := fun e _ => ⟨.KeyActivation, e.key_id.as_string⟩
    decode_channel_status_event := fun e _ => some ⟨e.payload, ⟨"n"⟩, ⟨""⟩, ∅⟩
    decode_consistency_check_event := fun e _ => some ⟨⟨e.payload⟩, ∅⟩
    decode_key_exchange_event := fun e _ => some ⟨e.type, ⟨e.payload⟩, false, ∅⟩
    decode_key_activation_event := fun e _ => some ⟨⟨e.payload⟩, ∅⟩
    have_key_exchange := fun calls _ => calls.length % 2 = 0
    have_session := fun _ _ => true
    encode_key_exchanges := fun _ => [] }

/-- The room of the local user `alice` in the examples. -/
def demo_room : Room :=
  { username := "alice", long_term_public_key := ⟨"alice-lt"⟩, long_term_private_key := ⟨"alice-lt"⟩ }

/-- The room of the local user `bob` in the examples. -/
def demo_room_bob : Room :=
  { username := "bob", long_term_public_key := ⟨"bob-lt"⟩, long_term_private_key := ⟨"bob-lt"⟩ }

/-- The solo channel of `alice`. -/
def demo_solo : Channel := Channel.create demo_env demo_room ⟨"alice-eph"⟩ ⟨"n0"⟩

/-- The solo channel of `bob`. -/
def demo_solo_bob : Channel := Channel.create demo_env demo_room_bob ⟨"bob-eph"⟩ ⟨"n0"⟩

/-! ## Predicates of the specification -/

/-- The symmetric quorum of the specification: every authorized participant of the
table is in both witness sets of `u`. -/
def symmetric_quorum (m : ParticipantMap) (u : Participant) : Prop :=
  ∀ i ∈ m.entries, i.2.authorized = true →
    i.2.username ∈ u.authorized_by ∧ i.2.username ∈ u.authorized_peers

/-- The participant `bob` of the examples, unauthorized, with the given witness sets. -/
def demo_bob (authorized_by authorized_peers : Finset String) : Participant :=
  { username := "bob"
    long_term_public_key := ⟨"bob-lt"⟩
    ephemeral_public_key := ⟨"bob-eph"⟩
    authorization_nonce := ⟨"n0"⟩
    authorized := false
    authentication_status := .Authenticating
    authorized_by := authorized_by
    authorized_peers := authorized_peers }

/-- The channel of `alice` in which `bob` is an unauthorized participant. -/
def demo_pair (authorized_by authorized_peers : Finset String) : Channel :=
  { demo_solo with
    m_participants := demo_solo.m_participants.assign "bob" (demo_bob authorized_by authorized_peers) }

/-- Whether a type is one of the seven event types. -/
def valid_event_type (type : MessageType) : Bool :=
  type = .ChannelStatus || type = .ConsistencyCheck || is_key_exchange_type type
    || type = .KeyActivation

/-- Every queued event has one of the seven event types. -/
def EventsTyped (events : List Event) : Prop :=
  ∀ e ∈ events, valid_event_type e.type = true

instance (events : List Event) : Decidable (EventsTyped events) := by
  unfold EventsTyped; infer_instance

/-- The members that no operation of the dispatch writes. -/
def Frame (c c1 : Channel) : Prop :=
  c1.m_channel_status_hash = c.m_channel_status_hash ∧ c1.m_room = c.m_room
    ∧ c1.m_ephemeral_private_key = c.m_ephemeral_private_key
    ∧ c1.m_authentication_nonce = c.m_authentication_nonce
    ∧ c1.m_active = c.m_active ∧ c1.m_interface = c.m_interface

/-- The value `hash_payload` stores: the hash of the status payload followed by the
sender, the type byte and the message payload. -/
def chained_hash (X : Env) (status : Message) (sender : String) (type : Nat) (message : String) : Hash :=
  X.hash (status.payload ++ sender ++ String.singleton (Char.ofNat (type % 256)) ++ message)

/-- The channel with its status hash replaced. -/
def with_hash (c : Channel) (h : Hash) : Channel :=
  { c with m_channel_status_hash := h }

/-- The conditions of the specification under which an Authentication message from
`sender`, whose recorded entry is `participant`, changes the sender's authentication
status: it targets the local user, carries the sender's recorded keys, and its nonce is
one the sender's current status accepts. -/
def authentication_accepted (X : Env) (c : Channel) (sender : String)
    (message : AuthenticationMessage) (participant : Participant) : Prop :=
  message.peer_username = c.m_room.username
    ∧ message.peer_long_term_public_key = c.m_room.long_term_public_key
    ∧ message.peer_ephemeral_public_key = ephemeral_public_key X c
    ∧ c.m_participants.find sender = some participant
    ∧ message.sender_long_term_public_key = participant.long_term_public_key
    ∧ message.sender_ephemeral_public_key = participant.ephemeral_public_key
    ∧ ((participant.authentication_status = .Authenticating
          ∧ message.nonce = participant.authorization_nonce)
        ∨ (participant.authentication_status = .AuthenticatingWithNonce
          ∧ (message.nonce = participant.authorization_nonce
              ∨ message.nonce = c.m_authentication_nonce)))

/-- The status the specification gives an accepted Authentication: `Authenticated` when
the confirmation is the token recomputed with `for_peer = true`, `AuthenticationFailed`
otherwise. -/
def authentication_outcome (X : Env) (c : Channel) (sender : String)
    (message : AuthenticationMessage) (participant : Participant) : AuthenticationStatus :=
  if message.authentication_confirmation
      = authentication_token X c sender participant.long_term_public_key
          participant.ephemeral_public_key message.nonce true
  then .Authenticated else .AuthenticationFailed

instance (m : ParticipantMap) (u : Participant) : Decidable (symmetric_quorum m u) := by
  unfold symmetric_quorum; infer_instance

/-- The promotion of the specification: the entry under `key` becomes authorized, with
both witness sets cleared, exactly when it satisfies the symmetric quorum. -/
def promote_if_quorum (m : ParticipantMap) (key : String) : ParticipantMap :=
  match m.find key with
  | some u =>
    if symmetric_quorum m u then
      m.modify key (fun p => { p with authorized := true, authorized_by := ∅, authorized_peers := ∅ })
    else m
  | none => m

/-- The conditions of the specification under which a validly signed Authorization from
the participant `sender_participant` about the subject named in `message` is accepted:
the subject is a participant `subject` whose recorded keys and authorization nonce are
the message fields, and exactly one of the two is authorized. -/
def authorization_accepted (c : Channel) (sender_participant : Participant)
    (message : UnsignedAuthorizationMessage) (subject : Participant) : Prop :=
  c.m_participants.find message.username = some subject
    ∧ subject.long_term_public_key = message.long_term_public_key
    ∧ subject.ephemeral_public_key = message.ephemeral_public_key
    ∧ subject.authorization_nonce = message.authorization_nonce
    ∧ sender_participant.authorized ≠ subject.authorized

/-- The `remaining_users` of an event: those of the sub-record its type selects, as read
by `first_user_event`; an event of no event type lists nobody. -/
def Event.remaining_users (e : Event) : Finset String :=
  if e.type = .ChannelStatus then e.channel_status.remaining_users
  else if e.type = .ConsistencyCheck then e.consistency_check.remaining_users
  else if is_key_exchange_type e.type || e.type = .KeyActivation then e.key_event.remaining_users
  else ∅

/-- The event with `username` erased from the `remaining_users` its type selects. -/
def Event.erase_user (e : Event) (username : String) : Event :=
  if e.type = .ChannelStatus then
    { e with channel_status :=
        { e.channel_status with remaining_users := e.channel_status.remaining_users.erase username } }
  else if e.type = .ConsistencyCheck then
    { e with consistency_check :=
        { e.consistency_check with remaining_users := e.consistency_check.remaining_users.erase username } }
  else if is_key_exchange_type e.type || e.type = .KeyActivation then
    { e with key_event :=
        { e.key_event with remaining_users := e.key_event.remaining_users.erase username } }
  else e

/-- The match of the specification between a reply `m` from `sender` and the event `e`:
the reply decodes (or is validly signed by the participant `sender`), and the type and
the discriminators of `e` are those of the reply. -/
def reply_matches (X : Env) (c : Channel) (sender : String) (m : Message) (e : Event) : Prop :=
  match m.type with
  | .ChannelStatus =>
    ∃ message, X.decode_channel_status m = some message ∧ e.type = .ChannelStatus
      ∧ e.channel_status.searcher_username = message.searcher_username
      ∧ e.channel_status.searcher_nonce = message.searcher_nonce
      ∧ e.channel_status.status_message_hash = X.hash m.payload
  | .ConsistencyCheck =>
    ∃ ps sm, c.m_participants.find sender = some ps
      ∧ X.verify_consistency_check m ps.ephemeral_public_key = some sm ∧ sm.valid = true
      ∧ e.type = .ConsistencyCheck
      ∧ e.consistency_check.channel_status_hash = sm.decode.channel_status_hash
  | .KeyExchangePublicKey =>
    ∃ ps sm, c.m_participants.find sender = some ps
      ∧ X.verify_key_exchange_public_key m ps.ephemeral_public_key = some sm ∧ sm.valid = true
      ∧ e.type = .KeyExchangePublicKey ∧ e.key_event.key_id = sm.decode.key_id
  | .KeyExchangeSecretShare =>
    ∃ ps sm, c.m_participants.find sender = some ps
      ∧ X.verify_key_exchange_secret_share m ps.ephemeral_public_key = some sm ∧ sm.valid = true
      ∧ e.type = .KeyExchangeSecretShare ∧ e.key_event.key_id = sm.decode.key_id
  | .KeyExchangeAcceptance =>
    ∃ ps sm, c.m_participants.find sender = some ps
      ∧ X.verify_key_exchange_acceptance m ps.ephemeral_public_key = some sm ∧ sm.valid = true
      ∧ e.type = .KeyExchangeAcceptance ∧ e.key_event.key_id = sm.decode.key_id
  | .KeyExchangeReveal =>
    ∃ ps sm, c.m_participants.find sender = some ps
      ∧ X.verify_key_exchange_reveal m ps.ephemeral_public_key = some sm ∧ sm.valid = true
      ∧ e.type = .KeyExchangeReveal ∧ e.key_event.key_id = sm.decode.key_id
  | .KeyActivation =>
    ∃ ps sm, c.m_participants.find sender = some ps
      ∧ X.verify_key_activation m ps.ephemeral_public_key = some sm ∧ sm.valid = true
      ∧ e.type = .KeyActivation ∧ e.key_event.key_id = sm.decode.key_id
  | _ => False

/-- The queue after the event at position `n` was replaced by `e1`: `e1` is dropped when
it lists nobody, stored in place otherwise. -/
def consume_at (events : List Event) (n : Nat) (e1 : Event) : List Event :=
  if e1.remaining_users = ∅ then events.eraseIdx n else events.set n e1

/-- A pending consistency check on the hash `h1`, owed by `alice` and `bob`. -/
def demo_check_event : Event :=
  { fresh_event demo_env .ConsistencyCheck with
    consistency_check := { channel_status_hash := ⟨"h1"⟩, remaining_users := {"alice", "bob"} } }

/-- The channel of `alice` and `bob` with that consistency check queued. -/
def demo_waiting : Channel :=
  { demo_pair ∅ ∅ with m_events := [demo_check_event] }

/-- Every queued `ConsistencyCheck` event has an empty `channel_status.remaining_users`
(the sub-record its type does not select is as default-constructed). -/
def CheckEventsClean (events : List Event) : Prop :=
  ∀ e ∈ events, e.type = .ConsistencyCheck → e.channel_status.remaining_users = ∅

instance (events : List Event) : Decidable (CheckEventsClean events) := by
  unfold CheckEventsClean; infer_instance

/-- Every authorized participant has both witness sets empty. -/
def WitnessesClean (m : ParticipantMap) : Prop :=
  ∀ i ∈ m.entries, i.2.authorized = true → i.2.authorized_by = ∅ ∧ i.2.authorized_peers = ∅

instance (m : ParticipantMap) : Decidable (WitnessesClean m) := by
  unfold WitnessesClean; infer_instance

/-- The table `m1` has no key and no witness that `m` does not have. -/
def Shrinks (m m1 : ParticipantMap) : Prop :=
  ∀ k p1, m1.find k = some p1 →
    ∃ p, m.find k = some p ∧ p1.authorized_by ⊆ p.authorized_by
      ∧ p1.authorized_peers ⊆ p.authorized_peers

/-- The message `m` is a validly signed message of one of the six reply types
(ConsistencyCheck, the four KeyExchange types, KeyActivation) under the key `key`. -/
def validly_signed_reply (X : Env) (m : Message) (key : PublicKey) : Prop :=
  match m.type with
  | .ConsistencyCheck => ∃ sm, X.verify_consistency_check m key = some sm ∧ sm.valid = true
  | .KeyExchangePublicKey => ∃ sm, X.verify_key_exchange_public_key m key = some sm ∧ sm.valid = true
  | .KeyExchangeSecretShare => ∃ sm, X.verify_key_exchange_secret_share m key = some sm ∧ sm.valid = true
  | .KeyExchangeAcceptance => ∃ sm, X.verify_key_exchange_acceptance m key = some sm ∧ sm.valid = true
  | .KeyExchangeReveal => ∃ sm, X.verify_key_exchange_reveal m key = some sm ∧ sm.valid = true
  | .KeyActivation => ∃ sm, X.verify_key_activation m key = some sm ∧ sm.valid = true
  | _ => False

/-- The invariant of the reachable states used for removal: authorized participants
have empty witness sets, and ConsistencyCheck events an empty `channel_status`
sub-record. -/
def Inv (c : Channel) : Prop :=
  WitnessesClean c.m_participants ∧ CheckEventsClean c.m_events

/-- The channel with its participant table replaced. -/
def with_participants (c : Channel) (m : ParticipantMap) : Channel :=
  { c with m_participants := m }

/-- The solo channel of `alice` after the collaborator queued a key-exchange event
that names `bob`, who is not a participant. -/
def demo_stranger : Channel :=
  add_key_exchange_event demo_env demo_solo .KeyExchangePublicKey ⟨"k"⟩ {"bob"}

/-- The solo channel of `alice` after a JoinRequest from `bob` and a ChannelSearch from
`carol`. -/
def demo_joined : Channel :=
  match message_received demo_env demo_solo "bob" ⟨.JoinRequest, "bob"⟩ with
  | .error _ => demo_solo
  | .ok c =>
    match message_received demo_env c "carol" ⟨.ChannelSearch, "nc"⟩ with
    | .error _ => c
    | .ok c1 => c1

/-- Two channel records in the same state: all data members agree; the observer pointer,
the outbox of the room and the log of observer callbacks, which are not part of the
state that the channels share, may differ. -/
def SameState (c d : Channel) : Prop :=
  c.m_room = d.m_room ∧ c.m_ephemeral_private_key = d.m_ephemeral_private_key
    ∧ c.m_joined = d.m_joined ∧ c.m_active = d.m_active ∧ c.m_authorized = d.m_authorized
    ∧ c.m_channel_status_hash = d.m_channel_status_hash
    ∧ c.m_authentication_nonce = d.m_authentication_nonce
    ∧ c.m_participants = d.m_participants ∧ c.m_events = d.m_events
    ∧ c.m_encrypted_chat = d.m_encrypted_chat

/-- Two results of an operation run on two channels: the same fault, or two channels in
the same state. -/
def SameResult (r1 r2 : Except Fault Channel) : Prop :=
  match r1, r2 with
  | .ok c1, .ok d1 => SameState c1 d1
  | .error f, .error g => f = g
  | _, _ => False

/-- The status hash after each message of a sequence of broadcasts fed to
`message_received`; `none` from the first call that does not return on. -/
def hash_trace (X : Env) (c : Channel) : List (String × Message) → List (Option Hash)
  | [] => []
  | (sender, m) :: rest =>
    match message_received X c sender m with
    | .ok c1 => some c1.m_channel_status_hash :: hash_trace X c1 rest
    | .error _ => List.replicate (rest.length + 1) none

/-- The channel `c` with another observer pointer, outbox and callback log. -/
def relog (c : Channel) (observer : Bool) (sent : List Message)
    (notifications : List Notification) : Channel :=
  { c with m_interface := observer, sent := sent, notifications := notifications }

/-- Two results carrying a flag: the same fault, or the same flag and two channels in the
same state. -/
def SameFlagged (r1 r2 : Except Fault (Bool × Channel)) : Prop :=
  match r1, r2 with
  | .ok (b1, c1), .ok (b2, d1) => b1 = b2 ∧ SameState c1 d1
  | .error f, .error g => f = g
  | _, _ => False

/-- Lines 401-432 of the `JoinRequest` branch: the insertion of the sender of a join
request addressed to this channel, on the channel left by `remove_user(sender)`. -/
def insert_joiner (X : Env) (c1 : Channel) (sender : String) (message : JoinRequestMessage) :
    Channel :=
  let participant : Participant :=
    { default_participant X with
      username := sender
      long_term_public_key := message.long_term_public_key
      ephemeral_public_key := message.ephemeral_public_key
      authorization_nonce := c1.m_channel_status_hash
      authorized := false }
  let c2 := { c1 with m_participants := ParticipantMap.assign c1.m_participants sender participant }
  let c3 :=
    if sender = c2.m_room.username then
      set_authentication_status c2 sender .Authenticated
    else if !c2.m_active then
      send_message (set_authentication_status c2 sender .AuthenticatingWithNonce)
        (X.encode_authentication_request
          { sender_long_term_public_key := c2.m_room.long_term_public_key
            sender_ephemeral_public_key := ephemeral_public_key X c2
            peer_username := sender
            peer_long_term_public_key := message.long_term_public_key
            peer_ephemeral_public_key := message.ephemeral_public_key
            nonce := c2.m_authentication_nonce })
    else set_authentication_status c2 sender .Authenticating
  let c4 := notify c3 (.user_joined sender)
  if sender = c4.m_room.username then self_joined X c4 else c4

/-- Two entries for the same participant: username, keys, authorization nonce and
authentication status agree (the authorized flag and the witness sets may differ). -/
def SameIdentity (p p1 : Participant) : Prop :=
  p1.username = p.username ∧ p1.long_term_public_key = p.long_term_public_key
    ∧ p1.ephemeral_public_key = p.ephemeral_public_key
    ∧ p1.authorization_nonce = p.authorization_nonce
    ∧ p1.authentication_status = p.authentication_status

/-- The tables `m` and `m1` have the same keys, and under each key entries for the same
participant. -/
def EntriesKept (m m1 : ParticipantMap) : Prop :=
  ∀ k, match m.find k, m1.find k with
    | some p, some p1 => SameIdentity p p1
    | none, none => True
    | _, _ => False

/-- The message `m` has one of the seven signed types and decodes, and its signature
does not verify under the key `key` (`verify` returns with `valid` false). -/
def signature_fails (X : Env) (m : Message) (key : PublicKey) : Prop :=
  match m.type with
  | .Authorization => ∃ sm, X.verify_authorization m key = some sm ∧ sm.valid = false
  | .ConsistencyCheck => ∃ sm, X.verify_consistency_check m key = some sm ∧ sm.valid = false
  | .KeyExchangePublicKey => ∃ sm, X.verify_key_exchange_public_key m key = some sm ∧ sm.valid = false
  | .KeyExchangeSecretShare => ∃ sm, X.verify_key_exchange_secret_share m key = some sm ∧ sm.valid = false
  | .KeyExchangeAcceptance => ∃ sm, X.verify_key_exchange_acceptance m key = some sm ∧ sm.valid = false
  | .KeyExchangeReveal => ∃ sm, X.verify_key_exchange_reveal m key = some sm ∧ sm.valid = false
  | .KeyActivation => ∃ sm, X.verify_key_activation m key = some sm ∧ sm.valid = false
  | _ => False

/-- The toy environment with a signature check that rejects the payload `forged`. -/
def demo_env_signed : Env :=
  { demo_env with
    verify_consistency_check := fun m _ => some ⟨decide (m.payload ≠ "forged"), ⟨⟨m.payload⟩⟩⟩ }

/-! ## Reading a channel-status message as the status constructor does -/

/-- The usernames a channel-status message lists, authorized participants first. -/
def status_usernames (s : ChannelStatusMessage) : List String :=
  s.participants.map (fun p => p.username) ++ s.unauthorized_participants.map (fun p => p.username)

/-- The key ids of the key exchanges a channel-status message lists. -/
def status_key_ids (s : ChannelStatusMessage) : List Hash :=
  s.key_exchanges.map (fun x => x.key_id)

/-- The key id of a channel event that decodes as a non-cancelled key-exchange event. -/
def live_key_id (X : Env) (s : ChannelStatusMessage) (ce : ChannelEvent) : Option Hash :=
  if is_key_exchange_type ce.type then
    match X.decode_key_exchange_event ce s with
    | some e => if e.cancelled then none else some e.key_id
    | none => none
  else none

/-- The key id of a channel event that decodes as a cancelled key-exchange event. -/
def cancelled_key_id (X : Env) (s : ChannelStatusMessage) (ce : ChannelEvent) : Option Hash :=
  if is_key_exchange_type ce.type then
    match X.decode_key_exchange_event ce s with
    | some e => if e.cancelled then some e.key_id else none
    | none => none
  else none

/-- The key id of a channel event that decodes as a key-activation event. -/
def activation_key_id (X : Env) (s : ChannelStatusMessage) (ce : ChannelEvent) : Option Hash :=
  if ce.type = .KeyActivation then
    match X.decode_key_activation_event ce s with
    | some e => some e.key_id
    | none => none
  else none

/-- The event that the status constructor queues for a channel event (lines 133-173):
`none` when the event has no event type or does not decode. -/
def event_of (X : Env) (s : ChannelStatusMessage) (ce : ChannelEvent) : Option Event :=
  if ce.type = .ChannelStatus then
    match X.decode_channel_status_event ce s with
    | some e => some { fresh_event X ce.type with channel_status := e }
    | none => none
  else if ce.type = .ConsistencyCheck then
    match X.decode_consistency_check_event ce s with
    | some e => some { fresh_event X ce.type with consistency_check := e }
    | none => none
  else if is_key_exchange_type ce.type then
    match X.decode_key_exchange_event ce s with
    | some e =>
      if e.cancelled then
        some { fresh_event X ce.type with
               key_event := { key_id := e.key_id, remaining_users := e.remaining_users } }
      else
        some { fresh_event X ce.type with
               key_event := { (fresh_event X ce.type).key_event with key_id := e.key_id } }
    | none => none
  else if ce.type = .KeyActivation then
    match X.decode_key_activation_event ce s with
    | some e => some { fresh_event X ce.type with key_event := e }
    | none => none
  else none

/-- The entry the status constructor stores for a listed authorized participant
(lines 68-74). -/
def status_entry (X : Env) (p : StatusParticipant) : Participant :=
  { default_participant X with
    username := p.username
    long_term_public_key := p.long_term_public_key
    ephemeral_public_key := p.ephemeral_public_key
    authorization_nonce := p.authorization_nonce
    authorized := true
    authentication_status := .Unauthenticated }

/-- The entry the status constructor stores for a listed unauthorized participant
(lines 88-104), the table being `m` when the entry is built. -/
def status_unauthorized_entry (X : Env) (m : ParticipantMap) (p : StatusUnauthorizedParticipant) :
    Participant :=
  { default_participant X with
    username := p.username
    long_term_public_key := p.long_term_public_key
    ephemeral_public_key := p.ephemeral_public_key
    authorization_nonce := p.authorization_nonce
    authorized := false
    authentication_status := .Unauthenticated
    authorized_by := p.authorized_by.filter (fun peer => m.count peer = true)
    authorized_peers := p.authorized_peers.filter (fun peer => m.count peer = true) }

/-- The event with the `remaining_users` of its `channel_status` sub-record replaced. -/
def with_status_users (e : Event) (users : Finset String) : Event :=
  { e with channel_status := { e.channel_status with remaining_users := users } }

/-- The channel with one more event at the back of its queue. -/
def push_event (c : Channel) (e : Event) : Channel :=
  { c with m_events := c.m_events ++ [e] }

/-- The conditions under which the event loop of the status constructor (lines 132-174)
runs to its end on the channel events `l`, `ids` being the key ids of the listed key
exchanges and `kx`, `ka` the key ids already seen in non-cancelled key-exchange events
and in key-activation events: every event has an event type and decodes; a non-cancelled
key-exchange event names a listed key exchange, not named by an earlier one; a cancelled
key-exchange event names no listed key exchange; a key-activation event names no listed
key exchange and no key id named by an earlier key-activation event. -/
def events_accepted (X : Env) (s : ChannelStatusMessage) (ids kx ka : Finset Hash)
    (l : List ChannelEvent) : Prop :=
  (∀ ce ∈ l, (event_of X s ce).isSome = true)
    ∧ (∀ k ∈ l.filterMap (live_key_id X s), k ∈ ids ∧ k ∉ kx)
    ∧ (l.filterMap (live_key_id X s)).Nodup
    ∧ (∀ k ∈ l.filterMap (cancelled_key_id X s), k ∉ ids)
    ∧ (∀ k ∈ l.filterMap (activation_key_id X s), k ∉ ids ∧ k ∉ ka)
    ∧ (l.filterMap (activation_key_id X s)).Nodup

/-- The conditions under which the status constructor accepts a channel-status message:
no username and no key-exchange id is listed twice, the event loop accepts the events,
and there are as many listed key exchanges as non-cancelled key-exchange events. -/
def status_accepted (X : Env) (s : ChannelStatusMessage) : Prop :=
  (status_usernames s).Nodup
    ∧ (status_key_ids s).Nodup
    ∧ events_accepted X s (status_key_ids s).toFinset ∅ ∅ s.events
    ∧ (status_key_ids s).length = (s.events.filterMap (live_key_id X s)).length

/-- The event that the status constructor builds for the status message itself (lines
61-65, 82, 113, 183). -/
def status_message_event (X : Env) (s : ChannelStatusMessage) (encoded_message : Message) : Event :=
  { fresh_event X .ChannelStatus with
    channel_status :=
      { searcher_username := s.searcher_username
        searcher_nonce := s.searcher_nonce
        status_message_hash := X.hash encoded_message.payload
        remaining_users := (status_usernames s).toFinset } }

/-- The channel that the status constructor builds from an accepted message. -/
def status_built (X : Env) (room : Room) (generated_key : PrivateKey) (nonce_hash : Hash)
    (s : ChannelStatusMessage) (encoded_message : Message) (c : Channel) : Prop :=
  c.m_room = room ∧ c.m_ephemeral_private_key = generated_key ∧ c.m_interface = false
    ∧ c.m_joined = false ∧ c.m_active = false ∧ c.m_authorized = false
    ∧ c.m_channel_status_hash = s.channel_status_hash
    ∧ c.m_authentication_nonce = nonce_hash
    ∧ c.sent = [] ∧ c.notifications = []
    ∧ c.m_encrypted_chat =
        s.participants.map (fun p => .do_add_user p.username p.long_term_public_key)
          ++ s.key_exchanges.map (fun x => .unserialize_key_exchange x)
    ∧ c.m_events = s.events.filterMap (event_of X s) ++ [status_message_event X s encoded_message]
    ∧ (∀ q ∈ s.participants, c.m_participants.find q.username = some (status_entry X q))
    ∧ (∀ q ∈ s.unauthorized_participants, ∃ m : ParticipantMap,
        (∀ p ∈ s.participants, m.count p.username = true)
        ∧ (∀ k, m.count k = true → k ∈ status_usernames s)
        ∧ c.m_participants.find q.username = some (status_unauthorized_entry X m q))
    ∧ (∀ k, k ∉ status_usernames s → c.m_participants.find k = none)

/-- The format errors of a channel-status message: a username listed twice among the
participants and the unauthorized participants; a key-exchange id listed twice; a
non-cancelled key-exchange event whose key id is not listed among the key exchanges; a
cancelled key-exchange event or a key-activation event whose key id is listed; two
non-cancelled key-exchange events, or two key-activation events, with the same key id;
an event of no event type; as many listed key exchanges as non-cancelled key-exchange
events failing. -/
def status_format_error (X : Env) (s : ChannelStatusMessage) : Prop :=
  ¬ (status_usernames s).Nodup
    ∨ ¬ (status_key_ids s).Nodup
    ∨ (∃ k ∈ s.events.filterMap (live_key_id X s), k ∉ status_key_ids s)
    ∨ (∃ k ∈ s.events.filterMap (cancelled_key_id X s), k ∈ status_key_ids s)
    ∨ (∃ k ∈ s.events.filterMap (activation_key_id X s), k ∈ status_key_ids s)
    ∨ ¬ (s.events.filterMap (live_key_id X s)).Nodup
    ∨ ¬ (s.events.filterMap (activation_key_id X s)).Nodup
    ∨ (∃ ce ∈ s.events, valid_event_type ce.type = false)
    ∨ s.key_exchanges.length ≠ (s.events.filterMap (live_key_id X s)).length

/-- A channel-status message that lists `alice` twice. -/
def demo_status_twice : ChannelStatusMessage :=
  { searcher_username := "carol"
    searcher_nonce := ⟨"nc"⟩
    channel_status_hash := ⟨"h"⟩
    participants := [⟨"alice", ⟨"alice-lt"⟩, ⟨"alice-eph"⟩, ⟨"n0"⟩⟩]
    unauthorized_participants := [⟨"alice", ⟨"alice-lt2"⟩, ⟨"alice-eph2"⟩, ⟨"n1"⟩, ∅, ∅⟩]
    key_exchanges := []
    events := [] }

/-- A channel-status message with one live key exchange `k1`, its event, and a
key-activation event for `k2`. -/
def demo_status_keys : ChannelStatusMessage :=
  { searcher_username := "carol"
    searcher_nonce := ⟨"nc"⟩
    channel_status_hash := ⟨"h"⟩
    participants := [⟨"alice", ⟨"alice-lt"⟩, ⟨"alice-eph"⟩, ⟨"n0"⟩⟩]
    unauthorized_participants := [⟨"bob", ⟨"bob-lt"⟩, ⟨"bob-eph"⟩, ⟨"n1"⟩, {"alice", "zed"}, ∅⟩]
    key_exchanges := [⟨⟨"k1"⟩, "state"⟩]
    events := [⟨.KeyExchangeSecretShare, "k1"⟩, ⟨.KeyActivation, "k2"⟩] }

/-- Every entry of the channel `c1` was an entry of `c`, with the same authentication
status. -/
def StatusBack (c c1 : Channel) : Prop :=
  ∀ k p1, c1.m_participants.find k = some p1 →
    ∃ p, c.m_participants.find k = some p ∧ p1.authentication_status = p.authentication_status

/-- The entry of the local user, if there is one, is `Authenticated`. -/
def SelfAuthenticated (c : Channel) : Prop :=
  ∀ p, c.m_participants.find c.m_room.username = some p → p.authentication_status = .Authenticated

/-- The channel states reachable through `message_received` and `user_left` from the
solo constructor, or from the status or the announcement constructor applied to a
message that does not list the local user. -/
inductive ReachableByMessages (X : Env) : Channel → Prop where
  | create (room : Room) (generated_key : PrivateKey) (nonce_hash : Hash) :
      ReachableByMessages X (Channel.create X room generated_key nonce_hash)
  | from_status (room : Room) (generated_key : PrivateKey) (nonce_hash : Hash)
      (channel_status : ChannelStatusMessage) (encoded_message : Message) (c : Channel)
      (hself : room.username ∉ status_usernames channel_status)
      (h : Channel.from_status X room generated_key nonce_hash channel_status encoded_message = .ok c) :
      ReachableByMessages X c
  | from_announcement (room : Room) (generated_key : PrivateKey) (nonce_hash : Hash)
      (channel_status : ChannelAnnouncementMessage) (sender : String)
      (hself : sender ≠ room.username) :
      ReachableByMessages X
        (Channel.from_announcement X room generated_key nonce_hash channel_status sender)
  | message_received (c c1 : Channel) (sender : String) (np1sec_message : Message)
      (hc : ReachableByMessages X c) (h : message_received X c sender np1sec_message = .ok c1) :
      ReachableByMessages X c1
  | user_left (c c1 : Channel) (username : String)
      (hc : ReachableByMessages X c) (h : user_left X c username = .ok c1) :
      ReachableByMessages X c1

/-- The channel that `alice` builds from an announcement by `bob`. -/
def demo_announced : Channel :=
  Channel.from_announcement demo_env demo_room ⟨"alice-eph"⟩ ⟨"n9"⟩
    ⟨⟨"bob-lt"⟩, ⟨"bob-eph"⟩, ⟨"h"⟩⟩ "bob"

/-! ## The status message of a channel, and what comes back from it -/

/-- Two channel-status messages that agree on everything but their events. -/
def same_header (r r1 : ChannelStatusMessage) : Prop :=
  r1.searcher_username = r.searcher_username ∧ r1.searcher_nonce = r.searcher_nonce
    ∧ r1.channel_status_hash = r.channel_status_hash ∧ r1.participants = r.participants
    ∧ r1.unauthorized_participants = r.unauthorized_participants
    ∧ r1.key_exchanges = r.key_exchanges

/-- The message that `channel_status` builds and then encodes (lines 966-1022). -/
def status_message (X : Env) (c : Channel) (searcher_username : String) (searcher_nonce : Hash) :
    Except Fault ChannelStatusMessage :=
  status_events X c.m_encrypted_chat c.m_events
    { searcher_username := searcher_username
      searcher_nonce := searcher_nonce
      channel_status_hash := c.m_channel_status_hash
      participants := status_participants c.m_participants
      unauthorized_participants := status_unauthorized_participants c.m_participants
      key_exchanges := X.encode_key_exchanges c.m_encrypted_chat
      events := [] }

/-- The wire form that `channel_status` gives a key-exchange event (lines 1001-1009):
`remaining_users` is carried only when the key exchange no longer exists in the
collaborator. -/
def key_exchange_wire (X : Env) (chat : List EncryptedChatCall) (e : Event) : KeyExchangeEvent :=
  if X.have_key_exchange chat e.key_event.key_id then
    { type := e.type, key_id := e.key_event.key_id, cancelled := false, remaining_users := ∅ }
  else
    { type := e.type, key_id := e.key_event.key_id, cancelled := true,
      remaining_users := e.key_event.remaining_users }

/-- The channel event that `channel_status` appends for a queued event, encoded against
the message `r` built so far (lines 993-1019). -/
def encoded_event (X : Env) (chat : List EncryptedChatCall) (e : Event)
    (r : ChannelStatusMessage) : ChannelEvent :=
  if e.type = .ChannelStatus then X.encode_channel_status_event e.channel_status r
  else if e.type = .ConsistencyCheck then X.encode_consistency_check_event e.consistency_check r
  else if is_key_exchange_type e.type then X.encode_key_exchange_event (key_exchange_wire X chat e) r
  else X.encode_key_activation_event e.key_event r

/-- What is left of a queued event after `channel_status` and status construction: its
type and the sub-record that its type selects, the other sub-records as
default-constructed; of the key-exchange event of a key exchange that exists in the
collaborator only the key id is left. -/
def wire_event (X : Env) (chat : List EncryptedChatCall) (e : Event) : Event :=
  if e.type = .ChannelStatus then { fresh_event X e.type with channel_status := e.channel_status }
  else if e.type = .ConsistencyCheck then
    { fresh_event X e.type with consistency_check := e.consistency_check }
  else if is_key_exchange_type e.type then
    if X.have_key_exchange chat e.key_event.key_id then
      { fresh_event X e.type with
        key_event := { (fresh_event X e.type).key_event with key_id := e.key_event.key_id } }
    else { fresh_event X e.type with key_event := e.key_event }
  else { fresh_event X e.type with key_event := e.key_event }

/-- The event codec decodes, against the finished status message `r`, what it encoded of
the event `e` against a message with the same header, and the encoded event carries the
type of `e`. -/
def event_codec_ok (X : Env) (chat : List EncryptedChatCall) (r : ChannelStatusMessage)
    (e : Event) : Prop :=
  ∀ r1, same_header r r1 →
    (e.type = .ChannelStatus →
      (X.encode_channel_status_event e.channel_status r1).type = .ChannelStatus
      ∧ X.decode_channel_status_event (X.encode_channel_status_event e.channel_status r1) r
          = some e.channel_status)
    ∧ (e.type = .ConsistencyCheck →
      (X.encode_consistency_check_event e.consistency_check r1).type = .ConsistencyCheck
      ∧ X.decode_consistency_check_event (X.encode_consistency_check_event e.consistency_check r1) r
          = some e.consistency_check)
    ∧ (is_key_exchange_type e.type = true →
      (X.encode_key_exchange_event (key_exchange_wire X chat e) r1).type = e.type
      ∧ X.decode_key_exchange_event (X.encode_key_exchange_event (key_exchange_wire X chat e) r1) r
          = some (key_exchange_wire X chat e))
    ∧ (e.type = .KeyActivation →
      (X.encode_key_activation_event e.key_event r1).type = .KeyActivation
      ∧ X.decode_key_activation_event (X.encode_key_activation_event e.key_event r1) r
          = some e.key_event)

/-- The key ids of the queued key-exchange events whose key exchange exists in the
collaborator. -/
def live_ids (X : Env) (c : Channel) : List Hash :=
  (c.m_events.filter (fun e =>
    is_key_exchange_type e.type && X.have_key_exchange c.m_encrypted_chat e.key_event.key_id)).map
    (fun e => e.key_event.key_id)

/-- The key ids of the queued key-exchange events whose key exchange no longer exists in
the collaborator. -/
def cancelled_ids (X : Env) (c : Channel) : List Hash :=
  (c.m_events.filter (fun e =>
    is_key_exchange_type e.type && !X.have_key_exchange c.m_encrypted_chat e.key_event.key_id)).map
    (fun e => e.key_event.key_id)

/-- The key ids of the queued key-activation events. -/
def activation_ids (c : Channel) : List Hash :=
  (c.m_events.filter (fun e => decide (e.type = .KeyActivation))).map (fun e => e.key_event.key_id)

/-- The collaborator and the event queue agree as status construction requires: the
collaborator serializes each of its key exchanges once, `have_key_exchange` holds
exactly of their key ids, each of them has exactly one queued key-exchange event, and
the queued key-activation events name other key ids, each once. -/
def collaborator_consistent (X : Env) (c : Channel) : Prop :=
  ((X.encode_key_exchanges c.m_encrypted_chat).map (fun x => x.key_id)).Nodup
    ∧ (∀ e ∈ c.m_events, is_key_exchange_type e.type = true →
        (X.have_key_exchange c.m_encrypted_chat e.key_event.key_id = true
          ↔ e.key_event.key_id ∈ (X.encode_key_exchanges c.m_encrypted_chat).map (fun x => x.key_id)))
    ∧ (live_ids X c).Nodup
    ∧ ((X.encode_key_exchanges c.m_encrypted_chat).map (fun x => x.key_id)).length
        = (live_ids X c).length
    ∧ (∀ k ∈ activation_ids c,
        k ∉ (X.encode_key_exchanges c.m_encrypted_chat).map (fun x => x.key_id))
    ∧ (activation_ids c).Nodup

/-- Every entry of the table is stored under its username. -/
def KeyedByUsername (m : ParticipantMap) : Prop :=
  ∀ i ∈ m.entries, i.2.username = i.1

/-- Every member of a witness set is the key of an authorized participant. -/
def WitnessesAuthorized (m : ParticipantMap) : Prop :=
  ∀ i ∈ m.entries, ∀ w, w ∈ i.2.authorized_by ∨ w ∈ i.2.authorized_peers →
    ∃ q, m.find w = some q ∧ q.authorized = true

/-- The wire codecs decode what they encode of the channel `c` for the searcher
`(searcher_username, searcher_nonce)`: the status message that `channel_status` builds
is decoded from its encoding, and so is each queued event. -/
def codec_round_trip_at (X : Env) (c : Channel) (searcher_username : String)
    (searcher_nonce : Hash) : Prop :=
  ∀ r, status_message X c searcher_username searcher_nonce = .ok r →
    X.decode_channel_status (X.encode_channel_status r) = some r
      ∧ ∀ e ∈ c.m_events, event_codec_ok X c.m_encrypted_chat r e

instance (m : ParticipantMap) : Decidable (KeyedByUsername m) := by
  unfold KeyedByUsername; infer_instance

/-- The status message of the channel `demo_exchange` below for the searcher `carol`. -/
def demo_wire_status : ChannelStatusMessage :=
  { searcher_username := "carol"
    searcher_nonce := ⟨"nc"⟩
    channel_status_hash := ⟨"n0"⟩
    participants := [⟨"alice", ⟨"alice-lt"⟩, ⟨"alice-eph"⟩, ⟨"n0"⟩⟩]
    unauthorized_participants := []
    key_exchanges := [⟨⟨"k1"⟩, "state"⟩]
    events := [⟨.KeyExchangePublicKey, "k1"⟩] }

/-- The toy environment with a collaborator that holds the key exchange `k1`, and a
status decoder that recognises the encoding of `demo_wire_status`. -/
def demo_wire : Env :=
  { demo_env with
    decode_channel_status := fun m =>
      if m = demo_env.encode_channel_status demo_wire_status then some demo_wire_status else none
    have_key_exchange := fun _ k => decide (k = ⟨"k1"⟩)
    encode_key_exchanges := fun _ => [⟨⟨"k1"⟩, "state"⟩] }

/-- The solo channel of `alice` after the collaborator queued the first event of the key
exchange `k1`, owed by `alice`. -/
def demo_exchange : Channel :=
  add_key_exchange_event demo_wire (Channel.create demo_wire demo_room ⟨"alice-eph"⟩ ⟨"n0"⟩)
    .KeyExchangePublicKey ⟨"k1"⟩ {"alice"}

/-! ## Decode failures, lost key exchanges, the oldest event -/

/-- The payload of a message of one of the seven unsigned types does not decode: the
`decode` call of that type's branch throws `MessageFormatException`. -/
def decode_fails (X : Env) (m : Message) : Prop :=
  match m.type with
  | .ChannelSearch => X.decode_channel_search m = none
  | .ChannelStatus => X.decode_channel_status m = none
  | .ChannelAnnouncement => X.decode_channel_announcement m = none
  | .JoinRequest => X.decode_join_request m = none
  | .AuthenticationRequest => X.decode_authentication_request m = none
  | .Authentication => X.decode_authentication m = none
  | .Chat => X.decode_chat m = none
  | _ => False

/-- The toy environment with ChannelSearch, JoinRequest and Chat decoders that reject
every payload. -/
def demo_env_strict : Env :=
  { demo_env with
    decode_channel_search := fun _ => none
    decode_join_request := fun _ => none
    decode_chat := fun _ => none }

/-- The toy environment with a collaborator that holds no key exchange and no session
any more. -/
def demo_env_gone : Env :=
  { demo_env with
    have_key_exchange := fun _ _ => false
    have_session := fun _ _ => false }

/-- The solo channel of `alice` after the collaborator queued the first event of the key
exchange `k`, owed by `alice`, and then lost that key exchange. -/
def demo_pending : Channel :=
  add_key_exchange_event demo_env_gone (Channel.create demo_env_gone demo_room ⟨"alice-eph"⟩ ⟨"n0"⟩)
    .KeyExchangePublicKey ⟨"k"⟩ {"alice"}

/-- The same channel with a KeyExchangeSecretShare event in place of the
KeyExchangePublicKey event. -/
def demo_pending_share : Channel :=
  add_key_exchange_event demo_env_gone (Channel.create demo_env_gone demo_room ⟨"alice-eph"⟩ ⟨"n0"⟩)
    .KeyExchangeSecretShare ⟨"k"⟩ {"alice"}

/-- The position `n` is the first one of the queue whose event lists `username`. -/
def first_listing (events : List Event) (username : String) (n : Nat) (e : Event) : Prop :=
  events[n]? = some e ∧ username ∈ e.remaining_users
    ∧ ∀ k e0, k < n → events[k]? = some e0 → username ∉ e0.remaining_users

/-! ## The ChannelSearch branch and `authorize` -/

/-- The event built at lines 316-322: a ConsistencyCheck event with the given hash and
users. -/
def queued_check_event (X : Env) (channel_status_hash : Hash) (remaining_users : Finset String) :
    Event :=
  { fresh_event X .ConsistencyCheck with
    consistency_check :=
      { channel_status_hash := channel_status_hash, remaining_users := remaining_users } }

/-- The event built at lines 332-340: a ChannelStatus event for the given searcher. -/
def queued_status_event (X : Env) (searcher_username : String) (searcher_nonce : Hash)
    (status_message_hash : Hash) (remaining_users : Finset String) : Event :=
  { fresh_event X .ChannelStatus with
    channel_status :=
      { searcher_username := searcher_username
        searcher_nonce := searcher_nonce
        status_message_hash := status_message_hash
        remaining_users := remaining_users } }

/-- The channel with its `m_active` flag replaced. -/
def with_active (c : Channel) (active : Bool) : Channel :=
  { c with m_active := active }

/-- The reference `self` of `authorize` (line 276): the entry of the local user, a
default-constructed one when the table has none. -/
def local_entry (X : Env) (c : Channel) : Participant :=
  (ParticipantMap.subscript X c.m_participants c.m_room.username).2

/-- The obligation of the local user towards the participant `p` stored under
`username` is not yet discharged: the local user is authorized, `p` is not and does
not list the local user in `authorized_by`; or the local user is unauthorized, `p` is
authorized and the local user does not list `username` in `authorized_peers`. -/
def authorization_due (X : Env) (c : Channel) (username : String) (p : Participant) : Prop :=
  c.m_participants.find username = some p ∧ username ≠ c.m_room.username
    ∧ (((local_entry X c).authorized = true ∧ p.authorized = false
          ∧ c.m_room.username ∉ p.authorized_by)
      ∨ ((local_entry X c).authorized = false ∧ p.authorized = true
          ∧ username ∉ (local_entry X c).authorized_peers))

/-! ## Reachable states, with the key-exchange events the collaborator queues -/

/-- The channel states reachable from a constructor through the public operations,
`add_key_exchange_event` being given one of the four KeyExchange types only (the
collaborator calls it with no other type). -/
inductive ReachableTyped (X : Env) : Channel → Prop where
  | create (room : Room) (generated_key : PrivateKey) (nonce_hash : Hash) :
      ReachableTyped X (Channel.create X room generated_key nonce_hash)
  | from_status (room : Room) (generated_key : PrivateKey) (nonce_hash : Hash)
      (channel_status : ChannelStatusMessage) (encoded_message : Message) (c : Channel)
      (h : Channel.from_status X room generated_key nonce_hash channel_status encoded_message = .ok c) :
      ReachableTyped X c
  | from_announcement (room : Room) (generated_key : PrivateKey) (nonce_hash : Hash)
      (channel_status : ChannelAnnouncementMessage) (sender : String) :
      ReachableTyped X (Channel.from_announcement X room generated_key nonce_hash channel_status sender)
  | message_received (c c1 : Channel) (sender : String) (np1sec_message : Message)
      (hc : ReachableTyped X c) (h : message_received X c sender np1sec_message = .ok c1) :
      ReachableTyped X c1
  | user_left (c c1 : Channel) (username : String)
      (hc : ReachableTyped X c) (h : user_left X c username = .ok c1) : ReachableTyped X c1
  | send_chat (c : Channel) (message : String) (hc : ReachableTyped X c) :
      ReachableTyped X (send_chat c message)
  | announce (c : Channel) (hc : ReachableTyped X c) : ReachableTyped X (announce X c)
  | confirm_participant (c : Channel) (username : String) (hc : ReachableTyped X c) :
      ReachableTyped X (confirm_participant X c username)
  | join (c : Channel) (hc : ReachableTyped X c) : ReachableTyped X (join X c)
  | activate (c : Channel) (hc : ReachableTyped X c) : ReachableTyped X (activate c)
  | channel_status_timer (c : Channel) (hc : ReachableTyped X c) :
      ReachableTyped X (channel_status_timer X c)
  | authorize (c : Channel) (username : String) (hc : ReachableTyped X c) :
      ReachableTyped X (authorize X c username)
  | add_key_exchange_event (c : Channel) (type : MessageType) (key_id : Hash)
      (usernames : Finset String) (htype : is_key_exchange_type type = true)
      (hc : ReachableTyped X c) :
      ReachableTyped X (add_key_exchange_event X c type key_id usernames)
  | add_key_activation_event (c : Channel) (key_id : Hash) (usernames : Finset String)
      (hc : ReachableTyped X c) : ReachableTyped X (add_key_activation_event X c key_id usernames)
  | set_interface (c : Channel) (present : Bool) (hc : ReachableTyped X c) :
      ReachableTyped X (set_interface c present)

/-! ## The promotion pass of `remove_users` -/

/-- Every member of a witness set is an authorized participant: it is the username of
an entry of the table, and every entry with that username is authorized. -/
def WitnessesNamed (m : ParticipantMap) : Prop :=
  ∀ i ∈ m.entries, ∀ w ∈ i.2.authorized_by ∪ i.2.authorized_peers,
    (∃ q ∈ m.entries, q.2.username = w) ∧ ∀ q ∈ m.entries, q.2.username = w → q.2.authorized = true

instance (m : ParticipantMap) : Decidable (WitnessesNamed m) := by
  unfold WitnessesNamed; infer_instance

/-- The witnesses of the unauthorized entries name authorized entries only. -/
def UnauthorizedNameAuthorized (m : ParticipantMap) : Prop :=
  ∀ k u, m.find k = some u → u.authorized = false →
    ∀ w, w ∈ u.authorized_by ∨ w ∈ u.authorized_peers →
      ∀ k1 q, m.find k1 = some q → q.username = w → q.authorized = true

/-- The table `m1` holds entries of `m` only, with the same username and authorized
flag, and witness sets that have not grown. -/
def Reduced (m m1 : ParticipantMap) : Prop :=
  ∀ k p1, m1.find k = some p1 →
    ∃ p, m.find k = some p ∧ p1.username = p.username ∧ p1.authorized = p.authorized
      ∧ p1.authorized_by ⊆ p.authorized_by ∧ p1.authorized_peers ⊆ p.authorized_peers

/-- The entry under `key` is unauthorized in `c` and authorized in `c1`. -/
def promoted_between (c c1 : Channel) (key : String) : Prop :=
  ∃ p q, c.m_participants.find key = some p ∧ p.authorized = false
    ∧ c1.m_participants.find key = some q ∧ q.authorized = true

/-- The authorized participant `carol` of the examples. -/
def demo_carol : Participant :=
  { username := "carol"
    long_term_public_key := ⟨"carol-lt"⟩
    ephemeral_public_key := ⟨"carol-eph"⟩
    authorization_nonce := ⟨"n0"⟩
    authorized := true
    authentication_status := .Authenticated
    authorized_by := ∅
    authorized_peers := ∅ }

/-- The channel of `alice` with the authorized participant `carol` and the unauthorized
participant `bob`, whom `alice` and `carol` have authorized and who has authorized
`alice` only. -/
def demo_trio : Channel :=
  { demo_solo with
    m_participants :=
      (demo_solo.m_participants.assign "bob" (demo_bob {"alice", "carol"} {"alice"})).assign
        "carol" demo_carol }

/-! # Theorems -/

/-! ## Facts about the participant table -/

namespace Entries

theorem lookup_update_all (l : Entries) (f : String → Participant → Participant) (k : String) :
    find (update_all l f) k = (find l k).map (f k) := by
  induction l with
  | nil => rfl
  | cons hd tl ih =>
    obtain ⟨k1, p⟩ := hd
    simp only [update_all, List.map_cons, find]
    split_ifs with h
    · subst h; rfl
    · exact ih

theorem lookup_erase (l : Entries) (key k : String) :
    find (erase l key) k = if k = key then none else find l k := by
  induction l with
  | nil => simp [erase, find]
  | cons hd tl ih =>
    obtain ⟨k1, p⟩ := hd
    by_cases h1 : k1 = key
    · have : erase ((k1, p) :: tl) key = erase tl key := by simp [erase, h1]
      rw [this, ih]
      subst h1
      by_cases h2 : k = k1
      · simp [h2]
      · have h3 : ¬ k1 = k := fun h => h2 h.symm
        simp [h2, find, h3]
    · have : erase ((k1, p) :: tl) key = (k1, p) :: erase tl key := by simp [erase, h1]
      rw [this]
      simp only [find]
      split_ifs with h2 h3
      · subst h2; exact absurd h3 h1
      · rfl
      · rw [ih]; simp [*]
      · rw [ih]; simp [*]

theorem lookup_assign (l : Entries) (key k : String) (v : Participant) :
    find (assign l key v) k = if k = key then some v else find l k := by
  induction l with
  | nil =>
    simp only [assign, find]
    by_cases h : key = k
    · simp [h]
    · have : ¬ k = key := fun h1 => h h1.symm
      simp [h, this]
  | cons hd tl ih =>
    obtain ⟨k1, p⟩ := hd
    simp only [assign]
    by_cases hk : k = key
    · subst hk
      rw [if_pos rfl]
      split_ifs with h1 h2
      · simp [find]
      · simp [find]
      · simp [find, h1, ih]
    · have hk2 : ¬ key = k := fun h => hk h.symm
      rw [if_neg hk]
      split_ifs with h1 h2
      · subst h1
        simp [find, hk2]
      · simp [find, hk2]
      · simp [find, ih, hk]

theorem mem_of_lookup {l : Entries} {k : String} {p : Participant} (h : find l k = some p) :
    (k, p) ∈ l := by
  induction l with
  | nil => simp [find] at h
  | cons hd tl ih =>
    obtain ⟨k1, p1⟩ := hd
    simp only [find] at h
    split_ifs at h with h1
    · cases h; subst h1; exact List.mem_cons_self _ _
    · exact List.mem_cons_of_mem _ (ih h)

theorem lookup_of_mem {l : Entries} (hl : Sorted l) {k : String} {p : Participant} (h : (k, p) ∈ l) :
    find l k = some p := by
  induction l with
  | nil => simp at h
  | cons hd tl ih =>
    obtain ⟨k1, p1⟩ := hd
    have hl2 := List.pairwise_cons.1 hl
    simp only [find]
    rcases List.mem_cons.1 h with h | h
    · cases h; simp
    · have hlt := hl2.1 _ h
      have hne : ¬ k1 = k := by
        intro he
        subst he
        simp [string_lt_irrefl] at hlt
      simp only [hne, if_false]
      exact ih hl2.2 h

end Entries

/-! ## Authentication tokens (C6, C7) -/

/-- C6 (authentication token symmetry): when the triple Diffie-Hellman value is the same
at both endpoints, the token that `a` computes to send to `b` (`for_peer = false`, with
the identity of `b` as arguments) equals the token that `b` computes to verify it
(`for_peer = true`, with the identity of `a` as arguments), for every nonce. -/
theorem authentication_token_symmetry (X : Env) (a b : Channel) (nonce : Hash)
    (h : X.triple_diffie_hellman a.m_room.long_term_private_key a.m_ephemeral_private_key
          b.m_room.long_term_public_key (ephemeral_public_key X b)
        = X.triple_diffie_hellman b.m_room.long_term_private_key b.m_ephemeral_private_key
          a.m_room.long_term_public_key (ephemeral_public_key X a)) :
    authentication_token X a b.m_room.username b.m_room.long_term_public_key
        (ephemeral_public_key X b) nonce false
      = authentication_token X b a.m_room.username a.m_room.long_term_public_key
        (ephemeral_public_key X a) nonce true := by
  simp only [authentication_token, authentication_token_buffer, h]
  simp

/-- Witness of C6 on the solo channels of `alice` and `bob`. -/
theorem authentication_token_symmetry_witness :
    authentication_token demo_env demo_solo demo_solo_bob.m_room.username
        demo_solo_bob.m_room.long_term_public_key (ephemeral_public_key demo_env demo_solo_bob)
        ⟨"n0"⟩ false
      = authentication_token demo_env demo_solo_bob demo_solo.m_room.username
        demo_solo.m_room.long_term_public_key (ephemeral_public_key demo_env demo_solo)
        ⟨"n0"⟩ true :=
  authentication_token_symmetry demo_env demo_solo demo_solo_bob ⟨"n0"⟩ (by decide)

/-- C7 as stated fails: the buffer `alice` hashes to send a token to `bob`
(`for_peer = false`) does not end in the key and username of the receiver `bob`. -/
theorem authentication_token_not_receiver_identity :
    authentication_token_buffer demo_env demo_solo "bob" ⟨"bob-lt"⟩ ⟨"bob-eph"⟩ ⟨"n0"⟩ false
      ≠ (demo_env.triple_diffie_hellman demo_solo.m_room.long_term_private_key
            demo_solo.m_ephemeral_private_key ⟨"bob-lt"⟩ ⟨"bob-eph"⟩).as_string
          ++ (⟨"n0"⟩ : Hash).as_string ++ (⟨"bob-lt"⟩ : PublicKey).as_string ++ "bob" := by
  decide

/-- C7, amended: the identity appended after the triple Diffie-Hellman value and the
nonce is that of the user who sends the token.  With `for_peer = false` it is the local
user's long-term public key and username; with `for_peer = true` it is the long-term
public key and username given as arguments, those of the peer whose token is verified. -/
theorem authentication_token_sender_identity (X : Env) (c : Channel) (username : String)
    (long_term_public_key ephemeral_public_key : PublicKey) (nonce : Hash) :
    authentication_token_buffer X c username long_term_public_key ephemeral_public_key nonce false
        = (X.triple_diffie_hellman c.m_room.long_term_private_key c.m_ephemeral_private_key
              long_term_public_key ephemeral_public_key).as_string
            ++ nonce.as_string ++ c.m_room.long_term_public_key.as_string ++ c.m_room.username
    ∧ authentication_token_buffer X c username long_term_public_key ephemeral_public_key nonce true
        = (X.triple_diffie_hellman c.m_room.long_term_private_key c.m_ephemeral_private_key
              long_term_public_key ephemeral_public_key).as_string
            ++ nonce.as_string ++ long_term_public_key.as_string ++ username
    ∧ authentication_token X c username long_term_public_key ephemeral_public_key nonce false
        = X.hash (authentication_token_buffer X c username long_term_public_key
            ephemeral_public_key nonce false)
    ∧ authentication_token X c username long_term_public_key ephemeral_public_key nonce true
        = X.hash (authentication_token_buffer X c username long_term_public_key
            ephemeral_public_key nonce true) := by
  simp [authentication_token, authentication_token_buffer]

/-! ## Promotion (C3) -/

namespace ParticipantMap

theorem find_modify (m : ParticipantMap) (key k : String) (f : Participant → Participant) :
    (m.modify key f).find k = if k = key then (m.find k).map f else m.find k := by
  unfold modify find update_all
  rw [Entries.lookup_update_all]
  split_ifs with h
  · rfl
  · cases Entries.find m.entries k <;> rfl

theorem find_erase (m : ParticipantMap) (key k : String) :
    (m.erase key).find k = if k = key then none else m.find k :=
  Entries.lookup_erase m.entries key k

theorem find_assign (m : ParticipantMap) (key k : String) (v : Participant) :
    (m.assign key v).find k = if k = key then some v else m.find k :=
  Entries.lookup_assign m.entries key k v

theorem find_update_all (m : ParticipantMap) (f : String → Participant → Participant) (k : String) :
    (m.update_all f).find k = (m.find k).map (f k) :=
  Entries.lookup_update_all m.entries f k

theorem mem_of_find {m : ParticipantMap} {k : String} {p : Participant} (h : m.find k = some p) :
    (k, p) ∈ m.entries := Entries.mem_of_lookup h

theorem find_of_mem {m : ParticipantMap} {k : String} {p : Participant} (h : (k, p) ∈ m.entries) :
    m.find k = some p := Entries.lookup_of_mem m.sorted h

theorem ext {a b : ParticipantMap} (h : a.entries = b.entries) : a = b := by
  cases a; cases b; simp_all

end ParticipantMap

theorem quorum_reached_iff (participant : Participant) (l : Entries) :
    quorum_reached participant l = true ↔
      ∀ i ∈ l, i.2.authorized = true →
        i.2.username ∈ participant.authorized_by ∧ i.2.username ∈ participant.authorized_peers := by
  induction l with
  | nil => simp [quorum_reached]
  | cons hd tl ih =>
    obtain ⟨k, i⟩ := hd
    simp only [quorum_reached, List.mem_cons, forall_eq_or_imp]
    by_cases ha : i.authorized = true
    · by_cases h1 : i.username ∈ participant.authorized_by
      · by_cases h2 : i.username ∈ participant.authorized_peers
        · simp [ha, h1, h2, ih]
        · simp [ha, h1, h2]
      · simp [ha, h1]
    · simp [ha, ih]

theorem try_promote_spec (c : Channel) (key : String) (u : Participant)
    (hfind : c.m_participants.find key = some u) (hun : u.authorized = false) :
    (symmetric_quorum c.m_participants u →
      ∃ c1, try_promote_unauthorized_participant c key = .ok (true, c1)
        ∧ c1.m_participants.find key
            = some { u with authorized := true, authorized_by := ∅, authorized_peers := ∅ }
        ∧ (∀ k, k ≠ key → c1.m_participants.find k = c.m_participants.find k)
        ∧ c1.m_events = c.m_events)
    ∧ (¬ symmetric_quorum c.m_participants u →
        try_promote_unauthorized_participant c key = .ok (false, c))
    ∧ (symmetric_quorum c.m_participants u ↔
        ∃ c1, try_promote_unauthorized_participant c key = .ok (true, c1)) := by
  have hq := quorum_reached_iff u c.m_participants.entries
  refine ⟨?_, ?_, ?_⟩
  · intro h
    have hq1 : quorum_reached u c.m_participants.entries = true := hq.2 h
    simp only [try_promote_unauthorized_participant, hfind, hun, hq1, if_true, Bool.false_eq_true,
      if_false, Except.ok.injEq, Prod.mk.injEq, true_and, exists_eq_left']
    refine ⟨?_, ?_, ?_⟩
    · simp only [notify]
      split_ifs <;> simp [ParticipantMap.find_modify, hfind]
    · intro k hk
      simp only [notify]
      split_ifs <;> simp [ParticipantMap.find_modify, hk]
    · simp only [notify]
      split_ifs <;> rfl
  · intro h
    have hq1 : ¬ quorum_reached u c.m_participants.entries = true := fun h1 => h (hq.1 h1)
    simp [try_promote_unauthorized_participant, hfind, hun, hq1]
  · constructor
    · intro h
      have hq1 : quorum_reached u c.m_participants.entries = true := hq.2 h
      simp [try_promote_unauthorized_participant, hfind, hun, hq1]
    · rintro ⟨c1, h1⟩
      by_contra h
      have hq1 : ¬ quorum_reached u c.m_participants.entries = true := fun h1 => h (hq.1 h1)
      simp [try_promote_unauthorized_participant, hfind, hun, hq1] at h1

/-- C3 (authorization symmetry): for an unauthorized participant `u` stored under `key`,
if every authorized participant of the table is in `authorized_by(u)` and in
`authorized_peers(u)` then `try_promote_unauthorized_participant` returns `true`, the
entry of `u` becomes authorized with both sets empty, and every other entry is unchanged;
if not, it returns `false` and the whole channel state is unchanged.  Hence it returns
`true` exactly when the quorum holds. -/
theorem authorization_symmetry (c : Channel) (key : String) (u : Participant)
    (hfind : c.m_participants.find key = some u) (hun : u.authorized = false) :
    (symmetric_quorum c.m_participants u →
      ∃ c1, try_promote_unauthorized_participant c key = .ok (true, c1)
        ∧ c1.m_participants.find key
            = some { u with authorized := true, authorized_by := ∅, authorized_peers := ∅ }
        ∧ (∀ k, k ≠ key → c1.m_participants.find k = c.m_participants.find k)
        ∧ c1.m_events = c.m_events)
    ∧ (¬ symmetric_quorum c.m_participants u →
        try_promote_unauthorized_participant c key = .ok (false, c))
    ∧ (symmetric_quorum c.m_participants u ↔
        ∃ c1, try_promote_unauthorized_participant c key = .ok (true, c1)) :=
  try_promote_spec c key u hfind hun

/-- Witness of C3: with `alice` in both witness sets of `bob`, `bob` is promoted. -/
theorem authorization_symmetry_witness :
    symmetric_quorum (demo_pair {"alice"} {"alice"}).m_participants (demo_bob {"alice"} {"alice"}) ↔
      ∃ c1, try_promote_unauthorized_participant (demo_pair {"alice"} {"alice"}) "bob" = .ok (true, c1) :=
  (authorization_symmetry (demo_pair {"alice"} {"alice"}) "bob" (demo_bob {"alice"} {"alice"})
    rfl rfl).2.2

/-! ## Members that the dispatch never writes -/

theorem frame_refl (c : Channel) : Frame c c := ⟨rfl, rfl, rfl, rfl, rfl, rfl⟩

theorem frame_trans {a b c : Channel} (h1 : Frame a b) (h2 : Frame b c) : Frame a c := by
  obtain ⟨h11, h12, h13, h14, h15, h16⟩ := h1
  obtain ⟨h21, h22, h23, h24, h25, h26⟩ := h2
  exact ⟨h21.trans h11, h22.trans h12, h23.trans h13, h24.trans h14, h25.trans h15, h26.trans h16⟩

theorem frame_notify (c : Channel) (n : Notification) : Frame c (notify c n) := by
  unfold notify; split <;> exact ⟨rfl, rfl, rfl, rfl, rfl, rfl⟩

theorem frame_send_message (c : Channel) (m : Message) : Frame c (send_message c m) :=
  ⟨rfl, rfl, rfl, rfl, rfl, rfl⟩

theorem frame_encrypted_chat (c : Channel) (call : EncryptedChatCall) :
    Frame c (encrypted_chat c call) :=
  ⟨rfl, rfl, rfl, rfl, rfl, rfl⟩

theorem frame_set_authentication_status (c : Channel) (key : String) (s : AuthenticationStatus) :
    Frame c (set_authentication_status c key s) :=
  ⟨rfl, rfl, rfl, rfl, rfl, rfl⟩

theorem frame_set_participants (c : Channel) (m : ParticipantMap) :
    Frame c { c with m_participants := m } :=
  ⟨rfl, rfl, rfl, rfl, rfl, rfl⟩

theorem frame_set_events (c : Channel) (es : List Event) :
    Frame c { c with m_events := es } :=
  ⟨rfl, rfl, rfl, rfl, rfl, rfl⟩

theorem frame_try_promote {c c1 : Channel} {key : String} {b : Bool}
    (h : try_promote_unauthorized_participant c key = .ok (b, c1)) : Frame c c1 := by
  unfold try_promote_unauthorized_participant at h
  split at h
  · cases h
  · split_ifs at h <;> simp only [Except.ok.injEq, Prod.mk.injEq, reduceCtorEq] at h
    all_goals obtain ⟨-, rfl⟩ := h
    all_goals simp [Frame, notify]
    all_goals split_ifs <;> simp

theorem frame_do_remove_user {c c1 : Channel} {username : String}
    (h : do_remove_user c username = .ok c1) : Frame c c1 := by
  unfold do_remove_user at h
  split_ifs at h
  cases h
  exact frame_trans ⟨rfl, rfl, rfl, rfl, rfl, rfl⟩ (frame_notify _ _)

theorem frame_remove_users_loop {usernames : List String} {c c1 : Channel}
    (h : remove_users_loop c usernames = .ok c1) : Frame c c1 := by
  induction usernames generalizing c with
  | nil => cases h; exact frame_refl _
  | cons u rest ih =>
    unfold remove_users_loop at h
    split_ifs at h
    · exact ih h
    · split at h
      · cases h
      · rename_i c2 h2
        exact frame_trans (frame_do_remove_user h2) (ih h)

theorem frame_promote_loop {l : Entries} {c c1 : Channel}
    (h : promote_loop c l = .ok c1) : Frame c c1 := by
  induction l generalizing c with
  | nil => cases h; exact frame_refl _
  | cons hd rest ih =>
    obtain ⟨key, p⟩ := hd
    unfold promote_loop at h
    split_ifs at h
    · split at h
      · cases h
      · rename_i c2 h2
        cases h
        exact frame_trans (frame_try_promote h2) (frame_encrypted_chat _ _)
      · rename_i c2 h2
        exact frame_trans (frame_try_promote h2) (ih h)
    · exact ih h

theorem frame_remove_users {c c1 : Channel} {usernames : List String}
    (h : remove_users c usernames = .ok c1) : Frame c c1 := by
  unfold remove_users at h
  split at h
  · cases h
  · rename_i c2 h2
    split at h
    · cases h
    · rename_i c3 h3
      cases h
      exact frame_trans (frame_remove_users_loop h2)
        (frame_trans (frame_promote_loop h3) (frame_encrypted_chat _ _))

theorem frame_remove_user {c c1 : Channel} {username : String}
    (h : remove_user c username = .ok c1) : Frame c c1 :=
  frame_remove_users h

theorem frame_self_joined (X : Env) (c : Channel) : Frame c (self_joined X c) := by
  unfold self_joined
  refine frame_trans ?_ (frame_notify _ _)
  have key : ∀ (l : Entries) (a : Channel), Frame a (l.foldl
      (fun acc i =>
        if i.2.username = acc.m_room.username then acc
        else authenticate_to X acc i.2.username i.2.long_term_public_key i.2.ephemeral_public_key
          acc.m_channel_status_hash) a) := by
    intro l
    induction l with
    | nil => intro a; exact frame_refl _
    | cons hd tl ih =>
      intro a
      simp only [List.foldl_cons]
      refine frame_trans ?_ (ih _)
      split_ifs
      · exact frame_refl _
      · exact frame_send_message _ _
  exact frame_trans ⟨rfl, rfl, rfl, rfl, rfl, rfl⟩ (key _ _)

theorem frame_on_channel_search {X : Env} {c c1 : Channel} {sender : String} {m : Message}
    (h : on_channel_search X c sender m = .ok c1) : Frame c c1 := by
  unfold on_channel_search at h
  split at h
  · cases h; exact frame_refl _
  · simp only at h
    split at h
    · cases h
    · cases h
      simp only [Frame, send_message]
      split_ifs <;> simp

theorem frame_on_channel_status {X : Env} {c c1 : Channel} {sender : String} {m : Message}
    (h : on_channel_status X c sender m = .ok c1) : Frame c c1 := by
  unfold on_channel_status at h
  split at h
  · cases h; exact frame_refl _
  · split at h
    · cases h
    · exact frame_remove_user h
    · split_ifs at h
      · cases h; exact ⟨rfl, rfl, rfl, rfl, rfl, rfl⟩
      · exact frame_remove_user h

theorem frame_on_channel_announcement {X : Env} {c c1 : Channel} {sender : String} {m : Message}
    (h : on_channel_announcement X c sender m = .ok c1) : Frame c c1 := by
  unfold on_channel_announcement at h
  split at h
  · cases h; exact frame_refl _
  · split_ifs at h
    · exact frame_remove_user h
    · cases h; exact frame_refl _

theorem frame_on_join_request {X : Env} {c c1 : Channel} {sender : String} {m : Message}
    (h : on_join_request X c sender m = .ok c1) : Frame c c1 := by
  unfold on_join_request at h
  split at h
  · cases h; exact frame_refl _
  · split at h
    · cases h
    · rename_i c2 h2
      refine frame_trans (frame_remove_user h2) ?_
      simp only at h
      split_ifs at h
      all_goals cases h
      all_goals first
        | exact frame_refl _
        | (refine frame_trans ?_ (frame_self_joined _ _)
           refine frame_trans ?_ (frame_notify _ _)
           exact ⟨rfl, rfl, rfl, rfl, rfl, rfl⟩)
        | (refine frame_trans ?_ (frame_notify _ _)
           exact ⟨rfl, rfl, rfl, rfl, rfl, rfl⟩)

theorem frame_on_authentication_request {X : Env} {c c1 : Channel} {sender : String} {m : Message}
    (h : on_authentication_request X c sender m = .ok c1) : Frame c c1 := by
  unfold on_authentication_request at h
  split at h
  · cases h; exact frame_refl _
  · split_ifs at h <;> cases h
    · exact frame_refl _
    · exact frame_send_message _ _
    · exact frame_refl _

theorem frame_on_authentication {X : Env} {c c1 : Channel} {sender : String} {m : Message}
    (h : on_authentication X c sender m = .ok c1) : Frame c c1 := by
  unfold on_authentication at h
  split at h
  · cases h; exact frame_refl _
  · split_ifs at h
    · cases h; exact frame_refl _
    · split at h
      · cases h; exact frame_refl _
      · simp only at h
        split_ifs at h
        all_goals cases h
        all_goals first
          | exact frame_refl _
          | exact frame_trans (frame_set_authentication_status _ _ _) (frame_notify _ _)

theorem frame_record_authorization {c c1 : Channel} {sender subject a u : String}
    (h : record_authorization c sender subject a u = .ok c1) : Frame c c1 := by
  unfold record_authorization at h
  split at h
  · split_ifs at h
    · simp only at h
      split at h
      · cases h
      · rename_i c3 h3
        cases h
        refine frame_trans (frame_trans ?_ (frame_try_promote h3)) (frame_encrypted_chat _ _)
        exact frame_trans ⟨rfl, rfl, rfl, rfl, rfl, rfl⟩ (frame_notify _ _)
      · rename_i c3 h3
        cases h
        refine frame_trans ?_ (frame_try_promote h3)
        exact frame_trans ⟨rfl, rfl, rfl, rfl, rfl, rfl⟩ (frame_notify _ _)
    · simp only at h
      split at h
      · cases h
      · rename_i c3 h3
        cases h
        refine frame_trans (frame_trans ?_ (frame_try_promote h3)) (frame_encrypted_chat _ _)
        exact frame_trans ⟨rfl, rfl, rfl, rfl, rfl, rfl⟩ (frame_notify _ _)
      · rename_i c3 h3
        cases h
        refine frame_trans ?_ (frame_try_promote h3)
        exact frame_trans ⟨rfl, rfl, rfl, rfl, rfl, rfl⟩ (frame_notify _ _)
  · cases h

theorem frame_on_authorization {X : Env} {c c1 : Channel} {sender : String} {m : Message}
    (h : on_authorization X c sender m = .ok c1) : Frame c c1 := by
  unfold on_authorization at h
  repeat' first
    | split at h
    | (dsimp only at h; split at h)
  all_goals first
    | exact frame_remove_user h
    | exact frame_record_authorization h
    | (cases h; exact frame_refl _)

theorem frame_on_consistency_status {X : Env} {c c1 : Channel} {sender : String}
    (h : on_consistency_status X c sender = .ok c1) : Frame c c1 := by
  unfold on_consistency_status at h
  split_ifs at h <;> cases h
  · exact frame_refl _
  · exact ⟨rfl, rfl, rfl, rfl, rfl, rfl⟩
  · exact ⟨rfl, rfl, rfl, rfl, rfl, rfl⟩

theorem frame_on_consistency_check {X : Env} {c c1 : Channel} {sender : String} {m : Message}
    (h : on_consistency_check X c sender m = .ok c1) : Frame c c1 := by
  unfold on_consistency_check at h
  split at h
  · cases h; exact frame_refl _
  · split at h
    · cases h; exact frame_refl _
    · split_ifs at h
      · exact frame_remove_user h
      · simp only at h
        split at h
        · cases h
        · exact frame_remove_user h
        · split_ifs at h
          · cases h; exact ⟨rfl, rfl, rfl, rfl, rfl, rfl⟩
          · exact frame_remove_user h

theorem frame_key_event_reply {c c1 : Channel} {sender : String} {type : MessageType}
    {key_id : Hash} {b : Bool}
    (h : key_event_reply c sender type key_id = .ok (b, c1)) : Frame c c1 := by
  unfold key_event_reply at h
  split at h
  · cases h
  · split at h
    · cases h
    · rename_i c2 h2
      cases h
      exact frame_remove_user h2
  · split_ifs at h
    · cases h; exact ⟨rfl, rfl, rfl, rfl, rfl, rfl⟩
    · split at h
      · cases h
      · rename_i c2 h2
        cases h
        exact frame_remove_user h2

theorem frame_on_key_exchange_public_key {X : Env} {c c1 : Channel} {sender : String} {m : Message}
    (h : on_key_exchange_public_key X c sender m = .ok c1) : Frame c c1 := by
  unfold on_key_exchange_public_key at h
  split at h
  · cases h; exact frame_refl _
  · split at h
    · cases h; exact frame_refl _
    · split_ifs at h
      · exact frame_remove_user h
      · simp only at h
        split at h
        · cases h
        · rename_i c2 h2; cases h; exact frame_key_event_reply h2
        · rename_i c2 h2; cases h
          exact frame_trans (frame_key_event_reply h2) (frame_encrypted_chat _ _)

theorem frame_on_key_exchange_secret_share {X : Env} {c c1 : Channel} {sender : String} {m : Message}
    (h : on_key_exchange_secret_share X c sender m = .ok c1) : Frame c c1 := by
  unfold on_key_exchange_secret_share at h
  split at h
  · cases h; exact frame_refl _
  · split at h
    · cases h; exact frame_refl _
    · split_ifs at h
      · exact frame_remove_user h
      · simp only at h
        split at h
        · cases h
        · rename_i c2 h2; cases h; exact frame_key_event_reply h2
        · rename_i c2 h2
          split_ifs at h <;> cases h
          · exact frame_key_event_reply h2
          · exact frame_trans (frame_key_event_reply h2) (frame_encrypted_chat _ _)

theorem frame_on_key_exchange_acceptance {X : Env} {c c1 : Channel} {sender : String} {m : Message}
    (h : on_key_exchange_acceptance X c sender m = .ok c1) : Frame c c1 := by
  unfold on_key_exchange_acceptance at h
  split at h
  · cases h; exact frame_refl _
  · split at h
    · cases h; exact frame_refl _
    · split_ifs at h
      · exact frame_remove_user h
      · simp only at h
        split at h
        · cases h
        · rename_i c2 h2; cases h; exact frame_key_event_reply h2
        · rename_i c2 h2
          split_ifs at h <;> cases h
          · exact frame_key_event_reply h2
          · exact frame_trans (frame_key_event_reply h2) (frame_encrypted_chat _ _)

theorem frame_on_key_exchange_reveal {X : Env} {c c1 : Channel} {sender : String} {m : Message}
    (h : on_key_exchange_reveal X c sender m = .ok c1) : Frame c c1 := by
  unfold on_key_exchange_reveal at h
  split at h
  · cases h; exact frame_refl _
  · split at h
    · cases h; exact frame_refl _
    · split_ifs at h
      · exact frame_remove_user h
      · simp only at h
        split at h
        · cases h
        · rename_i c2 h2; cases h; exact frame_key_event_reply h2
        · rename_i c2 h2
          split_ifs at h <;> cases h
          · exact frame_key_event_reply h2
          · exact frame_trans (frame_key_event_reply h2) (frame_encrypted_chat _ _)

theorem frame_on_key_activation {X : Env} {c c1 : Channel} {sender : String} {m : Message}
    (h : on_key_activation X c sender m = .ok c1) : Frame c c1 := by
  unfold on_key_activation at h
  split at h
  · cases h; exact frame_refl _
  · split at h
    · cases h; exact frame_refl _
    · split_ifs at h
      · exact frame_remove_user h
      · simp only at h
        split at h
        · cases h
        · rename_i c2 h2; cases h; exact frame_key_event_reply h2
        · rename_i c2 h2
          split_ifs at h <;> cases h
          · exact frame_trans (frame_key_event_reply h2) (frame_encrypted_chat _ _)
          · exact frame_key_event_reply h2

theorem frame_on_chat {X : Env} {c c1 : Channel} {sender : String} {m : Message}
    (h : on_chat X c sender m = .ok c1) : Frame c c1 := by
  unfold on_chat at h
  split at h <;> cases h
  · exact frame_refl _
  · exact frame_encrypted_chat _ _

theorem frame_dispatch {X : Env} {c c1 : Channel} {sender : String} {m : Message}
    (h : dispatch X c sender m = .ok c1) : Frame c c1 := by
  unfold dispatch at h
  split at h
  · exact frame_on_channel_search h
  · exact frame_on_channel_status h
  · exact frame_on_channel_announcement h
  · exact frame_on_join_request h
  · exact frame_on_authentication_request h
  · exact frame_on_authentication h
  · exact frame_on_authorization h
  · exact frame_on_consistency_status h
  · exact frame_on_consistency_check h
  · exact frame_on_key_exchange_public_key h
  · exact frame_on_key_exchange_secret_share h
  · exact frame_on_key_exchange_acceptance h
  · exact frame_on_key_exchange_reveal h
  · exact frame_on_key_activation h
  · exact frame_on_chat h
  · cases h; exact frame_refl _

/-! ## Operations return normally -/

theorem status_events_total (X : Env) (chat : List EncryptedChatCall) :
    ∀ (events : List Event) (result : ChannelStatusMessage), EventsTyped events →
      ∃ r, status_events X chat events result = .ok r := by
  intro events
  induction events with
  | nil => intro result _; exact ⟨result, rfl⟩
  | cons e rest ih =>
    intro result h
    have he : valid_event_type e.type = true := h e (List.mem_cons_self _ _)
    have hrest : EventsTyped rest := fun x hx => h x (List.mem_cons_of_mem _ hx)
    unfold status_events
    split_ifs
    · exact ih _ hrest
    · exact ih _ hrest
    · exact ih _ hrest
    · exact ih _ hrest
    · exact ih _ hrest
    · simp [valid_event_type, *] at he

theorem channel_status_total (X : Env) (c : Channel) (u : String) (n : Hash)
    (h : EventsTyped c.m_events) : ∃ status, channel_status X c u n = .ok status := by
  unfold channel_status
  dsimp only
  split
  · rename_i f hf
    obtain ⟨r, hr⟩ := status_events_total X c.m_encrypted_chat c.m_events _ h
    rw [hr] at hf
    cases hf
  · exact ⟨_, rfl⟩

theorem first_user_event_total (events : List Event) (username : String)
    (h : EventsTyped events) : ∃ r, first_user_event events username = .ok r := by
  induction events with
  | nil => exact ⟨none, rfl⟩
  | cons e rest ih =>
    have he : valid_event_type e.type = true := h e (List.mem_cons_self _ _)
    have hrest : EventsTyped rest := fun x hx => h x (List.mem_cons_of_mem _ hx)
    obtain ⟨r, hr⟩ := ih hrest
    have hnext : ∃ r1, (match first_user_event rest username with
        | .error f => (.error f : Except Fault (Option (Nat × Event)))
        | .ok none => .ok none
        | .ok (some (n, e)) => .ok (some (n + 1, e))) = .ok r1 := by
      rw [hr]
      cases r with
      | none => exact ⟨_, rfl⟩
      | some v => exact ⟨_, rfl⟩
    unfold first_user_event
    simp only
    split_ifs with h1 h2 h3 h4 h5 h6
    all_goals first
      | exact ⟨_, rfl⟩
      | exact hnext
      | (exfalso; simp [valid_event_type, h1, h3] at he; simp [he] at h5)

theorem try_promote_total {c : Channel} {key : String} {p : Participant}
    (h : c.m_participants.find key = some p) (hp : p.authorized = false) :
    ∃ b c1, try_promote_unauthorized_participant c key = .ok (b, c1) := by
  unfold try_promote_unauthorized_participant
  by_cases hq : quorum_reached p c.m_participants.entries = true
  · simp [h, hp, hq]
  · simp [h, hp, hq]

theorem try_promote_false {c c1 : Channel} {key : String}
    (h : try_promote_unauthorized_participant c key = .ok (false, c1)) : c1 = c := by
  unfold try_promote_unauthorized_participant at h
  split at h
  · cases h
  · split_ifs at h <;> simp only [Except.ok.injEq, Prod.mk.injEq, reduceCtorEq] at h
    all_goals first
      | exact h.2.symm
      | exact absurd h.1 (by simp)

theorem do_remove_user_total {c : Channel} {username : String}
    (h : c.m_participants.count username = true) : ∃ c1, do_remove_user c username = .ok c1 := by
  unfold do_remove_user
  simp [h]

theorem remove_users_loop_total (usernames : List String) :
    ∀ c : Channel, ∃ c1, remove_users_loop c usernames = .ok c1 := by
  induction usernames with
  | nil => intro c; exact ⟨c, rfl⟩
  | cons u rest ih =>
    intro c
    unfold remove_users_loop
    split_ifs with h
    · exact ih c
    · have h1 : c.m_participants.count u = true := by simpa using h
      obtain ⟨c2, h2⟩ := do_remove_user_total h1
      simp only [h2]
      exact ih c2

theorem promote_loop_total (l : Entries) :
    ∀ c : Channel, (∀ e ∈ l, e ∈ c.m_participants.entries) → ∃ c1, promote_loop c l = .ok c1 := by
  induction l with
  | nil => intro c _; exact ⟨c, rfl⟩
  | cons hd rest ih =>
    obtain ⟨key, p⟩ := hd
    intro c h
    have hrest : ∀ e ∈ rest, e ∈ c.m_participants.entries :=
      fun e he => h e (List.mem_cons_of_mem _ he)
    unfold promote_loop
    split_ifs with h1
    · have hfind : c.m_participants.find key = some p :=
        ParticipantMap.find_of_mem (h _ (List.mem_cons_self _ _))
      have hp : p.authorized = false := by simpa using h1
      obtain ⟨b, c2, h2⟩ := try_promote_total hfind hp
      cases b with
      | true => simp only [h2]; exact ⟨_, rfl⟩
      | false =>
        simp only [h2]
        have := try_promote_false h2
        subst this
        exact ih _ hrest
    · exact ih c hrest

theorem remove_users_total (c : Channel) (usernames : List String) :
    ∃ c1, remove_users c usernames = .ok c1 := by
  unfold remove_users
  obtain ⟨c1, h1⟩ := remove_users_loop_total usernames c
  obtain ⟨c2, h2⟩ := promote_loop_total c1.m_participants.entries c1 (fun _ h => h)
  simp only [h1, h2]
  exact ⟨_, rfl⟩

theorem remove_user_total (c : Channel) (username : String) :
    ∃ c1, remove_user c username = .ok c1 :=
  remove_users_total c [username]

theorem events_typed_append {events : List Event} {e : Event} (h : EventsTyped events)
    (he : valid_event_type e.type = true) : EventsTyped (events ++ [e]) := by
  intro x hx
  rcases List.mem_append.1 hx with hx | hx
  · exact h x hx
  · simp at hx; subst hx; exact he

theorem channel_status_ne_error (X : Env) (c : Channel) (u : String) (n : Hash)
    (h : EventsTyped c.m_events) (f : Fault) : channel_status X c u n ≠ .error f := by
  obtain ⟨r, hr⟩ := channel_status_total X c u n h
  rw [hr]
  simp

theorem on_channel_search_total (X : Env) (c : Channel) (sender : String) (m : Message)
    (h : EventsTyped c.m_events) : ∃ c1, on_channel_search X c sender m = .ok c1 := by
  unfold on_channel_search
  split
  · exact ⟨_, rfl⟩
  · dsimp only
    split
    · rename_i f hf
      exfalso
      have ht : EventsTyped (c.m_events ++ [{ fresh_event X .ConsistencyCheck with
          consistency_check :=
            { channel_status_hash := c.m_channel_status_hash,
              remaining_users := participant_usernames c.m_participants } }]) :=
        events_typed_append h (by rfl)
      refine channel_status_ne_error X _ _ _ ?_ f hf
      split_ifs <;> exact ht
    · exact ⟨_, rfl⟩

theorem on_channel_status_total (X : Env) (c : Channel) (sender : String) (m : Message)
    (h : EventsTyped c.m_events) : ∃ c1, on_channel_status X c sender m = .ok c1 := by
  unfold on_channel_status
  obtain ⟨r, hr⟩ := first_user_event_total c.m_events sender h
  split
  · exact ⟨_, rfl⟩
  · simp only [hr]
    split
    · rename_i hf; cases hf
    · exact remove_user_total _ _
    · split_ifs
      · exact ⟨_, rfl⟩
      · exact remove_user_total _ _

theorem on_channel_announcement_total (X : Env) (c : Channel) (sender : String) (m : Message) :
    ∃ c1, on_channel_announcement X c sender m = .ok c1 := by
  unfold on_channel_announcement
  split
  · exact ⟨_, rfl⟩
  · split_ifs
    · exact remove_user_total _ _
    · exact ⟨_, rfl⟩

theorem on_join_request_total (X : Env) (c : Channel) (sender : String) (m : Message) :
    ∃ c1, on_join_request X c sender m = .ok c1 := by
  unfold on_join_request
  split
  · exact ⟨_, rfl⟩
  · obtain ⟨c2, h2⟩ := remove_user_total c sender
    simp only [h2]
    split_ifs <;> exact ⟨_, rfl⟩

theorem on_authentication_request_total (X : Env) (c : Channel) (sender : String) (m : Message) :
    ∃ c1, on_authentication_request X c sender m = .ok c1 := by
  unfold on_authentication_request
  split
  · exact ⟨_, rfl⟩
  · split_ifs <;> exact ⟨_, rfl⟩

theorem on_authentication_total (X : Env) (c : Channel) (sender : String) (m : Message) :
    ∃ c1, on_authentication X c sender m = .ok c1 := by
  unfold on_authentication
  split
  · exact ⟨_, rfl⟩
  · split_ifs
    · exact ⟨_, rfl⟩
    · split
      · exact ⟨_, rfl⟩
      · dsimp only
        split_ifs <;> exact ⟨_, rfl⟩

theorem find_notify (c : Channel) (n : Notification) : (notify c n).m_participants = c.m_participants := by
  unfold notify; split <;> rfl

theorem events_notify (c : Channel) (n : Notification) : (notify c n).m_events = c.m_events := by
  unfold notify; split <;> rfl

theorem record_authorization_total {c : Channel} {sender subject a u : String}
    {pa pu : Participant} (ha : c.m_participants.find a = some pa) (hu : c.m_participants.find u = some pu)
    (hpa : pa.authorized = true) (hpu : pu.authorized = false) :
    ∃ c1, record_authorization c sender subject a u = .ok c1 := by
  unfold record_authorization
  simp only [ha, hu, hpa, hpu]
  simp only [Bool.not_true, Bool.false_eq_true, if_false]
  have key : ∀ c2 : Channel, (∃ p2, c2.m_participants.find u = some p2 ∧ p2.authorized = false) →
      ∃ c1, (match try_promote_unauthorized_participant c2 u with
        | .error f => (.error f : Except Fault Channel)
        | .ok (true, c3) => .ok (encrypted_chat c3 (.add_user pu.username pu.long_term_public_key))
        | .ok (false, c3) => .ok c3) = .ok c1 := by
    intro c2 ⟨p2, h2, h3⟩
    obtain ⟨b, c3, h4⟩ := try_promote_total h2 h3
    rw [h4]
    cases b <;> exact ⟨_, rfl⟩
  apply key
  rw [find_notify]
  split_ifs
  · simp only [insert_authorized_by, ParticipantMap.find_modify, hu, if_true, Option.map_some']
    exact ⟨_, rfl, hpu⟩
  · simp only [insert_authorized_peers, ParticipantMap.find_modify, hu, if_true, Option.map_some']
    exact ⟨_, rfl, hpu⟩

theorem on_authorization_total (X : Env) (c : Channel) (sender : String) (m : Message) :
    ∃ c1, on_authorization X c sender m = .ok c1 := by
  unfold on_authorization
  split
  · exact ⟨_, rfl⟩
  · rename_i ps hps
    split
    · exact ⟨_, rfl⟩
    · split
      · exact remove_user_total _ _
      · dsimp only
        split
        · exact ⟨_, rfl⟩
        · rename_i pt hpt
          split
          · exact ⟨_, rfl⟩
          · split
            · rename_i hsa
              split
              · exact ⟨_, rfl⟩
              · rename_i hta
                exact record_authorization_total hps hpt hsa (by simpa using hta)
            · rename_i hsa
              split
              · exact ⟨_, rfl⟩
              · rename_i hta
                exact record_authorization_total hpt hps (by simpa using hta) (by simpa using hsa)

theorem on_consistency_status_total (X : Env) (c : Channel) (sender : String) :
    ∃ c1, on_consistency_status X c sender = .ok c1 := by
  unfold on_consistency_status
  split_ifs <;> exact ⟨_, rfl⟩

theorem on_consistency_check_total (X : Env) (c : Channel) (sender : String) (m : Message)
    (h : EventsTyped c.m_events) : ∃ c1, on_consistency_check X c sender m = .ok c1 := by
  unfold on_consistency_check
  obtain ⟨r, hr⟩ := first_user_event_total c.m_events sender h
  split
  · exact ⟨_, rfl⟩
  · split
    · exact ⟨_, rfl⟩
    · split
      · exact remove_user_total _ _
      · simp only [hr]
        split
        · rename_i hf; cases hf
        · exact remove_user_total _ _
        · split_ifs
          · exact ⟨_, rfl⟩
          · exact remove_user_total _ _

theorem key_event_reply_total (c : Channel) (sender : String) (type : MessageType) (key_id : Hash)
    (h : EventsTyped c.m_events) : ∃ b c1, key_event_reply c sender type key_id = .ok (b, c1) := by
  unfold key_event_reply
  obtain ⟨r, hr⟩ := first_user_event_total c.m_events sender h
  obtain ⟨c2, h2⟩ := remove_user_total c sender
  simp only [hr, h2]
  split
  · rename_i hf; cases hf
  · exact ⟨_, _, rfl⟩
  · split_ifs <;> exact ⟨_, _, rfl⟩

theorem on_key_exchange_public_key_total (X : Env) (c : Channel) (sender : String) (m : Message)
    (h : EventsTyped c.m_events) : ∃ c1, on_key_exchange_public_key X c sender m = .ok c1 := by
  unfold on_key_exchange_public_key
  split
  · exact ⟨_, rfl⟩
  · split
    · exact ⟨_, rfl⟩
    · split
      · exact remove_user_total _ _
      · rename_i sm _ _
        obtain ⟨b, c2, h2⟩ := key_event_reply_total c sender .KeyExchangePublicKey sm.decode.key_id h
        simp only [h2]
        cases b <;> exact ⟨_, rfl⟩

theorem on_key_exchange_secret_share_total (X : Env) (c : Channel) (sender : String) (m : Message)
    (h : EventsTyped c.m_events) : ∃ c1, on_key_exchange_secret_share X c sender m = .ok c1 := by
  unfold on_key_exchange_secret_share
  split
  · exact ⟨_, rfl⟩
  · split
    · exact ⟨_, rfl⟩
    · split
      · exact remove_user_total _ _
      · rename_i sm _ _
        obtain ⟨b, c2, h2⟩ := key_event_reply_total c sender .KeyExchangeSecretShare sm.decode.key_id h
        simp only [h2]
        cases b
        · exact ⟨_, rfl⟩
        · dsimp only; split_ifs <;> exact ⟨_, rfl⟩

theorem on_key_exchange_acceptance_total (X : Env) (c : Channel) (sender : String) (m : Message)
    (h : EventsTyped c.m_events) : ∃ c1, on_key_exchange_acceptance X c sender m = .ok c1 := by
  unfold on_key_exchange_acceptance
  split
  · exact ⟨_, rfl⟩
  · split
    · exact ⟨_, rfl⟩
    · split
      · exact remove_user_total _ _
      · rename_i sm _ _
        obtain ⟨b, c2, h2⟩ := key_event_reply_total c sender .KeyExchangeAcceptance sm.decode.key_id h
        simp only [h2]
        cases b
        · exact ⟨_, rfl⟩
        · dsimp only; split_ifs <;> exact ⟨_, rfl⟩

theorem on_key_exchange_reveal_total (X : Env) (c : Channel) (sender : String) (m : Message)
    (h : EventsTyped c.m_events) : ∃ c1, on_key_exchange_reveal X c sender m = .ok c1 := by
  unfold on_key_exchange_reveal
  split
  · exact ⟨_, rfl⟩
  · split
    · exact ⟨_, rfl⟩
    · split
      · exact remove_user_total _ _
      · rename_i sm _ _
        obtain ⟨b, c2, h2⟩ := key_event_reply_total c sender .KeyExchangeReveal sm.decode.key_id h
        simp only [h2]
        cases b
        · exact ⟨_, rfl⟩
        · dsimp only; split_ifs <;> exact ⟨_, rfl⟩

theorem on_key_activation_total (X : Env) (c : Channel) (sender : String) (m : Message)
    (h : EventsTyped c.m_events) : ∃ c1, on_key_activation X c sender m = .ok c1 := by
  unfold on_key_activation
  split
  · exact ⟨_, rfl⟩
  · split
    · exact ⟨_, rfl⟩
    · split
      · exact remove_user_total _ _
      · rename_i sm _ _
        obtain ⟨b, c2, h2⟩ := key_event_reply_total c sender .KeyActivation sm.decode.key_id h
        simp only [h2]
        cases b
        · exact ⟨_, rfl⟩
        · dsimp only; split_ifs <;> exact ⟨_, rfl⟩

theorem on_chat_total (X : Env) (c : Channel) (sender : String) (m : Message) :
    ∃ c1, on_chat X c sender m = .ok c1 := by
  unfold on_chat
  split <;> exact ⟨_, rfl⟩

theorem dispatch_total (X : Env) (c : Channel) (sender : String) (m : Message)
    (h : EventsTyped c.m_events) : ∃ c1, dispatch X c sender m = .ok c1 := by
  unfold dispatch
  split
  · exact on_channel_search_total X c sender m h
  · exact on_channel_status_total X c sender m h
  · exact on_channel_announcement_total X c sender m
  · exact on_join_request_total X c sender m
  · exact on_authentication_request_total X c sender m
  · exact on_authentication_total X c sender m
  · exact on_authorization_total X c sender m
  · exact on_consistency_status_total X c sender
  · exact on_consistency_check_total X c sender m h
  · exact on_key_exchange_public_key_total X c sender m h
  · exact on_key_exchange_secret_share_total X c sender m h
  · exact on_key_exchange_acceptance_total X c sender m h
  · exact on_key_exchange_reveal_total X c sender m h
  · exact on_key_activation_total X c sender m h
  · exact on_chat_total X c sender m
  · exact ⟨_, rfl⟩

theorem hash_payload_ok {X : Env} {c : Channel} {sender : String} {type : Nat} {message : String}
    {status : Message} (h : channel_status X c "" (zero_hash X) = .ok status) :
    hash_payload X c sender type message
      = .ok (with_hash c (chained_hash X status sender type message)) := by
  unfold hash_payload
  rw [h]
  rfl

theorem hash_payload_inv {X : Env} {c c1 : Channel} {sender : String} {type : Nat} {message : String}
    (h : hash_payload X c sender type message = .ok c1) :
    ∃ status, channel_status X c "" (zero_hash X) = .ok status ∧
      c1 = with_hash c (chained_hash X status sender type message) := by
  unfold hash_payload at h
  split at h
  · cases h
  · rename_i status hs
    cases h
    exact ⟨status, hs, rfl⟩

theorem message_received_ok {X : Env} {c : Channel} {sender : String} {m : Message}
    {status : Message} (h : channel_status X c "" (zero_hash X) = .ok status) :
    message_received X c sender m
      = dispatch X (with_hash c (chained_hash X status sender (X.type_byte m.type) m.payload))
          sender m := by
  unfold message_received hash_message
  rw [hash_payload_ok h]

theorem message_received_inv {X : Env} {c c1 : Channel} {sender : String} {m : Message}
    (h : message_received X c sender m = .ok c1) :
    ∃ status, channel_status X c "" (zero_hash X) = .ok status ∧
      dispatch X (with_hash c (chained_hash X status sender (X.type_byte m.type) m.payload))
        sender m = .ok c1 := by
  unfold message_received hash_message at h
  split at h
  · cases h
  · rename_i c0 h0
    obtain ⟨status, hs, rfl⟩ := hash_payload_inv h0
    exact ⟨status, hs, h⟩

theorem message_received_total (X : Env) (c : Channel) (sender : String) (m : Message)
    (h : EventsTyped c.m_events) : ∃ c1, message_received X c sender m = .ok c1 := by
  obtain ⟨status, hs⟩ := channel_status_total X c "" (zero_hash X) h
  rw [message_received_ok hs]
  exact dispatch_total X _ sender m h

theorem message_received_hash {X : Env} {c c1 : Channel} {sender : String} {m : Message}
    (h : message_received X c sender m = .ok c1) :
    ∃ status, channel_status X c "" (zero_hash X) = .ok status ∧
      c1.m_channel_status_hash = chained_hash X status sender (X.type_byte m.type) m.payload := by
  obtain ⟨status, hs, hd⟩ := message_received_inv h
  exact ⟨status, hs, (frame_dispatch hd).1⟩

/-! ## The status-hash chain (C1) -/

/-- C1 (status-hash update): in a channel whose queued events all have one of the seven
event types, `message_received` returns for every sender and every message of any type,
whether or not the message decodes or validates, and the status hash of the resulting
channel is `hash(P ‖ sender ‖ type byte ‖ payload)`, where `P` is the payload of
`channel_status("", zero)` computed on the channel before the call; nothing done later
in the dispatch writes the status hash again. -/
theorem status_hash_update (X : Env) (c : Channel) (sender : String) (np1sec_message : Message)
    (h : EventsTyped c.m_events) :
    ∃ status c1, channel_status X c "" (zero_hash X) = .ok status
      ∧ message_received X c sender np1sec_message = .ok c1
      ∧ c1.m_channel_status_hash
          = X.hash (status.payload ++ sender
              ++ String.singleton (Char.ofNat (X.type_byte np1sec_message.type % 256))
              ++ np1sec_message.payload) := by
  obtain ⟨c1, h1⟩ := message_received_total X c sender np1sec_message h
  obtain ⟨status, hs, hh⟩ := message_received_hash h1
  exact ⟨status, c1, hs, h1, hh⟩

/-- Witness of C1: a chat message from `bob` received by the solo channel of `alice`. -/
theorem status_hash_update_witness :
    ∃ status c1, channel_status demo_env demo_solo "" (zero_hash demo_env) = .ok status
      ∧ message_received demo_env demo_solo "bob" ⟨.Chat, "hi"⟩ = .ok c1
      ∧ c1.m_channel_status_hash
          = demo_env.hash (status.payload ++ "bob"
              ++ String.singleton (Char.ofNat (demo_env.type_byte MessageType.Chat % 256))
              ++ "hi") :=
  status_hash_update demo_env demo_solo "bob" ⟨.Chat, "hi"⟩ (by decide)

/-! ## Authentication (C5) -/

theorem on_authentication_spec (X : Env) (c : Channel) (sender : String) (m : Message)
    (message : AuthenticationMessage) (hdec : X.decode_authentication m = some message) :
    ∃ c1, on_authentication X c sender m = .ok c1 ∧ c1.m_events = c.m_events
      ∧ (∀ p, authentication_accepted X c sender message p →
          c1.m_participants = (set_authentication_status c sender
            (authentication_outcome X c sender message p)).m_participants)
      ∧ ((¬ ∃ p, authentication_accepted X c sender message p) →
          c1.m_participants = c.m_participants) := by
  unfold on_authentication
  simp only [hdec]
  by_cases h1 : message.peer_username = c.m_room.username
      ∧ message.peer_long_term_public_key = c.m_room.long_term_public_key
      ∧ message.peer_ephemeral_public_key = ephemeral_public_key X c
  swap
  · refine ⟨c, by simp [h1], rfl, ?_, fun _ => rfl⟩
    intro p hp
    exact absurd ⟨hp.1, hp.2.1, hp.2.2.1⟩ h1
  simp only [h1, and_self, decide_True, Bool.not_true, Bool.false_eq_true, if_false]
  cases hf : c.m_participants.find sender with
  | none =>
    refine ⟨c, rfl, rfl, ?_, fun _ => rfl⟩
    intro p hp
    rw [hp.2.2.2.1] at hf
    cases hf
  | some participant =>
    simp only
    by_cases h2 : message.sender_long_term_public_key = participant.long_term_public_key
        ∧ message.sender_ephemeral_public_key = participant.ephemeral_public_key
    swap
    · refine ⟨c, by simp [h2], rfl, ?_, fun _ => rfl⟩
      intro p hp
      have : p = participant := by
        have := hp.2.2.2.1
        rw [hf] at this
        cases this; rfl
      subst this
      exact absurd ⟨hp.2.2.2.2.1, hp.2.2.2.2.2.1⟩ h2
    simp only [h2, and_self, decide_True, Bool.not_true, Bool.false_eq_true, if_false]
    by_cases h3 : (participant.authentication_status = .Authenticating
          ∧ message.nonce = participant.authorization_nonce)
        ∨ (participant.authentication_status = .AuthenticatingWithNonce
          ∧ (message.nonce = participant.authorization_nonce
              ∨ message.nonce = c.m_authentication_nonce))
    · have hacc : authentication_accepted X c sender message participant :=
        ⟨h1.1, h1.2.1, h1.2.2, hf, h2.1, h2.2, h3⟩
      have hn : (if participant.authentication_status = AuthenticationStatus.Authenticating then
            if message.nonce ≠ participant.authorization_nonce then false else true
          else
            if participant.authentication_status = AuthenticationStatus.AuthenticatingWithNonce then
              if message.nonce ≠ participant.authorization_nonce
                  ∧ message.nonce ≠ c.m_authentication_nonce then false else true
            else false) = true := by
        rcases h3 with ⟨h31, h32⟩ | ⟨h31, h32⟩
        · simp [h31, h32]
        · rcases h32 with h32 | h32 <;> simp [h31, h32]
      simp only [hn, Bool.not_true, Bool.false_eq_true, if_false]
      have hp_eq : ∀ p, authentication_accepted X c sender message p → p = participant := by
        intro p hp
        have := hp.2.2.2.1
        rw [hf] at this
        cases this; rfl
      by_cases h4 : message.authentication_confirmation
          = authentication_token X c sender participant.long_term_public_key
              participant.ephemeral_public_key message.nonce true
      · simp only [h4, if_true]
        refine ⟨_, rfl, by rw [events_notify]; rfl, ?_, ?_⟩
        · intro p hp
          rw [hp_eq p hp, find_notify]
          simp [authentication_outcome, h4]
        · intro hno
          exact absurd ⟨participant, hacc⟩ hno
      · simp only [h4, if_false]
        refine ⟨_, rfl, by rw [events_notify]; rfl, ?_, ?_⟩
        · intro p hp
          rw [hp_eq p hp, find_notify]
          simp [authentication_outcome, h4]
        · intro hno
          exact absurd ⟨participant, hacc⟩ hno
    · have hn : (if participant.authentication_status = AuthenticationStatus.Authenticating then
            if message.nonce ≠ participant.authorization_nonce then false else true
          else
            if participant.authentication_status = AuthenticationStatus.AuthenticatingWithNonce then
              if message.nonce ≠ participant.authorization_nonce
                  ∧ message.nonce ≠ c.m_authentication_nonce then false else true
            else false) = false := by
        push_neg at h3
        by_cases h31 : participant.authentication_status = AuthenticationStatus.Authenticating
        · simp [h31, h3.1 h31]
        · by_cases h32 : participant.authentication_status = AuthenticationStatus.AuthenticatingWithNonce
          · have := h3.2 h32
            simp [h31, h32, this.1, this.2]
          · simp [h31, h32]
      simp only [hn]
      refine ⟨c, by simp, rfl, ?_, fun _ => rfl⟩
      intro p hp
      have : p = participant := by
        have := hp.2.2.2.1
        rw [hf] at this
        cases this; rfl
      subst this
      exact absurd hp.2.2.2.2.2.2 h3

theorem dispatch_authentication {X : Env} {c : Channel} {sender : String} {m : Message}
    (h : m.type = .Authentication) : dispatch X c sender m = on_authentication X c sender m := by
  unfold dispatch; rw [h]

/-- C5 (authentication transition): for a decodable Authentication message from `sender`,
`message_received` returns, leaves the event queue unchanged, and changes the participant
table only when the message targets the local (username, long-term key, ephemeral key),
`sender` is a participant whose recorded keys are the message's sender keys, and the nonce
is accepted by the sender's status (`Authenticating`: the authorization nonce;
`AuthenticatingWithNonce`: the authorization nonce or the channel's authentication
nonce).  In that case only the authentication status of `sender` changes: it becomes
`Authenticated` if the confirmation equals `authentication_token(sender, keys, nonce,
for_peer = true)` and `AuthenticationFailed` otherwise.  In every other case the
participant table is unchanged. -/
theorem authentication_transition (X : Env) (c : Channel) (sender : String) (np1sec_message : Message)
    (message : AuthenticationMessage) (htype : np1sec_message.type = .Authentication)
    (hdec : X.decode_authentication np1sec_message = some message)
    (h : EventsTyped c.m_events) :
    ∃ c1, message_received X c sender np1sec_message = .ok c1 ∧ c1.m_events = c.m_events
      ∧ (∀ p, authentication_accepted X c sender message p →
          c1.m_participants = c.m_participants.modify sender
            (fun q => { q with authentication_status := authentication_outcome X c sender message p }))
      ∧ ((¬ ∃ p, authentication_accepted X c sender message p) →
          c1.m_participants = c.m_participants) := by
  obtain ⟨status, hs⟩ := channel_status_total X c "" (zero_hash X) h
  rw [message_received_ok hs, dispatch_authentication htype]
  obtain ⟨c1, h1, h2, h3, h4⟩ := on_authentication_spec X
    (with_hash c (chained_hash X status sender (X.type_byte np1sec_message.type) np1sec_message.payload))
    sender np1sec_message message hdec
  exact ⟨c1, h1, h2, h3, h4⟩

/-- Witness of C5: a wrong confirmation from `bob`, who is `Authenticating`, marks `bob`
as `AuthenticationFailed`. -/
theorem authentication_transition_witness :
    ∃ c1, message_received demo_env (demo_pair ∅ ∅) "bob" ⟨.Authentication, "bad"⟩ = .ok c1
      ∧ c1.m_participants.find "bob"
          = some { demo_bob ∅ ∅ with authentication_status := .AuthenticationFailed } := by
  obtain ⟨c1, h1, -, h3, -⟩ := authentication_transition demo_env (demo_pair ∅ ∅) "bob"
    ⟨.Authentication, "bad"⟩ ⟨⟨"bob-lt"⟩, ⟨"bob-eph"⟩, "alice", ⟨"alice-lt"⟩, ⟨"alice-eph"⟩, ⟨"n0"⟩, ⟨"bad"⟩⟩
    rfl rfl (by decide)
  refine ⟨c1, h1, ?_⟩
  rw [h3 (demo_bob ∅ ∅) (by
    refine ⟨rfl, rfl, rfl, rfl, rfl, rfl, Or.inl ⟨rfl, rfl⟩⟩)]
  rw [ParticipantMap.find_modify]
  rfl

/-! ## Authorization (C4) -/

theorem try_promote_participants {c : Channel} {key : String} {u : Participant}
    (hfind : c.m_participants.find key = some u) (hun : u.authorized = false) :
    ∃ b c1, try_promote_unauthorized_participant c key = .ok (b, c1)
      ∧ c1.m_participants = promote_if_quorum c.m_participants key
      ∧ c1.m_events = c.m_events := by
  have hq := quorum_reached_iff u c.m_participants.entries
  unfold try_promote_unauthorized_participant promote_if_quorum
  simp only [hfind, hun, Bool.false_eq_true, if_false]
  by_cases h : symmetric_quorum c.m_participants u
  · have hq1 : quorum_reached u c.m_participants.entries = true := hq.2 h
    simp only [hq1, h, if_true]
    refine ⟨true, _, rfl, ?_, ?_⟩
    · simp only [notify]; split_ifs <;> rfl
    · simp only [notify]; split_ifs <;> rfl
  · have hq1 : ¬ quorum_reached u c.m_participants.entries = true := fun h1 => h (hq.1 h1)
    simp only [hq1, h, if_false]
    exact ⟨false, c, rfl, rfl, rfl⟩

theorem record_authorization_spec {c : Channel} {sender subject a u : String}
    {pa pu : Participant} (ha : c.m_participants.find a = some pa)
    (hu : c.m_participants.find u = some pu)
    (hpa : pa.authorized = true) (hpu : pu.authorized = false) :
    ∃ c1, record_authorization c sender subject a u = .ok c1 ∧ c1.m_events = c.m_events
      ∧ c1.m_participants = promote_if_quorum
          (if pa.username = sender then (insert_authorized_by c u pa.username).m_participants
           else (insert_authorized_peers c u pa.username).m_participants) u := by
  unfold record_authorization
  simp only [ha, hu, hpa, hpu]
  simp only [Bool.not_true, Bool.false_eq_true, if_false]
  have key : ∀ c2 : Channel, (∃ p2, c2.m_participants.find u = some p2 ∧ p2.authorized = false) →
      ∃ c1, (match try_promote_unauthorized_participant c2 u with
        | .error f => (.error f : Except Fault Channel)
        | .ok (true, c3) => .ok (encrypted_chat c3 (.add_user pu.username pu.long_term_public_key))
        | .ok (false, c3) => .ok c3) = .ok c1 ∧ c1.m_events = c2.m_events
          ∧ c1.m_participants = promote_if_quorum c2.m_participants u := by
    intro c2 ⟨p2, h2, h3⟩
    obtain ⟨b, c3, h4, h5, h6⟩ := try_promote_participants h2 h3
    rw [h4]
    cases b
    · exact ⟨_, rfl, h6, h5⟩
    · exact ⟨_, rfl, h6, h5⟩
  by_cases hs : pa.username = sender
  · simp only [hs, if_true]
    obtain ⟨c1, h1, h2, h3⟩ := key (notify (insert_authorized_by c u sender)
      (.user_authorized_by sender subject)) (by
        rw [find_notify]
        simp only [insert_authorized_by, ParticipantMap.find_modify, hu, if_true, Option.map_some']
        exact ⟨_, rfl, hpu⟩)
    refine ⟨c1, h1, ?_, ?_⟩
    · rw [h2, events_notify]; rfl
    · rw [h3, find_notify]
  · simp only [hs, if_false]
    obtain ⟨c1, h1, h2, h3⟩ := key (notify (insert_authorized_peers c u pa.username)
      (.user_authorized_by sender subject)) (by
        rw [find_notify]
        simp only [insert_authorized_peers, ParticipantMap.find_modify, hu, if_true, Option.map_some']
        exact ⟨_, rfl, hpu⟩)
    refine ⟨c1, h1, ?_, ?_⟩
    · rw [h2, events_notify]; rfl
    · rw [h3, find_notify]

theorem on_authorization_spec (X : Env) (c : Channel) (sender : String) (m : Message)
    (ps : Participant) (sm : SignedMessage UnsignedAuthorizationMessage)
    (hS : c.m_participants.find sender = some ps)
    (hv : X.verify_authorization m ps.ephemeral_public_key = some sm)
    (hvalid : sm.valid = true) :
    ∃ c1, on_authorization X c sender m = .ok c1 ∧ c1.m_events = c.m_events
      ∧ ((¬ ∃ pt, authorization_accepted c ps sm.decode pt) →
          c1.m_participants = c.m_participants)
      ∧ (∀ pt, authorization_accepted c ps sm.decode pt → ps.authorized = true →
          ps.username = sender →
          c1.m_participants = promote_if_quorum
            (insert_authorized_by c sm.decode.username sender).m_participants sm.decode.username)
      ∧ (∀ pt, authorization_accepted c ps sm.decode pt → ps.authorized = false →
          pt.username = sm.decode.username →
          c1.m_participants = promote_if_quorum
            (insert_authorized_peers c sender sm.decode.username).m_participants sender) := by
  unfold on_authorization
  simp only [hS, hv, hvalid, Bool.not_true, Bool.false_eq_true, if_false]
  cases hT : c.m_participants.find sm.decode.username with
  | none =>
    refine ⟨c, rfl, rfl, fun _ => rfl, ?_, ?_⟩
    · intro pt hp; rw [hp.1] at hT; cases hT
    · intro pt hp; rw [hp.1] at hT; cases hT
  | some subject =>
    have hp_eq : ∀ pt, authorization_accepted c ps sm.decode pt → pt = subject := by
      intro pt hp
      have := hp.1
      rw [hT] at this
      cases this; rfl
    simp only
    by_cases hfields : subject.long_term_public_key = sm.decode.long_term_public_key
        ∧ subject.ephemeral_public_key = sm.decode.ephemeral_public_key
        ∧ subject.authorization_nonce = sm.decode.authorization_nonce
    swap
    · refine ⟨c, by simp [hfields], rfl, fun _ => rfl, ?_, ?_⟩
      · intro pt hp
        have := hp_eq pt hp; subst this
        exact absurd ⟨hp.2.1, hp.2.2.1, hp.2.2.2.1⟩ hfields
      · intro pt hp
        have := hp_eq pt hp; subst this
        exact absurd ⟨hp.2.1, hp.2.2.1, hp.2.2.2.1⟩ hfields
    simp only [hfields, and_self, decide_True, Bool.not_true, Bool.false_eq_true, if_false]
    cases hsa : ps.authorized with
    | true =>
      simp only [if_true]
      cases hta : subject.authorized with
      | true =>
        simp only [if_true]
        refine ⟨c, rfl, rfl, fun _ => rfl, ?_, ?_⟩
        · intro pt hp
          have := hp_eq pt hp; subst this
          exact absurd (hsa.trans hta.symm) hp.2.2.2.2
        · intro pt hp h1
          simp at h1
      | false =>
        simp only [Bool.false_eq_true, if_false]
        obtain ⟨c1, h1, h2, h3⟩ := @record_authorization_spec _ sender
          sm.decode.username _ _ _ _ hS hT hsa hta
        refine ⟨c1, h1, h2, ?_, ?_, ?_⟩
        · intro hno
          exact absurd ⟨subject, hT, hfields.1, hfields.2.1, hfields.2.2, by simp [hsa, hta]⟩ hno
        · intro pt _ _ hname
          rw [h3, hname]
          simp
        · intro pt _ h4
          simp at h4
    | false =>
      simp only [Bool.false_eq_true, if_false]
      cases hta : subject.authorized with
      | false =>
        simp only [Bool.not_false, if_true]
        refine ⟨c, rfl, rfl, fun _ => rfl, ?_, ?_⟩
        · intro pt hp h1
          simp at h1
        · intro pt hp
          have := hp_eq pt hp; subst this
          exact absurd (hsa.trans hta.symm) hp.2.2.2.2
      | true =>
        simp only [Bool.not_true, Bool.false_eq_true, if_false]
        obtain ⟨c1, h1, h2, h3⟩ := @record_authorization_spec _ sender
          sm.decode.username _ _ _ _ hT hS hta hsa
        refine ⟨c1, h1, h2, ?_, ?_, ?_⟩
        · intro hno
          exact absurd ⟨subject, hT, hfields.1, hfields.2.1, hfields.2.2, by simp [hsa, hta]⟩ hno
        · intro pt _ h4
          simp at h4
        · intro pt hp _ hname
          have := hp_eq pt hp; subst this
          have hne : ¬ pt.username = sender := by
            intro he
            rw [hname] at he
            rw [he, hS] at hT
            cases hT
            rw [hsa] at hta
            cases hta
          rw [h3, if_neg hne, hname]

theorem dispatch_authorization {X : Env} {c : Channel} {sender : String} {m : Message}
    (h : m.type = .Authorization) : dispatch X c sender m = on_authorization X c sender m := by
  unfold dispatch; rw [h]

/-- C4 (accepting an Authorization): for a validly signed Authorization message from a
participant `sender` (entry `ps`) about the subject `T = message.username`,
`message_received` returns and leaves the event queue unchanged.  The message is accepted
only if `T` is a participant whose recorded long-term key, ephemeral key and
authorization nonce equal the message fields and exactly one of `sender` and `T` is
authorized; in every other case the participant table is unchanged.  When accepted and
`sender` is the authorized one, `sender` is inserted into `authorized_by(T)` and then `T`
is promoted exactly when it satisfies the symmetric quorum; when accepted and `T` is the
authorized one, `T` is inserted into `authorized_peers(sender)` and then `sender` is
promoted exactly when it satisfies the symmetric quorum.  (The entry of the authorized
one carries its own key as username.) -/
theorem authorization_recorded (X : Env) (c : Channel) (sender : String) (np1sec_message : Message)
    (ps : Participant) (sm : SignedMessage UnsignedAuthorizationMessage)
    (htype : np1sec_message.type = .Authorization)
    (hS : c.m_participants.find sender = some ps)
    (hv : X.verify_authorization np1sec_message ps.ephemeral_public_key = some sm)
    (hvalid : sm.valid = true) (h : EventsTyped c.m_events) :
    ∃ c1, message_received X c sender np1sec_message = .ok c1 ∧ c1.m_events = c.m_events
      ∧ ((¬ ∃ pt, authorization_accepted c ps sm.decode pt) →
          c1.m_participants = c.m_participants)
      ∧ (∀ pt, authorization_accepted c ps sm.decode pt → ps.authorized = true →
          ps.username = sender →
          c1.m_participants = promote_if_quorum
            (c.m_participants.modify sm.decode.username
              (fun p => { p with authorized_by := insert sender p.authorized_by }))
            sm.decode.username)
      ∧ (∀ pt, authorization_accepted c ps sm.decode pt → ps.authorized = false →
          pt.username = sm.decode.username →
          c1.m_participants = promote_if_quorum
            (c.m_participants.modify sender
              (fun p => { p with authorized_peers := insert sm.decode.username p.authorized_peers }))
            sender) := by
  obtain ⟨status, hs⟩ := channel_status_total X c "" (zero_hash X) h
  rw [message_received_ok hs, dispatch_authorization htype]
  obtain ⟨c1, h1, h2, h3, h4, h5⟩ := on_authorization_spec X
    (with_hash c (chained_hash X status sender (X.type_byte np1sec_message.type) np1sec_message.payload))
    sender np1sec_message ps sm hS hv hvalid
  exact ⟨c1, h1, h2, h3, h4, h5⟩

/-- Witness of C4: `alice`, authorized, signs an Authorization for `bob`, who already
lists `alice` in `authorized_peers`; `bob` is recorded and promoted. -/
theorem authorization_recorded_witness :
    ∃ c1, message_received demo_env (demo_pair ∅ {"alice"}) "alice" ⟨.Authorization, "bob"⟩ = .ok c1
      ∧ c1.m_participants.find "bob" = some { demo_bob ∅ ∅ with authorized := true } := by
  obtain ⟨c1, h1, -, -, h4, -⟩ := authorization_recorded demo_env (demo_pair ∅ {"alice"}) "alice"
    ⟨.Authorization, "bob"⟩
    { default_participant demo_env with
      username := "alice", long_term_public_key := ⟨"alice-lt"⟩, ephemeral_public_key := ⟨"alice-eph"⟩,
      authorization_nonce := ⟨"n0"⟩, authorized := true, authentication_status := .Authenticated }
    ⟨true, ⟨"bob", ⟨"bob-lt"⟩, ⟨"bob-eph"⟩, ⟨"n0"⟩⟩⟩ rfl rfl rfl rfl (by decide)
  refine ⟨c1, h1, ?_⟩
  rw [h4 (demo_bob ∅ {"alice"}) ⟨rfl, rfl, rfl, rfl, by decide⟩ rfl rfl]
  decide

/-! ## The event queue (C8, C9) -/

theorem first_user_event_some {events : List Event} {username : String} {n : Nat} {e : Event}
    (h : first_user_event events username = .ok (some (n, e))) :
    events[n]? = some e ∧ username ∈ e.remaining_users := by
  induction events generalizing n with
  | nil => simp [first_user_event] at h
  | cons i rest ih =>
    have hnext : ∀ {n : Nat}, (match first_user_event rest username with
        | .error f => (.error f : Except Fault (Option (Nat × Event)))
        | .ok none => .ok none
        | .ok (some (n, e)) => .ok (some (n + 1, e))) = .ok (some (n, e)) →
        (i :: rest)[n]? = some e ∧ username ∈ e.remaining_users := by
      intro n hn
      split at hn
      · cases hn
      · cases hn
      · rename_i n1 e1 h1
        cases hn
        have := ih h1
        exact ⟨by simpa using this.1, this.2⟩
    unfold first_user_event at h
    simp only at h
    split_ifs at h with h1 h2 h3 h4 h5 h6
    all_goals first
      | exact hnext h
      | (cases h
         refine ⟨by simp, ?_⟩
         simp [Event.remaining_users, *])

theorem remaining_users_erase_user (e : Event) (u : String) :
    (e.erase_user u).remaining_users = e.remaining_users.erase u := by
  unfold Event.erase_user Event.remaining_users
  split_ifs <;> simp_all

theorem erase_user_type (e : Event) (u : String) : (e.erase_user u).type = e.type := by
  unfold Event.erase_user
  split_ifs <;> rfl

theorem card_erase_user {e : Event} {u : String} (h : u ∈ e.remaining_users) :
    (e.erase_user u).remaining_users.card + 1 = e.remaining_users.card := by
  rw [remaining_users_erase_user, Finset.card_erase_of_mem h]
  have : 0 < e.remaining_users.card := Finset.card_pos.2 ⟨u, h⟩
  omega

theorem store_or_erase_channel_status (events : List Event) (n : Nat) (e : Event) (u : String)
    (h : e.type = .ChannelStatus) :
    store_or_erase events n
        { e with channel_status :=
            { e.channel_status with remaining_users := e.channel_status.remaining_users.erase u } }
        (decide (e.channel_status.remaining_users.erase u = ∅))
      = consume_at events n (e.erase_user u) := by
  unfold store_or_erase consume_at
  rw [remaining_users_erase_user]
  simp [Event.erase_user, Event.remaining_users, h]

theorem store_or_erase_consistency_check (events : List Event) (n : Nat) (e : Event) (u : String)
    (h : e.type = .ConsistencyCheck) :
    store_or_erase events n
        { e with consistency_check :=
            { e.consistency_check with remaining_users := e.consistency_check.remaining_users.erase u } }
        (decide (e.consistency_check.remaining_users.erase u = ∅))
      = consume_at events n (e.erase_user u) := by
  unfold store_or_erase consume_at
  rw [remaining_users_erase_user]
  simp [Event.erase_user, Event.remaining_users, h]

theorem store_or_erase_key_event (events : List Event) (n : Nat) (e : Event) (u : String)
    (h1 : e.type ≠ .ChannelStatus) (h2 : e.type ≠ .ConsistencyCheck)
    (h3 : (is_key_exchange_type e.type || decide (e.type = .KeyActivation)) = true) :
    store_or_erase events n
        { e with key_event :=
            { e.key_event with remaining_users := e.key_event.remaining_users.erase u } }
        (decide (e.key_event.remaining_users.erase u = ∅))
      = consume_at events n (e.erase_user u) := by
  unfold store_or_erase consume_at
  rw [remaining_users_erase_user]
  simp only [Event.erase_user, Event.remaining_users, h1, h2, h3, if_true, if_false]
  simp

theorem key_event_reply_match {c : Channel} {sender : String} {type : MessageType} {key_id : Hash}
    {n : Nat} {e : Event} (hfirst : first_user_event c.m_events sender = .ok (some (n, e)))
    (htype : e.type = type) (hkey : e.key_event.key_id = key_id)
    (h1 : type ≠ .ChannelStatus) (h2 : type ≠ .ConsistencyCheck)
    (h3 : (is_key_exchange_type type || decide (type = .KeyActivation)) = true) :
    ∃ c1, key_event_reply c sender type key_id = .ok (true, c1)
      ∧ c1.m_events = consume_at c.m_events n (e.erase_user sender)
      ∧ c1.m_participants = c.m_participants ∧ c1.m_encrypted_chat = c.m_encrypted_chat := by
  subst htype
  subst hkey
  unfold key_event_reply
  simp only [hfirst, and_self, if_true]
  exact ⟨_, rfl, store_or_erase_key_event _ _ _ _ h1 h2 h3, rfl, rfl⟩

theorem dispatch_consumes (X : Env) (c : Channel) (sender : String) (m : Message) (n : Nat)
    (e : Event) (hfirst : first_user_event c.m_events sender = .ok (some (n, e)))
    (hmatch : reply_matches X c sender m e) :
    ∃ c1, dispatch X c sender m = .ok c1
      ∧ c1.m_events = consume_at c.m_events n (e.erase_user sender)
      ∧ c1.m_participants = c.m_participants := by
  unfold reply_matches at hmatch
  unfold dispatch
  split at hmatch
  · rename_i htype
    obtain ⟨message, hdec, ht, h1, h2, h3⟩ := hmatch
    rw [htype]
    simp only [on_channel_status, hdec, hfirst]
    rw [if_pos ⟨ht, h1, h2, h3⟩]
    exact ⟨_, rfl, store_or_erase_channel_status _ _ _ _ ht, rfl⟩
  · rename_i htype
    obtain ⟨ps, sm, hS, hv, hvalid, ht, h1⟩ := hmatch
    rw [htype]
    simp only [on_consistency_check, hS, hv, hvalid, hfirst, Bool.not_true, Bool.false_eq_true,
      if_false]
    rw [if_pos ⟨ht, h1⟩]
    exact ⟨_, rfl, store_or_erase_consistency_check _ _ _ _ ht, rfl⟩
  · rename_i htype
    obtain ⟨ps, sm, hS, hv, hvalid, ht, h1⟩ := hmatch
    rw [htype]
    obtain ⟨c1, hk, he, hp, _⟩ := key_event_reply_match hfirst ht h1 (by simp) (by simp) (by decide)
    simp only [on_key_exchange_public_key, hS, hv, hvalid, hk, Bool.not_true, Bool.false_eq_true,
      if_false]
    exact ⟨_, rfl, he, hp⟩
  · rename_i htype
    obtain ⟨ps, sm, hS, hv, hvalid, ht, h1⟩ := hmatch
    rw [htype]
    obtain ⟨c1, hk, he, hp, _⟩ := key_event_reply_match hfirst ht h1 (by simp) (by simp) (by decide)
    simp only [on_key_exchange_secret_share, hS, hv, hvalid, hk, Bool.not_true, Bool.false_eq_true,
      if_false]
    split_ifs
    · exact ⟨_, rfl, he, hp⟩
    · exact ⟨_, rfl, he, hp⟩
  · rename_i htype
    obtain ⟨ps, sm, hS, hv, hvalid, ht, h1⟩ := hmatch
    rw [htype]
    obtain ⟨c1, hk, he, hp, _⟩ := key_event_reply_match hfirst ht h1 (by simp) (by simp) (by decide)
    simp only [on_key_exchange_acceptance, hS, hv, hvalid, hk, Bool.not_true, Bool.false_eq_true,
      if_false]
    split_ifs
    · exact ⟨_, rfl, he, hp⟩
    · exact ⟨_, rfl, he, hp⟩
  · rename_i htype
    obtain ⟨ps, sm, hS, hv, hvalid, ht, h1⟩ := hmatch
    rw [htype]
    obtain ⟨c1, hk, he, hp, _⟩ := key_event_reply_match hfirst ht h1 (by simp) (by simp) (by decide)
    simp only [on_key_exchange_reveal, hS, hv, hvalid, hk, Bool.not_true, Bool.false_eq_true,
      if_false]
    split_ifs
    · exact ⟨_, rfl, he, hp⟩
    · exact ⟨_, rfl, he, hp⟩
  · rename_i htype
    obtain ⟨ps, sm, hS, hv, hvalid, ht, h1⟩ := hmatch
    rw [htype]
    obtain ⟨c1, hk, he, hp, _⟩ := key_event_reply_match hfirst ht h1 (by simp) (by simp) (by decide)
    simp only [on_key_activation, hS, hv, hvalid, hk, Bool.not_true, Bool.false_eq_true,
      if_false]
    split_ifs
    · exact ⟨_, rfl, he, hp⟩
    · exact ⟨_, rfl, he, hp⟩
  · exact absurd hmatch id

/-- C8 (event consumption): when the reply `m` from `sender` passes the match against
`first_user_event(sender)`, the event `e` at position `n` of the queue, `message_received`
returns and erases `sender` from the `remaining_users` of exactly that event, whose size
thereby decreases by one; the event is deleted from the queue if and only if its
`remaining_users` is then empty, and stays in place otherwise; every other event keeps
its content and its relative order, and the participant table is unchanged. -/
theorem event_consumption (X : Env) (c : Channel) (sender : String) (np1sec_message : Message)
    (n : Nat) (e : Event) (h : EventsTyped c.m_events)
    (hfirst : first_user_event c.m_events sender = .ok (some (n, e)))
    (hmatch : reply_matches X c sender np1sec_message e) :
    ∃ c1, message_received X c sender np1sec_message = .ok c1
      ∧ c.m_events[n]? = some e
      ∧ (e.erase_user sender).remaining_users = e.remaining_users.erase sender
      ∧ (e.erase_user sender).remaining_users.card + 1 = e.remaining_users.card
      ∧ c1.m_events = (if (e.erase_user sender).remaining_users = ∅ then c.m_events.eraseIdx n
                       else c.m_events.set n (e.erase_user sender))
      ∧ c1.m_participants = c.m_participants := by
  obtain ⟨status, hs⟩ := channel_status_total X c "" (zero_hash X) h
  rw [message_received_ok hs]
  obtain ⟨c1, h1, h2, h3⟩ := dispatch_consumes X
    (with_hash c (chained_hash X status sender (X.type_byte np1sec_message.type) np1sec_message.payload))
    sender np1sec_message n e hfirst hmatch
  have hf := first_user_event_some hfirst
  exact ⟨c1, h1, hf.1, remaining_users_erase_user e sender, card_erase_user hf.2, h2, h3⟩

/-- Witness of C8: `bob` answers the queued consistency check with the expected hash;
`bob` is erased from the event, which stays queued for `alice`. -/
theorem event_consumption_witness :
    ∃ c1, message_received demo_env demo_waiting "bob" ⟨.ConsistencyCheck, "h1"⟩ = .ok c1
      ∧ c1.m_events = [demo_check_event.erase_user "bob"]
      ∧ (demo_check_event.erase_user "bob").remaining_users = {"alice"} := by
  obtain ⟨c1, h1, -, -, -, h5, -⟩ := event_consumption demo_env demo_waiting "bob"
    ⟨.ConsistencyCheck, "h1"⟩ 0 demo_check_event (by decide) rfl
    ⟨demo_bob ∅ ∅, ⟨true, ⟨⟨"h1"⟩⟩⟩, rfl, rfl, rfl, rfl, rfl⟩
  refine ⟨c1, h1, ?_, by decide⟩
  rw [h5, if_neg (by decide)]
  rfl

/-! ## Removal (C9, C10) -/

theorem shrinks_refl (m : ParticipantMap) : Shrinks m m :=
  fun _ p1 h => ⟨p1, h, Finset.Subset.refl _, Finset.Subset.refl _⟩

theorem shrinks_trans {a b c : ParticipantMap} (h1 : Shrinks a b) (h2 : Shrinks b c) : Shrinks a c := by
  intro k p1 h
  obtain ⟨p, hp, hb, hq⟩ := h2 k p1 h
  obtain ⟨p0, hp0, hb0, hq0⟩ := h1 k p hp
  exact ⟨p0, hp0, hb.trans hb0, hq.trans hq0⟩

theorem shrinks_promote_if_quorum (m : ParticipantMap) (key : String) :
    Shrinks m (promote_if_quorum m key) := by
  unfold promote_if_quorum
  split
  · split_ifs
    · intro k p1 h
      rw [ParticipantMap.find_modify] at h
      split_ifs at h with hk
      · cases hf : m.find k with
        | none => rw [hf] at h; cases h
        | some p =>
          rw [hf] at h
          cases h
          exact ⟨p, rfl, by simp, by simp⟩
      · exact ⟨p1, h, Finset.Subset.refl _, Finset.Subset.refl _⟩
    · exact shrinks_refl _
  · exact shrinks_refl _

theorem try_promote_effect {c c1 : Channel} {key : String} {b : Bool}
    (h : try_promote_unauthorized_participant c key = .ok (b, c1)) :
    c1.m_participants = promote_if_quorum c.m_participants key ∧ c1.m_events = c.m_events
      ∧ ∃ u, c.m_participants.find key = some u ∧ u.authorized = false := by
  have hex : ∃ u, c.m_participants.find key = some u ∧ u.authorized = false := by
    unfold try_promote_unauthorized_participant at h
    split at h
    · cases h
    · rename_i u hfind
      by_cases hauth : u.authorized = true
      · simp [hauth] at h
      · exact ⟨u, hfind, by simpa using hauth⟩
  obtain ⟨u, hfind, hun⟩ := hex
  obtain ⟨b2, c2, h2, h3, h4⟩ := try_promote_participants hfind hun
  rw [h] at h2
  cases h2
  exact ⟨h3, h4, u, hfind, hun⟩

theorem do_remove_user_effect {c c1 : Channel} {username : String}
    (h : do_remove_user c username = .ok c1) :
    c1.m_participants = purge_witnesses username (c.m_participants.erase username)
      ∧ c1.m_events = purge_events username c.m_events
      ∧ c.m_participants.count username = true := by
  unfold do_remove_user at h
  split_ifs at h with hc
  cases h
  refine ⟨by rw [find_notify], by rw [events_notify], by simpa using hc⟩

theorem promote_loop_effect {l : Entries} {c c1 : Channel} (h : promote_loop c l = .ok c1) :
    Shrinks c.m_participants c1.m_participants ∧ c1.m_events = c.m_events := by
  induction l generalizing c with
  | nil => cases h; exact ⟨shrinks_refl _, rfl⟩
  | cons hd rest ih =>
    obtain ⟨key, p⟩ := hd
    unfold promote_loop at h
    split_ifs at h
    · split at h
      · cases h
      · rename_i c2 h2
        cases h
        obtain ⟨h3, h4, -⟩ := try_promote_effect h2
        refine ⟨?_, h4⟩
        show Shrinks c.m_participants c2.m_participants
        rw [h3]
        exact shrinks_promote_if_quorum _ _
      · rename_i c2 h2
        have := try_promote_false h2
        subst this
        exact ih h
    · exact ih h

theorem remove_user_effect {c c1 : Channel} {username : String}
    (h : remove_user c username = .ok c1) :
    (c.m_participants.count username = true →
      Shrinks (purge_witnesses username (c.m_participants.erase username)) c1.m_participants
        ∧ c1.m_events = purge_events username c.m_events)
    ∧ (c.m_participants.count username = false →
      Shrinks c.m_participants c1.m_participants ∧ c1.m_events = c.m_events) := by
  unfold remove_user remove_users at h
  split at h
  · cases h
  · rename_i c2 h2
    split at h
    · cases h
    · rename_i c3 h3
      cases h
      obtain ⟨h4, h5⟩ := promote_loop_effect h3
      unfold remove_users_loop at h2
      split_ifs at h2 with hc
      · unfold remove_users_loop at h2
        cases h2
        have hc2 : c.m_participants.count username = false := by simpa using hc
        refine ⟨fun h => ?_, fun _ => ⟨h4, h5⟩⟩
        rw [hc2] at h; cases h
      · split at h2
        · cases h2
        · rename_i c4 h6
          unfold remove_users_loop at h2
          cases h2
          obtain ⟨h7, h8, h9⟩ := do_remove_user_effect h6
          refine ⟨fun _ => ?_, fun h => ?_⟩
          · rw [← h7, ← h8]
            exact ⟨h4, h5⟩
          · rw [h9] at h; cases h

theorem purge_events_clean (username : String) (events : List Event)
    (h : CheckEventsClean events) :
    ∀ e ∈ purge_events username events, username ∉ e.remaining_users := by
  induction events with
  | nil => intro e he; simp [purge_events] at he
  | cons i rest ih =>
    have hi := h i (List.mem_cons_self _ _)
    have hrest : CheckEventsClean rest := fun x hx => h x (List.mem_cons_of_mem _ hx)
    intro e he
    unfold purge_events at he
    dsimp only at he
    split_ifs at he with h1 h2 h3 h4 h5 h6
    · exact ih hrest e he
    · rcases List.mem_cons.1 he with he | he
      · subst he
        simp [Event.remaining_users, h1]
      · exact ih hrest e he
    · exact ih hrest e he
    · exfalso
      apply h4
      simp [hi h3]
    · exact ih hrest e he
    · rcases List.mem_cons.1 he with he | he
      · subst he
        simp only [Event.remaining_users, h1, h3, h5, if_true, if_false]
        simp
      · exact ih hrest e he
    · rcases List.mem_cons.1 he with he | he
      · subst he
        simp [Event.remaining_users, h1, h3, h5]
      · exact ih hrest e he

theorem find_purge_witnesses (username : String) (m : ParticipantMap) (k : String) :
    (purge_witnesses username m).find k = (m.find k).map (fun p =>
      if !p.authorized then
        { p with authorized_by := p.authorized_by.erase username,
                 authorized_peers := p.authorized_peers.erase username }
      else p) := by
  unfold purge_witnesses
  rw [ParticipantMap.find_update_all]

theorem count_eq_false_iff {m : ParticipantMap} {k : String} :
    m.count k = false ↔ m.find k = none := by
  unfold ParticipantMap.count
  cases m.find k <;> simp

theorem count_eq_true_iff {m : ParticipantMap} {k : String} :
    m.count k = true ↔ ∃ p, m.find k = some p := by
  unfold ParticipantMap.count
  cases m.find k <;> simp

theorem remove_user_not_found {c c1 : Channel} {username : String}
    (h : remove_user c username = .ok c1) : c1.m_participants.find username = none := by
  obtain ⟨h1, h2⟩ := remove_user_effect h
  cases hf : c1.m_participants.find username with
  | none => rfl
  | some p1 =>
    exfalso
    cases hc : c.m_participants.count username with
    | true =>
      obtain ⟨p, hp, -, -⟩ := (h1 hc).1 username p1 hf
      rw [find_purge_witnesses, ParticipantMap.find_erase] at hp
      simp at hp
    | false =>
      obtain ⟨p, hp, -, -⟩ := (h2 hc).1 username p1 hf
      rw [count_eq_false_iff.1 hc] at hp
      cases hp

theorem remove_user_witnesses {c c1 : Channel} {username : String}
    (h : remove_user c username = .ok c1) (hc : c.m_participants.count username = true)
    (hw : WitnessesClean c.m_participants) :
    ∀ i ∈ c1.m_participants.entries,
      username ∉ i.2.authorized_by ∧ username ∉ i.2.authorized_peers := by
  obtain ⟨h1, -⟩ := remove_user_effect h
  intro i hi
  obtain ⟨k, p1⟩ := i
  have hf := ParticipantMap.find_of_mem hi
  obtain ⟨p, hp, hby, hpeers⟩ := (h1 hc).1 k p1 hf
  rw [find_purge_witnesses, ParticipantMap.find_erase] at hp
  split_ifs at hp with hk
  · simp at hp
  · cases hp0 : c.m_participants.find k with
    | none => rw [hp0] at hp; simp at hp
    | some p0 =>
      rw [hp0] at hp
      simp only [Option.map_some', Option.some.injEq] at hp
      have hmem := ParticipantMap.mem_of_find hp0
      cases ha : p0.authorized with
      | true =>
        have := hw _ hmem ha
        simp only [ha, Bool.not_true, Bool.false_eq_true, if_false] at hp
        subst hp
        dsimp only at *
        rw [this.1] at hby
        rw [this.2] at hpeers
        exact ⟨fun hx => by simpa using hby hx, fun hx => by simpa using hpeers hx⟩
      | false =>
        simp only [ha, Bool.not_false, if_true] at hp
        subst hp
        dsimp only at *
        exact ⟨fun hx => by simpa using hby hx, fun hx => by simpa using hpeers hx⟩

theorem key_event_reply_violation {c : Channel} {sender : String} {type : MessageType}
    {key_id : Hash} (ht : EventsTyped c.m_events)
    (h : ¬ ∃ n e, first_user_event c.m_events sender = .ok (some (n, e))
        ∧ e.type = type ∧ e.key_event.key_id = key_id) :
    ∃ c1, remove_user c sender = .ok c1 ∧ key_event_reply c sender type key_id = .ok (false, c1) := by
  obtain ⟨r, hr⟩ := first_user_event_total c.m_events sender ht
  obtain ⟨c1, h1⟩ := remove_user_total c sender
  refine ⟨c1, h1, ?_⟩
  unfold key_event_reply
  simp only [hr, h1]
  cases r with
  | none => rfl
  | some v =>
    obtain ⟨n, e⟩ := v
    have : ¬ (e.type = type ∧ e.key_event.key_id = key_id) := fun hx => h ⟨n, e, hr, hx⟩
    simp only [this, if_false]

theorem dispatch_violation (X : Env) (c : Channel) (sender : String) (m : Message)
    (ps : Participant) (ht : EventsTyped c.m_events)
    (hS : c.m_participants.find sender = some ps)
    (hsigned : validly_signed_reply X m ps.ephemeral_public_key)
    (hviol : ¬ ∃ n e, first_user_event c.m_events sender = .ok (some (n, e))
        ∧ reply_matches X c sender m e) :
    dispatch X c sender m = remove_user c sender := by
  unfold validly_signed_reply at hsigned
  unfold dispatch
  split at hsigned
  · rename_i htype
    obtain ⟨sm, hv, hvalid⟩ := hsigned
    rw [htype]
    have hno : ¬ ∃ n e, first_user_event c.m_events sender = .ok (some (n, e))
        ∧ e.type = .ConsistencyCheck
        ∧ e.consistency_check.channel_status_hash = sm.decode.channel_status_hash := by
      rintro ⟨n, e, h1, h2, h3⟩
      apply hviol
      refine ⟨n, e, h1, ?_⟩
      unfold reply_matches
      rw [htype]
      exact ⟨ps, sm, hS, hv, hvalid, h2, h3⟩
    obtain ⟨r, hr⟩ := first_user_event_total c.m_events sender ht
    simp only [on_consistency_check, hS, hv, hvalid, hr, Bool.not_true, Bool.false_eq_true, if_false]
    cases r with
    | none => rfl
    | some v =>
      obtain ⟨n, e⟩ := v
      have : ¬ (e.type = .ConsistencyCheck
          ∧ e.consistency_check.channel_status_hash = sm.decode.channel_status_hash) :=
        fun hx => hno ⟨n, e, hr, hx⟩
      simp only [this, if_false]
  · rename_i htype
    obtain ⟨sm, hv, hvalid⟩ := hsigned
    rw [htype]
    obtain ⟨c1, h1, h2⟩ := @key_event_reply_violation _ _ .KeyExchangePublicKey
      sm.decode.key_id ht (by
        rintro ⟨n, e, h1, h2, h3⟩
        apply hviol
        refine ⟨n, e, h1, ?_⟩
        unfold reply_matches
        rw [htype]
        exact ⟨ps, sm, hS, hv, hvalid, h2, h3⟩)
    simp only [on_key_exchange_public_key, hS, hv, hvalid, h2, h1, Bool.not_true,
      Bool.false_eq_true, if_false]
  · rename_i htype
    obtain ⟨sm, hv, hvalid⟩ := hsigned
    rw [htype]
    obtain ⟨c1, h1, h2⟩ := @key_event_reply_violation _ _ .KeyExchangeSecretShare
      sm.decode.key_id ht (by
        rintro ⟨n, e, h1, h2, h3⟩
        apply hviol
        refine ⟨n, e, h1, ?_⟩
        unfold reply_matches
        rw [htype]
        exact ⟨ps, sm, hS, hv, hvalid, h2, h3⟩)
    simp only [on_key_exchange_secret_share, hS, hv, hvalid, h2, h1, Bool.not_true,
      Bool.false_eq_true, if_false]
  · rename_i htype
    obtain ⟨sm, hv, hvalid⟩ := hsigned
    rw [htype]
    obtain ⟨c1, h1, h2⟩ := @key_event_reply_violation _ _ .KeyExchangeAcceptance
      sm.decode.key_id ht (by
        rintro ⟨n, e, h1, h2, h3⟩
        apply hviol
        refine ⟨n, e, h1, ?_⟩
        unfold reply_matches
        rw [htype]
        exact ⟨ps, sm, hS, hv, hvalid, h2, h3⟩)
    simp only [on_key_exchange_acceptance, hS, hv, hvalid, h2, h1, Bool.not_true,
      Bool.false_eq_true, if_false]
  · rename_i htype
    obtain ⟨sm, hv, hvalid⟩ := hsigned
    rw [htype]
    obtain ⟨c1, h1, h2⟩ := @key_event_reply_violation _ _ .KeyExchangeReveal
      sm.decode.key_id ht (by
        rintro ⟨n, e, h1, h2, h3⟩
        apply hviol
        refine ⟨n, e, h1, ?_⟩
        unfold reply_matches
        rw [htype]
        exact ⟨ps, sm, hS, hv, hvalid, h2, h3⟩)
    simp only [on_key_exchange_reveal, hS, hv, hvalid, h2, h1, Bool.not_true,
      Bool.false_eq_true, if_false]
  · rename_i htype
    obtain ⟨sm, hv, hvalid⟩ := hsigned
    rw [htype]
    obtain ⟨c1, h1, h2⟩ := @key_event_reply_violation _ _ .KeyActivation
      sm.decode.key_id ht (by
        rintro ⟨n, e, h1, h2, h3⟩
        apply hviol
        refine ⟨n, e, h1, ?_⟩
        unfold reply_matches
        rw [htype]
        exact ⟨ps, sm, hS, hv, hvalid, h2, h3⟩)
    simp only [on_key_activation, hS, hv, hvalid, h2, h1, Bool.not_true,
      Bool.false_eq_true, if_false]
  · exact absurd hsigned id

/-- C9 (protocol-ordering violation): let `sender` be a participant and `m` a validly
signed ConsistencyCheck, KeyExchangePublicKey, KeyExchangeSecretShare,
KeyExchangeAcceptance, KeyExchangeReveal or KeyActivation message from `sender`.  If
`sender` has no pending event, or the type or the discriminator of
`first_user_event(sender)` differs from the message's, then `message_received` returns
the channel obtained by `remove_user(sender)` after the hash update: no event is
consumed, `sender` is no longer in the participant table and is in no queued event's
`remaining_users`.  (The queue is taken as the channel keeps it: events of the seven
event types, the unselected `channel_status` sub-record of a ConsistencyCheck event
empty.) -/
theorem ordering_violation_removes (X : Env) (c : Channel) (sender : String)
    (np1sec_message : Message) (ps : Participant)
    (ht : EventsTyped c.m_events) (hclean : CheckEventsClean c.m_events)
    (hS : c.m_participants.find sender = some ps)
    (hsigned : validly_signed_reply X np1sec_message ps.ephemeral_public_key)
    (hviol : ¬ ∃ n e, first_user_event c.m_events sender = .ok (some (n, e))
        ∧ reply_matches X c sender np1sec_message e) :
    ∃ c0 c1, hash_message X c sender np1sec_message = .ok c0
      ∧ remove_user c0 sender = .ok c1
      ∧ message_received X c sender np1sec_message = .ok c1
      ∧ c1.m_participants.find sender = none
      ∧ (∀ e ∈ c1.m_events, sender ∉ e.remaining_users)
      ∧ c1.m_events = purge_events sender c.m_events := by
  obtain ⟨status, hs⟩ := channel_status_total X c "" (zero_hash X) ht
  have hd := dispatch_violation X
    (with_hash c (chained_hash X status sender (X.type_byte np1sec_message.type) np1sec_message.payload))
    sender np1sec_message ps ht hS hsigned hviol
  obtain ⟨c1, h1⟩ := remove_user_total
    (with_hash c (chained_hash X status sender (X.type_byte np1sec_message.type) np1sec_message.payload))
    sender
  have hcount : c.m_participants.count sender = true := count_eq_true_iff.2 ⟨ps, hS⟩
  have hev : c1.m_events = purge_events sender c.m_events := ((remove_user_effect h1).1 hcount).2
  refine ⟨_, c1, hash_payload_ok hs, h1, ?_, remove_user_not_found h1, ?_, hev⟩
  · rw [message_received_ok hs, hd, h1]
  · rw [hev]
    exact purge_events_clean sender c.m_events hclean

/-- Witness of C9: `bob` answers the queued consistency check on `h1` with the hash
`h2`; `bob` is removed. -/
theorem ordering_violation_removes_witness :
    ∃ c1, message_received demo_env demo_waiting "bob" ⟨.ConsistencyCheck, "h2"⟩ = .ok c1
      ∧ c1.m_participants.find "bob" = none
      ∧ (∀ e ∈ c1.m_events, "bob" ∉ e.remaining_users) := by
  obtain ⟨c0, c1, -, -, h3, h4, h5, -⟩ := ordering_violation_removes demo_env demo_waiting "bob"
    ⟨.ConsistencyCheck, "h2"⟩ (demo_bob ∅ ∅) (by decide) (by decide) rfl
    ⟨⟨true, ⟨⟨"h2"⟩⟩⟩, rfl, rfl⟩
    (by
      rintro ⟨n, e, h1, h2⟩
      have hfirst : first_user_event demo_waiting.m_events "bob"
          = .ok (some (0, demo_check_event)) := rfl
      rw [hfirst] at h1
      simp only [Except.ok.injEq, Option.some.injEq, Prod.mk.injEq] at h1
      obtain ⟨-, rfl⟩ := h1
      obtain ⟨ps, sm, -, hv, -, -, hh⟩ := h2
      have hsm : sm = ⟨true, ⟨⟨"h2"⟩⟩⟩ := by
        have : demo_env.verify_consistency_check ⟨.ConsistencyCheck, "h2"⟩ ps.ephemeral_public_key
            = some ⟨true, ⟨⟨"h2"⟩⟩⟩ := rfl
        rw [this] at hv
        exact (Option.some.inj hv).symm
      subst hsm
      exact absurd hh (by decide))
  exact ⟨c1, h3, h4, h5⟩

/-! ## An invariant of the reachable states -/

theorem inv_of_eq {c c1 : Channel} (hp : c1.m_participants = c.m_participants)
    (he : c1.m_events = c.m_events) (h : Inv c) : Inv c1 := by
  unfold Inv at *
  rw [hp, he]
  exact h

theorem inv_notify {c : Channel} (n : Notification) (h : Inv c) : Inv (notify c n) :=
  inv_of_eq (find_notify c n) (events_notify c n) h

theorem inv_send_message {c : Channel} (m : Message) (h : Inv c) : Inv (send_message c m) :=
  inv_of_eq rfl rfl h

theorem inv_encrypted_chat {c : Channel} (call : EncryptedChatCall) (h : Inv c) :
    Inv (encrypted_chat c call) :=
  inv_of_eq rfl rfl h

theorem witnesses_clean_assign {m : ParticipantMap} (h : WitnessesClean m) (k : String)
    (v : Participant) (hv : v.authorized = true → v.authorized_by = ∅ ∧ v.authorized_peers = ∅) :
    WitnessesClean (m.assign k v) := by
  intro i hi
  rcases Entries.mem_assign hi with hi | hi
  · subst hi; exact hv
  · exact h i hi

theorem witnesses_clean_erase {m : ParticipantMap} (h : WitnessesClean m) (k : String) :
    WitnessesClean (m.erase k) := by
  intro i hi
  exact h i (List.mem_of_mem_filter hi)

theorem witnesses_clean_update_all {m : ParticipantMap} (h : WitnessesClean m)
    (f : String → Participant → Participant)
    (hf : ∀ k p, (p.authorized = true → p.authorized_by = ∅ ∧ p.authorized_peers = ∅) →
      (f k p).authorized = true → (f k p).authorized_by = ∅ ∧ (f k p).authorized_peers = ∅) :
    WitnessesClean (m.update_all f) := by
  intro i hi
  simp only [ParticipantMap.update_all, Entries.update_all, List.mem_map] at hi
  obtain ⟨j, hj, rfl⟩ := hi
  exact hf j.1 j.2 (h j hj)

theorem witnesses_clean_modify {m : ParticipantMap} (h : WitnessesClean m) (key : String)
    (f : Participant → Participant)
    (hf : ∀ p, (p.authorized = true → p.authorized_by = ∅ ∧ p.authorized_peers = ∅) →
      (f p).authorized = true → (f p).authorized_by = ∅ ∧ (f p).authorized_peers = ∅) :
    WitnessesClean (m.modify key f) := by
  unfold ParticipantMap.modify
  apply witnesses_clean_update_all h
  intro k p hp
  split_ifs
  · exact hf p hp
  · exact hp

theorem witnesses_clean_promote_if_quorum {m : ParticipantMap} (h : WitnessesClean m) (key : String) :
    WitnessesClean (promote_if_quorum m key) := by
  unfold promote_if_quorum
  split
  · split_ifs
    · apply witnesses_clean_modify h
      intro p _ _
      exact ⟨rfl, rfl⟩
    · exact h
  · exact h

theorem witnesses_clean_purge {m : ParticipantMap} (h : WitnessesClean m) (username : String) :
    WitnessesClean (purge_witnesses username m) := by
  unfold purge_witnesses
  apply witnesses_clean_update_all h
  intro k p hp
  cases ha : p.authorized with
  | true => simpa [ha] using hp ha
  | false => simp [ha]

theorem check_events_clean_append {events : List Event} (h : CheckEventsClean events) (e : Event)
    (he : e.type = .ConsistencyCheck → e.channel_status.remaining_users = ∅) :
    CheckEventsClean (events ++ [e]) := by
  intro x hx
  rcases List.mem_append.1 hx with hx | hx
  · exact h x hx
  · simp at hx; subst hx; exact he

theorem check_events_clean_purge {events : List Event} (h : CheckEventsClean events)
    (username : String) : CheckEventsClean (purge_events username events) := by
  induction events with
  | nil => intro e he; simp [purge_events] at he
  | cons i rest ih =>
    have hi := h i (List.mem_cons_self _ _)
    have hrest : CheckEventsClean rest := fun x hx => h x (List.mem_cons_of_mem _ hx)
    intro e he
    unfold purge_events at he
    dsimp only at he
    split_ifs at he with h1 h2 h3 h4 h5 h6
    all_goals first
      | exact ih hrest e he
      | (rcases List.mem_cons.1 he with he | he
         · subst he
           intro htype
           first
             | exact absurd htype h1
             | exact absurd htype h3
             | (simp only [hi htype]; simp)
         · exact ih hrest e he)

theorem check_events_clean_store_or_erase {events : List Event} (h : CheckEventsClean events)
    (n : Nat) (e1 : Event) (b : Bool)
    (he : e1.type = .ConsistencyCheck → e1.channel_status.remaining_users = ∅) :
    CheckEventsClean (store_or_erase events n e1 b) := by
  unfold store_or_erase
  split_ifs
  · intro x hx
    exact h x (List.mem_of_mem_eraseIdx hx)
  · intro x hx
    rcases List.mem_or_eq_of_mem_set hx with hx | hx
    · exact h x hx
    · subst hx; exact he

theorem inv_try_promote {c c1 : Channel} {key : String} {b : Bool}
    (h : try_promote_unauthorized_participant c key = .ok (b, c1)) (hi : Inv c) : Inv c1 := by
  obtain ⟨h1, h2, -⟩ := try_promote_effect h
  unfold Inv at *
  rw [h1, h2]
  exact ⟨witnesses_clean_promote_if_quorum hi.1 key, hi.2⟩

theorem inv_do_remove_user {c c1 : Channel} {username : String}
    (h : do_remove_user c username = .ok c1) (hi : Inv c) : Inv c1 := by
  obtain ⟨h1, h2, -⟩ := do_remove_user_effect h
  unfold Inv at *
  rw [h1, h2]
  exact ⟨witnesses_clean_purge (witnesses_clean_erase hi.1 _) _, check_events_clean_purge hi.2 _⟩

theorem inv_remove_users_loop {usernames : List String} {c c1 : Channel}
    (h : remove_users_loop c usernames = .ok c1) (hi : Inv c) : Inv c1 := by
  induction usernames generalizing c with
  | nil => cases h; exact hi
  | cons u rest ih =>
    unfold remove_users_loop at h
    split_ifs at h
    · exact ih h hi
    · split at h
      · cases h
      · rename_i c2 h2
        exact ih h (inv_do_remove_user h2 hi)

theorem inv_promote_loop {l : Entries} {c c1 : Channel}
    (h : promote_loop c l = .ok c1) (hi : Inv c) : Inv c1 := by
  induction l generalizing c with
  | nil => cases h; exact hi
  | cons hd rest ih =>
    obtain ⟨key, p⟩ := hd
    unfold promote_loop at h
    split_ifs at h
    · split at h
      · cases h
      · rename_i c2 h2
        cases h
        exact inv_encrypted_chat _ (inv_try_promote h2 hi)
      · rename_i c2 h2
        exact ih h (inv_try_promote h2 hi)
    · exact ih h hi

theorem inv_remove_users {c c1 : Channel} {usernames : List String}
    (h : remove_users c usernames = .ok c1) (hi : Inv c) : Inv c1 := by
  unfold remove_users at h
  split at h
  · cases h
  · rename_i c2 h2
    split at h
    · cases h
    · rename_i c3 h3
      cases h
      exact inv_encrypted_chat _ (inv_promote_loop h3 (inv_remove_users_loop h2 hi))

theorem inv_remove_user {c c1 : Channel} {username : String}
    (h : remove_user c username = .ok c1) (hi : Inv c) : Inv c1 :=
  inv_remove_users h hi

theorem inv_set_participants {c : Channel} (m : ParticipantMap) (hi : Inv c)
    (hm : WitnessesClean m) : Inv { c with m_participants := m } :=
  ⟨hm, hi.2⟩

theorem inv_set_events {c : Channel} (es : List Event) (hi : Inv c)
    (he : CheckEventsClean es) : Inv { c with m_events := es } :=
  ⟨hi.1, he⟩

theorem inv_set_authentication_status {c : Channel} (key : String) (s : AuthenticationStatus)
    (hi : Inv c) : Inv (set_authentication_status c key s) := by
  refine ⟨?_, hi.2⟩
  apply witnesses_clean_modify hi.1
  intro p hp
  exact hp

theorem inv_self_joined (X : Env) {c : Channel} (hi : Inv c) : Inv (self_joined X c) := by
  unfold self_joined
  apply inv_notify
  have key : ∀ (l : Entries) (a : Channel), Inv a → Inv (l.foldl
      (fun acc i =>
        if i.2.username = acc.m_room.username then acc
        else authenticate_to X acc i.2.username i.2.long_term_public_key i.2.ephemeral_public_key
          acc.m_channel_status_hash) a) := by
    intro l
    induction l with
    | nil => intro a ha; exact ha
    | cons hd tl ih =>
      intro a ha
      simp only [List.foldl_cons]
      apply ih
      split_ifs
      · exact ha
      · exact inv_send_message _ ha
  exact key _ _ (inv_of_eq rfl rfl hi)

theorem fresh_event_clean (X : Env) (type : MessageType) :
    (fresh_event X type).channel_status.remaining_users = ∅ := rfl

theorem inv_on_channel_search {X : Env} {c c1 : Channel} {sender : String} {m : Message}
    (h : on_channel_search X c sender m = .ok c1) (hi : Inv c) : Inv c1 := by
  unfold on_channel_search at h
  split at h
  · cases h; exact hi
  · dsimp only at h
    split at h
    · cases h
    · cases h
      have hev : ∀ (e1 e2 : Event),
          (e1.type = .ConsistencyCheck → e1.channel_status.remaining_users = ∅) →
          (e2.type = .ConsistencyCheck → e2.channel_status.remaining_users = ∅) →
          CheckEventsClean ((c.m_events ++ [e1]) ++ [e2]) :=
        fun e1 e2 h1 h2 => check_events_clean_append (check_events_clean_append hi.2 e1 h1) e2 h2
      refine ⟨?_, ?_⟩
      · split_ifs <;> exact hi.1
      · split_ifs
        all_goals
          apply hev
          · intro _; rfl
          · intro htype; cases htype

theorem inv_on_channel_status {X : Env} {c c1 : Channel} {sender : String} {m : Message}
    (h : on_channel_status X c sender m = .ok c1) (hi : Inv c) : Inv c1 := by
  unfold on_channel_status at h
  split at h
  · cases h; exact hi
  · split at h
    · cases h
    · exact inv_remove_user h hi
    · split_ifs at h with hc
      · cases h
        refine ⟨hi.1, ?_⟩
        apply check_events_clean_store_or_erase hi.2
        intro htype
        rw [hc.1] at htype
        cases htype
      · exact inv_remove_user h hi

theorem inv_on_channel_announcement {X : Env} {c c1 : Channel} {sender : String} {m : Message}
    (h : on_channel_announcement X c sender m = .ok c1) (hi : Inv c) : Inv c1 := by
  unfold on_channel_announcement at h
  split at h
  · cases h; exact hi
  · split_ifs at h
    · exact inv_remove_user h hi
    · cases h; exact hi

theorem inv_on_join_request {X : Env} {c c1 : Channel} {sender : String} {m : Message}
    (h : on_join_request X c sender m = .ok c1) (hi : Inv c) : Inv c1 := by
  unfold on_join_request at h
  split at h
  · cases h; exact hi
  · split at h
    · cases h
    · rename_i c2 h2
      have hi2 := inv_remove_user h2 hi
      dsimp only at h
      split at h
      · cases h; exact hi2
      · cases h
        have hi3 : ∀ v : Participant, v.authorized = false →
            Inv (with_participants c2 (ParticipantMap.assign c2.m_participants sender v)) := by
          intro v hv
          apply inv_set_participants _ hi2
          apply witnesses_clean_assign hi2.1
          intro hx
          rw [hv] at hx
          cases hx
        split_ifs
        all_goals first
          | exact inv_self_joined X (inv_notify _
              (inv_set_authentication_status _ _ (hi3 _ (by rfl))))
          | exact inv_self_joined X (inv_notify _
              (inv_send_message _ (inv_set_authentication_status _ _ (hi3 _ (by rfl)))))
          | exact inv_notify _ (inv_set_authentication_status _ _ (hi3 _ (by rfl)))

theorem inv_on_authentication_request {X : Env} {c c1 : Channel} {sender : String} {m : Message}
    (h : on_authentication_request X c sender m = .ok c1) (hi : Inv c) : Inv c1 := by
  unfold on_authentication_request at h
  split at h
  · cases h; exact hi
  · split_ifs at h <;> cases h
    · exact hi
    · exact inv_send_message _ hi
    · exact hi

theorem inv_on_authentication {X : Env} {c c1 : Channel} {sender : String} {m : Message}
    (h : on_authentication X c sender m = .ok c1) (hi : Inv c) : Inv c1 := by
  unfold on_authentication at h
  split at h
  · cases h; exact hi
  · split_ifs at h
    · cases h; exact hi
    · split at h
      · cases h; exact hi
      · dsimp only at h
        split_ifs at h
        all_goals cases h
        all_goals first
          | exact hi
          | exact inv_notify _ (inv_set_authentication_status _ _ hi)

theorem inv_insert_authorized_by {c : Channel} {key : String} {p : Participant} (username : String)
    (hf : c.m_participants.find key = some p) (hp : p.authorized = false) (hi : Inv c) :
    Inv (insert_authorized_by c key username) := by
  refine ⟨?_, hi.2⟩
  intro i hmem
  simp only [insert_authorized_by, ParticipantMap.modify, ParticipantMap.update_all,
    Entries.update_all, List.mem_map] at hmem
  obtain ⟨j, hj, rfl⟩ := hmem
  dsimp only
  split_ifs with hk
  · have := @ParticipantMap.find_of_mem c.m_participants j.1 j.2 hj
    rw [hk, hf] at this
    cases this
    intro ha
    simp [hp] at ha
  · exact hi.1 j hj

theorem inv_insert_authorized_peers {c : Channel} {key : String} {p : Participant} (username : String)
    (hf : c.m_participants.find key = some p) (hp : p.authorized = false) (hi : Inv c) :
    Inv (insert_authorized_peers c key username) := by
  refine ⟨?_, hi.2⟩
  intro i hmem
  simp only [insert_authorized_peers, ParticipantMap.modify, ParticipantMap.update_all,
    Entries.update_all, List.mem_map] at hmem
  obtain ⟨j, hj, rfl⟩ := hmem
  dsimp only
  split_ifs with hk
  · have := @ParticipantMap.find_of_mem c.m_participants j.1 j.2 hj
    rw [hk, hf] at this
    cases this
    intro ha
    simp [hp] at ha
  · exact hi.1 j hj

theorem inv_record_authorization {c c1 : Channel} {sender subject a u : String}
    (h : record_authorization c sender subject a u = .ok c1) (hi : Inv c) : Inv c1 := by
  unfold record_authorization at h
  split at h
  · rename_i pa pu ha hu
    split_ifs at h with h1 h2 h3
    · have hpu : pu.authorized = false := by simpa using h2
      dsimp only at h
      split at h
      · cases h
      · rename_i c3 h3
        cases h
        exact inv_encrypted_chat _ (inv_try_promote h3
          (inv_notify _ (inv_insert_authorized_by _ hu hpu hi)))
      · rename_i c3 h3
        cases h
        exact inv_try_promote h3 (inv_notify _ (inv_insert_authorized_by _ hu hpu hi))
    · have hpu : pu.authorized = false := by simpa using h2
      dsimp only at h
      split at h
      · cases h
      · rename_i c3 h3
        cases h
        exact inv_encrypted_chat _ (inv_try_promote h3
          (inv_notify _ (inv_insert_authorized_peers _ hu hpu hi)))
      · rename_i c3 h3
        cases h
        exact inv_try_promote h3 (inv_notify _ (inv_insert_authorized_peers _ hu hpu hi))
  · cases h

theorem inv_on_authorization {X : Env} {c c1 : Channel} {sender : String} {m : Message}
    (h : on_authorization X c sender m = .ok c1) (hi : Inv c) : Inv c1 := by
  unfold on_authorization at h
  repeat' first
    | split at h
    | (dsimp only at h; split at h)
  all_goals first
    | exact inv_remove_user h hi
    | exact inv_record_authorization h hi
    | (cases h; exact hi)

theorem inv_on_consistency_status {X : Env} {c c1 : Channel} {sender : String}
    (h : on_consistency_status X c sender = .ok c1) (hi : Inv c) : Inv c1 := by
  unfold on_consistency_status at h
  split_ifs at h <;> cases h
  · exact hi
  · exact ⟨hi.1, check_events_clean_append hi.2 _ (fun _ => rfl)⟩
  · exact ⟨hi.1, check_events_clean_append hi.2 _ (fun _ => rfl)⟩

theorem inv_on_consistency_check {X : Env} {c c1 : Channel} {sender : String} {m : Message}
    (h : on_consistency_check X c sender m = .ok c1) (hi : Inv c) : Inv c1 := by
  unfold on_consistency_check at h
  split at h
  · cases h; exact hi
  · split at h
    · cases h; exact hi
    · split_ifs at h
      · exact inv_remove_user h hi
      · dsimp only at h
        split at h
        · cases h
        · exact inv_remove_user h hi
        · rename_i n e hfirst
          split_ifs at h with hc
          · cases h
            refine ⟨hi.1, ?_⟩
            apply check_events_clean_store_or_erase hi.2
            intro htype
            exact hi.2 e (List.getElem?_mem (first_user_event_some hfirst).1) htype
          · exact inv_remove_user h hi

theorem inv_key_event_reply {c c1 : Channel} {sender : String} {type : MessageType}
    {key_id : Hash} {b : Bool}
    (h : key_event_reply c sender type key_id = .ok (b, c1)) (hi : Inv c) : Inv c1 := by
  unfold key_event_reply at h
  split at h
  · cases h
  · split at h
    · cases h
    · rename_i c2 h2
      cases h
      exact inv_remove_user h2 hi
  · rename_i n e hfirst
    split_ifs at h
    · cases h
      refine ⟨hi.1, ?_⟩
      apply check_events_clean_store_or_erase hi.2
      intro htype
      exact hi.2 e (List.getElem?_mem (first_user_event_some hfirst).1) htype
    · split at h
      · cases h
      · rename_i c2 h2
        cases h
        exact inv_remove_user h2 hi

theorem inv_on_key_exchange_public_key {X : Env} {c c1 : Channel} {sender : String} {m : Message}
    (h : on_key_exchange_public_key X c sender m = .ok c1) (hi : Inv c) : Inv c1 := by
  unfold on_key_exchange_public_key at h
  split at h
  · cases h; exact hi
  · split at h
    · cases h; exact hi
    · split_ifs at h
      · exact inv_remove_user h hi
      · dsimp only at h
        split at h
        · cases h
        · rename_i c2 h2; cases h; exact inv_key_event_reply h2 hi
        · rename_i c2 h2; cases h
          exact inv_encrypted_chat _ (inv_key_event_reply h2 hi)

theorem inv_on_key_exchange_secret_share {X : Env} {c c1 : Channel} {sender : String} {m : Message}
    (h : on_key_exchange_secret_share X c sender m = .ok c1) (hi : Inv c) : Inv c1 := by
  unfold on_key_exchange_secret_share at h
  split at h
  · cases h; exact hi
  · split at h
    · cases h; exact hi
    · split_ifs at h
      · exact inv_remove_user h hi
      · dsimp only at h
        split at h
        · cases h
        · rename_i c2 h2; cases h; exact inv_key_event_reply h2 hi
        · rename_i c2 h2
          split_ifs at h <;> cases h
          · exact inv_key_event_reply h2 hi
          · exact inv_encrypted_chat _ (inv_key_event_reply h2 hi)

theorem inv_on_key_exchange_acceptance {X : Env} {c c1 : Channel} {sender : String} {m : Message}
    (h : on_key_exchange_acceptance X c sender m = .ok c1) (hi : Inv c) : Inv c1 := by
  unfold on_key_exchange_acceptance at h
  split at h
  · cases h; exact hi
  · split at h
    · cases h; exact hi
    · split_ifs at h
      · exact inv_remove_user h hi
      · dsimp only at h
        split at h
        · cases h
        · rename_i c2 h2; cases h; exact inv_key_event_reply h2 hi
        · rename_i c2 h2
          split_ifs at h <;> cases h
          · exact inv_key_event_reply h2 hi
          · exact inv_encrypted_chat _ (inv_key_event_reply h2 hi)

theorem inv_on_key_exchange_reveal {X : Env} {c c1 : Channel} {sender : String} {m : Message}
    (h : on_key_exchange_reveal X c sender m = .ok c1) (hi : Inv c) : Inv c1 := by
  unfold on_key_exchange_reveal at h
  split at h
  · cases h; exact hi
  · split at h
    · cases h; exact hi
    · split_ifs at h
      · exact inv_remove_user h hi
      · dsimp only at h
        split at h
        · cases h
        · rename_i c2 h2; cases h; exact inv_key_event_reply h2 hi
        · rename_i c2 h2
          split_ifs at h <;> cases h
          · exact inv_key_event_reply h2 hi
          · exact inv_encrypted_chat _ (inv_key_event_reply h2 hi)

theorem inv_on_key_activation {X : Env} {c c1 : Channel} {sender : String} {m : Message}
    (h : on_key_activation X c sender m = .ok c1) (hi : Inv c) : Inv c1 := by
  unfold on_key_activation at h
  split at h
  · cases h; exact hi
  · split at h
    · cases h; exact hi
    · split_ifs at h
      · exact inv_remove_user h hi
      · dsimp only at h
        split at h
        · cases h
        · rename_i c2 h2; cases h; exact inv_key_event_reply h2 hi
        · rename_i c2 h2
          split_ifs at h <;> cases h
          · exact inv_encrypted_chat _ (inv_key_event_reply h2 hi)
          · exact inv_key_event_reply h2 hi

theorem inv_on_chat {X : Env} {c c1 : Channel} {sender : String} {m : Message}
    (h : on_chat X c sender m = .ok c1) (hi : Inv c) : Inv c1 := by
  unfold on_chat at h
  split at h <;> cases h
  · exact hi
  · exact inv_encrypted_chat _ hi

theorem inv_dispatch {X : Env} {c c1 : Channel} {sender : String} {m : Message}
    (h : dispatch X c sender m = .ok c1) (hi : Inv c) : Inv c1 := by
  unfold dispatch at h
  split at h
  · exact inv_on_channel_search h hi
  · exact inv_on_channel_status h hi
  · exact inv_on_channel_announcement h hi
  · exact inv_on_join_request h hi
  · exact inv_on_authentication_request h hi
  · exact inv_on_authentication h hi
  · exact inv_on_authorization h hi
  · exact inv_on_consistency_status h hi
  · exact inv_on_consistency_check h hi
  · exact inv_on_key_exchange_public_key h hi
  · exact inv_on_key_exchange_secret_share h hi
  · exact inv_on_key_exchange_acceptance h hi
  · exact inv_on_key_exchange_reveal h hi
  · exact inv_on_key_activation h hi
  · exact inv_on_chat h hi
  · cases h; exact hi

theorem inv_message_received {X : Env} {c c1 : Channel} {sender : String} {m : Message}
    (h : message_received X c sender m = .ok c1) (hi : Inv c) : Inv c1 := by
  obtain ⟨status, -, hd⟩ := message_received_inv h
  exact inv_dispatch hd (inv_of_eq rfl rfl hi)

theorem inv_user_left {X : Env} {c c1 : Channel} {username : String}
    (h : user_left X c username = .ok c1) (hi : Inv c) : Inv c1 := by
  unfold user_left at h
  split at h
  · cases h
  · rename_i c0 h0
    obtain ⟨status, -, rfl⟩ := hash_payload_inv h0
    exact inv_remove_user h (inv_of_eq rfl rfl hi)

theorem inv_create (X : Env) (room : Room) (k : PrivateKey) (n : Hash) :
    Inv (Channel.create X room k n) := by
  refine ⟨?_, ?_⟩
  · intro i hi
    simp only [Channel.create, ParticipantMap.assign, ParticipantMap.empty, Entries.assign,
      List.mem_singleton] at hi
    subst hi
    intro _
    exact ⟨rfl, rfl⟩
  · intro e he
    simp [Channel.create] at he

theorem inv_from_announcement (X : Env) (room : Room) (k : PrivateKey) (n : Hash)
    (a : ChannelAnnouncementMessage) (sender : String) :
    Inv (Channel.from_announcement X room k n a sender) := by
  refine ⟨?_, ?_⟩
  · intro i hi
    simp only [Channel.from_announcement, ParticipantMap.assign, ParticipantMap.empty,
      Entries.assign, List.mem_singleton] at hi
    subst hi
    intro _
    exact ⟨rfl, rfl⟩
  · intro e he
    simp [Channel.from_announcement] at he

theorem inv_confirm_participant (X : Env) {c : Channel} (username : String) (hi : Inv c) :
    Inv (confirm_participant X c username) := by
  unfold confirm_participant
  split
  · exact hi
  · split_ifs
    · exact inv_send_message _ (inv_set_authentication_status _ _ hi)
    · exact hi

theorem default_participant_clean (X : Env) :
    (default_participant X).authorized = true →
      (default_participant X).authorized_by = ∅ ∧ (default_participant X).authorized_peers = ∅ :=
  fun _ => ⟨rfl, rfl⟩

theorem subscript_clean (X : Env) {m : ParticipantMap} (key : String) (h : WitnessesClean m) :
    WitnessesClean (ParticipantMap.subscript X m key).1 := by
  unfold ParticipantMap.subscript
  split
  · exact h
  · exact witnesses_clean_assign h _ _ (default_participant_clean X)

theorem inv_authorize (X : Env) {c : Channel} (username : String) (hi : Inv c) :
    Inv (authorize X c username) := by
  have hc := subscript_clean X c.m_room.username hi.1
  unfold authorize
  split
  · exact hi
  · dsimp only
    split_ifs
    all_goals first
      | exact hi
      | exact inv_send_message _ (inv_set_participants _ hi hc)
      | exact inv_set_participants _ hi hc

theorem inv_add_key_exchange_event (X : Env) {c : Channel} (type : MessageType) (key_id : Hash)
    (usernames : Finset String) (hi : Inv c) :
    Inv (add_key_exchange_event X c type key_id usernames) :=
  ⟨hi.1, check_events_clean_append hi.2 _ (fun _ => rfl)⟩

theorem inv_add_key_activation_event (X : Env) {c : Channel} (key_id : Hash)
    (usernames : Finset String) (hi : Inv c) :
    Inv (add_key_activation_event X c key_id usernames) :=
  ⟨hi.1, check_events_clean_append hi.2 _ (fun _ => rfl)⟩

theorem inv_status_add_participants (X : Env) (l : List StatusParticipant) :
    ∀ (c c1 : Channel) (ev ev1 : Event),
      status_add_participants X c ev l = .ok (c1, ev1) → Inv c → Inv c1 ∧ ev1.type = ev.type := by
  induction l with
  | nil =>
    intro c c1 ev ev1 h hi
    simp only [status_add_participants, Except.ok.injEq, Prod.mk.injEq] at h
    obtain ⟨rfl, rfl⟩ := h
    exact ⟨hi, rfl⟩
  | cons p rest ih =>
    intro c c1 ev ev1 h hi
    unfold status_add_participants at h
    dsimp only at h
    split_ifs at h
    obtain ⟨h1, h2⟩ := ih _ _ _ _ h (inv_encrypted_chat _
      (inv_set_participants _ hi (witnesses_clean_assign hi.1 _ _ (fun _ => ⟨rfl, rfl⟩))))
    exact ⟨h1, h2⟩

theorem inv_status_add_unauthorized_participants (X : Env) (l : List StatusUnauthorizedParticipant) :
    ∀ (c c1 : Channel) (ev ev1 : Event),
      status_add_unauthorized_participants X c ev l = .ok (c1, ev1) → Inv c →
        Inv c1 ∧ ev1.type = ev.type := by
  induction l with
  | nil =>
    intro c c1 ev ev1 h hi
    simp only [status_add_unauthorized_participants, Except.ok.injEq, Prod.mk.injEq] at h
    obtain ⟨rfl, rfl⟩ := h
    exact ⟨hi, rfl⟩
  | cons p rest ih =>
    intro c c1 ev ev1 h hi
    unfold status_add_unauthorized_participants at h
    dsimp only at h
    split_ifs at h
    obtain ⟨h1, h2⟩ := ih _ _ _ _ h
      (inv_set_participants _ hi (witnesses_clean_assign hi.1 _ _ (fun hx => by cases hx)))
    exact ⟨h1, h2⟩

theorem inv_status_add_key_exchanges (l : List KeyExchangeState) :
    ∀ (c c1 : Channel) (ids ids1 : Finset Hash),
      status_add_key_exchanges c ids l = .ok (c1, ids1) → Inv c → Inv c1 := by
  induction l with
  | nil =>
    intro c c1 ids ids1 h hi
    simp only [status_add_key_exchanges, Except.ok.injEq, Prod.mk.injEq] at h
    obtain ⟨rfl, rfl⟩ := h
    exact hi
  | cons p rest ih =>
    intro c c1 ids ids1 h hi
    unfold status_add_key_exchanges at h
    split_ifs at h
    exact ih _ _ _ _ h (inv_encrypted_chat _ hi)

theorem inv_status_add_events (X : Env) (s : ChannelStatusMessage) (ids : Finset Hash)
    (l : List ChannelEvent) :
    ∀ (c c1 : Channel) (a b a1 b1 : Finset Hash),
      status_add_events X s ids c a b l = .ok (c1, a1, b1) → Inv c → Inv c1 := by
  induction l with
  | nil =>
    intro c c1 a b a1 b1 h hi
    simp only [status_add_events, Except.ok.injEq, Prod.mk.injEq] at h
    obtain ⟨rfl, -⟩ := h
    exact hi
  | cons e rest ih =>
    intro c c1 a b a1 b1 h hi
    unfold status_add_events at h
    dsimp only at h
    split_ifs at h with h1 h2 h3 h4
    · split at h
      · cases h
      · refine ih _ _ _ _ _ _ h (inv_set_events _ hi (check_events_clean_append hi.2 _ ?_))
        intro htype
        rw [show (fresh_event X e.type).type = e.type from rfl, h1] at htype
        cases htype
    · split at h
      · cases h
      · exact ih _ _ _ _ _ _ h (inv_set_events _ hi
          (check_events_clean_append hi.2 _ (fun _ => rfl)))
    · split at h
      · cases h
      · split_ifs at h
        · exact ih _ _ _ _ _ _ h (inv_set_events _ hi
            (check_events_clean_append hi.2 _ (fun _ => rfl)))
        · exact ih _ _ _ _ _ _ h (inv_set_events _ hi
            (check_events_clean_append hi.2 _ (fun _ => rfl)))
    · split at h
      · cases h
      · split_ifs at h
        exact ih _ _ _ _ _ _ h (inv_set_events _ hi
          (check_events_clean_append hi.2 _ (fun _ => rfl)))

theorem inv_from_status {X : Env} {room : Room} {k : PrivateKey} {n : Hash}
    {s : ChannelStatusMessage} {m : Message} {c : Channel}
    (h : Channel.from_status X room k n s m = .ok c) : Inv c := by
  unfold Channel.from_status at h
  dsimp only at h
  split at h
  · cases h
  · rename_i c1 event1 h1
    split at h
    · cases h
    · rename_i c2 event2 h2
      split at h
      · cases h
      · rename_i c4 ids h4
        split at h
        · cases h
        · rename_i c5 ids5 _ h5
          split_ifs at h
          cases h
          have i0 : Inv
              { m_room := room, m_ephemeral_private_key := k, m_interface := false,
                m_joined := false, m_active := false, m_authorized := false,
                m_channel_status_hash := X.default_hash, m_authentication_nonce := n,
                m_participants := ParticipantMap.empty, m_events := [],
                m_encrypted_chat := [], sent := [], notifications := [] } := by
            refine ⟨?_, ?_⟩
            · intro i hi; simp [ParticipantMap.empty] at hi
            · intro e he; simp at he
          obtain ⟨i1, t1⟩ := inv_status_add_participants X _ _ _ _ _ h1 i0
          obtain ⟨i2, t2⟩ := inv_status_add_unauthorized_participants X _ _ _ _ _ h2 i1
          have i4 := inv_status_add_key_exchanges _ _ _ _ _ h4 (inv_of_eq rfl rfl i2)
          have i5 := inv_status_add_events X _ _ _ _ _ _ _ _ _ h5 i4
          refine inv_set_events _ i5 (check_events_clean_append i5.2 _ ?_)
          intro htype
          rw [t2, t1] at htype
          cases htype

/-- Every reachable state satisfies the invariant. -/
theorem reachable_inv {X : Env} {c : Channel} (h : Reachable X c) : Inv c := by
  induction h with
  | create room k n => exact inv_create X room k n
  | from_status room k n s m c h => exact inv_from_status h
  | from_announcement room k n a sender => exact inv_from_announcement X room k n a sender
  | message_received c c1 sender m _ h ih => exact inv_message_received h ih
  | user_left c c1 u _ h ih => exact inv_user_left h ih
  | send_chat c m _ ih => exact inv_encrypted_chat _ ih
  | announce c _ ih => exact inv_send_message _ ih
  | confirm_participant c u _ ih => exact inv_confirm_participant X u ih
  | join c _ ih => exact inv_send_message _ ih
  | activate c _ ih => exact inv_of_eq rfl rfl ih
  | channel_status_timer c _ ih => exact inv_send_message _ ih
  | authorize c u _ ih => exact inv_authorize X u ih
  | add_key_exchange_event c t k us _ ih => exact inv_add_key_exchange_event X t k us ih
  | add_key_activation_event c k us _ ih => exact inv_add_key_activation_event X k us ih
  | set_interface c p _ ih => exact inv_of_eq rfl rfl ih

/-! ## Removal consistency (C10) -/

/-- C10 as stated fails: in the reachable state `demo_stranger` (solo construction, then
`add_key_exchange_event` naming `bob`), `remove_user("bob")` returns and `bob`, who is not
a participant, is still in the `remaining_users` of a queued event. -/
theorem removal_skips_non_participant :
    Reachable demo_env demo_stranger
      ∧ ∃ c1, remove_user demo_stranger "bob" = .ok c1
          ∧ ∃ e ∈ c1.m_events, "bob" ∈ e.remaining_users := by
  refine ⟨Reachable.add_key_exchange_event _ _ _ _ (Reachable.create _ _ _), ?_⟩
  refine ⟨_, rfl, ?_⟩
  refine ⟨{ fresh_event demo_env .KeyExchangePublicKey with
            key_event := { key_id := ⟨"k"⟩, remaining_users := {"bob"} } }, ?_, by decide⟩
  simp [encrypted_chat, demo_stranger, add_key_exchange_event, demo_solo, Channel.create]

/-- C10, amended (removal consistency): in every reachable channel state and for every
username `u`, `remove_user(u)` returns and `u` is not a key of the participant table
afterwards; if `u` was a key of the participant table, then afterwards `u` is in no
remaining participant's `authorized_by` or `authorized_peers` and in no queued event's
`remaining_users`. -/
theorem removal_consistency (X : Env) (c : Channel) (u : String) (h : Reachable X c) :
    ∃ c1, remove_user c u = .ok c1 ∧ c1.m_participants.find u = none
      ∧ (c.m_participants.count u = true →
          (∀ i ∈ c1.m_participants.entries, u ∉ i.2.authorized_by ∧ u ∉ i.2.authorized_peers)
          ∧ (∀ e ∈ c1.m_events, u ∉ e.remaining_users)) := by
  have hi := reachable_inv h
  obtain ⟨c1, h1⟩ := remove_user_total c u
  refine ⟨c1, h1, remove_user_not_found h1, ?_⟩
  intro hc
  refine ⟨remove_user_witnesses h1 hc hi.1, ?_⟩
  rw [((remove_user_effect h1).1 hc).2]
  exact purge_events_clean u c.m_events hi.2

/-- Witness of C10: after a JoinRequest from `bob` and a ChannelSearch, which queues two
events listing `alice` and `bob`, `bob` is removed. -/
theorem removal_consistency_witness :
    ∃ c1, remove_user demo_joined "bob" = .ok c1 ∧ c1.m_participants.find "bob" = none
      ∧ (demo_joined.m_participants.count "bob" = true →
          (∀ i ∈ c1.m_participants.entries,
            "bob" ∉ i.2.authorized_by ∧ "bob" ∉ i.2.authorized_peers)
          ∧ (∀ e ∈ c1.m_events, "bob" ∉ e.remaining_users)) :=
  removal_consistency demo_env demo_joined "bob"
    (Reachable.message_received
      (match message_received demo_env demo_solo "bob" ⟨.JoinRequest, "bob"⟩ with
        | .error _ => demo_solo
        | .ok c => c)
      demo_joined "carol" ⟨.ChannelSearch, "nc"⟩
      (Reachable.message_received demo_solo _ "bob" ⟨.JoinRequest, "bob"⟩
        (Reachable.create _ _ _) rfl)
      rfl)

/-! ## Hash agreement (C2) -/

theorem same_state_refl (c : Channel) : SameState c c :=
  ⟨rfl, rfl, rfl, rfl, rfl, rfl, rfl, rfl, rfl, rfl⟩

theorem same_state_symm {c d : Channel} (h : SameState c d) : SameState d c := by
  obtain ⟨h1, h2, h3, h4, h5, h6, h7, h8, h9, h10⟩ := h
  exact ⟨h1.symm, h2.symm, h3.symm, h4.symm, h5.symm, h6.symm, h7.symm, h8.symm, h9.symm, h10.symm⟩

theorem same_state_trans {a b c : Channel} (h : SameState a b) (g : SameState b c) :
    SameState a c := by
  obtain ⟨h1, h2, h3, h4, h5, h6, h7, h8, h9, h10⟩ := h
  obtain ⟨g1, g2, g3, g4, g5, g6, g7, g8, g9, g10⟩ := g
  exact ⟨h1.trans g1, h2.trans g2, h3.trans g3, h4.trans g4, h5.trans g5, h6.trans g6,
    h7.trans g7, h8.trans g8, h9.trans g9, h10.trans g10⟩

theorem same_state_relog (c : Channel) (i : Bool) (s : List Message) (n : List Notification) :
    SameState c (relog c i s n) :=
  ⟨rfl, rfl, rfl, rfl, rfl, rfl, rfl, rfl, rfl, rfl⟩

theorem same_state_cases {c d : Channel} (h : SameState c d) :
    ∃ i s n, d = relog c i s n := by
  obtain ⟨h1, h2, h3, h4, h5, h6, h7, h8, h9, h10⟩ := h
  refine ⟨d.m_interface, d.sent, d.notifications, ?_⟩
  cases c
  cases d
  simp only [relog] at *
  simp [*]

theorem same_notify {c d : Channel} (h : SameState c d) (n1 n2 : Notification) :
    SameState (notify c n1) (notify d n2) := by
  unfold notify
  split_ifs <;> exact h

theorem same_send_message {c d : Channel} (h : SameState c d) (m1 m2 : Message) :
    SameState (send_message c m1) (send_message d m2) := h

theorem same_send_message_left {c d : Channel} (h : SameState c d) (m1 : Message) :
    SameState (send_message c m1) d := h

theorem same_send_message_right {c d : Channel} (h : SameState c d) (m1 : Message) :
    SameState c (send_message d m1) := h

theorem same_encrypted_chat {c d : Channel} (h : SameState c d) (call : EncryptedChatCall) :
    SameState (encrypted_chat c call) (encrypted_chat d call) := by
  obtain ⟨h1, h2, h3, h4, h5, h6, h7, h8, h9, h10⟩ := h
  refine ⟨h1, h2, h3, h4, h5, h6, h7, h8, h9, ?_⟩
  simp only [encrypted_chat, h10]

theorem same_set_authentication_status {c d : Channel} (h : SameState c d) (key : String)
    (st : AuthenticationStatus) :
    SameState (set_authentication_status c key st) (set_authentication_status d key st) := by
  obtain ⟨h1, h2, h3, h4, h5, h6, h7, h8, h9, h10⟩ := h
  refine ⟨h1, h2, h3, h4, h5, h6, h7, ?_, h9, h10⟩
  simp only [set_authentication_status, h8]

theorem same_try_promote {c d : Channel} (h : SameState c d) (key : String) :
    SameFlagged (try_promote_unauthorized_participant c key)
      (try_promote_unauthorized_participant d key) := by
  obtain ⟨i, s, n, rfl⟩ := same_state_cases h
  unfold try_promote_unauthorized_participant SameFlagged
  simp only [relog]
  cases c.m_participants.find key with
  | none => simp
  | some p =>
    dsimp only
    split_ifs
    all_goals simp only [true_and]
    all_goals simp only [notify, SameState]
    all_goals (try split_ifs)
    all_goals simp

theorem same_do_remove_user {c d : Channel} (h : SameState c d) (u : String) :
    SameResult (do_remove_user c u) (do_remove_user d u) := by
  obtain ⟨i, s, n, rfl⟩ := same_state_cases h
  unfold do_remove_user SameResult
  simp only [relog]
  split_ifs
  · simp
  · simp only [notify, SameState]
    split_ifs <;> simp

theorem same_remove_users_loop (us : List String) :
    ∀ {c d : Channel}, SameState c d →
      SameResult (remove_users_loop c us) (remove_users_loop d us) := by
  induction us with
  | nil => intro c d h; exact h
  | cons u rest ih =>
    intro c d h
    unfold remove_users_loop
    rw [← h.2.2.2.2.2.2.2.1]
    split_ifs
    · exact ih h
    · have hr := same_do_remove_user h u
      generalize do_remove_user c u = r1 at hr ⊢
      generalize do_remove_user d u = r2 at hr ⊢
      cases r1 <;> cases r2 <;> simp only [SameResult] at hr ⊢
      · exact hr
      · exact ih hr

theorem same_promote_loop (l : Entries) :
    ∀ {c d : Channel}, SameState c d → SameResult (promote_loop c l) (promote_loop d l) := by
  induction l with
  | nil => intro c d h; exact h
  | cons hd rest ih =>
    obtain ⟨key, p⟩ := hd
    intro c d h
    unfold promote_loop
    split_ifs
    · have hr := same_try_promote h key
      generalize try_promote_unauthorized_participant c key = r1 at hr ⊢
      generalize try_promote_unauthorized_participant d key = r2 at hr ⊢
      cases r1 with
      | error f =>
        cases r2 with
        | error g => simpa [SameFlagged, SameResult] using hr
        | ok v => obtain ⟨b, d1⟩ := v; simp [SameFlagged] at hr
      | ok v =>
        obtain ⟨b, c1⟩ := v
        cases r2 with
        | error g => simp [SameFlagged] at hr
        | ok w =>
          obtain ⟨b2, d1⟩ := w
          simp only [SameFlagged] at hr
          obtain ⟨rfl, hs⟩ := hr
          cases b
          · exact ih hs
          · exact same_encrypted_chat hs _
    · exact ih h

theorem same_remove_users {c d : Channel} (h : SameState c d) (us : List String) :
    SameResult (remove_users c us) (remove_users d us) := by
  unfold remove_users
  have hr := same_remove_users_loop us h
  generalize remove_users_loop c us = r1 at hr ⊢
  generalize remove_users_loop d us = r2 at hr ⊢
  cases r1 <;> cases r2 <;> simp only [SameResult] at hr ⊢
  · exact hr
  · rename_i c1 d1
    have hr2 := same_promote_loop c1.m_participants.entries hr
    rw [← hr.2.2.2.2.2.2.2.1]
    generalize promote_loop c1 c1.m_participants.entries = r3 at hr2 ⊢
    generalize promote_loop d1 c1.m_participants.entries = r4 at hr2 ⊢
    cases r3 <;> cases r4 <;> simp only [SameResult] at hr2 ⊢
    · exact hr2
    · exact same_encrypted_chat hr2 _

theorem same_remove_user {c d : Channel} (h : SameState c d) (u : String) :
    SameResult (remove_user c u) (remove_user d u) :=
  same_remove_users h [u]

theorem same_channel_status (X : Env) {c d : Channel} (h : SameState c d) (u : String) (n : Hash) :
    channel_status X c u n = channel_status X d u n := by
  obtain ⟨h1, h2, h3, h4, h5, h6, h7, h8, h9, h10⟩ := h
  unfold channel_status
  rw [h6, h8, h9, h10]

theorem same_hash_payload (X : Env) {c d : Channel} (h : SameState c d) (u : String) (t : Nat)
    (msg : String) : SameResult (hash_payload X c u t msg) (hash_payload X d u t msg) := by
  unfold hash_payload
  rw [same_channel_status X h]
  cases channel_status X d "" (zero_hash X) with
  | error f => simp [SameResult]
  | ok status =>
    simp only [SameResult]
    obtain ⟨h1, h2, h3, h4, h5, h6, h7, h8, h9, h10⟩ := h
    exact ⟨h1, h2, h3, h4, h5, rfl, h7, h8, h9, h10⟩

theorem same_result_refl_of_state {c d : Channel} (h : SameState c d) :
    SameResult (.ok c) (.ok d) := h

theorem same_self_joined (X : Env) {c d : Channel} (h : SameState c d) :
    SameState (self_joined X c) (self_joined X d) := by
  unfold self_joined
  apply same_notify
  have key : ∀ (l : Entries) (a b : Channel), SameState a b → SameState
      (l.foldl (fun acc i =>
        if i.2.username = acc.m_room.username then acc
        else authenticate_to X acc i.2.username i.2.long_term_public_key i.2.ephemeral_public_key
          acc.m_channel_status_hash) a)
      (l.foldl (fun acc i =>
        if i.2.username = acc.m_room.username then acc
        else authenticate_to X acc i.2.username i.2.long_term_public_key i.2.ephemeral_public_key
          acc.m_channel_status_hash) b) := by
    intro l
    induction l with
    | nil => intro a b hab; exact hab
    | cons hd tl ih =>
      intro a b hab
      simp only [List.foldl_cons]
      apply ih
      rw [← hab.1]
      split_ifs
      · exact hab
      · exact same_send_message hab _ _
  dsimp only
  rw [← h.2.2.2.2.2.2.2.1]
  apply key
  obtain ⟨h1, h2, h3, h4, h5, h6, h7, h8, h9, h10⟩ := h
  exact ⟨h1, h2, rfl, h4, h5, h6, h7, rfl, h9, h10⟩

theorem same_on_channel_search (X : Env) {c d : Channel} (h : SameState c d) (sender : String)
    (m : Message) : SameResult (on_channel_search X c sender m) (on_channel_search X d sender m) := by
  obtain ⟨i, s, n, rfl⟩ := same_state_cases h
  unfold on_channel_search channel_status
  simp only [relog, send_message]
  cases X.decode_channel_search m with
  | none => exact ⟨rfl, rfl, rfl, rfl, rfl, rfl, rfl, rfl, rfl, rfl⟩
  | some message =>
    dsimp only
    cases c.m_active with
    | false =>
      simp only [Bool.false_eq_true, if_false]
      split
      · simp [SameResult]
      · simp [SameResult, SameState]
    | true =>
      simp only [if_true]
      split
      · simp [SameResult]
      · simp [SameResult, SameState]

theorem same_bind_remove_user {c d : Channel} (h : SameState c d) (u : String)
    {k1 k2 : Channel → Except Fault Channel}
    (hk : ∀ c1 d1, SameState c1 d1 → SameResult (k1 c1) (k2 d1)) :
    SameResult
      (match remove_user c u with
        | .error f => .error f
        | .ok c1 => k1 c1)
      (match remove_user d u with
        | .error f => .error f
        | .ok d1 => k2 d1) := by
  have hr := same_remove_user h u
  generalize remove_user c u = r1 at hr ⊢
  generalize remove_user d u = r2 at hr ⊢
  cases r1 <;> cases r2 <;> simp only [SameResult] at hr ⊢
  · exact hr
  · exact hk _ _ hr

theorem same_on_channel_status (X : Env) {c d : Channel} (h : SameState c d) (sender : String)
    (m : Message) : SameResult (on_channel_status X c sender m) (on_channel_status X d sender m) := by
  have hr := same_remove_user h sender
  obtain ⟨i, s, n, rfl⟩ := same_state_cases h
  unfold on_channel_status
  simp only [relog] at hr ⊢
  cases X.decode_channel_status m with
  | none => exact ⟨rfl, rfl, rfl, rfl, rfl, rfl, rfl, rfl, rfl, rfl⟩
  | some message =>
    dsimp only
    cases first_user_event c.m_events sender with
    | error f => simp [SameResult]
    | ok r =>
      cases r with
      | none => exact hr
      | some v =>
        obtain ⟨k, e⟩ := v
        dsimp only
        split_ifs
        · simp [SameResult, SameState]
        · exact hr

theorem same_on_channel_announcement (X : Env) {c d : Channel} (h : SameState c d)
    (sender : String) (m : Message) :
    SameResult (on_channel_announcement X c sender m) (on_channel_announcement X d sender m) := by
  have hr := same_remove_user h sender
  obtain ⟨i, s, n, rfl⟩ := same_state_cases h
  unfold on_channel_announcement
  simp only [relog] at hr ⊢
  cases X.decode_channel_announcement m with
  | none => exact ⟨rfl, rfl, rfl, rfl, rfl, rfl, rfl, rfl, rfl, rfl⟩
  | some message =>
    dsimp only
    split_ifs
    · exact hr
    · exact ⟨rfl, rfl, rfl, rfl, rfl, rfl, rfl, rfl, rfl, rfl⟩

theorem same_on_authentication_request (X : Env) {c d : Channel} (h : SameState c d)
    (sender : String) (m : Message) :
    SameResult (on_authentication_request X c sender m)
      (on_authentication_request X d sender m) := by
  obtain ⟨i, s, n, rfl⟩ := same_state_cases h
  unfold on_authentication_request
  simp only [relog, ephemeral_public_key, authenticate_to, send_message]
  cases X.decode_authentication_request m with
  | none => exact ⟨rfl, rfl, rfl, rfl, rfl, rfl, rfl, rfl, rfl, rfl⟩
  | some message =>
    dsimp only
    split_ifs <;> exact ⟨rfl, rfl, rfl, rfl, rfl, rfl, rfl, rfl, rfl, rfl⟩

theorem same_on_authentication (X : Env) {c d : Channel} (h : SameState c d)
    (sender : String) (m : Message) :
    SameResult (on_authentication X c sender m) (on_authentication X d sender m) := by
  obtain ⟨i, s, n, rfl⟩ := same_state_cases h
  unfold on_authentication
  simp only [relog, ephemeral_public_key, authentication_token, authentication_token_buffer]
  cases X.decode_authentication m with
  | none => exact ⟨rfl, rfl, rfl, rfl, rfl, rfl, rfl, rfl, rfl, rfl⟩
  | some message =>
    dsimp only
    split_ifs
    · exact ⟨rfl, rfl, rfl, rfl, rfl, rfl, rfl, rfl, rfl, rfl⟩
    · cases c.m_participants.find sender with
      | none => exact ⟨rfl, rfl, rfl, rfl, rfl, rfl, rfl, rfl, rfl, rfl⟩
      | some participant =>
        dsimp only
        split_ifs
        all_goals first
          | exact ⟨rfl, rfl, rfl, rfl, rfl, rfl, rfl, rfl, rfl, rfl⟩
          | exact same_notify (same_set_authentication_status
              (same_state_relog c i s n) _ _) _ _

theorem same_on_consistency_status (X : Env) {c d : Channel} (h : SameState c d)
    (sender : String) :
    SameResult (on_consistency_status X c sender) (on_consistency_status X d sender) := by
  obtain ⟨i, s, n, rfl⟩ := same_state_cases h
  unfold on_consistency_status
  simp only [relog, send_message]
  split_ifs <;> simp [SameResult, SameState]

theorem same_on_chat (X : Env) {c d : Channel} (h : SameState c d) (sender : String)
    (m : Message) : SameResult (on_chat X c sender m) (on_chat X d sender m) := by
  unfold on_chat
  cases X.decode_chat m with
  | none => exact h
  | some message => exact same_encrypted_chat h _

theorem on_join_request_eq (X : Env) (c : Channel) (sender : String) (m : Message) :
    on_join_request X c sender m =
      match X.decode_join_request m with
      | none => .ok c
      | some message =>
        match remove_user c sender with
        | .error f => .error f
        | .ok c1 =>
          if !(message.peer_usernames.any (fun username => c1.m_participants.count username)) then
            .ok c1
          else .ok (insert_joiner X c1 sender message) := by
  unfold on_join_request insert_joiner
  rfl

theorem same_insert_joiner (X : Env) {c d : Channel} (h : SameState c d) (sender : String)
    (message : JoinRequestMessage) :
    SameState (insert_joiner X c sender message) (insert_joiner X d sender message) := by
  obtain ⟨i, s, n, rfl⟩ := same_state_cases h
  have hroom : ∀ (x : Channel) nn, (notify x nn).m_room = x.m_room :=
    fun x nn => (frame_notify x nn).2.1
  unfold insert_joiner
  by_cases hs : sender = c.m_room.username
  · simp only [relog, set_authentication_status, send_message, ephemeral_public_key, hroom, hs,
      if_true]
    apply same_self_joined
    apply same_notify
    exact ⟨rfl, rfl, rfl, rfl, rfl, rfl, rfl, rfl, rfl, rfl⟩
  · cases ha : c.m_active with
    | true =>
      simp only [relog, set_authentication_status, send_message, ephemeral_public_key, hroom, hs,
        ha, if_false, Bool.not_true, Bool.false_eq_true]
      apply same_notify
      exact ⟨rfl, rfl, rfl, rfl, rfl, rfl, rfl, rfl, rfl, rfl⟩
    | false =>
      simp only [relog, set_authentication_status, send_message, ephemeral_public_key, hroom, hs,
        ha, if_false, if_true, Bool.not_false]
      apply same_notify
      exact ⟨rfl, rfl, rfl, rfl, rfl, rfl, rfl, rfl, rfl, rfl⟩

theorem same_on_join_request (X : Env) {c d : Channel} (h : SameState c d) (sender : String)
    (m : Message) : SameResult (on_join_request X c sender m) (on_join_request X d sender m) := by
  rw [on_join_request_eq, on_join_request_eq]
  cases X.decode_join_request m with
  | none => exact h
  | some message =>
    dsimp only
    apply same_bind_remove_user h
    intro c1 d1 h1
    rw [← h1.2.2.2.2.2.2.2.1]
    split_ifs
    · exact h1
    · exact same_insert_joiner X h1 sender message

theorem same_record_authorization {c d : Channel} (h : SameState c d)
    (sender subject a u : String) :
    SameResult (record_authorization c sender subject a u)
      (record_authorization d sender subject a u) := by
  have key : ∀ {c2 d2 : Channel} (pu : Participant), SameState c2 d2 →
      SameResult
        (match try_promote_unauthorized_participant c2 u with
          | .error f => .error f
          | .ok (true, c3) => .ok (encrypted_chat c3 (.add_user pu.username pu.long_term_public_key))
          | .ok (false, c3) => .ok c3)
        (match try_promote_unauthorized_participant d2 u with
          | .error f => .error f
          | .ok (true, c3) => .ok (encrypted_chat c3 (.add_user pu.username pu.long_term_public_key))
          | .ok (false, c3) => .ok c3) := by
    intro c2 d2 pu h2
    have hr := same_try_promote h2 u
    generalize try_promote_unauthorized_participant c2 u = r1 at hr ⊢
    generalize try_promote_unauthorized_participant d2 u = r2 at hr ⊢
    cases r1 with
    | error f =>
      cases r2 with
      | error g => simpa [SameFlagged, SameResult] using hr
      | ok v => obtain ⟨b, d1⟩ := v; simp [SameFlagged] at hr
    | ok v =>
      obtain ⟨b, c1⟩ := v
      cases r2 with
      | error g => simp [SameFlagged] at hr
      | ok w =>
        obtain ⟨b2, d1⟩ := w
        simp only [SameFlagged] at hr
        obtain ⟨rfl, hs⟩ := hr
        cases b
        · exact hs
        · exact same_encrypted_chat hs _
  obtain ⟨i, s, n, rfl⟩ := same_state_cases h
  unfold record_authorization
  simp only [relog]
  cases c.m_participants.find a with
  | none => simp [SameResult]
  | some pa =>
    cases c.m_participants.find u with
    | none => simp [SameResult]
    | some pu =>
      dsimp only
      split_ifs
      · simp [SameResult]
      · simp [SameResult]
      · apply key
        apply same_notify
        exact ⟨rfl, rfl, rfl, rfl, rfl, rfl, rfl, rfl, rfl, rfl⟩
      · apply key
        apply same_notify
        exact ⟨rfl, rfl, rfl, rfl, rfl, rfl, rfl, rfl, rfl, rfl⟩

theorem same_on_authorization (X : Env) {c d : Channel} (h : SameState c d) (sender : String)
    (m : Message) : SameResult (on_authorization X c sender m) (on_authorization X d sender m) := by
  have hr := same_remove_user h sender
  have ha := fun subject a u => same_record_authorization h sender subject a u
  obtain ⟨i, s, n, rfl⟩ := same_state_cases h
  unfold on_authorization
  simp only [relog] at hr ha ⊢
  cases c.m_participants.find sender with
  | none => exact ⟨rfl, rfl, rfl, rfl, rfl, rfl, rfl, rfl, rfl, rfl⟩
  | some ps =>
    dsimp only
    cases X.verify_authorization m ps.ephemeral_public_key with
    | none => exact ⟨rfl, rfl, rfl, rfl, rfl, rfl, rfl, rfl, rfl, rfl⟩
    | some sm =>
      dsimp only
      cases c.m_participants.find sm.decode.username with
      | none =>
        dsimp only
        split_ifs
        · exact hr
        · exact ⟨rfl, rfl, rfl, rfl, rfl, rfl, rfl, rfl, rfl, rfl⟩
      | some pt =>
        dsimp only
        split_ifs
        all_goals first
          | exact hr
          | exact ⟨rfl, rfl, rfl, rfl, rfl, rfl, rfl, rfl, rfl, rfl⟩
          | exact ha _ _ _

theorem same_on_consistency_check (X : Env) {c d : Channel} (h : SameState c d)
    (sender : String) (m : Message) :
    SameResult (on_consistency_check X c sender m) (on_consistency_check X d sender m) := by
  have hr := same_remove_user h sender
  obtain ⟨i, s, n, rfl⟩ := same_state_cases h
  unfold on_consistency_check
  simp only [relog] at hr ⊢
  cases c.m_participants.find sender with
  | none => exact ⟨rfl, rfl, rfl, rfl, rfl, rfl, rfl, rfl, rfl, rfl⟩
  | some ps =>
    dsimp only
    cases X.verify_consistency_check m ps.ephemeral_public_key with
    | none => exact ⟨rfl, rfl, rfl, rfl, rfl, rfl, rfl, rfl, rfl, rfl⟩
    | some sm =>
      dsimp only
      split_ifs
      · exact hr
      · cases first_user_event c.m_events sender with
        | error f => simp [SameResult]
        | ok r =>
          cases r with
          | none => exact hr
          | some v =>
            obtain ⟨k, e⟩ := v
            dsimp only
            split_ifs
            · simp [SameResult, SameState]
            · exact hr

theorem same_key_event_reply {c d : Channel} (h : SameState c d) (sender : String)
    (type : MessageType) (key_id : Hash) :
    SameFlagged (key_event_reply c sender type key_id) (key_event_reply d sender type key_id) := by
  have hr := same_remove_user h sender
  have key : SameFlagged
      (match remove_user c sender with
        | .error f => .error f
        | .ok c1 => .ok (false, c1))
      (match remove_user d sender with
        | .error f => .error f
        | .ok c1 => .ok (false, c1)) := by
    generalize remove_user c sender = r1 at hr ⊢
    generalize remove_user d sender = r2 at hr ⊢
    cases r1 <;> cases r2 <;> simp only [SameResult] at hr <;> simp only [SameFlagged]
    · exact hr
    · exact ⟨trivial, hr⟩
  obtain ⟨i, s, n, rfl⟩ := same_state_cases h
  unfold key_event_reply
  simp only [relog] at key ⊢
  cases first_user_event c.m_events sender with
  | error f => simp [SameFlagged]
  | ok r =>
    cases r with
    | none => exact key
    | some v =>
      obtain ⟨k, e⟩ := v
      dsimp only
      split_ifs
      · simp [SameFlagged, SameState]
      · exact key

theorem same_key_branch {c d : Channel} (h : SameState c d) (sender : String)
    (type : MessageType) (key_id : Hash) {k1 k2 : Channel → Except Fault Channel}
    (hk : ∀ c1 d1, SameState c1 d1 → SameResult (k1 c1) (k2 d1)) :
    SameResult
      (match key_event_reply c sender type key_id with
        | .error f => .error f
        | .ok (false, c1) => .ok c1
        | .ok (true, c1) => k1 c1)
      (match key_event_reply d sender type key_id with
        | .error f => .error f
        | .ok (false, c1) => .ok c1
        | .ok (true, c1) => k2 c1) := by
  have hr := same_key_event_reply h sender type key_id
  generalize key_event_reply c sender type key_id = r1 at hr ⊢
  generalize key_event_reply d sender type key_id = r2 at hr ⊢
  cases r1 with
  | error f =>
    cases r2 with
    | error g => simpa [SameFlagged, SameResult] using hr
    | ok v => obtain ⟨b, d1⟩ := v; simp [SameFlagged] at hr
  | ok v =>
    obtain ⟨b, c1⟩ := v
    cases r2 with
    | error g => simp [SameFlagged] at hr
    | ok w =>
      obtain ⟨b2, d1⟩ := w
      simp only [SameFlagged] at hr
      obtain ⟨rfl, hs⟩ := hr
      cases b
      · exact hs
      · exact hk _ _ hs

theorem same_on_key_exchange_public_key (X : Env) {c d : Channel} (h : SameState c d)
    (sender : String) (m : Message) :
    SameResult (on_key_exchange_public_key X c sender m)
      (on_key_exchange_public_key X d sender m) := by
  have hr := same_remove_user h sender
  unfold on_key_exchange_public_key
  rw [← h.2.2.2.2.2.2.2.1]
  cases c.m_participants.find sender with
  | none => exact h
  | some ps =>
    dsimp only
    cases X.verify_key_exchange_public_key m ps.ephemeral_public_key with
    | none => exact h
    | some sm =>
      dsimp only
      split_ifs
      · exact hr
      · apply same_key_branch h
        intro c1 d1 h1
        exact same_encrypted_chat h1 _

theorem same_on_key_exchange_secret_share (X : Env) {c d : Channel} (h : SameState c d)
    (sender : String) (m : Message) :
    SameResult (on_key_exchange_secret_share X c sender m)
      (on_key_exchange_secret_share X d sender m) := by
  have hr := same_remove_user h sender
  unfold on_key_exchange_secret_share
  rw [← h.2.2.2.2.2.2.2.1]
  cases c.m_participants.find sender with
  | none => exact h
  | some ps =>
    dsimp only
    cases X.verify_key_exchange_secret_share m ps.ephemeral_public_key with
    | none => exact h
    | some sm =>
      dsimp only
      split_ifs
      · exact hr
      · apply same_key_branch h
        intro c1 d1 h1
        rw [← h1.2.2.2.2.2.2.2.2.2]
        split_ifs
        · exact h1
        · exact same_encrypted_chat h1 _

theorem same_on_key_exchange_acceptance (X : Env) {c d : Channel} (h : SameState c d)
    (sender : String) (m : Message) :
    SameResult (on_key_exchange_acceptance X c sender m)
      (on_key_exchange_acceptance X d sender m) := by
  have hr := same_remove_user h sender
  unfold on_key_exchange_acceptance
  rw [← h.2.2.2.2.2.2.2.1]
  cases c.m_participants.find sender with
  | none => exact h
  | some ps =>
    dsimp only
    cases X.verify_key_exchange_acceptance m ps.ephemeral_public_key with
    | none => exact h
    | some sm =>
      dsimp only
      split_ifs
      · exact hr
      · apply same_key_branch h
        intro c1 d1 h1
        rw [← h1.2.2.2.2.2.2.2.2.2]
        split_ifs
        · exact h1
        · exact same_encrypted_chat h1 _

theorem same_on_key_exchange_reveal (X : Env) {c d : Channel} (h : SameState c d)
    (sender : String) (m : Message) :
    SameResult (on_key_exchange_reveal X c sender m)
      (on_key_exchange_reveal X d sender m) := by
  have hr := same_remove_user h sender
  unfold on_key_exchange_reveal
  rw [← h.2.2.2.2.2.2.2.1]
  cases c.m_participants.find sender with
  | none => exact h
  | some ps =>
    dsimp only
    cases X.verify_key_exchange_reveal m ps.ephemeral_public_key with
    | none => exact h
    | some sm =>
      dsimp only
      split_ifs
      · exact hr
      · apply same_key_branch h
        intro c1 d1 h1
        rw [← h1.2.2.2.2.2.2.2.2.2]
        split_ifs
        · exact h1
        · exact same_encrypted_chat h1 _

theorem same_on_key_activation (X : Env) {c d : Channel} (h : SameState c d)
    (sender : String) (m : Message) :
    SameResult (on_key_activation X c sender m) (on_key_activation X d sender m) := by
  have hr := same_remove_user h sender
  unfold on_key_activation
  rw [← h.2.2.2.2.2.2.2.1]
  cases c.m_participants.find sender with
  | none => exact h
  | some ps =>
    dsimp only
    cases X.verify_key_activation m ps.ephemeral_public_key with
    | none => exact h
    | some sm =>
      dsimp only
      split_ifs
      · exact hr
      · apply same_key_branch h
        intro c1 d1 h1
        rw [← h1.2.2.2.2.2.2.2.2.2]
        split_ifs
        · exact same_encrypted_chat h1 _
        · exact h1

theorem same_dispatch (X : Env) {c d : Channel} (h : SameState c d) (sender : String)
    (m : Message) : SameResult (dispatch X c sender m) (dispatch X d sender m) := by
  unfold dispatch
  split
  · exact same_on_channel_search X h sender m
  · exact same_on_channel_status X h sender m
  · exact same_on_channel_announcement X h sender m
  · exact same_on_join_request X h sender m
  · exact same_on_authentication_request X h sender m
  · exact same_on_authentication X h sender m
  · exact same_on_authorization X h sender m
  · exact same_on_consistency_status X h sender
  · exact same_on_consistency_check X h sender m
  · exact same_on_key_exchange_public_key X h sender m
  · exact same_on_key_exchange_secret_share X h sender m
  · exact same_on_key_exchange_acceptance X h sender m
  · exact same_on_key_exchange_reveal X h sender m
  · exact same_on_key_activation X h sender m
  · exact same_on_chat X h sender m
  · exact h

theorem same_message_received (X : Env) {c d : Channel} (h : SameState c d) (sender : String)
    (m : Message) : SameResult (message_received X c sender m) (message_received X d sender m) := by
  unfold message_received hash_message
  have hr := same_hash_payload X h sender (X.type_byte m.type) m.payload
  generalize hash_payload X c sender (X.type_byte m.type) m.payload = r1 at hr ⊢
  generalize hash_payload X d sender (X.type_byte m.type) m.payload = r2 at hr ⊢
  cases r1 <;> cases r2 <;> simp only [SameResult] at hr ⊢
  · exact hr
  · exact same_dispatch X hr sender m

theorem same_hash_trace (X : Env) (messages : List (String × Message)) :
    ∀ {c d : Channel}, SameState c d → hash_trace X c messages = hash_trace X d messages := by
  induction messages with
  | nil => intro c d _; rfl
  | cons hd rest ih =>
    obtain ⟨sender, m⟩ := hd
    intro c d h
    unfold hash_trace
    have hr := same_message_received X h sender m
    generalize message_received X c sender m = r1 at hr ⊢
    generalize message_received X d sender m = r2 at hr ⊢
    cases r1 <;> cases r2 <;> simp only [SameResult] at hr ⊢
    rw [hr.2.2.2.2.2.1, ih hr]

/-- C2 (hash agreement): two channels that start in the same state (all data members
equal; observers and outboxes may differ), fed the same finite sequence of
(sender, message) broadcasts in the same order through `message_received`, under the same
hash, codec and collaborator functions, have equal status hashes after every message of
the sequence (and stop returning at the same message, if at all). -/
theorem hash_agreement (X : Env) (c d : Channel) (messages : List (String × Message))
    (h : SameState c d) : hash_trace X c messages = hash_trace X d messages :=
  same_hash_trace X messages h

/-- Witness of C2: the solo channel of `alice`, once with an observer and a non-empty
outbox, fed a JoinRequest and a ChannelSearch. -/
theorem hash_agreement_witness :
    hash_trace demo_env demo_solo
        [("bob", ⟨.JoinRequest, "bob"⟩), ("carol", ⟨.ChannelSearch, "nc"⟩)]
      = hash_trace demo_env (relog demo_solo true [⟨.Chat, "old"⟩] [])
        [("bob", ⟨.JoinRequest, "bob"⟩), ("carol", ⟨.ChannelSearch, "nc"⟩)] :=
  hash_agreement demo_env demo_solo (relog demo_solo true [⟨.Chat, "old"⟩] [])
    [("bob", ⟨.JoinRequest, "bob"⟩), ("carol", ⟨.ChannelSearch, "nc"⟩)]
    ⟨rfl, rfl, rfl, rfl, rfl, rfl, rfl, rfl, rfl, rfl⟩

theorem reachable_demo_joined : Reachable demo_env demo_joined :=
  Reachable.message_received
    (match message_received demo_env demo_solo "bob" ⟨.JoinRequest, "bob"⟩ with
      | .error _ => demo_solo
      | .ok c => c)
    demo_joined "carol" ⟨.ChannelSearch, "nc"⟩
    (Reachable.message_received demo_solo _ "bob" ⟨.JoinRequest, "bob"⟩
      (Reachable.create _ _ _) rfl)
    rfl

/-- C11 (removal keeps the events that still list somebody) fails on the code: in the
reachable state `demo_joined` the queue holds a ConsistencyCheck event still owed by
`alice` and `bob`; `remove_user("bob")` returns, and the queue it leaves has no
ConsistencyCheck event at all, although `alice` still owed that check. -/
theorem removal_drops_pending_check :
    Reachable demo_env demo_joined
      ∧ (∃ e ∈ demo_joined.m_events, e.type = .ConsistencyCheck
          ∧ e.remaining_users = {"alice", "bob"})
      ∧ ∃ c1, remove_user demo_joined "bob" = .ok c1
          ∧ (∀ e1 ∈ c1.m_events, e1.type ≠ .ConsistencyCheck)
          ∧ c1.m_events.length + 1 = demo_joined.m_events.length := by
  refine ⟨reachable_demo_joined, ?_, ?_⟩
  · decide
  · refine ⟨_, rfl, ?_, ?_⟩
    · decide
    · decide

/-! ## The outbox and the removal -/

theorem sent_notify (c : Channel) (n : Notification) : (notify c n).sent = c.sent := by
  unfold notify; split <;> rfl

theorem sent_try_promote {c c1 : Channel} {key : String} {b : Bool}
    (h : try_promote_unauthorized_participant c key = .ok (b, c1)) : c1.sent = c.sent := by
  unfold try_promote_unauthorized_participant at h
  split at h
  · cases h
  · split_ifs at h <;> simp only [Except.ok.injEq, Prod.mk.injEq, reduceCtorEq] at h
    all_goals obtain ⟨-, rfl⟩ := h
    all_goals simp only [sent_notify]

theorem sent_do_remove_user {c c1 : Channel} {username : String}
    (h : do_remove_user c username = .ok c1) : c1.sent = c.sent := by
  unfold do_remove_user at h
  split_ifs at h
  cases h
  rw [sent_notify]

theorem sent_remove_users_loop {usernames : List String} {c c1 : Channel}
    (h : remove_users_loop c usernames = .ok c1) : c1.sent = c.sent := by
  induction usernames generalizing c with
  | nil => cases h; rfl
  | cons u rest ih =>
    unfold remove_users_loop at h
    split_ifs at h
    · exact ih h
    · split at h
      · cases h
      · rename_i c2 h2
        exact (ih h).trans (sent_do_remove_user h2)

theorem sent_promote_loop {l : Entries} {c c1 : Channel}
    (h : promote_loop c l = .ok c1) : c1.sent = c.sent := by
  induction l generalizing c with
  | nil => cases h; rfl
  | cons hd rest ih =>
    obtain ⟨key, p⟩ := hd
    unfold promote_loop at h
    split_ifs at h
    · split at h
      · cases h
      · rename_i c2 h2
        cases h
        exact (sent_try_promote h2 : c2.sent = c.sent)
      · rename_i c2 h2
        exact (ih h).trans (sent_try_promote h2)
    · exact ih h

theorem sent_remove_user {c c1 : Channel} {username : String}
    (h : remove_user c username = .ok c1) : c1.sent = c.sent := by
  unfold remove_user remove_users at h
  split at h
  · cases h
  · rename_i c2 h2
    split at h
    · cases h
    · rename_i c3 h3
      cases h
      exact (sent_promote_loop h3).trans (sent_remove_users_loop h2)

/-! ## What a removal keeps of the other entries -/

theorem same_identity_refl (p : Participant) : SameIdentity p p := ⟨rfl, rfl, rfl, rfl, rfl⟩

theorem entries_kept_refl (m : ParticipantMap) : EntriesKept m m := by
  intro k
  cases m.find k with
  | none => trivial
  | some p => exact same_identity_refl p

theorem entries_kept_trans {a b c : ParticipantMap} (h1 : EntriesKept a b) (h2 : EntriesKept b c) :
    EntriesKept a c := by
  intro k
  have g1 := h1 k
  have g2 := h2 k
  cases ha : a.find k <;> cases hb : b.find k <;> cases hc : c.find k <;>
    simp only [ha, hb, hc] at g1 g2 ⊢
  · obtain ⟨a1, a2, a3, a4, a5⟩ := g1
    obtain ⟨b1, b2, b3, b4, b5⟩ := g2
    exact ⟨b1.trans a1, b2.trans a2, b3.trans a3, b4.trans a4, b5.trans a5⟩

theorem entries_kept_update_all (m : ParticipantMap) (f : String → Participant → Participant)
    (hf : ∀ k p, SameIdentity p (f k p)) : EntriesKept m (m.update_all f) := by
  intro k
  rw [ParticipantMap.find_update_all]
  cases m.find k with
  | none => trivial
  | some p => exact hf k p

theorem entries_kept_modify (m : ParticipantMap) (key : String) (f : Participant → Participant)
    (hf : ∀ p, SameIdentity p (f p)) : EntriesKept m (m.modify key f) := by
  unfold ParticipantMap.modify
  apply entries_kept_update_all
  intro k p
  split_ifs
  · exact hf p
  · exact same_identity_refl p

theorem entries_kept_promote_if_quorum (m : ParticipantMap) (key : String) :
    EntriesKept m (promote_if_quorum m key) := by
  unfold promote_if_quorum
  split
  · split_ifs
    · apply entries_kept_modify
      intro p
      exact ⟨rfl, rfl, rfl, rfl, rfl⟩
    · exact entries_kept_refl _
  · exact entries_kept_refl _

theorem entries_kept_purge_witnesses (username : String) (m : ParticipantMap) :
    EntriesKept m (purge_witnesses username m) := by
  unfold purge_witnesses
  apply entries_kept_update_all
  intro k p
  split_ifs
  · exact ⟨rfl, rfl, rfl, rfl, rfl⟩
  · exact same_identity_refl p

theorem entries_kept_promote_loop {l : Entries} {c c1 : Channel} (h : promote_loop c l = .ok c1) :
    EntriesKept c.m_participants c1.m_participants := by
  induction l generalizing c with
  | nil => cases h; exact entries_kept_refl _
  | cons hd rest ih =>
    obtain ⟨key, p⟩ := hd
    unfold promote_loop at h
    split_ifs at h
    · split at h
      · cases h
      · rename_i c2 h2
        cases h
        obtain ⟨h3, -, -⟩ := try_promote_effect h2
        show EntriesKept c.m_participants c2.m_participants
        rw [h3]
        exact entries_kept_promote_if_quorum _ _
      · rename_i c2 h2
        have := try_promote_false h2
        subst this
        exact ih h
    · exact ih h

theorem erase_absent {m : ParticipantMap} {username : String}
    (h : m.count username = false) : EntriesKept (m.erase username) m := by
  intro k
  rw [ParticipantMap.find_erase]
  split_ifs with hk
  · subst hk
    rw [count_eq_false_iff.1 h]
    trivial
  · cases m.find k with
    | none => trivial
    | some p => exact same_identity_refl p

theorem entries_kept_remove_user {c c1 : Channel} {username : String}
    (h : remove_user c username = .ok c1) :
    EntriesKept (c.m_participants.erase username) c1.m_participants := by
  unfold remove_user remove_users at h
  split at h
  · cases h
  · rename_i c2 h2
    split at h
    · cases h
    · rename_i c3 h3
      cases h
      have h4 := entries_kept_promote_loop h3
      unfold remove_users_loop at h2
      split_ifs at h2 with hc
      · unfold remove_users_loop at h2
        cases h2
        exact entries_kept_trans (erase_absent (by simpa using hc)) h4
      · split at h2
        · cases h2
        · rename_i c4 h6
          unfold remove_users_loop at h2
          cases h2
          obtain ⟨h7, -, -⟩ := do_remove_user_effect h6
          refine entries_kept_trans ?_ h4
          rw [h7]
          exact entries_kept_purge_witnesses _ _

theorem remove_user_count {c c1 : Channel} {username k : String}
    (h : remove_user c username = .ok c1) (hk : k ≠ username) :
    c1.m_participants.count k = c.m_participants.count k := by
  have g := entries_kept_remove_user h k
  rw [ParticipantMap.find_erase, if_neg hk] at g
  unfold ParticipantMap.count
  cases h1 : c.m_participants.find k <;> cases h2 : c1.m_participants.find k <;>
    simp only [h1, h2] at g ⊢
  all_goals rfl

/-! ## The JoinRequest branch (C12, C13) -/

theorem participants_self_joined (X : Env) (c : Channel) :
    (self_joined X c).m_participants = c.m_participants := by
  unfold self_joined
  rw [find_notify]
  have key : ∀ (l : Entries) (a : Channel), (l.foldl
      (fun acc i =>
        if i.2.username = acc.m_room.username then acc
        else authenticate_to X acc i.2.username i.2.long_term_public_key i.2.ephemeral_public_key
          acc.m_channel_status_hash) a).m_participants = a.m_participants := by
    intro l
    induction l with
    | nil => intro a; rfl
    | cons hd tl ih =>
      intro a
      simp only [List.foldl_cons]
      rw [ih]
      split_ifs <;> rfl
  rw [key]

theorem participants_insert_joiner (X : Env) (c1 : Channel) (sender : String)
    (message : JoinRequestMessage) :
    (insert_joiner X c1 sender message).m_participants =
      (c1.m_participants.assign sender
        { default_participant X with
          username := sender
          long_term_public_key := message.long_term_public_key
          ephemeral_public_key := message.ephemeral_public_key
          authorization_nonce := c1.m_channel_status_hash
          authorized := false }).modify sender
        (fun p => { p with authentication_status :=
          if sender = c1.m_room.username then .Authenticated
          else if c1.m_active then .Authenticating else .AuthenticatingWithNonce }) := by
  unfold insert_joiner
  have hroom : ∀ (x : Channel) nn, (notify x nn).m_room = x.m_room :=
    fun x nn => (frame_notify x nn).2.1
  by_cases hs : sender = c1.m_room.username
  · simp only [hroom, set_authentication_status, send_message, hs, if_true,
      participants_self_joined, find_notify]
  · cases ha : c1.m_active <;>
      simp only [hroom, set_authentication_status, send_message, hs, if_false, ha,
        find_notify, Bool.not_false, Bool.not_true, if_true, Bool.false_eq_true]

theorem sent_insert_joiner (X : Env) (c1 : Channel) (sender : String)
    (message : JoinRequestMessage) (hs : sender ≠ c1.m_room.username) :
    (insert_joiner X c1 sender message).sent =
      if c1.m_active then c1.sent
      else c1.sent ++ [X.encode_authentication_request
        { sender_long_term_public_key := c1.m_room.long_term_public_key
          sender_ephemeral_public_key := ephemeral_public_key X c1
          peer_username := sender
          peer_long_term_public_key := message.long_term_public_key
          peer_ephemeral_public_key := message.ephemeral_public_key
          nonce := c1.m_authentication_nonce }] := by
  unfold insert_joiner
  have hroom : ∀ (x : Channel) nn, (notify x nn).m_room = x.m_room :=
    fun x nn => (frame_notify x nn).2.1
  cases ha : c1.m_active <;>
    simp only [hroom, set_authentication_status, send_message, hs, if_false, ha,
      sent_notify, Bool.not_false, Bool.not_true, if_true, Bool.false_eq_true,
      ephemeral_public_key]

theorem dispatch_join_request {X : Env} {c : Channel} {sender : String} {m : Message}
    (htype : m.type = .JoinRequest) :
    dispatch X c sender m = on_join_request X c sender m := by
  unfold dispatch
  rw [htype]

theorem on_join_request_spec (X : Env) (c0 : Channel) (sender : String) (m : Message)
    (message : JoinRequestMessage) (hdec : X.decode_join_request m = some message) :
    ∃ c1 c2, remove_user c0 sender = .ok c1 ∧ on_join_request X c0 sender m = .ok c2
      ∧ ((∀ u ∈ message.peer_usernames, c1.m_participants.count u = false) → c2 = c1)
      ∧ ((∃ u ∈ message.peer_usernames, c1.m_participants.count u = true) →
          c2 = insert_joiner X c1 sender message) := by
  obtain ⟨c1, h1⟩ := remove_user_total c0 sender
  rw [on_join_request_eq, hdec]
  simp only [h1]
  by_cases hany : message.peer_usernames.any (fun username => c1.m_participants.count username) = true
  · refine ⟨c1, _, rfl, by rw [hany]; rfl, ?_, fun _ => rfl⟩
    intro hall
    exfalso
    obtain ⟨u, hu, hc⟩ := List.any_eq_true.1 hany
    rw [hall u hu] at hc
    cases hc
  · have hany2 : message.peer_usernames.any (fun username => c1.m_participants.count username) = false := by
      simpa using hany
    refine ⟨c1, _, rfl, by rw [hany2]; rfl, fun _ => rfl, ?_⟩
    rintro ⟨u, hu, hc⟩
    exfalso
    apply hany
    exact List.any_eq_true.2 ⟨u, hu, hc⟩

/-- C12 (JoinRequest): for a decodable JoinRequest from `sender`, `message_received`
returns; after the hash update any previous entry of `sender` is removed; if none of the
listed peer usernames is then a participant, the table stays as the removal left it and
`sender` is absent from it; otherwise `sender` is in the table afterwards, unauthorized,
with empty witness sets, the keys of the message, the status hash as updated by this very
message as authorization nonce, and authentication status `Authenticated` for the local
user, `Authenticating` for another user when the channel is active and
`AuthenticatingWithNonce` for another user when it is not; the other entries are as the
removal left them. -/
theorem join_request_entry (X : Env) (c : Channel) (sender : String) (np1sec_message : Message)
    (message : JoinRequestMessage) (htype : np1sec_message.type = .JoinRequest)
    (hdec : X.decode_join_request np1sec_message = some message)
    (h : EventsTyped c.m_events) :
    ∃ c0 c1 c2, hash_message X c sender np1sec_message = .ok c0
      ∧ remove_user c0 sender = .ok c1
      ∧ message_received X c sender np1sec_message = .ok c2
      ∧ c1.m_participants.find sender = none
      ∧ c2.m_channel_status_hash = c0.m_channel_status_hash
      ∧ ((∀ u ∈ message.peer_usernames, c1.m_participants.count u = false) →
          c2.m_participants = c1.m_participants ∧ c2.m_participants.find sender = none)
      ∧ ((∃ u ∈ message.peer_usernames, c1.m_participants.count u = true) →
          c2.m_participants.find sender = some
            { username := sender
              long_term_public_key := message.long_term_public_key
              ephemeral_public_key := message.ephemeral_public_key
              authorization_nonce := c0.m_channel_status_hash
              authorized := false
              authentication_status :=
                if sender = c.m_room.username then .Authenticated
                else if c.m_active then .Authenticating else .AuthenticatingWithNonce
              authorized_by := ∅
              authorized_peers := ∅ }
          ∧ ∀ k, k ≠ sender → c2.m_participants.find k = c1.m_participants.find k) := by
  obtain ⟨status, hs⟩ := channel_status_total X c "" (zero_hash X) h
  obtain ⟨c1, c2, h1, h2, h3, h4⟩ := on_join_request_spec X
    (with_hash c (chained_hash X status sender (X.type_byte np1sec_message.type) np1sec_message.payload))
    sender np1sec_message message hdec
  have hf := frame_remove_user h1
  have hnone := remove_user_not_found h1
  refine ⟨_, c1, c2, hash_payload_ok hs, h1, ?_, hnone, ?_, ?_, ?_⟩
  · rw [message_received_ok hs, dispatch_join_request htype, h2]
  · exact ((frame_on_join_request h2).1)
  · intro hall
    rw [h3 hall]
    exact ⟨rfl, hnone⟩
  · intro hex
    rw [h4 hex, participants_insert_joiner]
    refine ⟨?_, ?_⟩
    · rw [ParticipantMap.find_modify, if_pos rfl, ParticipantMap.find_assign, if_pos rfl]
      simp only [Option.map_some', default_participant, hf.1, hf.2.1, hf.2.2.2.2.1]
      rfl
    · intro k hk
      rw [ParticipantMap.find_modify, if_neg hk, ParticipantMap.find_assign, if_neg hk]

/-- Witness of C12: the solo channel of `alice`, not active, receives a JoinRequest from
`bob` that names `alice`; `bob` is inserted as `AuthenticatingWithNonce`. -/
theorem join_request_entry_witness :
    ∃ c2, message_received demo_env demo_solo "bob" ⟨.JoinRequest, "bob"⟩ = .ok c2
      ∧ c2.m_participants.find "bob" = some
          { username := "bob"
            long_term_public_key := ⟨"bob"⟩
            ephemeral_public_key := ⟨"bob"⟩
            authorization_nonce := c2.m_channel_status_hash
            authorized := false
            authentication_status := .AuthenticatingWithNonce
            authorized_by := ∅
            authorized_peers := ∅ } := by
  obtain ⟨c0, c1, c2, h0, h1, h2, -, h4, -, h6⟩ := join_request_entry demo_env demo_solo "bob"
    ⟨.JoinRequest, "bob"⟩ ⟨⟨"bob"⟩, ⟨"bob"⟩, ["alice"]⟩ rfl rfl (by decide)
  refine ⟨c2, h2, ?_⟩
  have hc1 : c1.m_participants.count "alice" = true := by
    rw [remove_user_count h1 (by decide)]
    have : c0.m_participants = demo_solo.m_participants := by
      unfold hash_message at h0
      obtain ⟨status, -, rfl⟩ := hash_payload_inv h0
      rfl
    rw [this]
    decide
  rw [(h6 ⟨"alice", by simp, hc1⟩).1, h4]
  rfl

/-- C13 as stated fails: the active solo channel of `alice` receives a JoinRequest from
`bob` that names `alice`; `bob` is inserted with authentication status `Authenticating`,
not `AuthenticatingWithNonce`, and nothing is sent. -/
theorem active_join_sends_no_request :
    (activate demo_solo).m_active = true
      ∧ (activate demo_solo).m_participants.count "alice" = true
      ∧ ∃ c2 p, message_received demo_env (activate demo_solo) "bob" ⟨.JoinRequest, "bob"⟩ = .ok c2
          ∧ c2.m_participants.find "bob" = some p
          ∧ p.authorized = false
          ∧ p.authentication_status = .Authenticating
          ∧ p.authentication_status ≠ .AuthenticatingWithNonce
          ∧ c2.sent = [] :=
  ⟨rfl, by decide, _, _, rfl, rfl, rfl, rfl, by decide, rfl⟩

/-- C13, amended (join by a second user): when the channel receives a JoinRequest from a
user other than the local one whose peer usernames name a participant other than the
sender, it inserts the sender as unauthorized.  If the channel is not active the sender's
authentication status is `AuthenticatingWithNonce` and the channel sends one
AuthenticationRequest addressed to the sender, carrying the sender's keys and the
channel's authentication nonce; if the channel is active the status is `Authenticating`
and nothing is sent. -/
theorem join_by_second_user (X : Env) (c : Channel) (sender : String) (np1sec_message : Message)
    (message : JoinRequestMessage) (htype : np1sec_message.type = .JoinRequest)
    (hdec : X.decode_join_request np1sec_message = some message)
    (hother : sender ≠ c.m_room.username)
    (hpeer : ∃ u ∈ message.peer_usernames, u ≠ sender ∧ c.m_participants.count u = true)
    (h : EventsTyped c.m_events) :
    ∃ c2 p, message_received X c sender np1sec_message = .ok c2
      ∧ c2.m_participants.find sender = some p ∧ p.authorized = false
      ∧ (c.m_active = false →
          p.authentication_status = .AuthenticatingWithNonce
          ∧ c2.sent = c.sent ++ [X.encode_authentication_request
              { sender_long_term_public_key := c.m_room.long_term_public_key
                sender_ephemeral_public_key := ephemeral_public_key X c
                peer_username := sender
                peer_long_term_public_key := message.long_term_public_key
                peer_ephemeral_public_key := message.ephemeral_public_key
                nonce := c.m_authentication_nonce }])
      ∧ (c.m_active = true →
          p.authentication_status = .Authenticating ∧ c2.sent = c.sent) := by
  obtain ⟨status, hs⟩ := channel_status_total X c "" (zero_hash X) h
  obtain ⟨c1, c2, h1, h2, -, h4⟩ := on_join_request_spec X
    (with_hash c (chained_hash X status sender (X.type_byte np1sec_message.type) np1sec_message.payload))
    sender np1sec_message message hdec
  have hf := frame_remove_user h1
  have hsent : c1.sent = c.sent := (sent_remove_user h1).trans rfl
  have hroom : c1.m_room = c.m_room := hf.2.1
  have hact : c1.m_active = c.m_active := hf.2.2.2.2.1
  obtain ⟨u, hu, hne, hcount⟩ := hpeer
  have hex : ∃ u ∈ message.peer_usernames, c1.m_participants.count u = true :=
    ⟨u, hu, by rw [remove_user_count h1 hne]; exact hcount⟩
  have hc2 := h4 hex
  have hother1 : sender ≠ c1.m_room.username := by rw [hroom]; exact hother
  have hfind : c2.m_participants.find sender = some
      { username := sender
        long_term_public_key := message.long_term_public_key
        ephemeral_public_key := message.ephemeral_public_key
        authorization_nonce := c1.m_channel_status_hash
        authorized := false
        authentication_status :=
          if sender = c1.m_room.username then .Authenticated
          else if c1.m_active then .Authenticating else .AuthenticatingWithNonce
        authorized_by := ∅
        authorized_peers := ∅ } := by
    rw [hc2, participants_insert_joiner, ParticipantMap.find_modify, if_pos rfl,
      ParticipantMap.find_assign, if_pos rfl]
    rfl
  refine ⟨c2, _, ?_, hfind, rfl, ?_, ?_⟩
  · rw [message_received_ok hs, dispatch_join_request htype, h2]
  · intro ha
    refine ⟨by simp only [if_neg hother1, hact, ha]; rfl, ?_⟩
    rw [hc2, sent_insert_joiner X c1 sender message hother1, hact, ha, hsent]
    simp only [Bool.false_eq_true, if_false, ephemeral_public_key, hroom, hf.2.2.1, hf.2.2.2.1]
    rfl
  · intro ha
    refine ⟨by simp only [if_neg hother1, hact, ha]; rfl, ?_⟩
    rw [hc2, sent_insert_joiner X c1 sender message hother1, hact, ha, hsent]
    rfl

/-- Witness of C13: the solo channel of `alice`, not active, receives a JoinRequest from
`bob` that names `alice`, and sends an AuthenticationRequest. -/
theorem join_by_second_user_witness :
    ∃ c2 p, message_received demo_env demo_solo "bob" ⟨.JoinRequest, "bob"⟩ = .ok c2
      ∧ c2.m_participants.find "bob" = some p
      ∧ p.authentication_status = .AuthenticatingWithNonce
      ∧ c2.sent = [⟨.AuthenticationRequest, "bob"⟩] := by
  obtain ⟨c2, p, h1, h2, -, h4, -⟩ := join_by_second_user demo_env demo_solo "bob"
    ⟨.JoinRequest, "bob"⟩ ⟨⟨"bob"⟩, ⟨"bob"⟩, ["alice"]⟩ rfl rfl (by decide)
    ⟨"alice", by simp, by decide, by decide⟩ (by decide)
  exact ⟨c2, p, h1, h2, (h4 rfl).1, (h4 rfl).2⟩

/-! ## Solo construction (C14) -/

/-- C14 (solo creation): for every room, the solo constructor yields a channel whose
participant table is exactly one entry, under the local username: the local user,
authorized, `Authenticated`, with the long-term public key of the room, the public half
of the generated ephemeral key, empty witness sets and the status hash as authorization
nonce; `joined` is true, `active` false, `authorized` true; the event queue is empty; the
status hash is the freshly generated nonce. -/
theorem solo_creation (X : Env) (room : Room) (generated_key : PrivateKey) (nonce_hash : Hash) :
    (Channel.create X room generated_key nonce_hash).m_participants.entries
        = [(room.username,
            { username := room.username
              long_term_public_key := room.long_term_public_key
              ephemeral_public_key :=
                ephemeral_public_key X (Channel.create X room generated_key nonce_hash)
              authorization_nonce :=
                (Channel.create X room generated_key nonce_hash).m_channel_status_hash
              authorized := true
              authentication_status := .Authenticated
              authorized_by := ∅
              authorized_peers := ∅ })]
      ∧ (Channel.create X room generated_key nonce_hash).m_joined = true
      ∧ (Channel.create X room generated_key nonce_hash).m_active = false
      ∧ (Channel.create X room generated_key nonce_hash).m_authorized = true
      ∧ (Channel.create X room generated_key nonce_hash).m_events = []
      ∧ (Channel.create X room generated_key nonce_hash).m_channel_status_hash = nonce_hash
      ∧ (Channel.create X room generated_key nonce_hash).m_room = room :=
  ⟨rfl, rfl, rfl, rfl, rfl, rfl, rfl⟩

/-! ## The participant-table invariant (C18) -/

/-- C18 (participant-table invariant): in every state reachable from one of the three
constructors through the public operations (`message_received`, `user_left`,
`authorize`, `confirm_participant`, `join`, `activate` and the others), every participant
whose `authorized` flag is true has both `authorized_by` and `authorized_peers` empty. -/
theorem authorized_witness_sets_empty (X : Env) (c : Channel) (h : Reachable X c) :
    WitnessesClean c.m_participants ∧
      ∀ key p, c.m_participants.find key = some p → p.authorized = true →
        p.authorized_by = ∅ ∧ p.authorized_peers = ∅ :=
  ⟨(reachable_inv h).1,
    fun _ _ hf ha => (reachable_inv h).1 _ (ParticipantMap.mem_of_find hf) ha⟩

/-- Witness of C18: the channel of `alice` after a JoinRequest from `bob` and a
ChannelSearch. -/
theorem authorized_witness_sets_empty_witness :
    WitnessesClean demo_joined.m_participants :=
  (authorized_witness_sets_empty demo_env demo_joined reachable_demo_joined).1

/-! ## Signature failure (C20) -/

theorem shrinks_purge_erase (username : String) (m : ParticipantMap) :
    Shrinks m (purge_witnesses username (m.erase username)) := by
  intro k p1 h
  rw [find_purge_witnesses, ParticipantMap.find_erase] at h
  split_ifs at h with hk
  · simp at h
  · cases hf : m.find k with
    | none => rw [hf] at h; simp at h
    | some p =>
      rw [hf] at h
      simp only [Option.map_some', Option.some.injEq] at h
      refine ⟨p, rfl, ?_, ?_⟩
      · subst h
        split_ifs
        · exact Finset.erase_subset _ _
        · exact Finset.Subset.refl _
      · subst h
        split_ifs
        · exact Finset.erase_subset _ _
        · exact Finset.Subset.refl _

theorem dispatch_signature_failure (X : Env) (c : Channel) (sender : String) (m : Message)
    (ps : Participant) (hS : c.m_participants.find sender = some ps)
    (hsig : signature_fails X m ps.ephemeral_public_key) :
    dispatch X c sender m = remove_user c sender := by
  unfold signature_fails at hsig
  unfold dispatch
  split at hsig
  all_goals first
    | exact hsig.elim
    | (rename_i htype
       obtain ⟨sm, hv, hvalid⟩ := hsig
       rw [htype]
       simp only [on_authorization, on_consistency_check, on_key_exchange_public_key,
         on_key_exchange_secret_share, on_key_exchange_acceptance, on_key_exchange_reveal,
         on_key_activation, hS, hv, hvalid, Bool.not_false, if_true])

/-- C20 (signature failure): for every message of a signed type (Authorization,
ConsistencyCheck, the four KeyExchange types, KeyActivation) sent by a participant
`sender` whose signature does not verify under the sender's recorded ephemeral public
key, `message_received` returns the channel obtained by `remove_user(sender)` after the
hash update: `sender` is no longer in the participant table, the event queue is the
queue purged of `sender` (no event was consumed), and no witness set has a member it did
not have before. -/
theorem signature_failure_removes (X : Env) (c : Channel) (sender : String)
    (np1sec_message : Message) (ps : Participant) (ht : EventsTyped c.m_events)
    (hS : c.m_participants.find sender = some ps)
    (hsig : signature_fails X np1sec_message ps.ephemeral_public_key) :
    ∃ c0 c1, hash_message X c sender np1sec_message = .ok c0
      ∧ remove_user c0 sender = .ok c1
      ∧ message_received X c sender np1sec_message = .ok c1
      ∧ c1.m_participants.find sender = none
      ∧ c1.m_events = purge_events sender c.m_events
      ∧ Shrinks c.m_participants c1.m_participants := by
  obtain ⟨status, hs⟩ := channel_status_total X c "" (zero_hash X) ht
  have hd := dispatch_signature_failure X
    (with_hash c (chained_hash X status sender (X.type_byte np1sec_message.type) np1sec_message.payload))
    sender np1sec_message ps hS hsig
  obtain ⟨c1, h1⟩ := remove_user_total
    (with_hash c (chained_hash X status sender (X.type_byte np1sec_message.type) np1sec_message.payload))
    sender
  have hcount : c.m_participants.count sender = true := count_eq_true_iff.2 ⟨ps, hS⟩
  have heff := (remove_user_effect h1).1 hcount
  refine ⟨_, c1, hash_payload_ok hs, h1, ?_, remove_user_not_found h1, heff.2, ?_⟩
  · rw [message_received_ok hs, hd, h1]
  · exact shrinks_trans (shrinks_purge_erase sender c.m_participants) heff.1

/-- Witness of C20: `bob` sends a ConsistencyCheck whose signature does not verify;
`bob` is removed and the pending check is not consumed for him. -/
theorem signature_failure_removes_witness :
    ∃ c1, message_received demo_env_signed demo_waiting "bob" ⟨.ConsistencyCheck, "forged"⟩ = .ok c1
      ∧ c1.m_participants.find "bob" = none
      ∧ c1.m_events = purge_events "bob" demo_waiting.m_events := by
  obtain ⟨c0, c1, -, -, h3, h4, h5, -⟩ := signature_failure_removes demo_env_signed demo_waiting
    "bob" ⟨.ConsistencyCheck, "forged"⟩ (demo_bob ∅ ∅) (by decide) rfl
    ⟨⟨false, ⟨⟨"forged"⟩⟩⟩, rfl, rfl⟩
  exact ⟨c1, h3, h4, h5⟩

/-! ## The loops of the status constructor -/

theorem status_add_participants_cons (X : Env) (c : Channel) (ev : Event) (p : StatusParticipant)
    (rest : List StatusParticipant) :
    status_add_participants X c ev (p :: rest) =
      if c.m_participants.count p.username then .error .MessageFormat
      else status_add_participants X
        (encrypted_chat (with_participants c (c.m_participants.assign p.username (status_entry X p)))
          (.do_add_user p.username p.long_term_public_key))
        (with_status_users ev (insert p.username ev.channel_status.remaining_users)) rest := by
  rw [status_add_participants]
  rfl

theorem count_assign (m : ParticipantMap) (key k : String) (v : Participant) :
    (m.assign key v).count k = (decide (k = key) || m.count k) := by
  unfold ParticipantMap.count
  rw [ParticipantMap.find_assign]
  split_ifs with h <;> simp [h]

/-- What the first loop of the status constructor does: it fails exactly when a listed
username is repeated or already in the table, and otherwise stores one entry per listed
participant. -/
theorem status_add_participants_cases (X : Env) (l : List StatusParticipant) :
    ∀ (c : Channel) (ev : Event),
    (((l.map (fun p => p.username)).Nodup ∧ ∀ q ∈ l, c.m_participants.count q.username = false)
      ∧ ∃ c1 ev1, status_add_participants X c ev l = .ok (c1, ev1)
        ∧ c1 = { c with m_participants := c1.m_participants, m_encrypted_chat := c1.m_encrypted_chat }
        ∧ c1.m_encrypted_chat = c.m_encrypted_chat
            ++ l.map (fun p => .do_add_user p.username p.long_term_public_key)
        ∧ (∀ q ∈ l, c1.m_participants.find q.username = some (status_entry X q))
        ∧ (∀ k, k ∉ l.map (fun p => p.username) → c1.m_participants.find k = c.m_participants.find k)
        ∧ ev1 = with_status_users ev
            (ev.channel_status.remaining_users ∪ (l.map (fun p => p.username)).toFinset))
    ∨ (¬ ((l.map (fun p => p.username)).Nodup ∧ ∀ q ∈ l, c.m_participants.count q.username = false)
      ∧ status_add_participants X c ev l = .error .MessageFormat) := by
  induction l with
  | nil =>
    intro c ev
    left
    refine ⟨⟨List.nodup_nil, by simp⟩, c, ev, rfl, rfl, by simp, by simp, fun _ _ => rfl, ?_⟩
    simp [with_status_users]
  | cons p rest ih =>
    intro c ev
    rw [status_add_participants_cons]
    cases hc : c.m_participants.count p.username with
    | true =>
      right
      refine ⟨?_, rfl⟩
      rintro ⟨-, h2⟩
      rw [h2 p (List.mem_cons_self _ _)] at hc
      cases hc
    | false =>
      simp only [Bool.false_eq_true, if_false]
      rcases ih (encrypted_chat (with_participants c (c.m_participants.assign p.username (status_entry X p)))
          (.do_add_user p.username p.long_term_public_key))
        (with_status_users ev (insert p.username ev.channel_status.remaining_users)) with
        ⟨⟨hnd, hfresh⟩, c1, ev1, hok, hc1, hchat, hin, hout, hev⟩ | ⟨hn, herr⟩
      · have hfresh2 : ∀ q ∈ rest, q.username ≠ p.username ∧ c.m_participants.count q.username = false := by
          intro q hq
          have := hfresh q hq
          simp only [encrypted_chat, with_participants, count_assign, Bool.or_eq_false_iff,
            decide_eq_false_iff_not] at this
          exact this
        left
        refine ⟨⟨?_, ?_⟩, c1, ev1, hok, ?_, ?_, ?_, ?_, ?_⟩
        · rw [List.map_cons, List.nodup_cons]
          refine ⟨?_, hnd⟩
          intro hmem
          obtain ⟨q, hq, hqe⟩ := List.mem_map.1 hmem
          exact (hfresh2 q hq).1 hqe
        · intro q hq
          rcases List.mem_cons.1 hq with hq | hq
          · rw [hq]; exact hc
          · exact (hfresh2 q hq).2
        · rw [hc1]
          rfl
        · rw [hchat]
          simp [encrypted_chat, with_participants]
        · intro q hq
          rcases List.mem_cons.1 hq with hq | hq
          · subst hq
            rw [hout]
            · simp [encrypted_chat, with_participants, ParticipantMap.find_assign]
            · intro hmem
              obtain ⟨q2, hq2, hqe⟩ := List.mem_map.1 hmem
              exact (hfresh2 q2 hq2).1 hqe
          · exact hin q hq
        · intro k hk
          rw [List.map_cons, List.mem_cons, not_or] at hk
          rw [hout k hk.2]
          simp [encrypted_chat, with_participants, ParticipantMap.find_assign, hk.1]
        · rw [hev]
          simp only [with_status_users, List.map_cons, List.toFinset_cons]
          congr 2
          ext x
          simp only [Finset.mem_union, Finset.mem_insert]
          tauto
      · right
        refine ⟨?_, herr⟩
        rintro ⟨h1, h2⟩
        apply hn
        rw [List.map_cons, List.nodup_cons] at h1
        refine ⟨h1.2, ?_⟩
        intro q hq
        simp only [encrypted_chat, with_participants, count_assign, Bool.or_eq_false_iff,
          decide_eq_false_iff_not]
        refine ⟨?_, h2 q (List.mem_cons_of_mem _ hq)⟩
        intro hqe
        apply h1.1
        rw [← hqe]
        exact List.mem_map.2 ⟨q, hq, rfl⟩

theorem status_add_unauthorized_participants_cons (X : Env) (c : Channel) (ev : Event)
    (p : StatusUnauthorizedParticipant) (rest : List StatusUnauthorizedParticipant) :
    status_add_unauthorized_participants X c ev (p :: rest) =
      if c.m_participants.count p.username then .error .MessageFormat
      else status_add_unauthorized_participants X
        (with_participants c
          (c.m_participants.assign p.username (status_unauthorized_entry X c.m_participants p)))
        (with_status_users ev (insert p.username ev.channel_status.remaining_users)) rest := by
  rw [status_add_unauthorized_participants]
  rfl

/-- What the second loop of the status constructor does: it fails exactly when a listed
username is repeated or already in the table, and otherwise stores one entry per listed
participant, its witness sets filtered by a table between the initial and the final
one. -/
theorem status_add_unauthorized_participants_cases (X : Env) (l : List StatusUnauthorizedParticipant) :
    ∀ (c : Channel) (ev : Event),
    (((l.map (fun p => p.username)).Nodup ∧ ∀ q ∈ l, c.m_participants.count q.username = false)
      ∧ ∃ c1 ev1, status_add_unauthorized_participants X c ev l = .ok (c1, ev1)
        ∧ c1 = { c with m_participants := c1.m_participants }
        ∧ (∀ q ∈ l, ∃ m : ParticipantMap,
            (∀ k, c.m_participants.count k = true → m.count k = true)
            ∧ (∀ k, m.count k = true →
                c.m_participants.count k = true ∨ k ∈ l.map (fun p => p.username))
            ∧ c1.m_participants.find q.username = some (status_unauthorized_entry X m q))
        ∧ (∀ k, k ∉ l.map (fun p => p.username) → c1.m_participants.find k = c.m_participants.find k)
        ∧ ev1 = with_status_users ev
            (ev.channel_status.remaining_users ∪ (l.map (fun p => p.username)).toFinset))
    ∨ (¬ ((l.map (fun p => p.username)).Nodup ∧ ∀ q ∈ l, c.m_participants.count q.username = false)
      ∧ status_add_unauthorized_participants X c ev l = .error .MessageFormat) := by
  induction l with
  | nil =>
    intro c ev
    left
    refine ⟨⟨List.nodup_nil, by simp⟩, c, ev, rfl, rfl, by simp, fun _ _ => rfl, ?_⟩
    simp [with_status_users]
  | cons p rest ih =>
    intro c ev
    rw [status_add_unauthorized_participants_cons]
    cases hc : c.m_participants.count p.username with
    | true =>
      right
      refine ⟨?_, rfl⟩
      rintro ⟨-, h2⟩
      rw [h2 p (List.mem_cons_self _ _)] at hc
      cases hc
    | false =>
      simp only [Bool.false_eq_true, if_false]
      rcases ih (with_participants c
          (c.m_participants.assign p.username (status_unauthorized_entry X c.m_participants p)))
        (with_status_users ev (insert p.username ev.channel_status.remaining_users)) with
        ⟨⟨hnd, hfresh⟩, c1, ev1, hok, hc1, hin, hout, hev⟩ | ⟨hn, herr⟩
      · have hfresh2 : ∀ q ∈ rest, q.username ≠ p.username ∧ c.m_participants.count q.username = false := by
          intro q hq
          have := hfresh q hq
          simp only [with_participants, count_assign, Bool.or_eq_false_iff,
            decide_eq_false_iff_not] at this
          exact this
        have hnotin : p.username ∉ rest.map (fun p => p.username) := by
          intro hmem
          obtain ⟨q, hq, hqe⟩ := List.mem_map.1 hmem
          exact (hfresh2 q hq).1 hqe
        left
        refine ⟨⟨?_, ?_⟩, c1, ev1, hok, ?_, ?_, ?_, ?_⟩
        · rw [List.map_cons, List.nodup_cons]
          exact ⟨hnotin, hnd⟩
        · intro q hq
          rcases List.mem_cons.1 hq with hq | hq
          · rw [hq]; exact hc
          · exact (hfresh2 q hq).2
        · rw [hc1]
          rfl
        · intro q hq
          rcases List.mem_cons.1 hq with hq | hq
          · subst hq
            refine ⟨c.m_participants, fun _ h => h, fun _ h => Or.inl h, ?_⟩
            rw [hout _ hnotin]
            simp [with_participants, ParticipantMap.find_assign]
          · obtain ⟨m, hm1, hm2, hm3⟩ := hin q hq
            refine ⟨m, ?_, ?_, hm3⟩
            · intro k hk
              apply hm1
              simp [with_participants, count_assign, hk]
            · intro k hk
              rcases hm2 k hk with h | h
              · simp only [with_participants, count_assign, Bool.or_eq_true,
                  decide_eq_true_eq] at h
                rcases h with h | h
                · right; rw [h]; simp
                · left; exact h
              · right
                rw [List.map_cons]
                exact List.mem_cons_of_mem _ h
        · intro k hk
          rw [List.map_cons, List.mem_cons, not_or] at hk
          rw [hout k hk.2]
          simp [with_participants, ParticipantMap.find_assign, hk.1]
        · rw [hev]
          simp only [with_status_users, List.map_cons, List.toFinset_cons]
          congr 2
          ext x
          simp only [Finset.mem_union, Finset.mem_insert]
          tauto
      · right
        refine ⟨?_, herr⟩
        rintro ⟨h1, h2⟩
        apply hn
        rw [List.map_cons, List.nodup_cons] at h1
        refine ⟨h1.2, ?_⟩
        intro q hq
        simp only [with_participants, count_assign, Bool.or_eq_false_iff,
          decide_eq_false_iff_not]
        refine ⟨?_, h2 q (List.mem_cons_of_mem _ hq)⟩
        intro hqe
        apply h1.1
        rw [← hqe]
        exact List.mem_map.2 ⟨q, hq, rfl⟩

theorem status_add_key_exchanges_cases (l : List KeyExchangeState) :
    ∀ (c : Channel) (ids : Finset Hash),
    (((l.map (fun x => x.key_id)).Nodup ∧ ∀ x ∈ l, x.key_id ∉ ids)
      ∧ ∃ c1, status_add_key_exchanges c ids l
          = .ok (c1, ids ∪ (l.map (fun x => x.key_id)).toFinset)
        ∧ c1 = { c with m_encrypted_chat :=
                  c.m_encrypted_chat ++ l.map (fun x => .unserialize_key_exchange x) })
    ∨ (¬ ((l.map (fun x => x.key_id)).Nodup ∧ ∀ x ∈ l, x.key_id ∉ ids)
      ∧ status_add_key_exchanges c ids l = .error .MessageFormat) := by
  induction l with
  | nil =>
    intro c ids
    left
    refine ⟨⟨List.nodup_nil, by simp⟩, c, ?_, by simp⟩
    simp [status_add_key_exchanges]
  | cons x rest ih =>
    intro c ids
    rw [status_add_key_exchanges]
    by_cases hx : x.key_id ∈ ids
    · right
      rw [if_pos hx]
      refine ⟨?_, rfl⟩
      rintro ⟨-, h2⟩
      exact h2 x (List.mem_cons_self _ _) hx
    · rw [if_neg hx]
      rcases ih (encrypted_chat c (.unserialize_key_exchange x)) (insert x.key_id ids) with
        ⟨⟨hnd, hfresh⟩, c1, hok, hc1⟩ | ⟨hn, herr⟩
      · have hfresh2 : ∀ y ∈ rest, y.key_id ≠ x.key_id ∧ y.key_id ∉ ids := by
          intro y hy
          have := hfresh y hy
          simp only [Finset.mem_insert, not_or] at this
          exact this
        left
        refine ⟨⟨?_, ?_⟩, c1, ?_, ?_⟩
        · rw [List.map_cons, List.nodup_cons]
          refine ⟨?_, hnd⟩
          intro hmem
          obtain ⟨y, hy, hye⟩ := List.mem_map.1 hmem
          exact (hfresh2 y hy).1 hye
        · intro y hy
          rcases List.mem_cons.1 hy with hy | hy
          · rw [hy]; exact hx
          · exact (hfresh2 y hy).2
        · rw [hok]
          congr 2
          ext k
          simp only [List.map_cons, List.toFinset_cons, Finset.mem_union, Finset.mem_insert]
          tauto
        · rw [hc1]
          simp [encrypted_chat]
      · right
        refine ⟨?_, herr⟩
        rintro ⟨h1, h2⟩
        apply hn
        rw [List.map_cons, List.nodup_cons] at h1
        refine ⟨h1.2, ?_⟩
        intro y hy
        simp only [Finset.mem_insert, not_or]
        refine ⟨?_, h2 y (List.mem_cons_of_mem _ hy)⟩
        intro hye
        apply h1.1
        rw [← hye]
        exact List.mem_map.2 ⟨y, hy, rfl⟩

/-- One turn of the event loop of the status constructor, by the kind of the channel
event. -/
theorem status_add_events_step (X : Env) (s : ChannelStatusMessage) (ids : Finset Hash)
    (c : Channel) (kx ka : Finset Hash) (ce : ChannelEvent) (rest : List ChannelEvent) :
    (event_of X s ce = none
      ∧ status_add_events X s ids c kx ka (ce :: rest) = .error .MessageFormat)
    ∨ (∃ ev, event_of X s ce = some ev ∧ live_key_id X s ce = none
        ∧ cancelled_key_id X s ce = none ∧ activation_key_id X s ce = none
        ∧ status_add_events X s ids c kx ka (ce :: rest)
            = status_add_events X s ids (push_event c ev) kx ka rest)
    ∨ (∃ ev k, event_of X s ce = some ev ∧ live_key_id X s ce = some k
        ∧ cancelled_key_id X s ce = none ∧ activation_key_id X s ce = none
        ∧ status_add_events X s ids c kx ka (ce :: rest)
            = if k ∉ ids then .error .MessageFormat
              else if k ∈ kx then .error .MessageFormat
              else status_add_events X s ids (push_event c ev) (insert k kx) ka rest)
    ∨ (∃ ev k, event_of X s ce = some ev ∧ live_key_id X s ce = none
        ∧ cancelled_key_id X s ce = some k ∧ activation_key_id X s ce = none
        ∧ status_add_events X s ids c kx ka (ce :: rest)
            = if k ∈ ids then .error .MessageFormat
              else status_add_events X s ids (push_event c ev) kx ka rest)
    ∨ (∃ ev k, event_of X s ce = some ev ∧ live_key_id X s ce = none
        ∧ cancelled_key_id X s ce = none ∧ activation_key_id X s ce = some k
        ∧ status_add_events X s ids c kx ka (ce :: rest)
            = if k ∈ ids then .error .MessageFormat
              else if k ∈ ka then .error .MessageFormat
              else status_add_events X s ids (push_event c ev) kx (insert k ka) rest) := by
  rw [status_add_events]
  by_cases h1 : ce.type = .ChannelStatus
  · have hke : is_key_exchange_type ce.type = false := by rw [h1]; rfl
    have hka : ¬ ce.type = .KeyActivation := by rw [h1]; decide
    cases hd : X.decode_channel_status_event ce s with
    | none => left; simp [event_of, h1, hd]
    | some e =>
      right; left
      exact ⟨{ fresh_event X ce.type with channel_status := e },
        by simp [event_of, h1, hd], by simp [live_key_id, hke],
        by simp [cancelled_key_id, hke], by simp [activation_key_id, hka],
        by simp [h1, hd, push_event]⟩
  · by_cases h2 : ce.type = .ConsistencyCheck
    · have hke : is_key_exchange_type ce.type = false := by rw [h2]; rfl
      have hka : ¬ ce.type = .KeyActivation := by rw [h2]; decide
      cases hd : X.decode_consistency_check_event ce s with
      | none => left; simp [event_of, h1, h2, hd]
      | some e =>
        right; left
        exact ⟨{ fresh_event X ce.type with consistency_check := e },
          by simp [event_of, h1, h2, hd], by simp [live_key_id, hke],
          by simp [cancelled_key_id, hke], by simp [activation_key_id, hka],
          by simp [h1, h2, hd, push_event]⟩
    · by_cases h3 : is_key_exchange_type ce.type = true
      · have hka : ¬ ce.type = .KeyActivation := by
          intro h; rw [h] at h3; cases h3
        cases hd : X.decode_key_exchange_event ce s with
        | none => left; simp [event_of, h1, h2, h3, hd]
        | some e =>
          cases hcan : e.cancelled with
          | true =>
            right; right; right; left
            exact ⟨{ fresh_event X ce.type with
                     key_event := { key_id := e.key_id, remaining_users := e.remaining_users } },
              e.key_id, by simp [event_of, h1, h2, h3, hd, hcan],
              by simp [live_key_id, h3, hd, hcan], by simp [cancelled_key_id, h3, hd, hcan],
              by simp [activation_key_id, hka], by simp [h1, h2, h3, hd, hcan, push_event]⟩
          | false =>
            right; right; left
            exact ⟨{ fresh_event X ce.type with
                     key_event := { (fresh_event X ce.type).key_event with key_id := e.key_id } },
              e.key_id, by simp [event_of, h1, h2, h3, hd, hcan],
              by simp [live_key_id, h3, hd, hcan], by simp [cancelled_key_id, h3, hd, hcan],
              by simp [activation_key_id, hka], by simp [h1, h2, h3, hd, hcan, push_event]⟩
      · have h3f : is_key_exchange_type ce.type = false := by simpa using h3
        by_cases h4 : ce.type = .KeyActivation
        · have hk : is_key_exchange_type MessageType.KeyActivation = false := rfl
          cases hd : X.decode_key_activation_event ce s with
          | none => left; simp [event_of, h1, h2, h3f, h4, hd, hk]
          | some e =>
            right; right; right; right
            exact ⟨{ fresh_event X ce.type with key_event := e },
              e.key_id, by simp [event_of, h1, h2, h3f, h4, hd, hk],
              by simp [live_key_id, h3f], by simp [cancelled_key_id, h3f],
              by simp [activation_key_id, h4, hd], by simp [h1, h2, h3f, h4, hd, push_event, hk]⟩
        · left
          simp [event_of, h1, h2, h3f, h4]

theorem events_accepted_nil (X : Env) (s : ChannelStatusMessage) (ids kx ka : Finset Hash) :
    events_accepted X s ids kx ka [] := by
  simp [events_accepted]

theorem events_accepted_plain {X : Env} {s : ChannelStatusMessage} {ids kx ka : Finset Hash}
    {ce : ChannelEvent} {rest : List ChannelEvent} {ev : Event}
    (he : event_of X s ce = some ev) (hl : live_key_id X s ce = none)
    (hc : cancelled_key_id X s ce = none) (ha : activation_key_id X s ce = none) :
    events_accepted X s ids kx ka (ce :: rest) ↔ events_accepted X s ids kx ka rest := by
  simp only [events_accepted, List.filterMap_cons_none hl, List.filterMap_cons_none hc,
    List.filterMap_cons_none ha, List.mem_cons, forall_eq_or_imp, he, Option.isSome_some,
    true_and]

theorem events_accepted_live {X : Env} {s : ChannelStatusMessage} {ids kx ka : Finset Hash}
    {ce : ChannelEvent} {rest : List ChannelEvent} {ev : Event} {k : Hash}
    (he : event_of X s ce = some ev) (hl : live_key_id X s ce = some k)
    (hc : cancelled_key_id X s ce = none) (ha : activation_key_id X s ce = none) :
    events_accepted X s ids kx ka (ce :: rest) ↔
      (k ∈ ids ∧ k ∉ kx ∧ events_accepted X s ids (insert k kx) ka rest) := by
  simp only [events_accepted, List.filterMap_cons_some hl, List.filterMap_cons_none hc,
    List.filterMap_cons_none ha, List.mem_cons, forall_eq_or_imp, he, Option.isSome_some,
    true_and, List.nodup_cons, Finset.mem_insert, not_or]
  constructor
  · rintro ⟨h1, ⟨⟨h2, h3⟩, h4⟩, ⟨h5, h6⟩, h7, h8, h9⟩
    refine ⟨h2, h3, h1, ?_, h6, h7, h8, h9⟩
    intro k1 hk1
    refine ⟨(h4 k1 hk1).1, ?_, (h4 k1 hk1).2⟩
    intro hk
    apply h5
    rw [← hk]
    exact hk1
  · rintro ⟨h2, h3, h1, h4, h6, h7, h8, h9⟩
    refine ⟨h1, ⟨⟨h2, h3⟩, fun k1 hk1 => ⟨(h4 k1 hk1).1, (h4 k1 hk1).2.2⟩⟩, ⟨?_, h6⟩, h7, h8, h9⟩
    intro hk
    exact (h4 k hk).2.1 rfl

theorem events_accepted_cancelled {X : Env} {s : ChannelStatusMessage} {ids kx ka : Finset Hash}
    {ce : ChannelEvent} {rest : List ChannelEvent} {ev : Event} {k : Hash}
    (he : event_of X s ce = some ev) (hl : live_key_id X s ce = none)
    (hc : cancelled_key_id X s ce = some k) (ha : activation_key_id X s ce = none) :
    events_accepted X s ids kx ka (ce :: rest) ↔
      (k ∉ ids ∧ events_accepted X s ids kx ka rest) := by
  simp only [events_accepted, List.filterMap_cons_none hl, List.filterMap_cons_some hc,
    List.filterMap_cons_none ha, List.mem_cons, forall_eq_or_imp, he, Option.isSome_some,
    true_and]
  constructor
  · rintro ⟨h1, h2, h3, ⟨h4, h5⟩, h6, h7⟩
    exact ⟨h4, h1, h2, h3, h5, h6, h7⟩
  · rintro ⟨h4, h1, h2, h3, h5, h6, h7⟩
    exact ⟨h1, h2, h3, ⟨h4, h5⟩, h6, h7⟩

theorem events_accepted_activation {X : Env} {s : ChannelStatusMessage} {ids kx ka : Finset Hash}
    {ce : ChannelEvent} {rest : List ChannelEvent} {ev : Event} {k : Hash}
    (he : event_of X s ce = some ev) (hl : live_key_id X s ce = none)
    (hc : cancelled_key_id X s ce = none) (ha : activation_key_id X s ce = some k) :
    events_accepted X s ids kx ka (ce :: rest) ↔
      (k ∉ ids ∧ k ∉ ka ∧ events_accepted X s ids kx (insert k ka) rest) := by
  simp only [events_accepted, List.filterMap_cons_none hl, List.filterMap_cons_none hc,
    List.filterMap_cons_some ha, List.mem_cons, forall_eq_or_imp, he, Option.isSome_some,
    true_and, List.nodup_cons, Finset.mem_insert, not_or]
  constructor
  · rintro ⟨h1, h2, h3, h4, ⟨⟨h5, h6⟩, h7⟩, h8, h9⟩
    refine ⟨h5, h6, h1, h2, h3, h4, ?_, h9⟩
    intro k1 hk1
    refine ⟨(h7 k1 hk1).1, ?_, (h7 k1 hk1).2⟩
    intro hk
    apply h8
    rw [← hk]
    exact hk1
  · rintro ⟨h5, h6, h1, h2, h3, h4, h7, h9⟩
    refine ⟨h1, h2, h3, h4, ⟨⟨h5, h6⟩, fun k1 hk1 => ⟨(h7 k1 hk1).1, (h7 k1 hk1).2.2⟩⟩, ?_, h9⟩
    intro hk
    exact (h7 k hk).2.1 rfl

theorem events_rejected {X : Env} {s : ChannelStatusMessage} {ids kx ka : Finset Hash}
    {ce : ChannelEvent} {rest : List ChannelEvent} (he : event_of X s ce = none) :
    ¬ events_accepted X s ids kx ka (ce :: rest) := by
  intro h
  have := h.1 ce (List.mem_cons_self _ _)
  rw [he] at this
  cases this

/-- What the event loop of the status constructor does: it runs to its end exactly on
the accepted lists of channel events, and then it has queued one event per channel
event and collected the key ids of the non-cancelled key-exchange events and of the
key-activation events. -/
theorem status_add_events_cases (X : Env) (s : ChannelStatusMessage) (ids : Finset Hash)
    (l : List ChannelEvent) :
    ∀ (c : Channel) (kx ka : Finset Hash),
    (events_accepted X s ids kx ka l
      ∧ status_add_events X s ids c kx ka l
          = .ok ({ c with m_events := c.m_events ++ l.filterMap (event_of X s) },
              kx ∪ (l.filterMap (live_key_id X s)).toFinset,
              ka ∪ (l.filterMap (activation_key_id X s)).toFinset))
    ∨ (¬ events_accepted X s ids kx ka l
      ∧ status_add_events X s ids c kx ka l = .error .MessageFormat) := by
  induction l with
  | nil =>
    intro c kx ka
    left
    refine ⟨events_accepted_nil X s ids kx ka, ?_⟩
    simp [status_add_events]
  | cons ce rest ih =>
    intro c kx ka
    rcases status_add_events_step X s ids c kx ka ce rest with
      ⟨he, hr⟩ | ⟨ev, he, hl, hc, ha, hr⟩ | ⟨ev, k, he, hl, hc, ha, hr⟩
        | ⟨ev, k, he, hl, hc, ha, hr⟩ | ⟨ev, k, he, hl, hc, ha, hr⟩
    · right
      exact ⟨events_rejected he, hr⟩
    · rw [hr, events_accepted_plain he hl hc ha]
      rcases ih (push_event c ev) kx ka with ⟨h1, h2⟩ | ⟨h1, h2⟩
      · left
        refine ⟨h1, ?_⟩
        rw [h2, List.filterMap_cons_some he, List.filterMap_cons_none hl,
          List.filterMap_cons_none ha]
        simp [push_event]
      · right
        exact ⟨h1, h2⟩
    · rw [hr, events_accepted_live he hl hc ha]
      by_cases hk1 : k ∈ ids
      · by_cases hk2 : k ∈ kx
        · right
          simp [hk1, hk2]
        · rw [if_neg (not_not.2 hk1), if_neg hk2]
          rcases ih (push_event c ev) (insert k kx) ka with ⟨h1, h2⟩ | ⟨h1, h2⟩
          · left
            refine ⟨⟨hk1, hk2, h1⟩, ?_⟩
            rw [h2, List.filterMap_cons_some he, List.filterMap_cons_some hl,
              List.filterMap_cons_none ha]
            simp only [push_event, List.append_assoc, List.singleton_append, List.toFinset_cons,
              Finset.insert_union, Finset.union_insert]
          · right
            exact ⟨fun h => h1 h.2.2, h2⟩
      · right
        simp [hk1]
    · rw [hr, events_accepted_cancelled he hl hc ha]
      by_cases hk1 : k ∈ ids
      · right
        simp [hk1]
      · rw [if_neg hk1]
        rcases ih (push_event c ev) kx ka with ⟨h1, h2⟩ | ⟨h1, h2⟩
        · left
          refine ⟨⟨hk1, h1⟩, ?_⟩
          rw [h2, List.filterMap_cons_some he, List.filterMap_cons_none hl,
            List.filterMap_cons_none ha]
          simp [push_event]
        · right
          exact ⟨fun h => h1 h.2, h2⟩
    · rw [hr, events_accepted_activation he hl hc ha]
      by_cases hk1 : k ∈ ids
      · right
        simp [hk1]
      · by_cases hk2 : k ∈ ka
        · right
          simp [hk1, hk2]
        · rw [if_neg hk1, if_neg hk2]
          rcases ih (push_event c ev) kx (insert k ka) with ⟨h1, h2⟩ | ⟨h1, h2⟩
          · left
            refine ⟨⟨hk1, hk2, h1⟩, ?_⟩
            rw [h2, List.filterMap_cons_some he, List.filterMap_cons_none hl,
              List.filterMap_cons_some ha]
            simp only [push_event, List.append_assoc, List.singleton_append, List.toFinset_cons,
              Finset.insert_union, Finset.union_insert]
          · right
            exact ⟨fun h => h1 h.2.2, h2⟩

/-- What the status constructor does: it returns a channel exactly on the accepted
messages, fails with a MessageFormat error on every other one, and the channel it
returns is the one described by `status_built`. -/
theorem from_status_cases (X : Env) (room : Room) (generated_key : PrivateKey) (nonce_hash : Hash)
    (s : ChannelStatusMessage) (encoded_message : Message) :
    (status_accepted X s
      ∧ ∃ c, Channel.from_status X room generated_key nonce_hash s encoded_message = .ok c
        ∧ status_built X room generated_key nonce_hash s encoded_message c)
    ∨ (¬ status_accepted X s
      ∧ Channel.from_status X room generated_key nonce_hash s encoded_message
          = .error .MessageFormat) := by
  unfold Channel.from_status
  dsimp only
  generalize hc0 : ({
      m_room := room
      m_ephemeral_private_key := generated_key
      m_interface := false
      m_joined := false
      m_active := false
      m_authorized := false
      m_channel_status_hash := X.default_hash
      m_authentication_nonce := nonce_hash
      m_participants := ParticipantMap.empty
      m_events := []
      m_encrypted_chat := []
      sent := []
      notifications := [] } : Channel) = c0
  generalize hev0 : ({ fresh_event X .ChannelStatus with
      channel_status :=
        { searcher_username := s.searcher_username
          searcher_nonce := s.searcher_nonce
          status_message_hash := X.hash encoded_message.payload
          remaining_users := ∅ } } : Event) = ev0
  have hempty : ∀ k, c0.m_participants.find k = none := by
    intro k; rw [← hc0]; rfl
  rcases status_add_participants_cases X s.participants c0 ev0 with
    ⟨⟨hnd1, -⟩, c1, ev1, hok1, hc1, hchat1, hin1, hout1, hev1⟩ | ⟨hn1, herr1⟩
  swap
  · right
    rw [herr1]
    refine ⟨?_, rfl⟩
    intro hacc
    apply hn1
    refine ⟨(List.nodup_append.1 hacc.1).1, ?_⟩
    intro q _
    exact count_eq_false_iff.2 (hempty _)
  rw [hok1]
  dsimp only
  have hcount1 : ∀ k, c1.m_participants.count k = true ↔ k ∈ s.participants.map (fun p => p.username) := by
    intro k
    constructor
    · intro hk
      by_contra hnot
      rw [count_eq_true_iff, hout1 k hnot, hempty k] at hk
      obtain ⟨p, hp⟩ := hk
      cases hp
    · intro hk
      obtain ⟨q, hq, hqe⟩ := List.mem_map.1 hk
      rw [count_eq_true_iff, ← hqe]
      exact ⟨_, hin1 q hq⟩
  rcases status_add_unauthorized_participants_cases X s.unauthorized_participants c1 ev1 with
    ⟨⟨hnd2, hfresh2⟩, c2, ev2, hok2, hc2, hin2, hout2, hev2⟩ | ⟨hn2, herr2⟩
  swap
  · right
    rw [herr2]
    refine ⟨?_, rfl⟩
    intro hacc
    apply hn2
    obtain ⟨-, h2, h3⟩ := List.nodup_append.1 hacc.1
    refine ⟨h2, ?_⟩
    intro q hq
    cases hcq : c1.m_participants.count q.username with
    | false => rfl
    | true =>
      exfalso
      exact h3 ((hcount1 _).1 hcq) (List.mem_map.2 ⟨q, hq, rfl⟩)
  rw [hok2]
  dsimp only
  have hnodup : (status_usernames s).Nodup := by
    unfold status_usernames
    refine List.nodup_append.2 ⟨hnd1, hnd2, ?_⟩
    intro k hk1 hk2
    obtain ⟨q, hq, hqe⟩ := List.mem_map.1 hk2
    have := hfresh2 q hq
    rw [hqe, (hcount1 k).2 hk1] at this
    cases this
  rcases status_add_key_exchanges_cases s.key_exchanges
      { c2 with m_channel_status_hash := s.channel_status_hash } ∅ with
    ⟨⟨hnd3, -⟩, c4, hok4, hc4⟩ | ⟨hn3, herr3⟩
  swap
  · right
    rw [herr3]
    refine ⟨?_, rfl⟩
    intro hacc
    apply hn3
    exact ⟨hacc.2.1, by simp⟩
  rw [hok4]
  dsimp only
  have hids : (∅ : Finset Hash) ∪ (s.key_exchanges.map (fun x => x.key_id)).toFinset
      = (status_key_ids s).toFinset := by
    simp [status_key_ids]
  rw [hids]
  rcases status_add_events_cases X s (status_key_ids s).toFinset s.events c4 ∅ ∅ with
    ⟨hacc5, hok5⟩ | ⟨hn5, herr5⟩
  swap
  · right
    rw [herr5]
    exact ⟨fun hacc => hn5 hacc.2.2.1, rfl⟩
  rw [hok5]
  dsimp only
  have hcard1 : (status_key_ids s).toFinset.card = (status_key_ids s).length :=
    List.toFinset_card_of_nodup hnd3
  have hcard2 : ((∅ : Finset Hash) ∪ (s.events.filterMap (live_key_id X s)).toFinset).card
      = (s.events.filterMap (live_key_id X s)).length := by
    rw [Finset.empty_union]
    exact List.toFinset_card_of_nodup hacc5.2.2.1
  rw [hcard1, hcard2]
  by_cases hlen : (status_key_ids s).length = (s.events.filterMap (live_key_id X s)).length
  swap
  · right
    rw [if_pos hlen]
    exact ⟨fun hacc => hlen hacc.2.2.2, rfl⟩
  left
  rw [if_neg (not_not.2 hlen)]
  refine ⟨⟨hnodup, hnd3, hacc5, hlen⟩, _, rfl, ?_⟩
  have hev2' : ev2 = status_message_event X s encoded_message := by
    rw [hev2, hev1, ← hev0]
    simp [with_status_users, status_message_event, status_usernames, fresh_event]
  have hc4p : c4.m_participants = c2.m_participants := by rw [hc4]
  have hfind2 : ∀ k, k ∉ status_usernames s → c2.m_participants.find k = none := by
    intro k hk
    simp only [status_usernames, List.mem_append, not_or] at hk
    rw [hout2 k hk.2, hout1 k hk.1, hempty k]
  have hin1' : ∀ q ∈ s.participants, c2.m_participants.find q.username = some (status_entry X q) := by
    intro q hq
    rw [hout2, hin1 q hq]
    intro hmem
    obtain ⟨q2, hq2, hqe⟩ := List.mem_map.1 hmem
    have := hfresh2 q2 hq2
    rw [hqe, (hcount1 _).2 (List.mem_map.2 ⟨q, hq, rfl⟩)] at this
    cases this
  have hroom : c4.m_room = room := by
    simp only [hc4]; rw [hc2, hc1, ← hc0]
  have hkey : c4.m_ephemeral_private_key = generated_key := by
    simp only [hc4]; rw [hc2, hc1, ← hc0]
  have hiface : c4.m_interface = false := by
    simp only [hc4]; rw [hc2, hc1, ← hc0]
  have hjoined : c4.m_joined = false ∧ c4.m_active = false ∧ c4.m_authorized = false := by
    simp only [hc4]; rw [hc2, hc1, ← hc0]
    exact ⟨rfl, rfl, rfl⟩
  have hhash : c4.m_channel_status_hash = s.channel_status_hash := by
    simp only [hc4]
  have hnonce : c4.m_authentication_nonce = nonce_hash ∧ c4.sent = [] ∧ c4.notifications = [] := by
    simp only [hc4]; rw [hc2, hc1, ← hc0]
    exact ⟨rfl, rfl, rfl⟩
  have hchat : c4.m_encrypted_chat =
      s.participants.map (fun p => .do_add_user p.username p.long_term_public_key)
        ++ s.key_exchanges.map (fun x => .unserialize_key_exchange x) := by
    simp only [hc4]
    rw [hc2]
    simp only [hchat1]
    rw [← hc0]
    simp
  have hqueue : c4.m_events = [] := by
    simp only [hc4]; rw [hc2, hc1, ← hc0]
  refine ⟨hroom, hkey, hiface, hjoined.1, hjoined.2.1, hjoined.2.2, hhash, hnonce.1, hnonce.2.1,
    hnonce.2.2, hchat, ?_, ?_⟩
  · show c4.m_events ++ List.filterMap (event_of X s) s.events ++ [ev2] = _
    rw [hqueue, hev2']
    simp
  refine ⟨?_, ?_, ?_⟩
  · intro q hq
    simp only [hc4p]
    exact hin1' q hq
  · intro q hq
    obtain ⟨m, hm1, hm2, hm3⟩ := hin2 q hq
    refine ⟨m, ?_, ?_, ?_⟩
    · intro p hp
      exact hm1 _ ((hcount1 _).2 (List.mem_map.2 ⟨p, hp, rfl⟩))
    · intro k hk
      unfold status_usernames
      rcases hm2 k hk with h | h
      · exact List.mem_append_left _ ((hcount1 k).1 h)
      · exact List.mem_append_right _ h
    · simp only [hc4p]
      exact hm3
  · intro k hk
    simp only [hc4p]
    exact hfind2 k hk

/-! ## Format errors of the status constructor (C16) -/

theorem event_of_kind {X : Env} {s : ChannelStatusMessage} {ce : ChannelEvent} {ev : Event}
    (h : event_of X s ce = some ev) :
    ev.type = ce.type ∧ valid_event_type ce.type = true
      ∧ (is_key_exchange_type ce.type = true →
          (live_key_id X s ce = some ev.key_event.key_id ∧ cancelled_key_id X s ce = none)
          ∨ (live_key_id X s ce = none ∧ cancelled_key_id X s ce = some ev.key_event.key_id))
      ∧ (is_key_exchange_type ce.type = false →
          live_key_id X s ce = none ∧ cancelled_key_id X s ce = none)
      ∧ (ce.type = .KeyActivation → activation_key_id X s ce = some ev.key_event.key_id)
      ∧ (ce.type ≠ .KeyActivation → activation_key_id X s ce = none) := by
  unfold event_of at h
  by_cases h1 : ce.type = .ChannelStatus
  · have hke : is_key_exchange_type ce.type = false := by rw [h1]; rfl
    have hka : ¬ ce.type = .KeyActivation := by rw [h1]; decide
    rw [if_pos h1] at h
    cases hd : X.decode_channel_status_event ce s with
    | none => rw [hd] at h; cases h
    | some e =>
      rw [hd] at h
      cases h
      refine ⟨rfl, by rw [h1]; rfl, fun hx => (by rw [hke] at hx; cases hx),
        fun _ => ⟨by simp [live_key_id, hke], by simp [cancelled_key_id, hke]⟩,
        fun hx => absurd hx hka, fun _ => by simp [activation_key_id, hka]⟩
  · rw [if_neg h1] at h
    by_cases h2 : ce.type = .ConsistencyCheck
    · have hke : is_key_exchange_type ce.type = false := by rw [h2]; rfl
      have hka : ¬ ce.type = .KeyActivation := by rw [h2]; decide
      rw [if_pos h2] at h
      cases hd : X.decode_consistency_check_event ce s with
      | none => rw [hd] at h; cases h
      | some e =>
        rw [hd] at h
        cases h
        refine ⟨rfl, by rw [h2]; rfl, fun hx => (by rw [hke] at hx; cases hx),
          fun _ => ⟨by simp [live_key_id, hke], by simp [cancelled_key_id, hke]⟩,
          fun hx => absurd hx hka, fun _ => by simp [activation_key_id, hka]⟩
    · rw [if_neg h2] at h
      by_cases h3 : is_key_exchange_type ce.type = true
      · have hka : ¬ ce.type = .KeyActivation := by
          intro hx; rw [hx] at h3; cases h3
        rw [if_pos h3] at h
        cases hd : X.decode_key_exchange_event ce s with
        | none => rw [hd] at h; cases h
        | some e =>
          rw [hd] at h
          cases hcan : e.cancelled with
          | true =>
            simp only [hcan, if_true, Option.some.injEq] at h
            subst h
            refine ⟨rfl, by simp [valid_event_type, h3], fun _ => Or.inr
              ⟨by simp [live_key_id, h3, hd, hcan], by simp [cancelled_key_id, h3, hd, hcan]⟩,
              fun hx => (by rw [h3] at hx; cases hx),
              fun hx => absurd hx hka, fun _ => by simp [activation_key_id, hka]⟩
          | false =>
            simp only [hcan, Bool.false_eq_true, if_false, Option.some.injEq] at h
            subst h
            refine ⟨rfl, by simp [valid_event_type, h3], fun _ => Or.inl
              ⟨by simp [live_key_id, h3, hd, hcan], by simp [cancelled_key_id, h3, hd, hcan]⟩,
              fun hx => (by rw [h3] at hx; cases hx),
              fun hx => absurd hx hka, fun _ => by simp [activation_key_id, hka]⟩
      · have h3f : is_key_exchange_type ce.type = false := by simpa using h3
        rw [if_neg h3] at h
        by_cases h4 : ce.type = .KeyActivation
        · rw [if_pos h4] at h
          cases hd : X.decode_key_activation_event ce s with
          | none => rw [hd] at h; cases h
          | some e =>
            rw [hd] at h
            cases h
            refine ⟨rfl, by rw [h4]; rfl, fun hx => (by rw [h3f] at hx; cases hx),
              fun _ => ⟨by simp [live_key_id, h3f], by simp [cancelled_key_id, h3f]⟩,
              fun _ => by simp [activation_key_id, h4, hd], fun hx => absurd h4 hx⟩
        · rw [if_neg h4] at h
          cases h

theorem status_accepted_no_error {X : Env} {s : ChannelStatusMessage}
    (h : status_accepted X s) : ¬ status_format_error X s := by
  obtain ⟨h1, h2, ⟨h3, h4, h5, h6, h7, h8⟩, h9⟩ := h
  rintro (e | e | ⟨k, hk, e⟩ | ⟨k, hk, e⟩ | ⟨k, hk, e⟩ | e | e | ⟨ce, hce, e⟩ | e)
  · exact e h1
  · exact e h2
  · exact e (by simpa using (h4 k hk).1)
  · exact h6 k hk (by simpa using e)
  · exact (h7 k hk).1 (by simpa using e)
  · exact e h5
  · exact e h8
  · have := h3 ce hce
    cases hev : event_of X s ce with
    | none => rw [hev] at this; cases this
    | some ev =>
      rw [(event_of_kind hev).2.1] at e
      cases e
  · apply e
    rw [← h9]
    simp [status_key_ids]

/-- C16 (construction format errors): status construction fails with a MessageFormat
error, and produces no channel, for every channel-status message in which (a) two
entries of the participants and unauthorized participants share a username, or (b) two
key exchanges share a key id, or (c) a non-cancelled key-exchange event names a key id
that is not among the key exchanges, or (d) a cancelled key-exchange event or a
key-activation event names a key id that is among the key exchanges, or (e) two
non-cancelled key-exchange events or two key-activation events share a key id, or (f) an
event has a type that is no event type, or (g) the number of key exchanges differs from
the number of non-cancelled key-exchange events. -/
theorem status_construction_rejects (X : Env) (room : Room) (generated_key : PrivateKey)
    (nonce_hash : Hash) (s : ChannelStatusMessage) (encoded_message : Message)
    (h : status_format_error X s) :
    Channel.from_status X room generated_key nonce_hash s encoded_message
      = .error .MessageFormat := by
  rcases from_status_cases X room generated_key nonce_hash s encoded_message with
    ⟨hacc, -⟩ | ⟨-, herr⟩
  · exact absurd h (status_accepted_no_error hacc)
  · exact herr

/-- Witness of C16: a message that lists `alice` both as a participant and as an
unauthorized participant is rejected. -/
theorem status_construction_rejects_witness :
    Channel.from_status demo_env demo_room ⟨"alice-eph"⟩ ⟨"n9"⟩ demo_status_twice
      ⟨.ChannelStatus, "payload"⟩ = .error .MessageFormat :=
  status_construction_rejects demo_env demo_room ⟨"alice-eph"⟩ ⟨"n9"⟩ demo_status_twice
    ⟨.ChannelStatus, "payload"⟩ (Or.inl (by decide))

/-! ## Key exchanges and their events after status construction (C17) -/

theorem queue_key_exchange_count (X : Env) (s : ChannelStatusMessage) (k : Hash)
    (l : List ChannelEvent) (hsome : ∀ ce ∈ l, (event_of X s ce).isSome = true)
    (hcanc : ∀ k1 ∈ l.filterMap (cancelled_key_id X s), k1 ≠ k) :
    ((l.filterMap (event_of X s)).filter
        (fun e => is_key_exchange_type e.type && decide (e.key_event.key_id = k))).length
      = (l.filterMap (live_key_id X s)).count k := by
  induction l with
  | nil => rfl
  | cons ce rest ih =>
    have hrest := ih (fun x hx => hsome x (List.mem_cons_of_mem _ hx))
    have hce := hsome ce (List.mem_cons_self _ _)
    cases hev : event_of X s ce with
    | none => rw [hev] at hce; cases hce
    | some ev =>
      obtain ⟨htype, -, hke, hnke, -, -⟩ := event_of_kind hev
      rw [List.filterMap_cons_some hev]
      cases hk : is_key_exchange_type ce.type with
      | true =>
        rcases hke hk with ⟨hl, hc⟩ | ⟨hl, hc⟩
        · rw [List.filterMap_cons_none hc] at hcanc
          rw [List.filterMap_cons_some hl, List.filter_cons, List.count_cons, ← hrest hcanc]
          by_cases hkey : ev.key_event.key_id = k
          · simp [htype, hk, hkey]
          · simp [htype, hk, hkey]
        · rw [List.filterMap_cons_some hc] at hcanc
          have hne : ev.key_event.key_id ≠ k := hcanc _ (List.mem_cons_self _ _)
          rw [List.filterMap_cons_none hl, List.filter_cons,
            ← hrest (fun x hx => hcanc x (List.mem_cons_of_mem _ hx))]
          simp [htype, hk, hne]
      | false =>
        obtain ⟨hl, hc⟩ := hnke hk
        rw [List.filterMap_cons_none hc] at hcanc
        rw [List.filterMap_cons_none hl, List.filter_cons, ← hrest hcanc]
        simp [htype, hk]

theorem queue_key_activation_id (X : Env) (s : ChannelStatusMessage) (l : List ChannelEvent)
    (e : Event) (he : e ∈ l.filterMap (event_of X s)) (ht : e.type = .KeyActivation) :
    e.key_event.key_id ∈ l.filterMap (activation_key_id X s) := by
  obtain ⟨ce, hce, hev⟩ := List.mem_filterMap.1 he
  obtain ⟨htype, -, -, -, hka, -⟩ := event_of_kind hev
  exact List.mem_filterMap.2 ⟨ce, hce, hka (by rw [← htype]; exact ht)⟩

theorem live_ids_cover {X : Env} {s : ChannelStatusMessage} (h : status_accepted X s) :
    ∀ k ∈ status_key_ids s, k ∈ s.events.filterMap (live_key_id X s) := by
  obtain ⟨-, h2, ⟨-, h4, h5, -, -, -⟩, h9⟩ := h
  have hsub : (s.events.filterMap (live_key_id X s)).toFinset ⊆ (status_key_ids s).toFinset := by
    intro k hk
    exact (h4 k (List.mem_toFinset.1 hk)).1
  have hcard : (status_key_ids s).toFinset.card
      ≤ (s.events.filterMap (live_key_id X s)).toFinset.card := by
    rw [List.toFinset_card_of_nodup h2, List.toFinset_card_of_nodup h5, h9]
  have heq := Finset.eq_of_subset_of_card_le hsub hcard
  intro k hk
  have : k ∈ (status_key_ids s).toFinset := List.mem_toFinset.2 hk
  rw [← heq] at this
  exact List.mem_toFinset.1 this

/-- C17 (key exchanges and key-exchange events): whenever status construction succeeds,
the queue holds one event per channel event of the message, in order, followed by the
event of the status message itself; every key id of the message's key exchanges is the
key id of exactly one non-cancelled key-exchange event, and of exactly one event of a
key-exchange type in the constructed queue; every non-cancelled key-exchange event's key
id is among the key exchanges; no cancelled key-exchange event and no key-activation
event, in the message or in the queue, carries a key id that is among the key
exchanges. -/
theorem key_exchange_events_correspond (X : Env) (room : Room) (generated_key : PrivateKey)
    (nonce_hash : Hash) (s : ChannelStatusMessage) (encoded_message : Message) (c : Channel)
    (h : Channel.from_status X room generated_key nonce_hash s encoded_message = .ok c) :
    c.m_events = s.events.filterMap (event_of X s) ++ [status_message_event X s encoded_message]
      ∧ (∀ ce ∈ s.events, (event_of X s ce).isSome = true)
      ∧ (∀ k ∈ status_key_ids s, (s.events.filterMap (live_key_id X s)).count k = 1)
      ∧ (∀ k ∈ status_key_ids s,
          (c.m_events.filter
            (fun e => is_key_exchange_type e.type && decide (e.key_event.key_id = k))).length = 1)
      ∧ (∀ k ∈ s.events.filterMap (live_key_id X s), k ∈ status_key_ids s)
      ∧ (∀ k ∈ s.events.filterMap (cancelled_key_id X s), k ∉ status_key_ids s)
      ∧ (∀ k ∈ s.events.filterMap (activation_key_id X s), k ∉ status_key_ids s)
      ∧ (∀ e ∈ c.m_events, e.type = .KeyActivation → e.key_event.key_id ∉ status_key_ids s) := by
  rcases from_status_cases X room generated_key nonce_hash s encoded_message with
    ⟨hacc, c1, hok, hbuilt⟩ | ⟨-, herr⟩
  swap
  · rw [herr] at h; cases h
  rw [hok] at h
  cases h
  have hcover := live_ids_cover hacc
  obtain ⟨-, -, ⟨h3, h4, h5, h6, h7, -⟩, -⟩ := hacc
  have hevents := hbuilt.2.2.2.2.2.2.2.2.2.2.2.1
  have hcount : ∀ k ∈ status_key_ids s, (s.events.filterMap (live_key_id X s)).count k = 1 :=
    fun k hk => List.count_eq_one_of_mem h5 (hcover k hk)
  refine ⟨hevents, h3, hcount, ?_, ?_, ?_, ?_, ?_⟩
  · intro k hk
    rw [hevents, List.filter_append, List.length_append,
      queue_key_exchange_count X s k s.events h3
        (fun k1 hk1 hke => h6 k1 hk1 (by rw [hke]; exact List.mem_toFinset.2 hk)),
      hcount k hk]
    rfl
  · intro k hk
    exact List.mem_toFinset.1 (h4 k hk).1
  · intro k hk hmem
    exact h6 k hk (List.mem_toFinset.2 hmem)
  · intro k hk hmem
    exact (h7 k hk).1 (List.mem_toFinset.2 hmem)
  · intro e he ht hmem
    rw [hevents] at he
    rcases List.mem_append.1 he with he | he
    · exact (h7 _ (queue_key_activation_id X s s.events e he ht)).1 (List.mem_toFinset.2 hmem)
    · simp only [List.mem_singleton] at he
      rw [he] at ht
      cases ht

/-- Witness of C17: a message with the key exchange `k1`, a SecretShare event for `k1`
and a key-activation event for `k2` is accepted; its queue has exactly one
key-exchange event for `k1`. -/
theorem key_exchange_events_correspond_witness :
    ∃ c, Channel.from_status demo_env demo_room ⟨"alice-eph"⟩ ⟨"n9"⟩ demo_status_keys
          ⟨.ChannelStatus, "payload"⟩ = .ok c
      ∧ (c.m_events.filter
          (fun e => is_key_exchange_type e.type && decide (e.key_event.key_id = ⟨"k1"⟩))).length = 1 :=
  ⟨_, rfl, (key_exchange_events_correspond demo_env demo_room ⟨"alice-eph"⟩ ⟨"n9"⟩
    demo_status_keys ⟨.ChannelStatus, "payload"⟩ _ rfl).2.2.2.1 ⟨"k1"⟩ (by decide)⟩

/-! ## The authentication status of the entries that stay (C19) -/

theorem status_back_refl (c : Channel) : StatusBack c c :=
  fun _ p1 h => ⟨p1, h, rfl⟩

theorem status_back_trans {a b c : Channel} (h1 : StatusBack a b) (h2 : StatusBack b c) :
    StatusBack a c := by
  intro k p2 h
  obtain ⟨p1, hp1, e1⟩ := h2 k p2 h
  obtain ⟨p, hp, e⟩ := h1 k p1 hp1
  exact ⟨p, hp, e1.trans e⟩

theorem status_back_of_eq {c c1 : Channel} (h : c1.m_participants = c.m_participants) :
    StatusBack c c1 := by
  intro k p1 h1
  rw [h] at h1
  exact ⟨p1, h1, rfl⟩

theorem status_back_of_kept {c c1 : Channel}
    (h : EntriesKept c.m_participants c1.m_participants) : StatusBack c c1 := by
  intro k p1 h1
  have g := h k
  rw [h1] at g
  cases hf : c.m_participants.find k with
  | none => rw [hf] at g; exact g.elim
  | some p =>
    rw [hf] at g
    exact ⟨p, rfl, g.2.2.2.2⟩

theorem status_back_remove_user {c c1 : Channel} {username : String}
    (h : remove_user c username = .ok c1) : StatusBack c c1 := by
  intro k p1 h1
  have g := entries_kept_remove_user h k
  rw [h1, ParticipantMap.find_erase] at g
  split_ifs at g with hk
  · exact g.elim
  · cases hf : c.m_participants.find k with
    | none => rw [hf] at g; exact g.elim
    | some p =>
      rw [hf] at g
      exact ⟨p, rfl, g.2.2.2.2⟩

theorem status_back_try_promote {c c1 : Channel} {key : String} {b : Bool}
    (h : try_promote_unauthorized_participant c key = .ok (b, c1)) : StatusBack c c1 := by
  apply status_back_of_kept
  rw [(try_promote_effect h).1]
  exact entries_kept_promote_if_quorum _ _

theorem status_back_insert_authorized_by (c : Channel) (key username : String) :
    StatusBack c (insert_authorized_by c key username) := by
  apply status_back_of_kept
  exact entries_kept_modify _ _ _ (fun _ => ⟨rfl, rfl, rfl, rfl, rfl⟩)

theorem status_back_insert_authorized_peers (c : Channel) (key username : String) :
    StatusBack c (insert_authorized_peers c key username) := by
  apply status_back_of_kept
  exact entries_kept_modify _ _ _ (fun _ => ⟨rfl, rfl, rfl, rfl, rfl⟩)

theorem status_back_notify (c : Channel) (n : Notification) : StatusBack c (notify c n) :=
  status_back_of_eq (find_notify c n)

theorem status_back_record_authorization {c c1 : Channel} {sender subject a u : String}
    (h : record_authorization c sender subject a u = .ok c1) : StatusBack c c1 := by
  unfold record_authorization at h
  split at h
  · split_ifs at h
    · simp only at h
      split at h
      · cases h
      · rename_i c3 h3
        cases h
        refine status_back_trans (status_back_trans ?_ (status_back_try_promote h3))
          (status_back_of_eq rfl)
        exact status_back_trans (status_back_insert_authorized_by _ _ _) (status_back_notify _ _)
      · rename_i c3 h3
        cases h
        refine status_back_trans ?_ (status_back_try_promote h3)
        exact status_back_trans (status_back_insert_authorized_by _ _ _) (status_back_notify _ _)
    · simp only at h
      split at h
      · cases h
      · rename_i c3 h3
        cases h
        refine status_back_trans (status_back_trans ?_ (status_back_try_promote h3))
          (status_back_of_eq rfl)
        exact status_back_trans (status_back_insert_authorized_peers _ _ _) (status_back_notify _ _)
      · rename_i c3 h3
        cases h
        refine status_back_trans ?_ (status_back_try_promote h3)
        exact status_back_trans (status_back_insert_authorized_peers _ _ _) (status_back_notify _ _)
  · cases h

theorem status_back_on_channel_search {X : Env} {c c1 : Channel} {sender : String} {m : Message}
    (h : on_channel_search X c sender m = .ok c1) : StatusBack c c1 := by
  unfold on_channel_search at h
  split at h
  · cases h; exact status_back_refl _
  · simp only at h
    split at h
    · cases h
    · cases h
      apply status_back_of_eq
      simp only [send_message]
      split_ifs <;> simp

theorem status_back_on_channel_status {X : Env} {c c1 : Channel} {sender : String} {m : Message}
    (h : on_channel_status X c sender m = .ok c1) : StatusBack c c1 := by
  unfold on_channel_status at h
  split at h
  · cases h; exact status_back_refl _
  · split at h
    · cases h
    · exact status_back_remove_user h
    · split_ifs at h
      · cases h; exact status_back_of_eq rfl
      · exact status_back_remove_user h

theorem status_back_on_channel_announcement {X : Env} {c c1 : Channel} {sender : String}
    {m : Message} (h : on_channel_announcement X c sender m = .ok c1) : StatusBack c c1 := by
  unfold on_channel_announcement at h
  split at h
  · cases h; exact status_back_refl _
  · split_ifs at h
    · exact status_back_remove_user h
    · cases h; exact status_back_refl _

theorem status_back_on_authentication_request {X : Env} {c c1 : Channel} {sender : String}
    {m : Message} (h : on_authentication_request X c sender m = .ok c1) : StatusBack c c1 := by
  unfold on_authentication_request at h
  split at h
  · cases h; exact status_back_refl _
  · split_ifs at h <;> cases h
    · exact status_back_refl _
    · exact status_back_of_eq rfl
    · exact status_back_refl _

theorem status_back_on_authorization {X : Env} {c c1 : Channel} {sender : String} {m : Message}
    (h : on_authorization X c sender m = .ok c1) : StatusBack c c1 := by
  unfold on_authorization at h
  repeat' first
    | split at h
    | (dsimp only at h; split at h)
  all_goals first
    | exact status_back_remove_user h
    | exact status_back_record_authorization h
    | (cases h; exact status_back_refl _)

theorem status_back_on_consistency_status {X : Env} {c c1 : Channel} {sender : String}
    (h : on_consistency_status X c sender = .ok c1) : StatusBack c c1 := by
  unfold on_consistency_status at h
  split_ifs at h <;> cases h
  · exact status_back_refl _
  · exact status_back_of_eq rfl
  · exact status_back_of_eq rfl

theorem status_back_on_consistency_check {X : Env} {c c1 : Channel} {sender : String}
    {m : Message} (h : on_consistency_check X c sender m = .ok c1) : StatusBack c c1 := by
  unfold on_consistency_check at h
  split at h
  · cases h; exact status_back_refl _
  · split at h
    · cases h; exact status_back_refl _
    · split_ifs at h
      · exact status_back_remove_user h
      · simp only at h
        split at h
        · cases h
        · exact status_back_remove_user h
        · split_ifs at h
          · cases h; exact status_back_of_eq rfl
          · exact status_back_remove_user h

theorem status_back_key_event_reply {c c1 : Channel} {sender : String} {type : MessageType}
    {key_id : Hash} {b : Bool}
    (h : key_event_reply c sender type key_id = .ok (b, c1)) : StatusBack c c1 := by
  unfold key_event_reply at h
  split at h
  · cases h
  · split at h
    · cases h
    · rename_i c2 h2
      cases h
      exact status_back_remove_user h2
  · split_ifs at h
    · cases h; exact status_back_of_eq rfl
    · split at h
      · cases h
      · rename_i c2 h2
        cases h
        exact status_back_remove_user h2

theorem status_back_on_key_exchange_public_key {X : Env} {c c1 : Channel} {sender : String}
    {m : Message} (h : on_key_exchange_public_key X c sender m = .ok c1) : StatusBack c c1 := by
  unfold on_key_exchange_public_key at h
  split at h
  · cases h; exact status_back_refl _
  · split at h
    · cases h; exact status_back_refl _
    · split_ifs at h
      · exact status_back_remove_user h
      · simp only at h
        split at h
        · cases h
        · rename_i c2 h2; cases h; exact status_back_key_event_reply h2
        · rename_i c2 h2; cases h
          exact status_back_trans (status_back_key_event_reply h2) (status_back_of_eq rfl)

theorem status_back_on_key_exchange_secret_share {X : Env} {c c1 : Channel} {sender : String}
    {m : Message} (h : on_key_exchange_secret_share X c sender m = .ok c1) : StatusBack c c1 := by
  unfold on_key_exchange_secret_share at h
  split at h
  · cases h; exact status_back_refl _
  · split at h
    · cases h; exact status_back_refl _
    · split_ifs at h
      · exact status_back_remove_user h
      · simp only at h
        split at h
        · cases h
        · rename_i c2 h2; cases h; exact status_back_key_event_reply h2
        · rename_i c2 h2
          split_ifs at h <;> cases h
          · exact status_back_key_event_reply h2
          · exact status_back_trans (status_back_key_event_reply h2) (status_back_of_eq rfl)

theorem status_back_on_key_exchange_acceptance {X : Env} {c c1 : Channel} {sender : String}
    {m : Message} (h : on_key_exchange_acceptance X c sender m = .ok c1) : StatusBack c c1 := by
  unfold on_key_exchange_acceptance at h
  split at h
  · cases h; exact status_back_refl _
  · split at h
    · cases h; exact status_back_refl _
    · split_ifs at h
      · exact status_back_remove_user h
      · simp only at h
        split at h
        · cases h
        · rename_i c2 h2; cases h; exact status_back_key_event_reply h2
        · rename_i c2 h2
          split_ifs at h <;> cases h
          · exact status_back_key_event_reply h2
          · exact status_back_trans (status_back_key_event_reply h2) (status_back_of_eq rfl)

theorem status_back_on_key_exchange_reveal {X : Env} {c c1 : Channel} {sender : String}
    {m : Message} (h : on_key_exchange_reveal X c sender m = .ok c1) : StatusBack c c1 := by
  unfold on_key_exchange_reveal at h
  split at h
  · cases h; exact status_back_refl _
  · split at h
    · cases h; exact status_back_refl _
    · split_ifs at h
      · exact status_back_remove_user h
      · simp only at h
        split at h
        · cases h
        · rename_i c2 h2; cases h; exact status_back_key_event_reply h2
        · rename_i c2 h2
          split_ifs at h <;> cases h
          · exact status_back_key_event_reply h2
          · exact status_back_trans (status_back_key_event_reply h2) (status_back_of_eq rfl)

theorem status_back_on_key_activation {X : Env} {c c1 : Channel} {sender : String}
    {m : Message} (h : on_key_activation X c sender m = .ok c1) : StatusBack c c1 := by
  unfold on_key_activation at h
  split at h
  · cases h; exact status_back_refl _
  · split at h
    · cases h; exact status_back_refl _
    · split_ifs at h
      · exact status_back_remove_user h
      · simp only at h
        split at h
        · cases h
        · rename_i c2 h2; cases h; exact status_back_key_event_reply h2
        · rename_i c2 h2
          split_ifs at h <;> cases h
          · exact status_back_trans (status_back_key_event_reply h2) (status_back_of_eq rfl)
          · exact status_back_key_event_reply h2

theorem status_back_on_chat {X : Env} {c c1 : Channel} {sender : String} {m : Message}
    (h : on_chat X c sender m = .ok c1) : StatusBack c c1 := by
  unfold on_chat at h
  split at h <;> cases h
  · exact status_back_refl _
  · exact status_back_of_eq rfl

theorem self_authenticated_of_back {c c1 : Channel} (hb : StatusBack c c1)
    (hroom : c1.m_room = c.m_room) (hs : SelfAuthenticated c) : SelfAuthenticated c1 := by
  intro p1 h1
  rw [hroom] at h1
  obtain ⟨p, hp, e⟩ := hb _ p1 h1
  rw [e]
  exact hs p hp

theorem self_authenticated_with_hash {c : Channel} (h : Hash) (hs : SelfAuthenticated c) :
    SelfAuthenticated (with_hash c h) := hs

theorem self_authenticated_on_join_request {X : Env} {c c2 : Channel} {sender : String}
    {m : Message} (h : on_join_request X c sender m = .ok c2) (hs : SelfAuthenticated c) :
    SelfAuthenticated c2 := by
  cases hdec : X.decode_join_request m with
  | none =>
    rw [on_join_request_eq, hdec] at h
    cases h
    exact hs
  | some message =>
    obtain ⟨c1, c3, h1, h2, h3, h4⟩ := on_join_request_spec X c sender m message hdec
    rw [h] at h2
    cases h2
    have hs1 : SelfAuthenticated c1 :=
      self_authenticated_of_back (status_back_remove_user h1) (frame_remove_user h1).2.1 hs
    by_cases hex : ∃ u ∈ message.peer_usernames, c1.m_participants.count u = true
    · have hc2 := h4 hex
      have hroom : c2.m_room = c1.m_room :=
        (frame_on_join_request h).2.1.trans (frame_remove_user h1).2.1.symm
      intro p hp
      rw [hroom, hc2, participants_insert_joiner, ParticipantMap.find_modify] at hp
      by_cases hk : c1.m_room.username = sender
      · rw [if_pos hk, ParticipantMap.find_assign, if_pos hk] at hp
        simp only [Option.map_some', Option.some.injEq] at hp
        rw [← hp]
        simp only [hk, if_true]
      · rw [if_neg hk, ParticipantMap.find_assign, if_neg hk] at hp
        exact hs1 p hp
    · have hall : ∀ u ∈ message.peer_usernames, c1.m_participants.count u = false := by
        intro u hu
        cases hcu : c1.m_participants.count u with
        | false => rfl
        | true => exact absurd ⟨u, hu, hcu⟩ hex
      rw [h3 hall]
      exact hs1

theorem self_authenticated_on_authentication {X : Env} {c c1 : Channel} {sender : String}
    {m : Message} (h : on_authentication X c sender m = .ok c1) (hs : SelfAuthenticated c) :
    SelfAuthenticated c1 := by
  have hroom : c1.m_room = c.m_room := (frame_on_authentication h).2.1
  cases hdec : X.decode_authentication m with
  | none =>
    unfold on_authentication at h
    rw [hdec] at h
    cases h
    exact hs
  | some message =>
    obtain ⟨c2, h1, -, h3, h4⟩ := on_authentication_spec X c sender m message hdec
    rw [h] at h1
    cases h1
    by_cases hex : ∃ p, authentication_accepted X c sender message p
    · obtain ⟨p, hp⟩ := hex
      intro q hq
      rw [hroom, h3 p hp] at hq
      simp only [set_authentication_status, ParticipantMap.find_modify] at hq
      split_ifs at hq with hk
      · exfalso
        have hself := hs p (by rw [hk]; exact hp.2.2.2.1)
        rcases hp.2.2.2.2.2.2 with ⟨hst, -⟩ | ⟨hst, -⟩
        · rw [hself] at hst; cases hst
        · rw [hself] at hst; cases hst
      · exact hs q hq
    · intro q hq
      rw [hroom, h4 hex] at hq
      exact hs q hq

theorem self_authenticated_dispatch {X : Env} {c c1 : Channel} {sender : String} {m : Message}
    (h : dispatch X c sender m = .ok c1) (hs : SelfAuthenticated c) : SelfAuthenticated c1 := by
  have hroom : c1.m_room = c.m_room := (frame_dispatch h).2.1
  unfold dispatch at h
  split at h
  · exact self_authenticated_of_back (status_back_on_channel_search h) hroom hs
  · exact self_authenticated_of_back (status_back_on_channel_status h) hroom hs
  · exact self_authenticated_of_back (status_back_on_channel_announcement h) hroom hs
  · exact self_authenticated_on_join_request h hs
  · exact self_authenticated_of_back (status_back_on_authentication_request h) hroom hs
  · exact self_authenticated_on_authentication h hs
  · exact self_authenticated_of_back (status_back_on_authorization h) hroom hs
  · exact self_authenticated_of_back (status_back_on_consistency_status h) hroom hs
  · exact self_authenticated_of_back (status_back_on_consistency_check h) hroom hs
  · exact self_authenticated_of_back (status_back_on_key_exchange_public_key h) hroom hs
  · exact self_authenticated_of_back (status_back_on_key_exchange_secret_share h) hroom hs
  · exact self_authenticated_of_back (status_back_on_key_exchange_acceptance h) hroom hs
  · exact self_authenticated_of_back (status_back_on_key_exchange_reveal h) hroom hs
  · exact self_authenticated_of_back (status_back_on_key_activation h) hroom hs
  · exact self_authenticated_of_back (status_back_on_chat h) hroom hs
  · cases h; exact hs

theorem self_authenticated_message_received {X : Env} {c c1 : Channel} {sender : String}
    {m : Message} (h : message_received X c sender m = .ok c1) (hs : SelfAuthenticated c) :
    SelfAuthenticated c1 := by
  obtain ⟨status, -, hd⟩ := message_received_inv h
  exact self_authenticated_dispatch hd (self_authenticated_with_hash _ hs)

theorem self_authenticated_user_left {X : Env} {c c1 : Channel} {username : String}
    (h : user_left X c username = .ok c1) (hs : SelfAuthenticated c) : SelfAuthenticated c1 := by
  unfold user_left at h
  split at h
  · cases h
  · rename_i c0 h0
    obtain ⟨status, -, rfl⟩ := hash_payload_inv h0
    exact self_authenticated_of_back (status_back_remove_user h) (frame_remove_user h).2.1
      (self_authenticated_with_hash _ hs)

theorem reachable_self_authenticated {X : Env} {c : Channel} (h : ReachableByMessages X c) :
    SelfAuthenticated c := by
  induction h with
  | create room generated_key nonce_hash =>
    intro p hp
    simp only [Channel.create, ParticipantMap.find_assign, if_true, Option.some.injEq] at hp
    rw [← hp]
  | from_status room generated_key nonce_hash s encoded_message c hself h =>
    rcases from_status_cases X room generated_key nonce_hash s encoded_message with
      ⟨-, c1, hok, hbuilt⟩ | ⟨-, herr⟩
    · rw [hok] at h
      cases h
      intro p hp
      rw [hbuilt.1, hbuilt.2.2.2.2.2.2.2.2.2.2.2.2.2.2 _ hself] at hp
      cases hp
    · rw [herr] at h; cases h
  | from_announcement room generated_key nonce_hash a sender hself =>
    intro p hp
    simp only [Channel.from_announcement, ParticipantMap.find_assign] at hp
    rw [if_neg (fun h => hself h.symm)] at hp
    cases hp
  | message_received c c1 sender m _ h ih => exact self_authenticated_message_received h ih
  | user_left c c1 username _ h ih => exact self_authenticated_user_left h ih

theorem reachable_by_messages_demo_joined : ReachableByMessages demo_env demo_joined :=
  ReachableByMessages.message_received
    (match message_received demo_env demo_solo "bob" ⟨.JoinRequest, "bob"⟩ with
      | .error _ => demo_solo
      | .ok c => c)
    demo_joined "carol" ⟨.ChannelSearch, "nc"⟩
    (ReachableByMessages.message_received demo_solo _ "bob" ⟨.JoinRequest, "bob"⟩
      (ReachableByMessages.create _ _ _) rfl)
    rfl

/-- C19 as stated fails: the channel that `alice` builds from an announcement by `bob`
does not have `alice` in its participant table; the solo channel of `alice` that
receives a ChannelAnnouncement sent under the name `alice` removes `alice` from its
table; and the channel that `alice` builds from a status message that lists `alice`
holds her entry with authentication status `Unauthenticated`. -/
theorem self_presence_fails :
    (Reachable demo_env demo_announced
        ∧ demo_announced.m_room.username = "alice"
        ∧ demo_announced.m_participants.count "alice" = false)
      ∧ (∃ c1, message_received demo_env demo_solo "alice" ⟨.ChannelAnnouncement, "x"⟩ = .ok c1
          ∧ c1.m_room.username = "alice" ∧ c1.m_participants.count "alice" = false)
      ∧ (∃ c p, Channel.from_status demo_env demo_room ⟨"alice-eph"⟩ ⟨"n9"⟩ demo_status_keys
            ⟨.ChannelStatus, "payload"⟩ = .ok c
          ∧ c.m_room.username = "alice" ∧ c.m_participants.find "alice" = some p
          ∧ p.authentication_status = .Unauthenticated) :=
  ⟨⟨Reachable.from_announcement _ _ _ _ _, rfl, by decide⟩,
    ⟨_, rfl, rfl, by decide⟩,
    ⟨_, _, rfl, rfl, rfl, rfl⟩⟩

/-- C19, amended (the local user's entry): in every state reachable through
`message_received` and `user_left` from the solo constructor, or from the status or the
announcement constructor applied to a message that does not list the local user,
whenever the local user's username is a key of the participant table the authentication
status of that entry is `Authenticated`. -/
theorem self_entry_authenticated (X : Env) (c : Channel) (h : ReachableByMessages X c) :
    SelfAuthenticated c ∧
      ∀ p, c.m_participants.find c.m_room.username = some p →
        p.authentication_status = .Authenticated :=
  ⟨reachable_self_authenticated h, reachable_self_authenticated h⟩

/-- Witness of C19: the solo channel of `alice` after a JoinRequest from `bob` and a
ChannelSearch. -/
theorem self_entry_authenticated_witness :
    SelfAuthenticated demo_joined ∧ demo_joined.m_participants.count "alice" = true :=
  ⟨(self_entry_authenticated demo_env demo_joined reachable_by_messages_demo_joined).1,
    by decide⟩

/-! ## The status round trip (C15) -/

theorem channel_status_eq (X : Env) (c : Channel) (u : String) (n : Hash) :
    channel_status X c u n =
      match status_message X c u n with
      | .error f => .error f
      | .ok r => .ok (X.encode_channel_status r) := by
  unfold channel_status status_message
  rfl

theorem same_header_refl (r : ChannelStatusMessage) : same_header r r :=
  ⟨rfl, rfl, rfl, rfl, rfl, rfl⟩

theorem same_header_trans {a b c : ChannelStatusMessage} (h1 : same_header a b)
    (h2 : same_header b c) : same_header a c :=
  ⟨h2.1.trans h1.1, h2.2.1.trans h1.2.1, h2.2.2.1.trans h1.2.2.1,
    h2.2.2.2.1.trans h1.2.2.2.1, h2.2.2.2.2.1.trans h1.2.2.2.2.1,
    h2.2.2.2.2.2.trans h1.2.2.2.2.2⟩


theorem status_events_cons (X : Env) (chat : List EncryptedChatCall) (e : Event)
    (rest : List Event) (r : ChannelStatusMessage) (h : valid_event_type e.type = true) :
    status_events X chat (e :: rest) r =
      status_events X chat rest { r with events := r.events ++ [encoded_event X chat e r] } := by
  rw [status_events]
  unfold encoded_event key_exchange_wire
  by_cases h1 : e.type = .ChannelStatus
  · simp only [if_pos h1]
  · by_cases h2 : e.type = .ConsistencyCheck
    · simp only [if_neg h1, if_pos h2]
    · by_cases h3 : is_key_exchange_type e.type = true
      · simp only [if_neg h1, if_neg h2, if_pos h3]
      · have h4 : e.type = .KeyActivation := by
          simp only [valid_event_type, Bool.or_eq_true, decide_eq_true_eq] at h
          rcases h with ((h | h) | h) | h
          · exact absurd h h1
          · exact absurd h h2
          · exact absurd h h3
          · exact h
        simp only [if_neg h1, if_neg h2, if_neg h3, if_pos h4]

/-- What the event loop of `channel_status` appends: one channel event per queued event,
each encoded against a message with the header of the initial one. -/
theorem status_events_spec (X : Env) (chat : List EncryptedChatCall) (events : List Event)
    (h : EventsTyped events) :
    ∀ r : ChannelStatusMessage, ∃ encs : List ChannelEvent,
      status_events X chat events r = .ok { r with events := r.events ++ encs }
      ∧ List.Forall₂ (fun e ce => ∃ r1, same_header r r1 ∧ ce = encoded_event X chat e r1)
          events encs := by
  induction events with
  | nil =>
    intro r
    refine ⟨[], ?_, List.Forall₂.nil⟩
    simp [status_events]
  | cons e rest ih =>
    intro r
    have he := h e (List.mem_cons_self _ _)
    obtain ⟨encs, h1, h2⟩ := ih (fun x hx => h x (List.mem_cons_of_mem _ hx))
      { r with events := r.events ++ [encoded_event X chat e r] }
    refine ⟨encoded_event X chat e r :: encs, ?_, ?_⟩
    · rw [status_events_cons X chat e rest r he, h1]
      simp
    · refine List.Forall₂.cons ⟨r, same_header_refl r, rfl⟩ ?_
      refine List.Forall₂.imp ?_ h2
      rintro e1 ce ⟨r1, hr1, hce⟩
      exact ⟨r1, same_header_trans ⟨rfl, rfl, rfl, rfl, rfl, rfl⟩ hr1, hce⟩

/-- What status construction reads from the channel event that `channel_status` wrote for
a queued event, when the event codec decodes what it encoded. -/
theorem encoded_event_read {X : Env} {chat : List EncryptedChatCall} {r r1 : ChannelStatusMessage}
    {e : Event} (hc : event_codec_ok X chat r e) (ht : valid_event_type e.type = true)
    (hr : same_header r r1) :
    event_of X r (encoded_event X chat e r1) = some (wire_event X chat e)
      ∧ live_key_id X r (encoded_event X chat e r1)
          = (if is_key_exchange_type e.type && X.have_key_exchange chat e.key_event.key_id
             then some e.key_event.key_id else none)
      ∧ cancelled_key_id X r (encoded_event X chat e r1)
          = (if is_key_exchange_type e.type && !X.have_key_exchange chat e.key_event.key_id
             then some e.key_event.key_id else none)
      ∧ activation_key_id X r (encoded_event X chat e r1)
          = (if decide (e.type = .KeyActivation) then some e.key_event.key_id else none) := by
  obtain ⟨c1, c2, c3, c4⟩ := hc r1 hr
  unfold encoded_event wire_event
  by_cases h1 : e.type = .ChannelStatus
  · obtain ⟨t1, d1⟩ := c1 h1
    have hke : is_key_exchange_type e.type = false := by rw [h1]; rfl
    have hke2 : is_key_exchange_type MessageType.ChannelStatus = false := rfl
    have hka : ¬ e.type = .KeyActivation := by rw [h1]; decide
    simp only [if_pos h1]
    refine ⟨?_, ?_, ?_, ?_⟩
    · simp only [event_of, t1, if_true, d1, h1]
    · simp only [live_key_id, t1, hke2, hke, Bool.false_and, Bool.false_eq_true, if_false]
    · simp only [cancelled_key_id, t1, hke2, hke, Bool.false_and, Bool.false_eq_true, if_false]
    · simp [activation_key_id, t1, hka]
  · by_cases h2 : e.type = .ConsistencyCheck
    · obtain ⟨t1, d1⟩ := c2 h2
      have hke : is_key_exchange_type e.type = false := by rw [h2]; rfl
      have hke2 : is_key_exchange_type MessageType.ConsistencyCheck = false := rfl
      have hka : ¬ e.type = .KeyActivation := by rw [h2]; decide
      simp only [if_neg h1, if_pos h2]
      refine ⟨?_, ?_, ?_, ?_⟩
      · simp [event_of, t1, d1, h2]
      · simp only [live_key_id, t1, hke2, hke, Bool.false_and, Bool.false_eq_true, if_false]
      · simp only [cancelled_key_id, t1, hke2, hke, Bool.false_and, Bool.false_eq_true, if_false]
      · simp [activation_key_id, t1, hka]
    · by_cases h3 : is_key_exchange_type e.type = true
      · obtain ⟨t1, d1⟩ := c3 h3
        have hka : ¬ e.type = .KeyActivation := by
          intro hx; rw [hx] at h3; cases h3
        simp only [if_neg h1, if_neg h2, if_pos h3]
        cases hh : X.have_key_exchange chat e.key_event.key_id with
        | true =>
          have hw : key_exchange_wire X chat e =
              { type := e.type, key_id := e.key_event.key_id, cancelled := false,
                remaining_users := ∅ } := by
            simp [key_exchange_wire, hh]
          rw [hw] at t1 d1
          refine ⟨?_, ?_, ?_, ?_⟩
          · simp [event_of, t1, d1, h1, h2, h3, hw]
          · simp [live_key_id, t1, d1, h3, hw]
          · simp [cancelled_key_id, t1, d1, h3, hw]
          · simp [activation_key_id, t1, hka, hw]
        | false =>
          have hw : key_exchange_wire X chat e =
              { type := e.type, key_id := e.key_event.key_id, cancelled := true,
                remaining_users := e.key_event.remaining_users } := by
            simp [key_exchange_wire, hh]
          rw [hw] at t1 d1
          refine ⟨?_, ?_, ?_, ?_⟩
          · simp [event_of, t1, d1, h1, h2, h3, hw]
          · simp [live_key_id, t1, d1, h3, hw]
          · simp [cancelled_key_id, t1, d1, h3, hw]
          · simp [activation_key_id, t1, hka, hw]
      · have h3f : is_key_exchange_type e.type = false := by simpa using h3
        have h4 : e.type = .KeyActivation := by
          simp only [valid_event_type, Bool.or_eq_true, decide_eq_true_eq] at ht
          rcases ht with ((h | h) | h) | h
          · exact absurd h h1
          · exact absurd h h2
          · exact absurd h h3
          · exact h
        obtain ⟨t1, d1⟩ := c4 h4
        have hk : is_key_exchange_type MessageType.KeyActivation = false := rfl
        simp only [if_neg h1, if_neg h2, if_neg h3]
        refine ⟨?_, ?_, ?_, ?_⟩
        · simp [event_of, t1, d1, hk, h4]
        · simp [live_key_id, t1, hk, h3f]
        · simp [cancelled_key_id, t1, hk, h3f]
        · simp [activation_key_id, t1, d1, h4]

theorem filter_map_related {α β γ : Type} (R : α → β → Prop) (f : β → Option γ) (g : α → Option γ)
    {l : List α} {l1 : List β} (h : List.Forall₂ R l l1)
    (hfg : ∀ a b, a ∈ l → R a b → f b = g a) : l1.filterMap f = l.filterMap g := by
  induction h with
  | nil => rfl
  | @cons a b l l1 hab _ ih =>
    have h1 := hfg a b (List.mem_cons_self _ _) hab
    have h2 := ih (fun x y hx hxy => hfg x y (List.mem_cons_of_mem _ hx) hxy)
    simp only [List.filterMap_cons, h1, h2]

theorem filter_map_ite {α γ : Type} (p : α → Bool) (k : α → γ) (l : List α) :
    l.filterMap (fun a => if p a then some (k a) else none) = (l.filter p).map k := by
  induction l with
  | nil => rfl
  | cons a rest ih =>
    cases hp : p a <;> simp [List.filterMap_cons, List.filter_cons, hp, ih]

theorem keys_nodup (m : ParticipantMap) : (m.entries.map (fun i => i.1)).Nodup := by
  have h := m.sorted
  unfold Entries.Sorted at h
  rw [List.Nodup, List.pairwise_map]
  refine List.Pairwise.imp ?_ h
  intro a b hab heq
  rw [heq, string_lt_irrefl] at hab
  cases hab

theorem usernames_nodup {m : ParticipantMap} (hk : KeyedByUsername m) :
    (m.entries.map (fun i => i.2.username)).Nodup := by
  have : m.entries.map (fun i => i.2.username) = m.entries.map (fun i => i.1) :=
    List.map_congr_left (fun i hi => hk i hi)
  rw [this]
  exact keys_nodup m

theorem status_usernames_of_table (m : ParticipantMap) (s : ChannelStatusMessage)
    (h1 : s.participants = status_participants m)
    (h2 : s.unauthorized_participants = status_unauthorized_participants m) :
    status_usernames s =
      (m.entries.filter (fun i => i.2.authorized)).map (fun i => i.2.username)
        ++ (m.entries.filter (fun i => !i.2.authorized)).map (fun i => i.2.username) := by
  unfold status_usernames
  rw [h1, h2]
  unfold status_participants status_unauthorized_participants
  simp only [List.map_map]
  rfl

theorem nodup_partition {α β : Type} (f : α → β) (p : α → Bool) {l : List α}
    (h : (l.map f).Nodup) :
    ((l.filter p).map f ++ (l.filter (fun a => !p a)).map f).Nodup := by
  refine List.nodup_append.2 ⟨?_, ?_, ?_⟩
  · exact List.Nodup.sublist (List.Sublist.map f (List.filter_sublist l)) h
  · exact List.Nodup.sublist (List.Sublist.map f (List.filter_sublist l)) h
  · intro x hx1 hx2
    obtain ⟨a, ha, hfa⟩ := List.mem_map.1 hx1
    obtain ⟨b, hb, hfb⟩ := List.mem_map.1 hx2
    rw [List.mem_filter] at ha hb
    have hab : a = b := List.inj_on_of_nodup_map h ha.1 hb.1 (hfa.trans hfb.symm)
    subst hab
    rw [ha.2] at hb
    simp at hb

theorem status_usernames_nodup {m : ParticipantMap} (hk : KeyedByUsername m)
    (s : ChannelStatusMessage) (h1 : s.participants = status_participants m)
    (h2 : s.unauthorized_participants = status_unauthorized_participants m) :
    (status_usernames s).Nodup := by
  rw [status_usernames_of_table m s h1 h2]
  exact nodup_partition _ _ (usernames_nodup hk)

theorem status_usernames_mem {m : ParticipantMap} (hk : KeyedByUsername m)
    (s : ChannelStatusMessage) (h1 : s.participants = status_participants m)
    (h2 : s.unauthorized_participants = status_unauthorized_participants m) (k : String) :
    k ∈ status_usernames s ↔ ∃ p, m.find k = some p := by
  rw [status_usernames_of_table m s h1 h2]
  constructor
  · intro h
    rcases List.mem_append.1 h with h | h
    all_goals
      obtain ⟨i, hi, hik⟩ := List.mem_map.1 h
      rw [List.mem_filter] at hi
      refine ⟨i.2, ?_⟩
      rw [← hik, hk i hi.1]
      exact ParticipantMap.find_of_mem hi.1
  · rintro ⟨p, hp⟩
    have hmem := ParticipantMap.mem_of_find hp
    have hu : p.username = k := hk _ hmem
    cases ha : p.authorized with
    | true =>
      apply List.mem_append_left
      exact List.mem_map.2 ⟨(k, p), List.mem_filter.2 ⟨hmem, ha⟩, hu⟩
    | false =>
      apply List.mem_append_right
      exact List.mem_map.2 ⟨(k, p), List.mem_filter.2 ⟨hmem, by simp [ha]⟩, hu⟩

theorem status_participants_mem {m : ParticipantMap} (hk : KeyedByUsername m) {k : String}
    {p : Participant} (hp : m.find k = some p) (ha : p.authorized = true) :
    ({ username := k, long_term_public_key := p.long_term_public_key,
       ephemeral_public_key := p.ephemeral_public_key,
       authorization_nonce := p.authorization_nonce } : StatusParticipant)
      ∈ status_participants m := by
  have hmem := ParticipantMap.mem_of_find hp
  have hu : p.username = k := hk _ hmem
  unfold status_participants
  refine List.mem_map.2 ⟨(k, p), List.mem_filter.2 ⟨hmem, ha⟩, ?_⟩
  simp [hu]

theorem status_unauthorized_participants_mem {m : ParticipantMap} (hk : KeyedByUsername m)
    {k : String} {p : Participant} (hp : m.find k = some p) (ha : p.authorized = false) :
    ({ username := k, long_term_public_key := p.long_term_public_key,
       ephemeral_public_key := p.ephemeral_public_key,
       authorization_nonce := p.authorization_nonce,
       authorized_by := p.authorized_by,
       authorized_peers := p.authorized_peers } : StatusUnauthorizedParticipant)
      ∈ status_unauthorized_participants m := by
  have hmem := ParticipantMap.mem_of_find hp
  have hu : p.username = k := hk _ hmem
  unfold status_unauthorized_participants
  refine List.mem_map.2 ⟨(k, p), List.mem_filter.2 ⟨hmem, by simp [ha]⟩, ?_⟩
  simp [hu]

theorem related_mem {α β : Type} {R : α → β → Prop} {l : List α} {l1 : List β}
    (h : List.Forall₂ R l l1) : ∀ b ∈ l1, ∃ a ∈ l, R a b := by
  induction h with
  | nil => intro b hb; cases hb
  | @cons a b l l1 hab _ ih =>
    intro x hx
    rcases List.mem_cons.1 hx with hx | hx
    · subst hx
      exact ⟨a, List.mem_cons_self _ _, hab⟩
    · obtain ⟨y, hy, hr⟩ := ih x hx
      exact ⟨y, List.mem_cons_of_mem _ hy, hr⟩

theorem status_message_spec (X : Env) (c : Channel) (u : String) (n : Hash)
    (ht : EventsTyped c.m_events) :
    ∃ r, status_message X c u n = .ok r
      ∧ r.channel_status_hash = c.m_channel_status_hash
      ∧ r.participants = status_participants c.m_participants
      ∧ r.unauthorized_participants = status_unauthorized_participants c.m_participants
      ∧ r.key_exchanges = X.encode_key_exchanges c.m_encrypted_chat
      ∧ List.Forall₂
          (fun e ce => ∃ r1, same_header r r1 ∧ ce = encoded_event X c.m_encrypted_chat e r1)
          c.m_events r.events := by
  unfold status_message
  obtain ⟨encs, h1, h2⟩ := status_events_spec X c.m_encrypted_chat c.m_events ht
    { searcher_username := u
      searcher_nonce := n
      channel_status_hash := c.m_channel_status_hash
      participants := status_participants c.m_participants
      unauthorized_participants := status_unauthorized_participants c.m_participants
      key_exchanges := X.encode_key_exchanges c.m_encrypted_chat
      events := [] }
  refine ⟨_, h1, rfl, rfl, rfl, rfl, ?_⟩
  simp only [List.nil_append]
  refine List.Forall₂.imp ?_ h2
  rintro e ce ⟨r1, hr1, hce⟩
  exact ⟨r1, same_header_trans ⟨rfl, rfl, rfl, rfl, rfl, rfl⟩ hr1, hce⟩

/-- The message that `channel_status` builds is one that status construction accepts,
when the table is keyed by username, the collaborator and the queue agree, and the event
codec decodes what it encoded; the events it reads back are the wire forms of the
queued events. -/
theorem status_message_accepted (X : Env) (c : Channel) (r : ChannelStatusMessage)
    (ht : EventsTyped c.m_events) (hk : KeyedByUsername c.m_participants)
    (hcol : collaborator_consistent X c)
    (hp : r.participants = status_participants c.m_participants)
    (hu : r.unauthorized_participants = status_unauthorized_participants c.m_participants)
    (hx : r.key_exchanges = X.encode_key_exchanges c.m_encrypted_chat)
    (hev : List.Forall₂
      (fun e ce => ∃ r1, same_header r r1 ∧ ce = encoded_event X c.m_encrypted_chat e r1)
      c.m_events r.events)
    (hcodec : ∀ e ∈ c.m_events, event_codec_ok X c.m_encrypted_chat r e) :
    status_accepted X r
      ∧ r.events.filterMap (event_of X r) = c.m_events.map (wire_event X c.m_encrypted_chat) := by
  have hread : ∀ e ce, e ∈ c.m_events →
      (∃ r1, same_header r r1 ∧ ce = encoded_event X c.m_encrypted_chat e r1) →
      event_of X r ce = some (wire_event X c.m_encrypted_chat e)
      ∧ live_key_id X r ce
          = (if is_key_exchange_type e.type
                && X.have_key_exchange c.m_encrypted_chat e.key_event.key_id
             then some e.key_event.key_id else none)
      ∧ cancelled_key_id X r ce
          = (if is_key_exchange_type e.type
                && !X.have_key_exchange c.m_encrypted_chat e.key_event.key_id
             then some e.key_event.key_id else none)
      ∧ activation_key_id X r ce
          = (if decide (e.type = .KeyActivation) then some e.key_event.key_id else none) := by
    rintro e ce he ⟨r1, hr1, rfl⟩
    exact encoded_event_read (hcodec e he) (ht e he) hr1
  have hevents : r.events.filterMap (event_of X r)
      = c.m_events.map (wire_event X c.m_encrypted_chat) := by
    rw [filter_map_related _ (event_of X r)
      (fun e => some (wire_event X c.m_encrypted_chat e)) hev
      (fun e ce he hr => (hread e ce he hr).1)]
    exact congrFun (List.filterMap_eq_map (wire_event X c.m_encrypted_chat)) c.m_events
  have hlive : r.events.filterMap (live_key_id X r) = live_ids X c := by
    rw [filter_map_related _ (live_key_id X r) _ hev (fun e ce he hr => (hread e ce he hr).2.1)]
    exact filter_map_ite _ _ _
  have hcanc : r.events.filterMap (cancelled_key_id X r) = cancelled_ids X c := by
    rw [filter_map_related _ (cancelled_key_id X r) _ hev
      (fun e ce he hr => (hread e ce he hr).2.2.1)]
    exact filter_map_ite _ _ _
  have hact : r.events.filterMap (activation_key_id X r) = activation_ids c := by
    rw [filter_map_related _ (activation_key_id X r) _ hev
      (fun e ce he hr => (hread e ce he hr).2.2.2)]
    exact filter_map_ite _ _ _
  have hids : status_key_ids r
      = (X.encode_key_exchanges c.m_encrypted_chat).map (fun x => x.key_id) := by
    unfold status_key_ids
    rw [hx]
  obtain ⟨c1, c2, c3, c4, c5, c6⟩ := hcol
  refine ⟨⟨status_usernames_nodup hk r hp hu, by rw [hids]; exact c1, ⟨?_, ?_, ?_, ?_, ?_, ?_⟩, ?_⟩,
    hevents⟩
  · intro ce hce
    obtain ⟨e, he, hr⟩ := related_mem hev ce hce
    rw [(hread e ce he hr).1]
    rfl
  · intro k hkm
    rw [hlive] at hkm
    refine ⟨?_, Finset.not_mem_empty _⟩
    unfold live_ids at hkm
    obtain ⟨e, he, hek⟩ := List.mem_map.1 hkm
    rw [List.mem_filter, Bool.and_eq_true] at he
    rw [hids, List.mem_toFinset, ← hek]
    exact (c2 e he.1 he.2.1).1 he.2.2
  · rw [hlive]; exact c3
  · intro k hkm
    rw [hcanc] at hkm
    unfold cancelled_ids at hkm
    obtain ⟨e, he, hek⟩ := List.mem_map.1 hkm
    rw [List.mem_filter, Bool.and_eq_true] at he
    rw [hids, List.mem_toFinset, ← hek]
    intro hmem
    have := (c2 e he.1 he.2.1).2 hmem
    rw [this] at he
    simp at he
  · intro k hkm
    rw [hact] at hkm
    refine ⟨?_, Finset.not_mem_empty _⟩
    rw [hids, List.mem_toFinset]
    exact c5 k hkm
  · rw [hact]; exact c6
  · rw [hids, hlive, ← c4]

/-- The status round trip, on the table: after `channel_status` and status construction
every entry is back under its key, with authentication status `Unauthenticated`. -/
theorem round_trip_entries (X : Env) (c c1 : Channel) (room : Room) (generated_key : PrivateKey)
    (nonce_hash : Hash) (r : ChannelStatusMessage) (msg : Message)
    (hclean : WitnessesClean c.m_participants) (hk : KeyedByUsername c.m_participants)
    (hw : WitnessesAuthorized c.m_participants)
    (hp : r.participants = status_participants c.m_participants)
    (hu : r.unauthorized_participants = status_unauthorized_participants c.m_participants)
    (hb : status_built X room generated_key nonce_hash r msg c1) (k : String) :
    c1.m_participants.find k
      = (c.m_participants.find k).map (fun p => { p with authentication_status := .Unauthenticated }) := by
  obtain ⟨-, -, -, -, -, -, -, -, -, -, -, -, hin1, hin2, hout⟩ := hb
  cases hf : c.m_participants.find k with
  | none =>
    rw [hout k]
    · rfl
    · intro hmem
      obtain ⟨p, hp1⟩ := (status_usernames_mem hk r hp hu k).1 hmem
      rw [hf] at hp1
      cases hp1
  | some p =>
    have hmem := ParticipantMap.mem_of_find hf
    cases ha : p.authorized with
    | true =>
      have hq := status_participants_mem hk hf ha
      rw [← hp] at hq
      have := hin1 _ hq
      simp only at this
      rw [this]
      have hc := hclean _ hmem ha
      have hun : p.username = k := hk _ hmem
      simp only [Option.map_some', Option.some.injEq, status_entry, default_participant]
      cases p
      simp only at hc ha hun
      simp [hc.1, hc.2, ha, hun]
    | false =>
      have hq := status_unauthorized_participants_mem hk hf ha
      rw [← hu] at hq
      obtain ⟨m, hm1, -, hm3⟩ := hin2 _ hq
      simp only at hm3
      rw [hm3]
      have hun : p.username = k := hk _ hmem
      have hcount : ∀ w, w ∈ p.authorized_by ∨ w ∈ p.authorized_peers → m.count w = true := by
        intro w hwm
        obtain ⟨q, hq1, hq2⟩ := hw _ hmem w hwm
        have hq3 := status_participants_mem hk hq1 hq2
        rw [← hp] at hq3
        exact hm1 _ hq3
      simp only [Option.map_some', Option.some.injEq, status_unauthorized_entry, default_participant]
      have f1 : p.authorized_by.filter (fun peer => m.count peer = true) = p.authorized_by :=
        Finset.filter_true_of_mem (fun w hwm => hcount w (Or.inl hwm))
      have f2 : p.authorized_peers.filter (fun peer => m.count peer = true) = p.authorized_peers :=
        Finset.filter_true_of_mem (fun w hwm => hcount w (Or.inr hwm))
      rw [f1, f2]
      cases p
      simp only at ha hun
      simp [ha, hun]

/-- C15, amended (status round trip): let `c` be a reachable channel state in which every
queued event has an event type, every entry is stored under its username, every witness
is an authorized participant, and the collaborator and the queue agree as status
construction requires, and let the wire codecs decode what they encode of `c`.  Then for
every searcher, decoding the message produced by `channel_status` and running status
construction on it succeeds and gives a channel whose status hash is that of `c`, whose
participant table has the same keys, with the same usernames, keys, authorization
nonces, authorized flags and witness sets as in `c` (and authentication status
`Unauthenticated`), and whose event queue is, event by event, the type and selected
sub-record of the queue of `c`, followed by the event of the status message; of the
key-exchange event of a key exchange that exists in the collaborator only the key id
comes back, its `remaining_users` is empty. -/
theorem status_round_trip (X : Env) (c : Channel) (room : Room) (generated_key : PrivateKey)
    (nonce_hash : Hash) (u : String) (n : Hash)
    (hreach : Reachable X c) (ht : EventsTyped c.m_events)
    (hk : KeyedByUsername c.m_participants) (hw : WitnessesAuthorized c.m_participants)
    (hcol : collaborator_consistent X c) (hcodec : codec_round_trip_at X c u n) :
    ∃ msg r c1, channel_status X c u n = .ok msg
      ∧ X.decode_channel_status msg = some r
      ∧ Channel.from_status X room generated_key nonce_hash r msg = .ok c1
      ∧ c1.m_channel_status_hash = c.m_channel_status_hash
      ∧ (∀ k, c1.m_participants.find k
          = (c.m_participants.find k).map
              (fun p => { p with authentication_status := .Unauthenticated }))
      ∧ c1.m_events = c.m_events.map (wire_event X c.m_encrypted_chat)
          ++ [status_message_event X r msg] := by
  obtain ⟨r, hr, hhash, hp, hu, hx, hev⟩ := status_message_spec X c u n ht
  obtain ⟨hdec, hevc⟩ := hcodec r hr
  obtain ⟨hacc, hevents⟩ := status_message_accepted X c r ht hk hcol hp hu hx hev hevc
  rcases from_status_cases X room generated_key nonce_hash r (X.encode_channel_status r) with
    ⟨-, c1, hok, hb⟩ | ⟨hn, -⟩
  swap
  · exact absurd hacc hn
  refine ⟨X.encode_channel_status r, r, c1, ?_, hdec, hok, ?_, ?_, ?_⟩
  · rw [channel_status_eq, hr]
  · rw [hb.2.2.2.2.2.2.1, hhash]
  · exact round_trip_entries X c c1 room generated_key nonce_hash r _ (reachable_inv hreach).1
      hk hw hp hu hb
  · rw [hb.2.2.2.2.2.2.2.2.2.2.2.1, hevents]

theorem demo_exchange_reachable : Reachable demo_wire demo_exchange :=
  Reachable.add_key_exchange_event _ _ _ _ (Reachable.create _ _ _)

theorem demo_exchange_status :
    status_message demo_wire demo_exchange "carol" ⟨"nc"⟩ = .ok demo_wire_status :=
  rfl

theorem demo_exchange_codec : codec_round_trip_at demo_wire demo_exchange "carol" ⟨"nc"⟩ := by
  intro r hr
  rw [demo_exchange_status] at hr
  cases hr
  refine ⟨by decide, ?_⟩
  intro e he
  have he1 : e = { fresh_event demo_wire .KeyExchangePublicKey with
      key_event := { key_id := ⟨"k1"⟩, remaining_users := {"alice"} } } := by
    simpa [demo_exchange, add_key_exchange_event, Channel.create] using he
  subst he1
  intro r1 _
  exact ⟨fun h => absurd h (by decide), fun h => absurd h (by decide),
    fun _ => ⟨rfl, rfl⟩, fun h => absurd h (by decide)⟩

theorem demo_exchange_witnesses : WitnessesAuthorized demo_exchange.m_participants := by
  have hall : ∀ i ∈ demo_exchange.m_participants.entries,
      i.2.authorized_by = ∅ ∧ i.2.authorized_peers = ∅ := by decide
  intro i hi w hw
  rw [(hall i hi).1, (hall i hi).2] at hw
  simp at hw

theorem demo_exchange_consistent : collaborator_consistent demo_wire demo_exchange := by
  refine ⟨by decide, ?_, by decide, by decide, by decide, by decide⟩
  intro e he _
  have he1 : e = { fresh_event demo_wire .KeyExchangePublicKey with
      key_event := { key_id := ⟨"k1"⟩, remaining_users := {"alice"} } } := by
    simpa [demo_exchange, add_key_exchange_event, Channel.create] using he
  subst he1
  decide

/-- C15 as stated fails: in the reachable state `demo_exchange` the queue holds the
event of the key exchange `k1`, which exists in the collaborator, with `remaining_users`
`alice`; the codecs decode what they encode of this state; the status message for
`carol` is accepted by status construction, and the key-exchange event of the
constructed queue has an empty `remaining_users`. -/
theorem round_trip_drops_remaining_users :
    Reachable demo_wire demo_exchange
      ∧ codec_round_trip_at demo_wire demo_exchange "carol" ⟨"nc"⟩
      ∧ demo_exchange.m_events.map (fun e => (e.type, e.key_event.key_id, e.key_event.remaining_users))
          = [(.KeyExchangePublicKey, ⟨"k1"⟩, {"alice"})]
      ∧ ∃ msg r c1, channel_status demo_wire demo_exchange "carol" ⟨"nc"⟩ = .ok msg
          ∧ demo_wire.decode_channel_status msg = some r
          ∧ Channel.from_status demo_wire demo_room_bob ⟨"bob-eph"⟩ ⟨"n9"⟩ r msg = .ok c1
          ∧ c1.m_events.dropLast.map
                (fun e => (e.type, e.key_event.key_id, e.key_event.remaining_users))
              = [(.KeyExchangePublicKey, ⟨"k1"⟩, ∅)]
          ∧ c1.m_events.dropLast ≠ demo_exchange.m_events := by
  refine ⟨demo_exchange_reachable, demo_exchange_codec, by decide, _, _, _, rfl, rfl, rfl,
    by decide, by decide⟩

/-- Witness of C15: the round trip of `demo_exchange` for the searcher `carol`. -/
theorem status_round_trip_witness :
    ∃ msg r c1, channel_status demo_wire demo_exchange "carol" ⟨"nc"⟩ = .ok msg
      ∧ demo_wire.decode_channel_status msg = some r
      ∧ Channel.from_status demo_wire demo_room_bob ⟨"bob-eph"⟩ ⟨"n9"⟩ r msg = .ok c1
      ∧ c1.m_channel_status_hash = demo_exchange.m_channel_status_hash
      ∧ (∀ k, c1.m_participants.find k
          = (demo_exchange.m_participants.find k).map
              (fun p => { p with authentication_status := .Unauthenticated }))
      ∧ c1.m_events = demo_exchange.m_events.map (wire_event demo_wire demo_exchange.m_encrypted_chat)
          ++ [status_message_event demo_wire r msg] :=
  status_round_trip demo_wire demo_exchange demo_room_bob ⟨"bob-eph"⟩ ⟨"n9"⟩ "carol" ⟨"nc"⟩
    demo_exchange_reachable (by decide) (by decide) demo_exchange_witnesses
    demo_exchange_consistent demo_exchange_codec

/-! ## The oldest event of a user (C25) -/

theorem first_user_event_head {i : Event} {rest : List Event} {username : String}
    (hv : valid_event_type i.type = true) :
    (username ∈ i.remaining_users ∧ first_user_event (i :: rest) username = .ok (some (0, i)))
    ∨ (username ∉ i.remaining_users ∧ first_user_event (i :: rest) username
        = match first_user_event rest username with
          | .error f => .error f
          | .ok none => .ok none
          | .ok (some (n, e)) => .ok (some (n + 1, e))) := by
  rw [first_user_event]
  unfold Event.remaining_users
  by_cases h1 : i.type = .ChannelStatus
  · simp only [if_pos h1]
    by_cases hm : username ∈ i.channel_status.remaining_users
    · exact Or.inl ⟨hm, by rw [if_pos hm]⟩
    · exact Or.inr ⟨hm, by rw [if_neg hm]⟩
  · by_cases h2 : i.type = .ConsistencyCheck
    · simp only [if_neg h1, if_pos h2]
      by_cases hm : username ∈ i.consistency_check.remaining_users
      · exact Or.inl ⟨hm, by rw [if_pos hm]⟩
      · exact Or.inr ⟨hm, by rw [if_neg hm]⟩
    · have h3 : (is_key_exchange_type i.type || decide (i.type = .KeyActivation)) = true := by
        unfold valid_event_type at hv
        simpa [h1, h2, Bool.or_assoc] using hv
      simp only [if_neg h1, if_neg h2, if_pos h3]
      by_cases hm : username ∈ i.key_event.remaining_users
      · exact Or.inl ⟨hm, by rw [if_pos hm]⟩
      · exact Or.inr ⟨hm, by rw [if_neg hm]⟩

theorem first_user_event_spec (events : List Event) (username : String)
    (h : EventsTyped events) :
    (first_user_event events username = .ok none ∧ ∀ e ∈ events, username ∉ e.remaining_users)
    ∨ ∃ n e, first_user_event events username = .ok (some (n, e))
        ∧ first_listing events username n e := by
  induction events with
  | nil => exact Or.inl ⟨rfl, fun e he => by cases he⟩
  | cons i rest ih =>
    have hv : valid_event_type i.type = true := h i (List.mem_cons_self _ _)
    have hrest : EventsTyped rest := fun x hx => h x (List.mem_cons_of_mem _ hx)
    rcases @first_user_event_head i rest username hv with ⟨hm, h0⟩ | ⟨hm, h0⟩
    · refine Or.inr ⟨0, i, h0, by simp, hm, ?_⟩
      intro k e0 hk
      exact absurd hk (Nat.not_lt_zero k)
    · rcases ih hrest with ⟨h1, h2⟩ | ⟨n, e, h1, h2, h3, h4⟩
      · left
        rw [h0, h1]
        refine ⟨rfl, ?_⟩
        intro e he
        rcases List.mem_cons.1 he with he | he
        · subst he; exact hm
        · exact h2 e he
      · right
        rw [h0, h1]
        refine ⟨n + 1, e, rfl, ?_, h3, ?_⟩
        · simpa using h2
        · intro k e0 hk hget
          cases k with
          | zero =>
            simp only [List.getElem?_cons_zero, Option.some.injEq] at hget
            subst hget
            exact hm
          | succ k =>
            simp only [List.getElem?_cons_succ] at hget
            exact h4 k e0 (Nat.lt_of_succ_lt_succ hk) hget

/-- C25 (the oldest event of a user): on a queue whose events all have one of the seven
event types, `first_user_event(S)` returns; what it returns is the end marker exactly
when no queued event lists `S` in the `remaining_users` its type selects, and otherwise
it is the event at the smallest position of the queue that lists `S`.  The function
reads the queue and returns a position in it: the queue is the same afterwards. -/
theorem first_user_event_oldest (events : List Event) (username : String)
    (h : EventsTyped events) :
    ∃ r, first_user_event events username = .ok r
      ∧ (r = none ↔ ∀ e ∈ events, username ∉ e.remaining_users)
      ∧ ∀ n e, r = some (n, e) →
          events[n]? = some e ∧ username ∈ e.remaining_users
            ∧ ∀ k e0, k < n → events[k]? = some e0 → username ∉ e0.remaining_users := by
  rcases first_user_event_spec events username h with ⟨h1, h2⟩ | ⟨n, e, h1, h2⟩
  · refine ⟨none, h1, ⟨fun _ => h2, fun _ => rfl⟩, ?_⟩
    intro n e hr
    cases hr
  · refine ⟨some (n, e), h1, ⟨?_, ?_⟩, ?_⟩
    · intro hr; cases hr
    · intro hall
      exact absurd h2.2.1 (hall e (List.getElem?_mem h2.1))
    · intro n1 e1 hr
      cases hr
      exact h2

theorem first_user_event_oldest_witness :
    EventsTyped demo_joined.m_events
      ∧ ∃ r, first_user_event demo_joined.m_events "bob" = .ok r
          ∧ (r = none ↔ ∀ e ∈ demo_joined.m_events, "bob" ∉ e.remaining_users)
          ∧ ∀ n e, r = some (n, e) →
              demo_joined.m_events[n]? = some e ∧ "bob" ∈ e.remaining_users
                ∧ ∀ k e0, k < n → demo_joined.m_events[k]? = some e0 →
                    "bob" ∉ e0.remaining_users :=
  ⟨by decide, first_user_event_oldest demo_joined.m_events "bob" (by decide)⟩

/-! ## Decode failures (C21) -/

theorem dispatch_decode_failure {X : Env} {c : Channel} {sender : String} {m : Message}
    (hd : decode_fails X m) : dispatch X c sender m = .ok c := by
  unfold decode_fails at hd
  unfold dispatch
  split at hd
  · rename_i ht; rw [ht]; simp only [on_channel_search, hd]
  · rename_i ht; rw [ht]; simp only [on_channel_status, hd]
  · rename_i ht; rw [ht]; simp only [on_channel_announcement, hd]
  · rename_i ht; rw [ht]; simp only [on_join_request, hd]
  · rename_i ht; rw [ht]; simp only [on_authentication_request, hd]
  · rename_i ht; rw [ht]; simp only [on_authentication, hd]
  · rename_i ht; rw [ht]; simp only [on_chat, hd]
  · exact absurd hd id

/-- C21 (decode failure): in a channel whose queued events all have one of the seven
event types, a message of an unsigned type (ChannelSearch, ChannelStatus,
ChannelAnnouncement, JoinRequest, AuthenticationRequest, Authentication, Chat) whose
payload does not decode makes `message_received` return without an error, and the
resulting channel is the one it started from with only the status hash replaced by the
chained hash: the participant table, the event queue, the joined, active and authorized
flags, the collaborator and the outbox are the same (nothing is sent). -/
theorem decode_failure_atomic (X : Env) (c : Channel) (sender : String) (m : Message)
    (h : EventsTyped c.m_events) (hd : decode_fails X m) :
    ∃ status c1, channel_status X c "" (zero_hash X) = .ok status
      ∧ message_received X c sender m = .ok c1
      ∧ c1 = with_hash c (chained_hash X status sender (X.type_byte m.type) m.payload)
      ∧ c1.m_participants = c.m_participants ∧ c1.m_events = c.m_events
      ∧ c1.m_joined = c.m_joined ∧ c1.m_active = c.m_active ∧ c1.m_authorized = c.m_authorized
      ∧ c1.m_encrypted_chat = c.m_encrypted_chat ∧ c1.sent = c.sent
      ∧ c1.notifications = c.notifications := by
  obtain ⟨status, hs⟩ := channel_status_total X c "" (zero_hash X) h
  refine ⟨status, _, hs, ?_, rfl, rfl, rfl, rfl, rfl, rfl, rfl, rfl, rfl⟩
  rw [message_received_ok hs]
  exact dispatch_decode_failure hd

theorem decode_failure_atomic_witness :
    EventsTyped demo_joined.m_events
      ∧ decode_fails demo_env_strict ⟨.JoinRequest, "carol"⟩
      ∧ ∃ status c1, channel_status demo_env_strict demo_joined "" (zero_hash demo_env_strict)
            = .ok status
          ∧ message_received demo_env_strict demo_joined "carol" ⟨.JoinRequest, "carol"⟩ = .ok c1
          ∧ c1 = with_hash demo_joined (chained_hash demo_env_strict status "carol"
              (demo_env_strict.type_byte .JoinRequest) "carol")
          ∧ c1.m_participants = demo_joined.m_participants ∧ c1.m_events = demo_joined.m_events
          ∧ c1.m_joined = demo_joined.m_joined ∧ c1.m_active = demo_joined.m_active
          ∧ c1.m_authorized = demo_joined.m_authorized
          ∧ c1.m_encrypted_chat = demo_joined.m_encrypted_chat ∧ c1.sent = demo_joined.sent
          ∧ c1.notifications = demo_joined.notifications :=
  ⟨by decide, rfl,
    decode_failure_atomic demo_env_strict demo_joined "carol" ⟨.JoinRequest, "carol"⟩
      (by decide) rfl⟩

/-! ## Forwarding to the collaborator (C26) -/

/-- C26 (forwarding only while the collaborator holds the key exchange) fails on the
code for KeyExchangePublicKey: in a reachable state `alice` is a participant whose
first event is the KeyExchangePublicKey event of the key exchange `k`, the collaborator
holds no key exchange and no session, and a validly signed KeyExchangePublicKey message
for `k` from `alice` is nevertheless forwarded by a `user_public_key` call; in the same
state with a KeyExchangeSecretShare event, the matching KeyExchangeSecretShare message
consumes the event and no call is made. -/
theorem public_key_forwarded_without_exchange :
    Reachable demo_env_gone demo_pending
      ∧ demo_env_gone.have_key_exchange demo_pending.m_encrypted_chat ⟨"k"⟩ = false
      ∧ demo_env_gone.have_session demo_pending.m_encrypted_chat ⟨"k"⟩ = false
      ∧ demo_pending.m_participants.count "alice" = true
      ∧ (∃ e, first_user_event demo_pending.m_events "alice" = .ok (some (0, e))
          ∧ e.type = .KeyExchangePublicKey ∧ e.key_event.key_id = ⟨"k"⟩)
      ∧ (∃ c1, message_received demo_env_gone demo_pending "alice" ⟨.KeyExchangePublicKey, "k"⟩
            = .ok c1
          ∧ c1.m_events = []
          ∧ c1.m_encrypted_chat
              = demo_pending.m_encrypted_chat ++ [.user_public_key "alice" ⟨"k"⟩ ⟨"pk"⟩])
      ∧ ∃ c2, message_received demo_env_gone demo_pending_share "alice"
            ⟨.KeyExchangeSecretShare, "k"⟩ = .ok c2
          ∧ c2.m_events = []
          ∧ c2.m_encrypted_chat = demo_pending_share.m_encrypted_chat :=
  ⟨Reachable.add_key_exchange_event _ _ _ _ (Reachable.create _ _ _),
    rfl, rfl, by decide, ⟨_, rfl, rfl, rfl⟩, ⟨_, rfl, rfl, rfl⟩, ⟨_, rfl, rfl, rfl⟩⟩

/-! ## The local user's entry in `authorize` (C28) -/

/-- C28 (`authorize` is read-only) fails on the code when the local user has no entry:
the channel that `alice` builds from an announcement by `bob` is reachable and holds
`bob` only; `authorize("bob")` on it leaves a table with a second key, `alice`, under
which lies a default-constructed record with an empty username. -/
theorem authorize_inserts_self :
    Reachable demo_env demo_announced
      ∧ demo_announced.m_room.username = "alice"
      ∧ demo_announced.m_participants.entries.map (fun i => i.1) = ["bob"]
      ∧ (authorize demo_env demo_announced "bob").m_participants.entries.map (fun i => i.1)
          = ["alice", "bob"]
      ∧ (authorize demo_env demo_announced "bob").m_participants.find "alice"
          = some (default_participant demo_env)
      ∧ (authorize demo_env demo_announced "bob").m_participants ≠ demo_announced.m_participants :=
  ⟨Reachable.from_announcement _ _ _ _ _, rfl, by decide, by decide, by decide, by decide⟩

/-! ## The ChannelSearch branch (C24) -/

theorem on_channel_search_spec (X : Env) (c : Channel) (sender : String) (m : Message)
    (message : ChannelSearchMessage) (h : EventsTyped c.m_events)
    (hd : X.decode_channel_search m = some message) :
    ∃ reply,
      channel_status X
          { c with m_events := c.m_events
              ++ [queued_check_event X c.m_channel_status_hash (participant_usernames c.m_participants)] }
          sender message.nonce = .ok reply
      ∧ on_channel_search X c sender m = .ok
          { c with
            m_events := c.m_events
              ++ [queued_check_event X c.m_channel_status_hash (participant_usernames c.m_participants),
                  queued_status_event X sender message.nonce (X.hash reply.payload)
                    (participant_usernames c.m_participants)]
            sent := c.sent ++
              if c.m_active then
                [X.sign_consistency_check ⟨c.m_channel_status_hash⟩ c.m_ephemeral_private_key, reply]
              else [] } := by
  have ht : EventsTyped (c.m_events
      ++ [queued_check_event X c.m_channel_status_hash (participant_usernames c.m_participants)]) :=
    events_typed_append h (by rfl)
  obtain ⟨reply, hr⟩ := channel_status_total X
    { c with m_events := c.m_events
        ++ [queued_check_event X c.m_channel_status_hash (participant_usernames c.m_participants)] }
    sender message.nonce ht
  refine ⟨reply, hr, ?_⟩
  unfold on_channel_search
  rw [hd]
  dsimp only
  unfold channel_status at hr ⊢
  by_cases ha : c.m_active = true
  · simp only [if_pos ha]
    dsimp only [send_message, queued_check_event] at hr ⊢
    rw [hr]
    simp [queued_check_event, queued_status_event, ha]
  · simp only [if_neg ha]
    dsimp only [send_message, queued_check_event] at hr ⊢
    rw [hr]
    simp [queued_check_event, queued_status_event, send_message]

theorem channel_status_with_active (X : Env) (c : Channel) (b : Bool) (u : String) (n : Hash) :
    channel_status X (with_active c b) u n = channel_status X c u n := rfl

/-- C24 (ChannelSearch): in a channel whose queued events all have one of the seven
event types, a ChannelSearch from `sender` that decodes to the nonce `n` makes
`message_received` return a channel whose queue is the old queue followed by two
events: a ConsistencyCheck event with the updated status hash and the usernames of all
participants, then a ChannelStatus event with searcher `sender`, nonce `n`, the
usernames of all participants, and the hash of the payload of `channel_status(sender,
n)` computed on the channel that holds the first new event but not the second.  The
participant table, the flags and the collaborator are unchanged.  With the active flag
set to either value the hash, the queue and the table come out the same, and the outbox
receives the signed ConsistencyCheck followed by the ChannelStatus reply when the flag
is set, and nothing otherwise. -/
theorem channel_search_events (X : Env) (c : Channel) (sender : String) (m : Message)
    (message : ChannelSearchMessage) (h : EventsTyped c.m_events)
    (ht : m.type = .ChannelSearch) (hd : X.decode_channel_search m = some message) :
    ∃ status reply,
      channel_status X c "" (zero_hash X) = .ok status
      ∧ channel_status X
          { c with
            m_channel_status_hash := chained_hash X status sender (X.type_byte m.type) m.payload
            m_events := c.m_events
              ++ [queued_check_event X (chained_hash X status sender (X.type_byte m.type) m.payload)
                    (participant_usernames c.m_participants)] }
          sender message.nonce = .ok reply
      ∧ ∀ active : Bool, ∃ c1,
          message_received X (with_active c active) sender m = .ok c1
          ∧ c1.m_channel_status_hash = chained_hash X status sender (X.type_byte m.type) m.payload
          ∧ c1.m_events = c.m_events
              ++ [queued_check_event X c1.m_channel_status_hash (participant_usernames c.m_participants),
                  queued_status_event X sender message.nonce (X.hash reply.payload)
                    (participant_usernames c.m_participants)]
          ∧ c1.m_participants = c.m_participants
          ∧ c1.m_joined = c.m_joined ∧ c1.m_active = active ∧ c1.m_authorized = c.m_authorized
          ∧ c1.m_encrypted_chat = c.m_encrypted_chat
          ∧ c1.sent = c.sent ++
              if active then
                [X.sign_consistency_check ⟨c1.m_channel_status_hash⟩ c.m_ephemeral_private_key, reply]
              else [] := by
  obtain ⟨status, hs⟩ := channel_status_total X c "" (zero_hash X) h
  obtain ⟨reply, hr, -⟩ := on_channel_search_spec X
    (with_hash c (chained_hash X status sender (X.type_byte m.type) m.payload)) sender m message h hd
  refine ⟨status, reply, hs, hr, ?_⟩
  intro active
  have hs1 : channel_status X (with_active c active) "" (zero_hash X) = .ok status := hs
  obtain ⟨reply1, hr1, h1⟩ := on_channel_search_spec X
    (with_hash (with_active c active) (chained_hash X status sender (X.type_byte m.type) m.payload))
    sender m message h hd
  have hreply : reply1 = reply := by
    have h2 : (.ok reply1 : Except Fault Message) = .ok reply := hr1.symm.trans hr
    cases h2
    rfl
  subst hreply
  have hdisp : ∀ c0, dispatch X c0 sender m = on_channel_search X c0 sender m := by
    intro c0
    unfold dispatch
    rw [ht]
  rw [message_received_ok hs1, hdisp, h1]
  exact ⟨_, rfl, rfl, rfl, rfl, rfl, rfl, rfl, rfl, rfl⟩

theorem channel_search_events_witness :
    EventsTyped demo_solo.m_events
      ∧ ∃ status reply,
          channel_status demo_env demo_solo "" (zero_hash demo_env) = .ok status
          ∧ channel_status demo_env
              { demo_solo with
                m_channel_status_hash := chained_hash demo_env status "carol"
                  (demo_env.type_byte .ChannelSearch) "nc"
                m_events := demo_solo.m_events
                  ++ [queued_check_event demo_env
                        (chained_hash demo_env status "carol" (demo_env.type_byte .ChannelSearch) "nc")
                        (participant_usernames demo_solo.m_participants)] }
              "carol" ⟨"nc"⟩ = .ok reply
          ∧ ∀ active : Bool, ∃ c1,
              message_received demo_env (with_active demo_solo active) "carol" ⟨.ChannelSearch, "nc"⟩
                = .ok c1
              ∧ c1.m_channel_status_hash = chained_hash demo_env status "carol"
                  (demo_env.type_byte .ChannelSearch) "nc"
              ∧ c1.m_events = demo_solo.m_events
                  ++ [queued_check_event demo_env c1.m_channel_status_hash
                        (participant_usernames demo_solo.m_participants),
                      queued_status_event demo_env "carol" ⟨"nc"⟩ (demo_env.hash reply.payload)
                        (participant_usernames demo_solo.m_participants)]
              ∧ c1.m_participants = demo_solo.m_participants
              ∧ c1.m_joined = demo_solo.m_joined ∧ c1.m_active = active
              ∧ c1.m_authorized = demo_solo.m_authorized
              ∧ c1.m_encrypted_chat = demo_solo.m_encrypted_chat
              ∧ c1.sent = demo_solo.sent ++
                  if active then
                    [demo_env.sign_consistency_check ⟨c1.m_channel_status_hash⟩
                      demo_solo.m_ephemeral_private_key, reply]
                  else [] :=
  ⟨by decide, channel_search_events demo_env demo_solo "carol" ⟨.ChannelSearch, "nc"⟩ ⟨⟨"nc"⟩⟩
    (by decide) rfl rfl⟩

/-! ## The message of `authorize` (C22) -/

theorem local_entry_of_find {X : Env} {c : Channel} {s : Participant}
    (h : c.m_participants.find c.m_room.username = some s) : local_entry X c = s := by
  unfold local_entry ParticipantMap.subscript
  rw [h]

/-- C22 (the message of `authorize`): `authorize(t)` appends to the outbox exactly one
message, the Authorization signed with the ephemeral key over (username, long-term key,
ephemeral key, authorization nonce) of the entry `p` of `t`, when `t` is a participant
other than the local user and either the local user is authorized, `p` is not and the
local user is not in `authorized_by(p)`, or the local user is unauthorized, `p` is
authorized and `t` is not in the local user's `authorized_peers`; in every other case
the outbox is left as it was.  The local user's record is the table entry under the
local username (the record `authorize` reads when the table has none is a
default-constructed one). -/
theorem authorize_sends (X : Env) (c : Channel) (t : String) :
    (∀ s, c.m_participants.find c.m_room.username = some s → local_entry X c = s)
      ∧ (∀ p, authorization_due X c t p →
          (authorize X c t).sent = c.sent ++ [X.sign_authorization
            { username := p.username
              long_term_public_key := p.long_term_public_key
              ephemeral_public_key := p.ephemeral_public_key
              authorization_nonce := p.authorization_nonce }
            c.m_ephemeral_private_key])
      ∧ ((¬ ∃ p, authorization_due X c t p) → (authorize X c t).sent = c.sent)
      ∧ ((authorize X c t).sent ≠ c.sent ↔ ∃ p, authorization_due X c t p) := by
  have hyes : ∀ p, authorization_due X c t p →
      (authorize X c t).sent = c.sent ++ [X.sign_authorization
        { username := p.username
          long_term_public_key := p.long_term_public_key
          ephemeral_public_key := p.ephemeral_public_key
          authorization_nonce := p.authorization_nonce }
        c.m_ephemeral_private_key] := by
    intro p hdue
    obtain ⟨hfind, hne, hcase⟩ := hdue
    unfold local_entry at hcase
    unfold authorize
    rw [hfind]
    dsimp only
    rw [if_neg hne]
    rcases hcase with ⟨h1, h2, h3⟩ | ⟨h1, h2, h3⟩
    · rw [if_pos h1, if_neg (by simp [h2]), if_neg h3]
      rfl
    · rw [if_neg (by simp [h1]), if_neg (by simp [h2]), if_neg h3]
      rfl
  have hno : (¬ ∃ p, authorization_due X c t p) → (authorize X c t).sent = c.sent := by
    intro hdue
    unfold authorize
    split
    · rfl
    · rename_i p hfind
      dsimp only
      by_cases hne : t = c.m_room.username
      · rw [if_pos hne]
      · rw [if_neg hne]
        split_ifs with h1 h2 h3 h4 h5
        all_goals first
          | rfl
          | (exfalso
             apply hdue
             refine ⟨p, hfind, hne, ?_⟩
             unfold local_entry
             first
               | exact Or.inl ⟨h1, by simpa using h2, h3⟩
               | exact Or.inr ⟨by simpa using h1, by simpa using h4, h5⟩)
  refine ⟨fun s hs => local_entry_of_find hs, hyes, hno, ?_⟩
  constructor
  · intro hsent
    by_contra hdue
    exact hsent (hno hdue)
  · rintro ⟨p, hdue⟩ heq
    have := hyes p hdue
    rw [heq] at this
    simp at this

theorem authorize_sends_example :
    authorization_due demo_env (demo_pair ∅ ∅) "bob" (demo_bob ∅ ∅)
      ∧ (authorize demo_env (demo_pair ∅ ∅) "bob").sent = [⟨.Authorization, "bob"⟩]
      ∧ (authorize demo_env (demo_pair {"alice"} ∅) "bob").sent = [] :=
  ⟨⟨rfl, by decide, Or.inl ⟨rfl, rfl, by decide⟩⟩, rfl, rfl⟩

/-! ## Every queued event keeps an event type (C23) -/

theorem typed_purge {events : List Event} (h : EventsTyped events) (username : String) :
    EventsTyped (purge_events username events) := by
  induction events with
  | nil => intro e he; simp [purge_events] at he
  | cons i rest ih =>
    have hi : valid_event_type i.type = true := h i (List.mem_cons_self _ _)
    have hrest : EventsTyped rest := fun x hx => h x (List.mem_cons_of_mem _ hx)
    intro e he
    unfold purge_events at he
    dsimp only at he
    split_ifs at he
    all_goals first
      | exact ih hrest e he
      | (rcases List.mem_cons.1 he with he | he
         · subst he; exact hi
         · exact ih hrest e he)

theorem typed_store_or_erase {events : List Event} (h : EventsTyped events) (n : Nat)
    (e1 : Event) (b : Bool) (he : valid_event_type e1.type = true) :
    EventsTyped (store_or_erase events n e1 b) := by
  unfold store_or_erase
  split_ifs
  · intro x hx
    exact h x (List.mem_of_mem_eraseIdx hx)
  · intro x hx
    rcases List.mem_or_eq_of_mem_set hx with hx | hx
    · exact h x hx
    · subst hx; exact he

theorem typed_first_event {events : List Event} {username : String} {n : Nat} {e : Event}
    (h : EventsTyped events) (hfirst : first_user_event events username = .ok (some (n, e))) :
    valid_event_type e.type = true :=
  h e (List.getElem?_mem (first_user_event_some hfirst).1)

theorem typed_try_promote {c c1 : Channel} {key : String} {b : Bool}
    (h : try_promote_unauthorized_participant c key = .ok (b, c1))
    (ht : EventsTyped c.m_events) : EventsTyped c1.m_events := by
  rw [(try_promote_effect h).2.1]
  exact ht

theorem typed_do_remove_user {c c1 : Channel} {username : String}
    (h : do_remove_user c username = .ok c1) (ht : EventsTyped c.m_events) :
    EventsTyped c1.m_events := by
  rw [(do_remove_user_effect h).2.1]
  exact typed_purge ht _

theorem typed_remove_users_loop {usernames : List String} {c c1 : Channel}
    (h : remove_users_loop c usernames = .ok c1) (ht : EventsTyped c.m_events) :
    EventsTyped c1.m_events := by
  induction usernames generalizing c with
  | nil => cases h; exact ht
  | cons u rest ih =>
    unfold remove_users_loop at h
    split_ifs at h
    · exact ih h ht
    · split at h
      · cases h
      · rename_i c2 h2
        exact ih h (typed_do_remove_user h2 ht)

theorem typed_remove_users {c c1 : Channel} {usernames : List String}
    (h : remove_users c usernames = .ok c1) (ht : EventsTyped c.m_events) :
    EventsTyped c1.m_events := by
  unfold remove_users at h
  split at h
  · cases h
  · rename_i c2 h2
    split at h
    · cases h
    · rename_i c3 h3
      cases h
      show EventsTyped c3.m_events
      rw [(promote_loop_effect h3).2]
      exact typed_remove_users_loop h2 ht

theorem typed_remove_user {c c1 : Channel} {username : String}
    (h : remove_user c username = .ok c1) (ht : EventsTyped c.m_events) :
    EventsTyped c1.m_events :=
  typed_remove_users h ht

theorem events_self_joined (X : Env) (c : Channel) : (self_joined X c).m_events = c.m_events := by
  unfold self_joined
  rw [events_notify]
  have key : ∀ (l : Entries) (a : Channel), (l.foldl
      (fun acc i =>
        if i.2.username = acc.m_room.username then acc
        else authenticate_to X acc i.2.username i.2.long_term_public_key i.2.ephemeral_public_key
          acc.m_channel_status_hash) a).m_events = a.m_events := by
    intro l
    induction l with
    | nil => intro a; rfl
    | cons hd tl ih =>
      intro a
      simp only [List.foldl_cons]
      rw [ih]
      split_ifs
      · rfl
      · rfl
  exact key _ _

theorem typed_on_channel_search {X : Env} {c c1 : Channel} {sender : String} {m : Message}
    (h : on_channel_search X c sender m = .ok c1) (ht : EventsTyped c.m_events) :
    EventsTyped c1.m_events := by
  unfold on_channel_search at h
  split at h
  · cases h; exact ht
  · dsimp only at h
    split at h
    · cases h
    · cases h
      have hev : ∀ (e1 e2 : Event), valid_event_type e1.type = true →
          valid_event_type e2.type = true → EventsTyped ((c.m_events ++ [e1]) ++ [e2]) :=
        fun e1 e2 h1 h2 => events_typed_append (events_typed_append ht h1) h2
      split_ifs
      all_goals exact hev _ _ rfl rfl

theorem typed_on_channel_status {X : Env} {c c1 : Channel} {sender : String} {m : Message}
    (h : on_channel_status X c sender m = .ok c1) (ht : EventsTyped c.m_events) :
    EventsTyped c1.m_events := by
  unfold on_channel_status at h
  split at h
  · cases h; exact ht
  · split at h
    · cases h
    · exact typed_remove_user h ht
    · rename_i n e hfirst
      split_ifs at h
      · cases h
        have he := typed_first_event ht hfirst
        exact typed_store_or_erase ht _ _ _ he
      · exact typed_remove_user h ht

theorem typed_on_channel_announcement {X : Env} {c c1 : Channel} {sender : String} {m : Message}
    (h : on_channel_announcement X c sender m = .ok c1) (ht : EventsTyped c.m_events) :
    EventsTyped c1.m_events := by
  unfold on_channel_announcement at h
  split at h
  · cases h; exact ht
  · split_ifs at h
    · exact typed_remove_user h ht
    · cases h; exact ht

theorem typed_on_join_request {X : Env} {c c1 : Channel} {sender : String} {m : Message}
    (h : on_join_request X c sender m = .ok c1) (ht : EventsTyped c.m_events) :
    EventsTyped c1.m_events := by
  unfold on_join_request at h
  split at h
  · cases h; exact ht
  · split at h
    · cases h
    · rename_i c2 h2
      have ht2 := typed_remove_user h2 ht
      dsimp only at h
      split at h
      · cases h; exact ht2
      · cases h
        split_ifs
        all_goals first
          | (rw [events_self_joined, events_notify]; exact ht2)
          | (rw [events_notify]; exact ht2)

theorem typed_on_authentication_request {X : Env} {c c1 : Channel} {sender : String} {m : Message}
    (h : on_authentication_request X c sender m = .ok c1) (ht : EventsTyped c.m_events) :
    EventsTyped c1.m_events := by
  unfold on_authentication_request at h
  split at h
  · cases h; exact ht
  · split_ifs at h <;> cases h <;> exact ht

theorem typed_on_authentication {X : Env} {c c1 : Channel} {sender : String} {m : Message}
    (h : on_authentication X c sender m = .ok c1) (ht : EventsTyped c.m_events) :
    EventsTyped c1.m_events := by
  unfold on_authentication at h
  split at h
  · cases h; exact ht
  · split_ifs at h
    · cases h; exact ht
    · split at h
      · cases h; exact ht
      · dsimp only at h
        split_ifs at h
        all_goals cases h
        all_goals first
          | exact ht
          | (rw [events_notify]; exact ht)

theorem typed_record_authorization {c c1 : Channel} {sender subject a u : String}
    (h : record_authorization c sender subject a u = .ok c1) (ht : EventsTyped c.m_events) :
    EventsTyped c1.m_events := by
  unfold record_authorization at h
  split at h
  · split_ifs at h
    all_goals
      dsimp only at h
      split at h
      · cases h
      · rename_i c3 h3
        cases h
        have h4 := typed_try_promote h3 (by rw [events_notify]; exact ht)
        exact h4
      · rename_i c3 h3
        cases h
        have h4 := typed_try_promote h3 (by rw [events_notify]; exact ht)
        exact h4
  · cases h

theorem typed_on_authorization {X : Env} {c c1 : Channel} {sender : String} {m : Message}
    (h : on_authorization X c sender m = .ok c1) (ht : EventsTyped c.m_events) :
    EventsTyped c1.m_events := by
  unfold on_authorization at h
  repeat' first
    | split at h
    | (dsimp only at h; split at h)
  all_goals first
    | exact typed_remove_user h ht
    | exact typed_record_authorization h ht
    | (cases h; exact ht)

theorem typed_on_consistency_status {X : Env} {c c1 : Channel} {sender : String}
    (h : on_consistency_status X c sender = .ok c1) (ht : EventsTyped c.m_events) :
    EventsTyped c1.m_events := by
  unfold on_consistency_status at h
  split_ifs at h <;> cases h
  · exact ht
  · exact events_typed_append ht rfl
  · exact events_typed_append ht rfl

theorem typed_on_consistency_check {X : Env} {c c1 : Channel} {sender : String} {m : Message}
    (h : on_consistency_check X c sender m = .ok c1) (ht : EventsTyped c.m_events) :
    EventsTyped c1.m_events := by
  unfold on_consistency_check at h
  split at h
  · cases h; exact ht
  · split at h
    · cases h; exact ht
    · split_ifs at h
      · exact typed_remove_user h ht
      · dsimp only at h
        split at h
        · cases h
        · exact typed_remove_user h ht
        · rename_i n e hfirst
          split_ifs at h
          · cases h
            have he := typed_first_event ht hfirst
            exact typed_store_or_erase ht _ _ _ he
          · exact typed_remove_user h ht

theorem typed_key_event_reply {c c1 : Channel} {sender : String} {type : MessageType}
    {key_id : Hash} {b : Bool}
    (h : key_event_reply c sender type key_id = .ok (b, c1)) (ht : EventsTyped c.m_events) :
    EventsTyped c1.m_events := by
  unfold key_event_reply at h
  split at h
  · cases h
  · split at h
    · cases h
    · rename_i c2 h2
      cases h
      exact typed_remove_user h2 ht
  · rename_i n e hfirst
    split_ifs at h
    · cases h
      have he := typed_first_event ht hfirst
      exact typed_store_or_erase ht _ _ _ he
    · split at h
      · cases h
      · rename_i c2 h2
        cases h
        exact typed_remove_user h2 ht

theorem typed_on_key_exchange_public_key {X : Env} {c c1 : Channel} {sender : String} {m : Message}
    (h : on_key_exchange_public_key X c sender m = .ok c1) (ht : EventsTyped c.m_events) :
    EventsTyped c1.m_events := by
  unfold on_key_exchange_public_key at h
  split at h
  · cases h; exact ht
  · split at h
    · cases h; exact ht
    · split_ifs at h
      · exact typed_remove_user h ht
      · dsimp only at h
        split at h
        · cases h
        · rename_i c2 h2
          have h3 := typed_key_event_reply h2 ht
          cases h
          exact h3
        · rename_i c2 h2
          have h3 := typed_key_event_reply h2 ht
          cases h
          exact h3

theorem typed_on_key_exchange_secret_share {X : Env} {c c1 : Channel} {sender : String} {m : Message}
    (h : on_key_exchange_secret_share X c sender m = .ok c1) (ht : EventsTyped c.m_events) :
    EventsTyped c1.m_events := by
  unfold on_key_exchange_secret_share at h
  split at h
  · cases h; exact ht
  · split at h
    · cases h; exact ht
    · split_ifs at h
      · exact typed_remove_user h ht
      · dsimp only at h
        split at h
        · cases h
        · rename_i c2 h2
          have h3 := typed_key_event_reply h2 ht
          cases h
          exact h3
        · rename_i c2 h2
          have h3 := typed_key_event_reply h2 ht
          split_ifs at h <;> cases h <;> exact h3

theorem typed_on_key_exchange_acceptance {X : Env} {c c1 : Channel} {sender : String} {m : Message}
    (h : on_key_exchange_acceptance X c sender m = .ok c1) (ht : EventsTyped c.m_events) :
    EventsTyped c1.m_events := by
  unfold on_key_exchange_acceptance at h
  split at h
  · cases h; exact ht
  · split at h
    · cases h; exact ht
    · split_ifs at h
      · exact typed_remove_user h ht
      · dsimp only at h
        split at h
        · cases h
        · rename_i c2 h2
          have h3 := typed_key_event_reply h2 ht
          cases h
          exact h3
        · rename_i c2 h2
          have h3 := typed_key_event_reply h2 ht
          split_ifs at h <;> cases h <;> exact h3

theorem typed_on_key_exchange_reveal {X : Env} {c c1 : Channel} {sender : String} {m : Message}
    (h : on_key_exchange_reveal X c sender m = .ok c1) (ht : EventsTyped c.m_events) :
    EventsTyped c1.m_events := by
  unfold on_key_exchange_reveal at h
  split at h
  · cases h; exact ht
  · split at h
    · cases h; exact ht
    · split_ifs at h
      · exact typed_remove_user h ht
      · dsimp only at h
        split at h
        · cases h
        · rename_i c2 h2
          have h3 := typed_key_event_reply h2 ht
          cases h
          exact h3
        · rename_i c2 h2
          have h3 := typed_key_event_reply h2 ht
          split_ifs at h <;> cases h <;> exact h3

theorem typed_on_key_activation {X : Env} {c c1 : Channel} {sender : String} {m : Message}
    (h : on_key_activation X c sender m = .ok c1) (ht : EventsTyped c.m_events) :
    EventsTyped c1.m_events := by
  unfold on_key_activation at h
  split at h
  · cases h; exact ht
  · split at h
    · cases h; exact ht
    · split_ifs at h
      · exact typed_remove_user h ht
      · dsimp only at h
        split at h
        · cases h
        · rename_i c2 h2
          have h3 := typed_key_event_reply h2 ht
          cases h
          exact h3
        · rename_i c2 h2
          have h3 := typed_key_event_reply h2 ht
          split_ifs at h <;> cases h <;> exact h3

theorem typed_on_chat {X : Env} {c c1 : Channel} {sender : String} {m : Message}
    (h : on_chat X c sender m = .ok c1) (ht : EventsTyped c.m_events) :
    EventsTyped c1.m_events := by
  unfold on_chat at h
  split at h <;> cases h <;> exact ht

theorem typed_dispatch {X : Env} {c c1 : Channel} {sender : String} {m : Message}
    (h : dispatch X c sender m = .ok c1) (ht : EventsTyped c.m_events) :
    EventsTyped c1.m_events := by
  unfold dispatch at h
  split at h
  · exact typed_on_channel_search h ht
  · exact typed_on_channel_status h ht
  · exact typed_on_channel_announcement h ht
  · exact typed_on_join_request h ht
  · exact typed_on_authentication_request h ht
  · exact typed_on_authentication h ht
  · exact typed_on_authorization h ht
  · exact typed_on_consistency_status h ht
  · exact typed_on_consistency_check h ht
  · exact typed_on_key_exchange_public_key h ht
  · exact typed_on_key_exchange_secret_share h ht
  · exact typed_on_key_exchange_acceptance h ht
  · exact typed_on_key_exchange_reveal h ht
  · exact typed_on_key_activation h ht
  · exact typed_on_chat h ht
  · cases h; exact ht

theorem typed_message_received {X : Env} {c c1 : Channel} {sender : String} {m : Message}
    (h : message_received X c sender m = .ok c1) (ht : EventsTyped c.m_events) :
    EventsTyped c1.m_events := by
  obtain ⟨status, -, hd⟩ := message_received_inv h
  exact typed_dispatch hd ht

theorem typed_user_left {X : Env} {c c1 : Channel} {username : String}
    (h : user_left X c username = .ok c1) (ht : EventsTyped c.m_events) :
    EventsTyped c1.m_events := by
  unfold user_left at h
  split at h
  · cases h
  · rename_i c0 h0
    obtain ⟨status, -, rfl⟩ := hash_payload_inv h0
    exact typed_remove_user h ht

theorem typed_from_status {X : Env} {room : Room} {k : PrivateKey} {n : Hash}
    {s : ChannelStatusMessage} {m : Message} {c : Channel}
    (h : Channel.from_status X room k n s m = .ok c) : EventsTyped c.m_events := by
  rcases from_status_cases X room k n s m with ⟨-, c0, h0, hb⟩ | ⟨-, h0⟩
  · rw [h] at h0
    cases h0
    have hev := hb.2.2.2.2.2.2.2.2.2.2.2.1
    rw [hev]
    intro e he
    rcases List.mem_append.1 he with he | he
    · obtain ⟨ce, -, hce⟩ := List.mem_filterMap.1 he
      obtain ⟨h1, h2, -⟩ := event_of_kind hce
      rw [h1]
      exact h2
    · simp only [List.mem_singleton] at he
      subst he
      rfl
  · rw [h] at h0
    cases h0

theorem typed_confirm_participant (X : Env) {c : Channel} (username : String)
    (ht : EventsTyped c.m_events) : EventsTyped (confirm_participant X c username).m_events := by
  unfold confirm_participant
  split
  · exact ht
  · split_ifs
    · exact ht
    · exact ht

theorem typed_authorize (X : Env) {c : Channel} (username : String)
    (ht : EventsTyped c.m_events) : EventsTyped (authorize X c username).m_events := by
  unfold authorize
  split
  · exact ht
  · dsimp only
    split_ifs
    all_goals exact ht

/-- Every state reachable with the collaborator's key-exchange types has a queue whose
events all have one of the seven event types. -/
theorem reachable_typed {X : Env} {c : Channel} (h : ReachableTyped X c) :
    EventsTyped c.m_events := by
  induction h with
  | create room k n => intro e he; simp [Channel.create] at he
  | from_status room k n s m c h => exact typed_from_status h
  | from_announcement room k n a sender => intro e he; simp [Channel.from_announcement] at he
  | message_received c c1 sender m _ h ih => exact typed_message_received h ih
  | user_left c c1 u _ h ih => exact typed_user_left h ih
  | send_chat c m _ ih => exact ih
  | announce c _ ih => exact ih
  | confirm_participant c u _ ih => exact typed_confirm_participant X u ih
  | join c _ ih => exact ih
  | activate c _ ih => exact ih
  | channel_status_timer c _ ih => exact ih
  | authorize c u _ ih => exact typed_authorize X u ih
  | add_key_exchange_event c t k us htype _ ih =>
    refine events_typed_append ih ?_
    show valid_event_type t = true
    unfold valid_event_type
    rw [htype]
    simp
  | add_key_activation_event c k us _ ih => exact events_typed_append ih rfl
  | set_interface c p _ ih => exact ih

theorem reachable_of_typed {X : Env} {c : Channel} (h : ReachableTyped X c) : Reachable X c := by
  induction h with
  | create room k n => exact Reachable.create room k n
  | from_status room k n s m c h => exact Reachable.from_status room k n s m c h
  | from_announcement room k n a sender => exact Reachable.from_announcement room k n a sender
  | message_received c c1 sender m _ h ih => exact Reachable.message_received c c1 sender m ih h
  | user_left c c1 u _ h ih => exact Reachable.user_left c c1 u ih h
  | send_chat c m _ ih => exact Reachable.send_chat c m ih
  | announce c _ ih => exact Reachable.announce c ih
  | confirm_participant c u _ ih => exact Reachable.confirm_participant c u ih
  | join c _ ih => exact Reachable.join c ih
  | activate c _ ih => exact Reachable.activate c ih
  | channel_status_timer c _ ih => exact Reachable.channel_status_timer c ih
  | authorize c u _ ih => exact Reachable.authorize c u ih
  | add_key_exchange_event c t k us _ _ ih => exact Reachable.add_key_exchange_event c t k us ih
  | add_key_activation_event c k us _ ih => exact Reachable.add_key_activation_event c k us ih
  | set_interface c p _ ih => exact Reachable.set_interface c p ih

/-- C23 (no fault escapes `message_received`): in every channel state reachable from a
constructor through the public operations, with `add_key_exchange_event` given one of
the four KeyExchange types only, `message_received` returns a channel for every sender
and every message: no assertion fails (the roles asserted in the Authorization branch,
the precondition of `try_promote_unauthorized_participant`, the presence check of
`do_remove_user`, the unreachable branches of `channel_status` and `first_user_event`),
no lookup `m_participants.at(...)` throws, and every queued event, before and after, has
one of the seven event types. -/
theorem no_fault_escapes (X : Env) (c : Channel) (sender : String) (m : Message)
    (h : ReachableTyped X c) :
    EventsTyped c.m_events
      ∧ ∃ c1, message_received X c sender m = .ok c1
          ∧ ReachableTyped X c1 ∧ EventsTyped c1.m_events := by
  have ht := reachable_typed h
  obtain ⟨c1, h1⟩ := message_received_total X c sender m ht
  have hr : ReachableTyped X c1 := ReachableTyped.message_received c c1 sender m h h1
  exact ⟨ht, c1, h1, hr, reachable_typed hr⟩

theorem no_fault_escapes_witness :
    ReachableTyped demo_env demo_stranger
      ∧ EventsTyped demo_stranger.m_events
      ∧ ∃ c1, message_received demo_env demo_stranger "bob" ⟨.Authorization, "alice"⟩ = .ok c1
          ∧ ReachableTyped demo_env c1 ∧ EventsTyped c1.m_events :=
  ⟨ReachableTyped.add_key_exchange_event _ _ _ _ rfl (ReachableTyped.create _ _ _),
    no_fault_escapes demo_env demo_stranger "bob" ⟨.Authorization, "alice"⟩
      (ReachableTyped.add_key_exchange_event _ _ _ _ rfl (ReachableTyped.create _ _ _))⟩

/-! ## The promotion pass after a removal (C27) -/

theorem reduced_refl (m : ParticipantMap) : Reduced m m :=
  fun _ p1 h => ⟨p1, h, rfl, rfl, Finset.Subset.refl _, Finset.Subset.refl _⟩

theorem reduced_trans {m m1 m2 : ParticipantMap} (h1 : Reduced m m1) (h2 : Reduced m1 m2) :
    Reduced m m2 := by
  intro k p2 hk
  obtain ⟨p1, hk1, a1, a2, a3, a4⟩ := h2 k p2 hk
  obtain ⟨p, hk0, b1, b2, b3, b4⟩ := h1 k p1 hk1
  exact ⟨p, hk0, a1.trans b1, a2.trans b2, a3.trans b3, a4.trans b4⟩

theorem reduced_do_remove_user {c c1 : Channel} {username : String}
    (h : do_remove_user c username = .ok c1) : Reduced c.m_participants c1.m_participants := by
  rw [(do_remove_user_effect h).1]
  intro k p1 hk
  rw [find_purge_witnesses, ParticipantMap.find_erase] at hk
  by_cases hku : k = username
  · rw [if_pos hku] at hk
    cases hk
  · rw [if_neg hku] at hk
    cases hfind : c.m_participants.find k with
    | none => rw [hfind] at hk; cases hk
    | some p =>
      rw [hfind] at hk
      simp only [Option.map_some', Option.some.injEq] at hk
      subst hk
      refine ⟨p, rfl, ?_, ?_, ?_, ?_⟩
      · split_ifs <;> rfl
      · split_ifs <;> rfl
      · split_ifs
        · exact Finset.erase_subset _ _
        · exact Finset.Subset.refl _
      · split_ifs
        · exact Finset.erase_subset _ _
        · exact Finset.Subset.refl _

theorem reduced_remove_users_loop {usernames : List String} {c c1 : Channel}
    (h : remove_users_loop c usernames = .ok c1) : Reduced c.m_participants c1.m_participants := by
  induction usernames generalizing c with
  | nil => cases h; exact reduced_refl _
  | cons u rest ih =>
    unfold remove_users_loop at h
    split_ifs at h
    · exact ih h
    · split at h
      · cases h
      · rename_i c2 h2
        exact reduced_trans (reduced_do_remove_user h2) (ih h)

theorem names_of_witnesses_named {m : ParticipantMap} (h : WitnessesNamed m) :
    UnauthorizedNameAuthorized m := by
  intro k u hk _ w hw k1 q hq hname
  have hmem : w ∈ u.authorized_by ∪ u.authorized_peers := Finset.mem_union.2 hw
  exact (h (k, u) (ParticipantMap.mem_of_find hk) w hmem).2 (k1, q)
    (ParticipantMap.mem_of_find hq) hname

theorem names_of_witnesses_authorized {m : ParticipantMap} (hk : KeyedByUsername m)
    (h : WitnessesAuthorized m) : WitnessesNamed m := by
  intro i hi w hw
  obtain ⟨q, hq, ha⟩ := h i hi w (Finset.mem_union.1 hw)
  have hmem := ParticipantMap.mem_of_find hq
  refine ⟨⟨(w, q), hmem, hk _ hmem⟩, ?_⟩
  intro q1 hq1 hname
  have hkey : q1.1 = w := (hk q1 hq1).symm.trans hname
  have hfind : m.find q1.1 = some q1.2 := ParticipantMap.find_of_mem hq1
  rw [hkey, hq] at hfind
  cases hfind
  exact ha

theorem names_reduced {m m1 : ParticipantMap} (h : UnauthorizedNameAuthorized m)
    (hr : Reduced m m1) : UnauthorizedNameAuthorized m1 := by
  intro k u1 hk hun w hw k1 q1 hq hname
  obtain ⟨u, hu, -, a2, a3, a4⟩ := hr k u1 hk
  obtain ⟨q, hq0, b1, b2, -, -⟩ := hr k1 q1 hq
  rw [b2]
  refine h k u hu (a2.symm.trans hun) w ?_ k1 q hq0 (b1.symm.trans hname)
  rcases hw with hw | hw
  · exact Or.inl (a3 hw)
  · exact Or.inr (a4 hw)

theorem promote_loop_cases {l : Entries} {c c1 : Channel} (h : promote_loop c l = .ok c1)
    (hl : ∀ e ∈ l, e ∈ c.m_participants.entries) :
    (c1 = c ∧ ∀ e ∈ l, e.2.authorized = false → ¬ symmetric_quorum c.m_participants e.2)
    ∨ ∃ k0 p0, c.m_participants.find k0 = some p0 ∧ p0.authorized = false
        ∧ symmetric_quorum c.m_participants p0
        ∧ c1.m_participants = promote_if_quorum c.m_participants k0 := by
  induction l with
  | nil =>
    cases h
    exact Or.inl ⟨rfl, fun e he => by cases he⟩
  | cons hd rest ih =>
    obtain ⟨key, p⟩ := hd
    have hfind : c.m_participants.find key = some p :=
      ParticipantMap.find_of_mem (hl _ (List.mem_cons_self _ _))
    have hrest : ∀ e ∈ rest, e ∈ c.m_participants.entries :=
      fun e he => hl e (List.mem_cons_of_mem _ he)
    unfold promote_loop at h
    split_ifs at h with h1
    · have hp : p.authorized = false := by simpa using h1
      have hspec := try_promote_spec c key p hfind hp
      split at h
      · cases h
      · rename_i c2 h2
        cases h
        exact Or.inr ⟨key, p, hfind, hp, hspec.2.2.2 ⟨c2, h2⟩, (try_promote_effect h2).1⟩
      · rename_i c2 h2
        have hc2 : c2 = c := try_promote_false h2
        subst hc2
        have hnq : ¬ symmetric_quorum c2.m_participants p := by
          intro hq
          obtain ⟨c3, h3⟩ := hspec.2.2.1 hq
          rw [h2] at h3
          cases h3
        rcases ih h hrest with ⟨e1, e2⟩ | hyes
        · refine Or.inl ⟨e1, ?_⟩
          intro e he
          rcases List.mem_cons.1 he with he | he
          · subst he; exact fun _ => hnq
          · exact e2 e he
        · exact Or.inr hyes
    · have hp : p.authorized = true := by simpa using h1
      rcases ih h hrest with ⟨e1, e2⟩ | hyes
      · refine Or.inl ⟨e1, ?_⟩
        intro e he
        rcases List.mem_cons.1 he with he | he
        · subst he
          intro hx
          rw [hp] at hx
          cases hx
        · exact e2 e he
      · exact Or.inr hyes

theorem promote_loop_none {l : Entries} {c : Channel}
    (hl : ∀ e ∈ l, e ∈ c.m_participants.entries)
    (hq : ∀ e ∈ l, e.2.authorized = false → ¬ symmetric_quorum c.m_participants e.2) :
    promote_loop c l = .ok c := by
  induction l with
  | nil => rfl
  | cons hd rest ih =>
    obtain ⟨key, p⟩ := hd
    have hfind : c.m_participants.find key = some p :=
      ParticipantMap.find_of_mem (hl _ (List.mem_cons_self _ _))
    have hrest := ih (fun e he => hl e (List.mem_cons_of_mem _ he))
      (fun e he => hq e (List.mem_cons_of_mem _ he))
    unfold promote_loop
    split_ifs with h1
    · have hp : p.authorized = false := by simpa using h1
      have hno := (try_promote_spec c key p hfind hp).2.1
        (hq (key, p) (List.mem_cons_self _ _) hp)
      rw [hno]
      exact hrest
    · exact hrest

theorem find_promote_if_quorum {m : ParticipantMap} {k0 : String} {p0 : Participant}
    (hfind : m.find k0 = some p0) (hq : symmetric_quorum m p0) (k : String) :
    (promote_if_quorum m k0).find k
      = if k = k0 then
          some { p0 with authorized := true, authorized_by := ∅, authorized_peers := ∅ }
        else m.find k := by
  unfold promote_if_quorum
  rw [hfind]
  dsimp only
  rw [if_pos hq, ParticipantMap.find_modify]
  split_ifs with hk
  · rw [hk, hfind]
    rfl
  · rfl

theorem remove_users_pass {c c1 : Channel} {usernames : List String}
    (h : remove_users c usernames = .ok c1) (hw : UnauthorizedNameAuthorized c.m_participants) :
    (∀ k1 k2, promoted_between c c1 k1 → promoted_between c c1 k2 → k1 = k2)
      ∧ ∀ k u, c1.m_participants.find k = some u → u.authorized = false →
          ∃ P ∈ c1.m_participants.entries, P.2.authorized = true
            ∧ (P.2.username ∉ u.authorized_by ∨ P.2.username ∉ u.authorized_peers) := by
  unfold remove_users at h
  split at h
  · cases h
  · rename_i c2 h2
    split at h
    · cases h
    · rename_i c3 h3
      cases h
      have hred := reduced_remove_users_loop h2
      have hw2 := names_reduced hw hred
      show (∀ k1 k2, promoted_between c (encrypted_chat c3 _) k1 →
          promoted_between c (encrypted_chat c3 _) k2 → k1 = k2)
        ∧ ∀ k u, c3.m_participants.find k = some u → u.authorized = false →
          ∃ P ∈ c3.m_participants.entries, P.2.authorized = true
            ∧ (P.2.username ∉ u.authorized_by ∨ P.2.username ∉ u.authorized_peers)
      rcases promote_loop_cases h3 (fun _ he => he) with ⟨e1, e2⟩ | ⟨k0, p0, hf0, hp0, hq0, hm⟩
      · subst e1
        constructor
        · rintro k1 k2 ⟨p, q, a1, a2, a3, a4⟩ -
          exfalso
          obtain ⟨p1, b1, -, b2, -, -⟩ := hred k1 q a3
          rw [a1] at b1
          cases b1
          rw [a4, a2] at b2
          cases b2
        · intro k u hk hun
          have hnq := e2 (k, u) (ParticipantMap.mem_of_find hk) hun
          unfold symmetric_quorum at hnq
          push_neg at hnq
          obtain ⟨P, hP, hauth, hmiss⟩ := hnq
          refine ⟨P, hP, hauth, ?_⟩
          by_cases hby : P.2.username ∈ u.authorized_by
          · exact Or.inr (hmiss hby)
          · exact Or.inl hby
      · have hfind := find_promote_if_quorum hf0 hq0
        have hkey : ∀ k, promoted_between c (encrypted_chat c3 (.remove_users usernames)) k →
            k = k0 := by
          rintro k ⟨p, q, a1, a2, a3, a4⟩
          by_contra hne
          have a5 : c3.m_participants.find k = some q := a3
          rw [hm, hfind, if_neg hne] at a5
          obtain ⟨p1, b1, -, b2, -, -⟩ := hred k q a5
          rw [a1] at b1
          cases b1
          rw [a4, a2] at b2
          cases b2
        constructor
        · intro k1 k2 g1 g2
          exact (hkey k1 g1).trans (hkey k2 g2).symm
        · intro k u hk hun
          rw [hm, hfind] at hk
          by_cases hne : k = k0
          · rw [if_pos hne] at hk
            cases hk
            cases hun
          · rw [if_neg hne] at hk
            have h0 : c3.m_participants.find k0
                = some { p0 with authorized := true, authorized_by := ∅, authorized_peers := ∅ } := by
              rw [hm, hfind, if_pos rfl]
            refine ⟨_, ParticipantMap.mem_of_find h0, rfl, Or.inl ?_⟩
            intro hin
            have := hw2 k u hk hun p0.username (Or.inl hin) k0 p0 hf0 rfl
            rw [hp0] at this
            cases this

/-- C27 (the promotion pass after a removal): in a channel where every member of every
witness set is an authorized participant (the username of an entry, all entries of that
username being authorized), `remove_users` returns for every list of usernames; at most
one key has an entry that was unauthorized before and is authorized afterwards; in the
resulting table every unauthorized participant `u` has an authorized participant `P`
whose username is missing from `authorized_by(u)` or from `authorized_peers(u)`, so `u`
does not satisfy the symmetric quorum; and a further promotion pass over the resulting
table promotes nobody and leaves the channel as it is. -/
theorem promotion_pass_complete (c : Channel) (usernames : List String)
    (hw : WitnessesNamed c.m_participants) :
    ∃ c1, remove_users c usernames = .ok c1
      ∧ (∀ k1 k2, promoted_between c c1 k1 → promoted_between c c1 k2 → k1 = k2)
      ∧ (∀ k u, c1.m_participants.find k = some u → u.authorized = false →
          (∃ P ∈ c1.m_participants.entries, P.2.authorized = true
            ∧ (P.2.username ∉ u.authorized_by ∨ P.2.username ∉ u.authorized_peers))
          ∧ ¬ symmetric_quorum c1.m_participants u)
      ∧ promote_loop c1 c1.m_participants.entries = .ok c1 := by
  obtain ⟨c1, h⟩ := remove_users_total c usernames
  obtain ⟨h1, h2⟩ := remove_users_pass h (names_of_witnesses_named hw)
  have hnq : ∀ k u, c1.m_participants.find k = some u → u.authorized = false →
      ¬ symmetric_quorum c1.m_participants u := by
    intro k u hk hun hq
    obtain ⟨P, hP, hauth, hmiss⟩ := h2 k u hk hun
    have := hq P hP hauth
    rcases hmiss with hmiss | hmiss
    · exact hmiss this.1
    · exact hmiss this.2
  refine ⟨c1, h, h1, fun k u hk hun => ⟨h2 k u hk hun, hnq k u hk hun⟩, ?_⟩
  apply promote_loop_none (fun _ he => he)
  intro e he hun
  exact hnq e.1 e.2 (ParticipantMap.find_of_mem he) hun

theorem promotion_pass_complete_witness :
    WitnessesNamed demo_trio.m_participants
      ∧ ∃ c1, remove_users demo_trio ["carol"] = .ok c1
          ∧ (∀ k1 k2, promoted_between demo_trio c1 k1 → promoted_between demo_trio c1 k2 → k1 = k2)
          ∧ (∀ k u, c1.m_participants.find k = some u → u.authorized = false →
              (∃ P ∈ c1.m_participants.entries, P.2.authorized = true
                ∧ (P.2.username ∉ u.authorized_by ∨ P.2.username ∉ u.authorized_peers))
              ∧ ¬ symmetric_quorum c1.m_participants u)
          ∧ promote_loop c1 c1.m_participants.entries = .ok c1 :=
  ⟨by decide, promotion_pass_complete demo_trio ["carol"] (by decide)⟩

theorem demo_trio_promotes :
    promoted_between demo_trio
      (match remove_users demo_trio ["carol"] with
        | .ok c1 => c1
        | .error _ => demo_trio) "bob" :=
  ⟨_, _, rfl, rfl, rfl, rfl⟩

end Np1sec
